import Mathlib

/-!
CSL package parsing and model matching (XPMPMultiplayerCSL.cpp)

A shallow embedding of the package parser and of the matching engine of
`src/XPMPMultiplayerCSL.cpp`, followed by theorems about them.

Modelling conventions.

* A `std::string` is a list of characters (`Str`); characters are bytes and
  texts hold no NUL byte, so `c_str()` is the identity.
* A `std::map<std::string, T>` is a list of key/value pairs kept in ascending
  key order (`StrMap`), which is the order in which the code iterates it.
* A computation whose C++ has no defined result (indexing a vector or a string
  out of range, `back()` on an empty vector, an uncaught `std::out_of_range`)
  yields `none`; every other computation yields `some` result.
* Diagnostics written with `XPLMDebugString` are collected in a log.
-/

namespace CSL

/-- A `std::string`. -/
abbrev Str := List Char

/-! ## Strings -/

/-- The order of `std::string::compare`: byte-wise lexicographic, a proper
leading part being smaller. -/
def strLess : Str → Str → Bool
  | [], [] => false
  | [], _ :: _ => true
  | _ :: _, [] => false
  | a :: as, b :: bs =>
    if a.toNat < b.toNat then true
    else if b.toNat < a.toNat then false
    else strLess as bs

/-- The function `std::isspace` in the C locale. -/
def isspace (c : Char) : Bool :=
  c == ' ' || c == '\t' || c == '\n' || c == '\x0b' || c == '\x0c' || c == '\r'

/-- Function `ltrim`: erase the leading white space. -/
def ltrim (s : Str) : Str := s.dropWhile isspace

/-- Function `rtrim`: erase the trailing white space. -/
def rtrim (s : Str) : Str := (s.reverse.dropWhile isspace).reverse

/-- Function `trim`. -/
def trim (s : Str) : Str := rtrim (ltrim s)

/-- Function `MakePartialPathNativeObj`: every `/`, `:` and `\` becomes `/`. -/
def MakePartialPathNativeObj (io_str : Str) : Str :=
  io_str.map fun c => if c == '/' || c == ':' || c == '\\' then '/' else c

/-- Expression `s[i]` on a `std::string`: the character at `i`, the NUL
terminator at `i = s.size()`, and no defined result beyond. -/
def strAt (s : Str) (i : Nat) : Option Char :=
  if i < s.length then s.get? i
  else if i = s.length then some (Char.ofNat 0)
  else none

/-- Expression `s.substr(0, n)`. -/
def substr0 (s : Str) (n : Nat) : Str := s.take n

/-- Expression `s.substr(s.find(c) + 1)` for a string that holds `c`: the text
after the first `c`. -/
def afterFirst (c : Char) : Str → Str
  | [] => []
  | d :: ds => if d == c then ds else afterFirst c ds

/-- Expression `s.substr(s.find_last_of(c) + 1)`: the text after the last `c`,
the whole string when there is none (`npos + 1` is `0`). -/
def afterLast (c : Char) (s : Str) : Str :=
  (s.reverse.takeWhile (fun d => d != c)).reverse

/-- Statement `s.erase(s.find_last_of(c))`: the text before the last `c`; when
there is none, `erase(npos)` throws `std::out_of_range`. -/
def eraseFromLast (c : Char) (s : Str) : Option Str :=
  if s.contains c then some ((s.reverse.dropWhile (fun d => d != c)).tail.reverse)
  else none

/-! ## Maps keyed by strings -/

/-- A `std::map<std::string, T>`: key/value pairs in ascending key order. -/
abbrev StrMap (α : Type) := List (Str × α)

/-- Member `find`: the value stored under `k`, if any. -/
def StrMap.find {α : Type} (k : Str) : StrMap α → Option α
  | [] => none
  | (k', v) :: rest => if k' = k then some v else StrMap.find k rest

/-- Member `count(k)`. -/
def StrMap.count {α : Type} (m : StrMap α) (k : Str) : Nat :=
  if (StrMap.find k m).isSome then 1 else 0

/-- Assignment `m[k] = v`: overwrite the value of `k`, or insert the pair at
its place in the key order. -/
def StrMap.assign {α : Type} (k : Str) (v : α) : StrMap α → StrMap α
  | [] => [(k, v)]
  | (k', v') :: rest =>
    if k' = k then (k, v) :: rest
    else if strLess k k' then (k, v) :: (k', v') :: rest
    else (k', v') :: StrMap.assign k v rest

/-- Expression `m[k]` on a `std::map<std::string, std::string>` whose value is
only read: the table afterwards. `operator[]` inserts the empty string under a
key that the table does not hold. -/
def StrMap.index (k : Str) (m : StrMap Str) : StrMap Str :=
  match StrMap.find k m with
  | some _ => m
  | none => StrMap.assign k [] m

/-- Keys in strictly ascending order, the invariant of a `std::map`. -/
def StrMap.Ascending {α : Type} (m : StrMap α) : Prop :=
  m.Pairwise fun a b => strLess a.1 b.1 = true

/-! ## Data model -/

/-- The plane kinds (`plane_Austin`, `plane_Obj`, `plane_Lights`,
`plane_Obj8`). -/
inductive PlaneType
  | plane_Austin
  | plane_Obj
  | plane_Lights
  | plane_Obj8
  deriving DecidableEq, Repr

/-- The draw role of an attachment. -/
inductive DrawType
  | draw_lights
  | draw_solid
  deriving DecidableEq, Repr

/-- Record `obj_for_acf`, one sub-object attachment. A field the parser leaves
unassigned is `none`. -/
structure obj_for_acf where
  draw_type : Option DrawType
  needs_animation : Option Bool
  file : Str
  deriving DecidableEq, Repr

/-- Record `CSLPlane_t`. The vertical offset is kept as the text handed to
`atof`. -/
structure CSLPlane_t where
  plane_type : PlaneType
  file_path : Str
  dirNames : List Str
  objectName : Str
  textureName : Str
  texturePath : Str
  textureLitPath : Str
  moving_gear : Bool
  austin_idx : Int
  obj_idx : Int
  texID : Int
  texLitID : Int
  attachments : List obj_for_acf
  icao : Str
  airline : Str
  livery : Str
  xsbVertOffset : Str
  isXsbVertOffsetAvail : Bool
  deriving DecidableEq, Repr

/-- Modelled from the spec: the default constructor of `CSLPlane_t`, declared
in a header that is not part of the source. Identity fields and attachment list
are empty and the resolved handles start unresolved (`-1`). -/
def CSLPlane_t.default : CSLPlane_t :=
  { plane_type := PlaneType.plane_Obj, file_path := [], dirNames := [],
    objectName := [], textureName := [], texturePath := [], textureLitPath := [],
    moving_gear := false, austin_idx := -1, obj_idx := -1, texID := 0,
    texLitID := 0, attachments := [], icao := [], airline := [], livery := [],
    xsbVertOffset := [], isXsbVertOffsetAvail := false }

/-- Modelled from the spec: the number of match passes, `match_count` of the
missing header; the spec numbers the priority levels 0 to 7. -/
def match_count : Nat := 8

/-- Modelled from the spec: the table index of the ICAO+airline+livery keys,
the pass whose use flags are (ICAO, airline, livery). -/
def match_icao_airline_livery : Nat := 0

/-- Modelled from the spec: the table index of the ICAO+airline keys. -/
def match_icao_airline : Nat := 1

/-- Modelled from the spec: the table index of the group+airline+livery keys. -/
def match_group_airline_livery : Nat := 2

/-- Modelled from the spec: the table index of the group+airline keys. -/
def match_group_airline : Nat := 3

/-- Modelled from the spec: the table index of the ICAO-only keys. -/
def match_icao : Nat := 5

/-- Modelled from the spec: the table index of the group-only keys. -/
def match_group : Nat := 7

/-- Record `CSLPackage_t`: name, root path, planes and the match tables
`matches[n]` (field `matches_`, as `matches` is a keyword). -/
structure CSLPackage_t where
  name : Str
  path : Str
  planes : List CSLPlane_t
  matches_ : Nat → StrMap Int

/-- Record `CSLAircraftCode_t` without its key: equipment string and weight
category. -/
structure CSLAircraftCode_t where
  equip : Str
  category : Char
  deriving DecidableEq, Repr

/-- Statement `matches[t][k] = v` on a package. -/
def CSLPackage_t.setMatch (package : CSLPackage_t) (t : Nat) (k : Str) (v : Int) :
    CSLPackage_t :=
  { package with
    matches_ := Function.update package.matches_ t (StrMap.assign k v (package.matches_ t)) }

/-- The guarded insertion of the identity commands:
`if (matches[t].count(k) == 0) matches[t][k] = planes.size() - 1`. -/
def CSLPackage_t.addMatch (package : CSLPackage_t) (t : Nat) (k : Str) : CSLPackage_t :=
  if (package.matches_ t).count k = 0 then
    package.setMatch t k ((package.planes.length : Int) - 1)
  else package

/-- Expression `planes[i]` for an `int` index: no defined result outside the
plane list. -/
def CSLPackage_t.planeAt (package : CSLPackage_t) (i : Int) : Option CSLPlane_t :=
  if 0 ≤ i then package.planes.get? i.toNat else none

/-- The process-wide state read by parser and matcher: the catalog, the
grouping and aircraft-code tables, the default ICAO, and the values obtained
from the host (`XPLMCountAircraft`, `XPLMGetVersions`, `XPLMGetSystemPath`) and
from the object loader. -/
structure Globals where
  gPackages : List CSLPackage_t
  gGroupings : StrMap Str
  gAircraftCodes : StrMap CSLAircraftCode_t
  gDefaultPlane : Str
  total : Int
  sim : Int
  xsystem : Str
  OBJ_DefaultModel : Str → Str
  OBJ_GetLitTextureByTexture : Str → Str

/-- Expression `gGroupings[icao]`, its value: the stored label, the empty
string for an absent key. The entry that `operator[]` inserts for an absent key
is the matter of `Globals.indexed`. -/
def Globals.groupOf (g : Globals) (icao : Str) : Str :=
  (StrMap.find icao g.gGroupings).getD []

/-- Expression `gGroupings[icao]`, its effect, for each of the codes in order:
the process state in which every code without a label has the empty label. -/
def Globals.indexed (g : Globals) (icaos : List Str) : Globals :=
  { g with gGroupings := icaos.foldl (fun m icao => StrMap.index icao m) g.gGroupings }

/-! ## Tokenizer and line source -/

/-- The loop of `BreakStringPvt`. `iter` is the text from the read position to
`endPos`; one unit of `fuel` is one turn of the outer `while`. -/
def BreakStringPvt.loop (inSeparators : Str) (maxBreak : Int) :
    Nat → Str → List Str → List Str
  | 0, _, outStrings => outStrings
  | fuel + 1, iter, outStrings =>
    if iter = [] then outStrings
    else
      let iter1 := iter.dropWhile fun c => inSeparators.contains c
      if iter1 = [] then outStrings
      else if maxBreak ≠ 0 ∧ maxBreak = ((outStrings.length + 1 : Nat) : Int) then
        outStrings ++ [iter1]
      else
        let word := iter1.takeWhile fun c => !inSeparators.contains c
        let wordEnd := iter1.dropWhile fun c => !inSeparators.contains c
        BreakStringPvt.loop inSeparators maxBreak fuel wordEnd (outStrings ++ [word])

/-- Function `BreakStringPvt`: break a line into tokens; with a nonzero
`maxBreak` the token number `maxBreak` is the rest of the line. Every turn of
the loop that goes on consumes a character, so the length of the line bounds
the number of turns. -/
def BreakStringPvt (inString : Str) (maxBreak : Int) (inSeparators : Str) : List Str :=
  BreakStringPvt.loop inSeparators maxBreak (inString.length + 1) inString []

/-- Modelled from the spec: the scan of `tokenize`, which is declared in a
header that is not part of the source; `word` is the run of non-separator
characters read so far. -/
def tokenize.go (separators : Str) : Str → Str → List Str
  | [], word => if word = [] then [] else [word]
  | c :: rest, word =>
    if separators.contains c then
      if word = [] then tokenize.go separators rest []
      else word :: tokenize.go separators rest []
    else tokenize.go separators rest (word ++ [c])

/-- Modelled from the spec: `tokenize(line, separators)`, declared in a header
that is not part of the source. It splits the line on any character in
`separators`, discarding empty runs between separators. -/
def tokenize (line separators : Str) : List Str := tokenize.go separators line []

/-- The token separators of the package files, `" \t\r\n"`. -/
def tokenSeparators : Str := [' ', '\t', '\r', '\n']

/-- The lines that repeated `std::getline` calls read from a text: the segments
ended by `\n`, and a last unterminated segment when it is not empty. -/
def getlines : Str → List Str
  | [] => []
  | c :: rest =>
    if c = '\n' then [] :: getlines rest
    else
      match getlines rest with
      | [] => [[c]]
      | l :: ls => (c :: l) :: ls

/-- Function `DoPackageSub`: replace the leading package name of the path by
the root path of the first package whose name starts the path
(`strncmp(name, path, name.size()) == 0`). Returns the success flag and the
path. -/
def DoPackageSub : List CSLPackage_t → Str → Bool × Str
  | [], ioPath => (false, ioPath)
  | i :: rest, ioPath =>
    if i.name.isPrefixOf ioPath then (true, i.path ++ ioPath.drop i.name.length)
    else DoPackageSub rest ioPath

/-- Function `atoi` on a token: optional white space, optional sign, decimal
digits; no defined result outside the range of `int`. -/
def atoi.digits : Str → Nat → Nat
  | [], acc => acc
  | c :: cs, acc => if c.isDigit then atoi.digits cs (acc * 10 + (c.toNat - 48)) else acc

/-- Function `atoi`. -/
def atoi (s : Str) : Option Int :=
  let r := s.dropWhile isspace
  let v : Int :=
    match r with
    | '-' :: ds => -((atoi.digits ds 0 : Nat) : Int)
    | '+' :: ds => ((atoi.digits ds 0 : Nat) : Int)
    | ds => ((atoi.digits ds 0 : Nat) : Int)
  if -2147483648 ≤ v ∧ v ≤ 2147483647 then some v else none

/-! ## Diagnostics -/

/-- The kinds of repeating messages that are counted (`msgCntE`). -/
inductive msgCntE
  | OBJ8_AIRCRAFT_tooManyArgs
  | OBJ8_tooManyArgs
  | OBJ8_invalidParts
  | VERT_OFFSET_tooManyArgs
  deriving DecidableEq, Repr

/-- Constant `MSG_MAX_NUM`, the maximum number of a repeating message. -/
def MSG_MAX_NUM : Nat := 1

/-- Record `MsgCntTy`: the counters of the repeating messages. -/
structure MsgCntTy where
  cnt : msgCntE → Nat

/-- Member `showAfterInc`: `++cnt[e] <= MSG_MAX_NUM`. -/
def MsgCntTy.showAfterInc (m : MsgCntTy) (e : msgCntE) : Bool × MsgCntTy :=
  (decide (m.cnt e + 1 ≤ MSG_MAX_NUM), { cnt := Function.update m.cnt e (m.cnt e + 1) })

/-- The texts of the diagnostics. -/
inductive DiagText
  | exportArgs
  | nameInUse (name other requester : Str)
  | dependencyArgs
  | dependencyMissing (name : Str)
  | objectArgs
  | textureArgs
  | aircraftArgs
  | packageNotFound
  | obj8AircraftArgs
  | obj8Args
  | obj8TooManyArgs
  | obj8InvalidParts (got : Str)
  | vertOffsetArgs
  | hasGearArgs
  | hasGearValue (got : Str)
  | icaoArgs
  | airlineArgs
  | liveryArgs
  | couldNotOpenDoc8643 (inDoc8643 : Str)
  | couldNotOpenRelated (inRelatedFile : Str)
  | loadingPackage (packageFile : Str)
  deriving DecidableEq, Repr

/-- One diagnostic written to the log: a parse error naming file, line number
and line (`XPLMDump(path, lineNum, line)`), followed by a text if one is
streamed into it, a text alone (`XPLMDump()`), or one of the lines of
`DumpResults`. -/
inductive Diag
  | parseError (path : Str) (lineNum : Nat) (line : Str) (text : Option DiagText)
  | message (text : DiagText)
  | suppressedFile (fileName : Str)
  | suppressed (e : msgCntE) (count : Nat)
  | suppressedEnd
  deriving DecidableEq, Repr

/-- Member `DumpResults`, body of the loop for one message kind. The state is
the flag `bFileShown`, the counters and the log. -/
def MsgCntTy.dumpOne (fileName : Str) (acc : Bool × MsgCntTy × List Diag) (e : msgCntE) :
    Bool × MsgCntTy × List Diag :=
  let bFileShown := acc.1
  let m := acc.2.1
  let log := acc.2.2
  let reset : MsgCntTy := { cnt := Function.update m.cnt e 0 }
  if m.cnt e > MSG_MAX_NUM then
    let log1 := if !bFileShown then log ++ [Diag.suppressedFile fileName] else log
    (true, reset, log1 ++ [Diag.suppressed e (m.cnt e)])
  else (bFileShown, reset, log)

/-- Member `DumpResults`: report the suppressed messages and reset the
counters. -/
def MsgCntTy.DumpResults (m : MsgCntTy) (fileName : Str) (log : List Diag) :
    MsgCntTy × List Diag :=
  let r := [msgCntE.OBJ8_AIRCRAFT_tooManyArgs, msgCntE.OBJ8_tooManyArgs,
    msgCntE.OBJ8_invalidParts, msgCntE.VERT_OFFSET_tooManyArgs].foldl
      (MsgCntTy.dumpOne fileName) (false, m, log)
  (r.2.1, if r.1 then r.2.2 ++ [Diag.suppressedEnd] else r.2.2)

/-! ## Command handlers -/

/-- What a handler works on: the package under construction, the message
counters, the log, and the codes for which `gGroupings[icao]` was evaluated, in
order. Each such evaluation inserts an empty label into the global table when
the code has no label; the process state with these insertions is
`Globals.indexed`. -/
structure ParseState where
  package : CSLPackage_t
  MsgCnt : MsgCntTy
  log : List Diag
  indexed : List Str := []

/-- Write a parse error with a text to the log. -/
def ParseState.warn (st : ParseState) (path : Str) (lineNum : Nat) (line : Str)
    (text : DiagText) : ParseState :=
  { st with log := st.log ++ [Diag.parseError path lineNum line (some text)] }

/-- Write the text of a counted message if `showAfterInc` allows it. -/
def ParseState.warnCounted (st : ParseState) (e : msgCntE) (path : Str) (lineNum : Nat)
    (line : Str) (text : DiagText) : ParseState :=
  let r := st.MsgCnt.showAfterInc e
  let st1 := { st with MsgCnt := r.2 }
  if r.1 then st1.warn path lineNum line text else st1

/-- Statement `package.planes.back().field = ...`: change the last plane; no
defined result on an empty plane list. -/
def CSLPackage_t.modifyBack (package : CSLPackage_t) (f : CSLPlane_t → CSLPlane_t) :
    Option CSLPackage_t :=
  match package.planes.getLast? with
  | none => none
  | some pl => some { package with planes := package.planes.dropLast ++ [f pl] }

/-- Statement `package.planes.push_back(...)`. -/
def CSLPackage_t.pushPlane (package : CSLPackage_t) (pl : CSLPlane_t) : CSLPackage_t :=
  { package with planes := package.planes ++ [pl] }

/-- The type of a command handler: tokens, state, file path, line number and
line give the success flag and the new state, or no defined result. -/
abbrev Handler := Globals → List Str → ParseState → Str → Nat → Str → Option (Bool × ParseState)

/-- Function `ParseDependencyCommand`. -/
def ParseDependencyCommand : Handler := fun g tokens st path lineNum line =>
  if tokens.length ≠ 2 then
    some (false, st.warn path lineNum line DiagText.dependencyArgs)
  else
    match tokens.get? 1 with
    | none => none
    | some name =>
      if (g.gPackages.filter fun p => p.name = name).length = 0 then
        some (false, st.warn path lineNum line (DiagText.dependencyMissing name))
      else some (true, st)

/-- Function `ParseObjectCommand`. (The tokens it first breaks out of the line
into `dupTokens` are never read.) -/
def ParseObjectCommand : Handler := fun g tokens st path lineNum line =>
  if tokens.length ≠ 2 then
    some (false, st.warn path lineNum line DiagText.objectArgs)
  else
    match tokens.get? 1 with
    | none => none
    | some t1 =>
      let relativePath := MakePartialPathNativeObj t1
      let sub := DoPackageSub g.gPackages relativePath
      if !sub.1 then
        some (false, st.warn path lineNum line DiagText.packageNotFound)
      else
        let fullPath := sub.2
        let dirNames := BreakStringPvt relativePath 0 ['/']
        let packageRootDir := afterLast '/' st.package.path
        match dirNames with
        | [] => none
        | _ :: dirTail =>
          let dirNames1 := packageRootDir :: dirTail
          match dirNames1.getLast? with
          | none => none
          | some objFileName =>
            match eraseFromLast '.' objFileName with
            | none => none
            | some objectName =>
              let plane : CSLPlane_t :=
                { CSLPlane_t.default with
                  dirNames := dirNames1.dropLast
                  objectName := objectName
                  plane_type := PlaneType.plane_Obj
                  file_path := fullPath
                  moving_gear := true
                  textureName := g.OBJ_DefaultModel fullPath }
              some (true, { st with package := st.package.pushPlane plane })

/-- Function `ParseTextureCommand`. -/
def ParseTextureCommand : Handler := fun g tokens st path lineNum line =>
  if tokens.length ≠ 2 then
    some (false, st.warn path lineNum line DiagText.textureArgs)
  else
    match tokens.get? 1 with
    | none => none
    | some t1 =>
      let relativeTexPath := MakePartialPathNativeObj t1
      let sub := DoPackageSub g.gPackages relativeTexPath
      if !sub.1 then
        some (false, st.warn path lineNum line DiagText.packageNotFound)
      else
        let absoluteTexPath := sub.2
        match eraseFromLast '.' (afterLast '/' absoluteTexPath) with
        | none => none
        | some textureFilename =>
          match st.package.modifyBack fun pl =>
              { pl with
                textureName := textureFilename
                texturePath := absoluteTexPath
                textureLitPath := g.OBJ_GetLitTextureByTexture absoluteTexPath } with
          | none => none
          | some package => some (true, { st with package := package })

/-- Function `ParseAircraftCommand`. A wrong argument count is only reported:
the handler goes on and reads `tokens[1]`, `tokens[2]`, `tokens[3]`. -/
def ParseAircraftCommand : Handler := fun g tokens st path lineNum line =>
  let st1 := if tokens.length ≠ 4 then st.warn path lineNum line DiagText.aircraftArgs else st
  match tokens.get? 1 with
  | none => none
  | some t1 =>
    match atoi t1 with
    | none => none
    | some lo =>
      if g.sim ≥ lo then
        match tokens.get? 2 with
        | none => none
        | some t2 =>
          match atoi t2 with
          | none => none
          | some hi =>
            if g.sim ≤ hi then
              match tokens.get? 3 with
              | none => none
              | some t3 =>
                let relativePath := MakePartialPathNativeObj t3
                let sub := DoPackageSub g.gPackages relativePath
                if !sub.1 then
                  some (false, st1.warn path lineNum line DiagText.packageNotFound)
                else
                  let plane : CSLPlane_t :=
                    { CSLPlane_t.default with
                      plane_type := PlaneType.plane_Austin
                      file_path := sub.2
                      moving_gear := true
                      austin_idx := -1 }
                  some (true, { st1 with package := st1.package.pushPlane plane })
            else some (true, st1)
      else some (true, st1)

/-- Function `ParseObj8AircraftCommand`. -/
def ParseObj8AircraftCommand : Handler := fun _ tokens st path lineNum line =>
  let st1 :=
    if tokens.length ≠ 2 then
      st.warnCounted msgCntE.OBJ8_AIRCRAFT_tooManyArgs path lineNum line DiagText.obj8AircraftArgs
    else st
  if tokens.length ≠ 2 ∧ tokens.length < 2 then some (false, st1)
  else
    match tokens.get? 1 with
    | none => none
    | some t1 =>
      let plane : CSLPlane_t :=
        { CSLPlane_t.default with
          dirNames := [afterLast '/' st1.package.path]
          objectName := t1
          plane_type := PlaneType.plane_Obj8
          file_path := t1
          moving_gear := true
          texID := 0
          texLitID := 0
          obj_idx := -1 }
      some (true, { st1 with package := st1.package.pushPlane plane })

/-- The draw role that `ParseObj8Command` assigns: `LIGHTS` gives lights, then
`SOLID` gives solid; any other token leaves the field unassigned. -/
def obj8DrawType (t1 : Str) : Option DrawType :=
  let d1 := if t1 = "LIGHTS".toList then some DrawType.draw_lights else none
  if t1 = "SOLID".toList then some DrawType.draw_solid else d1

/-- The animation flag that `ParseObj8Command` assigns. -/
def obj8NeedsAnimation (t2 : Str) : Option Bool :=
  if t2 = "YES".toList then some true
  else if t2 = "NO".toList then some false
  else none

/-- Function `ParseObj8Command`. -/
def ParseObj8Command : Handler := fun g tokens st path lineNum line =>
  if tokens.length < 4 then
    some (false, st.warn path lineNum line DiagText.obj8Args)
  else
    let st1 :=
      if tokens.length > 4 then
        st.warnCounted msgCntE.OBJ8_tooManyArgs path lineNum line DiagText.obj8TooManyArgs
      else st
    match st1.package.planes.getLast? with
    | none => some (false, st1)
    | some back =>
      if back.plane_type ≠ PlaneType.plane_Obj8 then some (false, st1)
      else
        match tokens.get? 1, tokens.get? 2, tokens.get? 3 with
        | some t1, some t2, some t3 =>
          let st2 :=
            if t1 = "SOLID".toList then st1
            else st1.warnCounted msgCntE.OBJ8_invalidParts path lineNum line
              (DiagText.obj8InvalidParts t1)
          let relativePath := MakePartialPathNativeObj t3
          let sub := DoPackageSub g.gPackages relativePath
          if !sub.1 then
            some (false, st2.warn path lineNum line DiagText.packageNotFound)
          else
            let sys_len := g.xsystem.length
            let absolutePath := if sub.2.length > sys_len then sub.2.drop sys_len else sub.2
            let att : obj_for_acf :=
              { draw_type := obj8DrawType t1
                needs_animation := obj8NeedsAnimation t2
                file := absolutePath }
            match st2.package.modifyBack fun pl =>
                { pl with attachments := pl.attachments ++ [att] } with
            | none => none
            | some package => some (true, { st2 with package := package })
        | _, _, _ => none

/-- Function `ParseVertOffsetCommand`. -/
def ParseVertOffsetCommand : Handler := fun _ tokens st path lineNum line =>
  if tokens.length ≠ 2 then
    some (false, st.warnCounted msgCntE.VERT_OFFSET_tooManyArgs path lineNum line
      DiagText.vertOffsetArgs)
  else
    match tokens.get? 1 with
    | none => none
    | some t1 =>
      match st.package.modifyBack fun pl =>
          { pl with xsbVertOffset := t1, isXsbVertOffsetAvail := true } with
      | none => none
      | some package => some (true, { st with package := package })

/-- Function `ParseHasGearCommand`. -/
def ParseHasGearCommand : Handler := fun _ tokens st path lineNum line =>
  if tokens.length ≠ 2 then
    some (false, st.warn path lineNum line DiagText.hasGearArgs)
  else
    match tokens.get? 1 with
    | none => none
    | some t1 =>
      if t1 ≠ "YES".toList ∧ t1 ≠ "NO".toList then
        some (false, st.warn path lineNum line DiagText.hasGearArgs)
      else if t1 = "YES".toList then
        match st.package.modifyBack fun pl => { pl with moving_gear := true } with
        | none => none
        | some package => some (true, { st with package := package })
      else if t1 = "NO".toList then
        match st.package.modifyBack fun pl => { pl with moving_gear := false } with
        | none => none
        | some package => some (true, { st with package := package })
      else some (false, st.warn path lineNum line (DiagText.hasGearValue t1))

/-- Function `ParseIcaoCommand`. -/
def ParseIcaoCommand : Handler := fun g tokens st path lineNum line =>
  if tokens.length ≠ 2 then
    some (false, st.warn path lineNum line DiagText.icaoArgs)
  else
    match tokens.get? 1 with
    | none => none
    | some icao =>
      match st.package.modifyBack fun pl => { pl with icao := icao } with
      | none => none
      | some package =>
        let group := g.groupOf icao
        let package1 := package.addMatch match_icao icao
        let package2 :=
          if group ≠ [] then package1.addMatch match_group group else package1
        some (true, { st with package := package2, indexed := st.indexed ++ [icao] })

/-- Function `ParseAirlineCommand` (with `USE_DEFAULTING` 0). -/
def ParseAirlineCommand : Handler := fun g tokens st path lineNum line =>
  if tokens.length ≠ 3 then
    some (false, st.warn path lineNum line DiagText.airlineArgs)
  else
    match tokens.get? 1, tokens.get? 2 with
    | some icao, some airline =>
      match st.package.modifyBack fun pl => { pl with icao := icao, airline := airline } with
      | none => none
      | some package =>
        let group := g.groupOf icao
        let package1 := package.addMatch match_icao_airline (icao ++ [' '] ++ airline)
        let package2 :=
          if group ≠ [] then
            package1.addMatch match_group_airline (group ++ [' '] ++ airline)
          else package1
        some (true, { st with package := package2, indexed := st.indexed ++ [icao] })
    | _, _ => none

/-- Function `ParseLiveryCommand` (with `USE_DEFAULTING` 0). -/
def ParseLiveryCommand : Handler := fun g tokens st path lineNum line =>
  if tokens.length ≠ 4 then
    some (false, st.warn path lineNum line DiagText.liveryArgs)
  else
    match tokens.get? 1, tokens.get? 2, tokens.get? 3 with
    | some icao, some airline, some livery =>
      match st.package.modifyBack fun pl =>
          { pl with icao := icao, airline := airline, livery := livery } with
      | none => none
      | some package =>
        let group := g.groupOf icao
        let package1 := package.addMatch match_icao_airline_livery
          (icao ++ [' '] ++ airline ++ [' '] ++ livery)
        let package2 :=
          if group ≠ [] then
            package1.addMatch match_group_airline_livery
              (group ++ [' '] ++ airline ++ [' '] ++ livery)
          else package1
        some (true, { st with package := package2, indexed := st.indexed ++ [icao] })
    | _, _, _ => none

/-- Function `ParseDummyCommand`. -/
def ParseDummyCommand : Handler := fun _ _ st _ _ _ => some (true, st)

/-- The command table of `ParseFullPackage`. -/
def fullCommands (keyword : Str) : Option Handler :=
  if keyword = "EXPORT_NAME".toList then some ParseDummyCommand
  else if keyword = "DEPENDENCY".toList then some ParseDependencyCommand
  else if keyword = "OBJECT".toList then some ParseObjectCommand
  else if keyword = "TEXTURE".toList then some ParseTextureCommand
  else if keyword = "AIRCRAFT".toList then some ParseAircraftCommand
  else if keyword = "OBJ8_AIRCRAFT".toList then some ParseObj8AircraftCommand
  else if keyword = "OBJ8".toList then some ParseObj8Command
  else if keyword = "VERT_OFFSET".toList then some ParseVertOffsetCommand
  else if keyword = "HASGEAR".toList then some ParseHasGearCommand
  else if keyword = "ICAO".toList then some ParseIcaoCommand
  else if keyword = "AIRLINE".toList then some ParseAirlineCommand
  else if keyword = "LIVERY".toList then some ParseLiveryCommand
  else none

/-- Body of the line loop of `ParseFullPackage` for the line just read. The
result of the handler is dropped: a failing command does not stop the parse. -/
def ParseFullPackage.step (g : Globals) (packageFilePath : Str) (lineNum : Nat)
    (raw : Str) (st : ParseState) : Option ParseState :=
  let line := trim raw
  if line = [] ∨ line.head? = some '#' then some st
  else
    match tokenize line tokenSeparators with
    | [] => some st
    | keyword :: args =>
      match fullCommands keyword with
      | some handler =>
        match handler g (keyword :: args) st packageFilePath lineNum line with
        | none => none
        | some r => some r.2
      | none =>
        some { st with log := st.log ++ [Diag.parseError packageFilePath lineNum line none] }

/-- The line loop of `ParseFullPackage`; `lineNum` is the number of the last
line read. `g` is the process state without the labels that the evaluations of
`gGroupings[icao]` recorded in the parse state inserted; the body of the loop
runs in the process state with them. -/
def ParseFullPackage.lines (g : Globals) (packageFilePath : Str) :
    List Str → Nat → ParseState → Option ParseState
  | [], _, st => some st
  | raw :: rest, lineNum, st =>
    match ParseFullPackage.step (g.indexed st.indexed) packageFilePath (lineNum + 1) raw st with
    | none => none
    | some st1 => ParseFullPackage.lines g packageFilePath rest (lineNum + 1) st1

/-- Function `ParseFullPackage`: run the full command table over every line of
the declaration text, then dump and reset the message counters. -/
def ParseFullPackage (g : Globals) (content : Str) (st : ParseState) : Option ParseState :=
  let packageFilePath := st.package.path ++ "/".toList ++ "xsb_aircraft.txt".toList
  match ParseFullPackage.lines g packageFilePath (getlines content) 0 st with
  | none => none
  | some st1 =>
    let r := st1.MsgCnt.DumpResults packageFilePath st1.log
    some { st1 with MsgCnt := r.1, log := r.2 }

/-- Function `ParseExportCommand`, the handler of `EXPORT_NAME` in the header
scan: with one argument that no package of the catalog has as its name, set the
path and the name of the package. -/
def ParseExportCommand : Handler := fun g tokens st path lineNum line =>
  if tokens.length ≠ 2 then
    some (false, st.warn path lineNum line DiagText.exportArgs)
  else
    match tokens.get? 1 with
    | none => none
    | some name =>
      match g.gPackages.find? fun p => p.name = name with
      | none =>
        some (true, { st with package := { st.package with path := path, name := name } })
      | some p =>
        some (false, st.warn path lineNum line (DiagText.nameInUse name p.path path))

/-- The command table of `ParsePackageHeader`. -/
def headerCommands (keyword : Str) : Option Handler :=
  if keyword = "EXPORT_NAME".toList then some ParseExportCommand else none

/-- Modelled from the spec: the package that the default constructor of
`CSLPackage_t` gives; the record is declared in a header that is not part of
the source. It has no name, no path, no planes and empty tables. -/
def CSLPackage_t.default : CSLPackage_t :=
  { name := [], path := [], planes := [], matches_ := fun _ => [] }

/-- The line loop of `ParsePackageHeader`; `lineNum` is the number of the last
line read. Lines are tokenized as read, and the scan stops at the first command
of the table whose handler succeeds. -/
def ParsePackageHeader.lines (g : Globals) (path : Str) :
    List Str → Nat → ParseState → Option ParseState
  | [], _, st => some st
  | line :: rest, lineNum, st =>
    match tokenize line tokenSeparators with
    | [] => ParsePackageHeader.lines g path rest (lineNum + 1) st
    | keyword :: args =>
      match headerCommands keyword with
      | none => ParsePackageHeader.lines g path rest (lineNum + 1) st
      | some handler =>
        match handler g (keyword :: args) st path (lineNum + 1) line with
        | none => none
        | some r =>
          if r.1 then some r.2
          else ParsePackageHeader.lines g path rest (lineNum + 1) r.2

/-- Function `ParsePackageHeader`: scan the declaration text for the name of
the package, starting from a default package. The state carries the message
counters and the log along; its package is the result. -/
def ParsePackageHeader (g : Globals) (path content : Str) (MsgCnt : MsgCntTy)
    (log : List Diag) : Option ParseState :=
  ParsePackageHeader.lines g path (getlines content) 0
    { package := CSLPackage_t.default, MsgCnt := MsgCnt, log := log }

/-- Modelled from the spec: member `hasValidHeader` of `CSLPackage_t`, declared
in a header that is not part of the source. A header is valid when it gave a
name that is not empty. -/
def CSLPackage_t.hasValidHeader (package : CSLPackage_t) : Bool :=
  !package.name.isEmpty

/-- Function `isPackageAlreadyLoaded`: some package of the catalog has this
root path. -/
def isPackageAlreadyLoaded (gPackages : List CSLPackage_t) (packagePath : Str) : Bool :=
  gPackages.any fun package => package.path = packagePath

/-! ## Matching engine -/

/-- Table `kUseICAO`. -/
def kUseICAO (n : Nat) : Nat := [1, 1, 0, 0, 1, 1, 0, 0].getD n 0

/-- Table `kUseAirline`. -/
def kUseAirline (n : Nat) : Nat := [1, 1, 1, 1, 0, 0, 0, 0].getD n 0

/-- Table `kUseLivery`. -/
def kUseLivery (n : Nat) : Nat := [1, 0, 1, 0, 1, 0, 1, 0].getD n 0

/-- The special check of both match phases: do not match a legacy-engine plane
that is not loaded, nor a static-object plane whose object is unresolved. -/
def planeLoaded (total : Int) (plane : CSLPlane_t) : Bool :=
  (plane.plane_type != PlaneType.plane_Austin ||
    (plane.austin_idx != -1 && decide (plane.austin_idx < total))) &&
  (plane.plane_type != PlaneType.plane_Obj || plane.obj_idx != -1)

/-- The key that Phase A builds for pass `n`; `none` when the pass is left by
`continue` (airline or livery required and absent). A pass that uses the group
is not left when the group is empty: its key starts with the empty group. -/
def passKey (icao group airline livery : Str) (n : Nat) : Option Str :=
  let key := if kUseICAO n ≠ 0 then icao else group
  if kUseAirline n ≠ 0 ∧ airline = [] then none
  else
    let key1 := if kUseAirline n ≠ 0 then key ++ [' '] ++ airline else key
    if kUseLivery n ≠ 0 ∧ livery = [] then none
    else some (if kUseLivery n ≠ 0 then key1 ++ [' '] ++ livery else key1)

/-- Phase A, loop over the packages from package number `p` on, for pass `n`
and its key. The result is the package number and plane index of the first
loaded plane found; the outer `none` is "no defined result". -/
def phaseA.packages (total : Int) (n : Nat) (key : Str) :
    List CSLPackage_t → Nat → Option (Option (Nat × Nat))
  | [], _ => some none
  | pkg :: rest, p =>
    match StrMap.find key (pkg.matches_ n) with
    | none => phaseA.packages total n key rest (p + 1)
    | some idx =>
      match pkg.planeAt idx with
      | none => none
      | some plane =>
        if planeLoaded total plane then some (some (p, idx.toNat))
        else phaseA.packages total n key rest (p + 1)

/-- Phase A, loop over the passes `n`, `n + 1`, ... (`count` of them). The
result is the pass, the package number and the plane index. -/
def phaseA.passes (g : Globals) (icao group airline livery : Str) :
    Nat → Nat → Option (Option (Nat × Nat × Nat))
  | 0, _ => some none
  | count + 1, n =>
    match passKey icao group airline livery n with
    | none => phaseA.passes g icao group airline livery count (n + 1)
    | some key =>
      match phaseA.packages g.total n key g.gPackages 0 with
      | none => none
      | some (some r) => some (some (n, r.1, r.2))
      | some none => phaseA.passes g icao group airline livery count (n + 1)

/-- Phase A of `CSL_MatchPlane`: the passes 0 to `match_count - 1`. -/
def phaseA (g : Globals) (inICAO : Str) (inAirline inLivery : Option Str) :
    Option (Option (Nat × Nat × Nat)) :=
  phaseA.passes g inICAO ((StrMap.find inICAO g.gGroupings).getD [])
    (inAirline.getD []) (inLivery.getD []) match_count 0

/-- The `switch` of Phase B: airline flag and equipment level of a
`megaPass`. -/
def megaPassFlags (megaPass : Nat) : Bool × Int :=
  match megaPass with
  | 1 => (true, 1)
  | 2 => (true, 2)
  | 3 => (false, 1)
  | 4 => (false, 2)
  | 5 => (true, 3)
  | 6 => (true, 4)
  | 7 => (false, 3)
  | 8 => (false, 4)
  | 9 => (true, 5)
  | 10 => (false, 5)
  | _ => (false, -1)

/-- Phase B, comparison of two characters `a[i] == b[i]`. -/
def equipCharEq (a b : Str) (i : Nat) : Option Bool :=
  match strAt a i, strAt b i with
  | some x, some y => some (x == y)
  | _, _ => none

/-- Phase B, the criteria applied to a candidate whose ICAO has the entry `m`,
for the query aircraft `model`: the successive assignments to `match`. -/
def phaseB.criteria (model m : CSLAircraftCode_t) (pass : Int) (bMatchAirline : Bool)
    (key airline : Str) : Option Bool :=
  let match0 : Bool := m.category == model.category
  let match1 : Bool := if pass < 5 ∧ m.equip.length ≠ 3 then false else match0
  let match2 : Option Bool :=
    if match1 = true ∧ (pass ≤ 2 ∨ pass = 4) then equipCharEq m.equip model.equip 2
    else some match1
  let match3 : Option Bool := match2.bind fun b =>
    if b = true ∧ pass ≤ 3 then equipCharEq m.equip model.equip 1 else some b
  let match4 : Option Bool := match3.bind fun b =>
    if b = true ∧ pass = 1 then some (m.equip == model.equip) else some b
  match4.bind fun b =>
    if b = true ∧ bMatchAirline = true ∧ key.contains ' ' then
      some (afterFirst ' ' key == airline)
    else some b

/-- Phase B, body of the loop for one table entry: is the entry accepted? -/
def phaseB.entry (g : Globals) (model : CSLAircraftCode_t) (pass : Int)
    (bMatchAirline : Bool) (airline : Str) (pckg : CSLPackage_t) (e : Str × Int) :
    Option Bool :=
  match pckg.planeAt e.2 with
  | none => none
  | some plane =>
    if planeLoaded g.total plane then
      match StrMap.find (substr0 e.1 4) g.gAircraftCodes with
      | none => some false
      | some m => phaseB.criteria model m pass bMatchAirline e.1 airline
    else some false

/-- Phase B, loop over the entries of one table in iteration order: the first
accepted entry. -/
def phaseB.entries (g : Globals) (model : CSLAircraftCode_t) (pass : Int)
    (bMatchAirline : Bool) (airline : Str) (pckg : CSLPackage_t) :
    List (Str × Int) → Option (Option (Str × Int))
  | [] => some none
  | e :: rest =>
    match phaseB.entry g model pass bMatchAirline airline pckg e with
    | none => none
    | some true => some (some e)
    | some false => phaseB.entries g model pass bMatchAirline airline pckg rest

/-- Phase B, loop over the packages from package number `p` on. -/
def phaseB.packages (g : Globals) (model : CSLAircraftCode_t) (pass : Int)
    (bMatchAirline : Bool) (airline : Str) :
    List CSLPackage_t → Nat → Option (Option (Nat × Str × Int))
  | [], _ => some none
  | pckg :: rest, p =>
    match phaseB.entries g model pass bMatchAirline airline pckg
        (pckg.matches_ (if bMatchAirline then match_icao_airline else match_icao)) with
    | none => none
    | some (some e) => some (some (p, e))
    | some none => phaseB.packages g model pass bMatchAirline airline rest (p + 1)

/-- Phase B, loop over `megaPass`, `megaPass + 1`, ... (`count` of them). The
result is the `megaPass`, the package number and the table entry of the first
accepted candidate. -/
def phaseB.megaPasses (g : Globals) (model : CSLAircraftCode_t) (inAirline : Option Str) :
    Nat → Nat → Option (Option (Nat × Nat × Str × Int))
  | 0, _ => some none
  | count + 1, megaPass =>
    let bMatchAirline := (megaPassFlags megaPass).1
    let pass := (megaPassFlags megaPass).2
    if bMatchAirline = true ∧ inAirline.getD [] = [] then
      phaseB.megaPasses g model inAirline count (megaPass + 1)
    else
      match phaseB.packages g model pass bMatchAirline (inAirline.getD []) g.gPackages 0 with
      | none => none
      | some (some r) => some (some (megaPass, r))
      | some none => phaseB.megaPasses g model inAirline count (megaPass + 1)

/-- Phase B of `CSL_MatchPlane`: the equipment-class fallback, for a query ICAO
that is in the aircraft-code table. -/
def phaseB (g : Globals) (inICAO : Str) (inAirline : Option Str) :
    Option (Option (Nat × Nat × Str × Int)) :=
  match StrMap.find inICAO g.gAircraftCodes with
  | none => some none
  | some model => phaseB.megaPasses g model inAirline 10 1

/-- What a call of `CSL_MatchPlane` gives back: the plane pointed to (package
number and plane index; `none` is `NULL`) and the value left in
`*match_quality` (`none` when that pointer is `NULL`). -/
structure MatchResult where
  plane : Option (Nat × Nat)
  quality : Option Int
  deriving DecidableEq, Repr

/-- Function `CSL_MatchPlane`. `match_quality` tells whether the quality
pointer is non-null. -/
def CSL_MatchPlane (g : Globals) (inICAO : Str) (inAirline inLivery : Option Str)
    (match_quality : Bool) (use_default : Bool) : Option MatchResult :=
  match phaseA g inICAO inAirline inLivery with
  | none => none
  | some (some r) =>
    some { plane := some (r.2.1, r.2.2),
           quality := if match_quality then some (r.1 : Int) else none }
  | some none =>
    let quality : Option Int := if match_quality then some (-1) else none
    match phaseB g inICAO inAirline with
    | none => none
    | some (some r) => some { plane := some (r.2.1, r.2.2.2.toNat), quality := quality }
    | some none =>
      if inICAO = g.gDefaultPlane then some { plane := none, quality := quality }
      else if _h : use_default = false then some { plane := none, quality := quality }
      else
        match CSL_MatchPlane g g.gDefaultPlane (some []) (some []) false false with
        | none => none
        | some r => some { plane := r.plane, quality := quality }
termination_by (if use_default then 1 else 0)
decreasing_by simp_all

/-! ## Loading -/

/-- The read loop of `fgets_multiplatform`: `room` is the count `n` of free
slots, `s` the characters stored so far. The result is the line, the rest of
the file and the last character read (none at the end of the file); no result
stands for `NULL`. -/
def fgets_multiplatform.read : Nat → Str → Str → Option (Str × Str × Option Char)
  | _, [], s => if s ≠ [] then some (s, [], none) else none
  | room, c :: file, s =>
    if c = '\n' ∨ c = '\r' then some (s ++ [c], file, some c)
    else if room - 1 = 0 then some (s ++ [c], file, some c)
    else fgets_multiplatform.read (room - 1) file (s ++ [c])

/-- Function `fgets_multiplatform(s, n, file)`: read one line of at most
`n - 1` characters, keeping the first character of its line end and passing
over the second character of a `\r\n` or `\n\r` pair. The result is the line
and the rest of the file; no result stands for `NULL`. -/
def fgets_multiplatform (n : Int) (file : Str) : Option (Str × Str) :=
  if n - 1 < 0 then none
  else if n - 1 = 0 then some ([], file)
  else
    match fgets_multiplatform.read (n - 1).toNat file [] with
    | none => none
    | some (s, rest, c) =>
      if c = some '\r' then
        some (s, if rest.head? = some '\n' then rest.tail else rest)
      else if c = some '\n' then
        some (s, if rest.head? = some '\r' then rest.tail else rest)
      else some (s, rest)

/-- The lines that `while (fgets_multiplatform(buf, sizeof(buf), fi))` reads
with the buffer of 1024 characters. Every call that gives a line takes at
least one character of the file, so the length of the file bounds the number of
turns. -/
def readLines.loop : Nat → Str → List Str
  | 0, _ => []
  | fuel + 1, file =>
    match fgets_multiplatform 1024 file with
    | none => []
    | some (buf, rest) => buf :: readLines.loop fuel rest

/-- The lines of a reference document as the load reads them. -/
def readLines (file : Str) : List Str := readLines.loop (file.length + 1) file

/-- Body of the loop over the aircraft code document in `CSL_LoadCSL`: a line
with at least five fields separated by tabs sets the entry of its third field
to the equipment string of the fourth field and the first character of the
fifth. -/
def loadAircraftCode (gAircraftCodes : StrMap CSLAircraftCode_t) (buf : Str) :
    StrMap CSLAircraftCode_t :=
  match BreakStringPvt buf 0 ['\t', '\r', '\n'] with
  | _ :: _ :: icao :: equip :: t4 :: _ =>
    StrMap.assign icao { equip := equip, category := t4.headD (Char.ofNat 0) } gAircraftCodes
  | _ => gAircraftCodes

/-- Body of the loop over the related file in `CSL_LoadCSL`: a line that does
not start with `;` sets the group of each of its codes to the codes of the line
joined by single blanks. -/
def loadGrouping (gGroupings : StrMap Str) (buf : Str) : StrMap Str :=
  if buf.head? ≠ some ';' then
    let tokens := BreakStringPvt buf 0 tokenSeparators
    let group := List.intercalate [' '] tokens
    tokens.foldl (fun m token => StrMap.assign token group m) gGroupings
  else gGroupings

/-- The host as the load sees it: the files that `fopen` can open with their
text, the entries of a directory (`XPLMGetDirectoryContents`), and the
functions `DoesFileExist` and `GetFileContent`, which are not part of the
source. -/
structure Host where
  fopen : Str → Option Str
  XPLMGetDirectoryContents : Str → List Str
  DoesFileExist : Str → Bool
  GetFileContent : Str → Str

/-- The process state that a load works on: the catalog and the reference
tables, the message counters and the log. -/
structure LoadState where
  g : Globals
  MsgCnt : MsgCntTy
  log : List Diag

/-- The header loop of `CSL_LoadCSL`: every candidate directory that has a
declaration file and whose path no package of the catalog has is scanned for
its header, and the package is kept if the header is valid. The state is the
vector `packages`, the message counters and the log. -/
def CSL_LoadCSL.headers (h : Host) (g : Globals) :
    List Str → List CSLPackage_t × MsgCntTy × List Diag →
      Option (List CSLPackage_t × MsgCntTy × List Diag)
  | [], acc => some acc
  | packagePath :: rest, (packages, MsgCnt, log) =>
    let packageFile := packagePath ++ "/".toList ++ "xsb_aircraft.txt".toList
    if !h.DoesFileExist packageFile || isPackageAlreadyLoaded g.gPackages packagePath then
      CSL_LoadCSL.headers h g rest (packages, MsgCnt, log)
    else
      let log1 := log ++ [Diag.message (DiagText.loadingPackage packageFile)]
      match ParsePackageHeader g packagePath (h.GetFileContent packageFile) MsgCnt log1 with
      | none => none
      | some st =>
        CSL_LoadCSL.headers h g rest
          (if st.package.hasValidHeader then packages ++ [st.package] else packages,
            st.MsgCnt, st.log)

/-- The full run of `CSL_LoadCSL` over the packages just inserted: `done` is
the catalog before the iterator, `package :: rest` the catalog from the
iterator on. Each package is parsed in place with the whole catalog in view.
`indexed` holds the codes for which the parses so far evaluated
`gGroupings[icao]`; `g` is the process state without the labels that these
evaluations inserted. -/
def CSL_LoadCSL.fullRun (h : Host) (g : Globals) :
    List CSLPackage_t → List CSLPackage_t → MsgCntTy → List Diag → List Str →
      Option (List CSLPackage_t × MsgCntTy × List Diag × List Str)
  | done, [], MsgCnt, log, indexed => some (done, MsgCnt, log, indexed)
  | done, package :: rest, MsgCnt, log, indexed =>
    let packageFile := package.path ++ "/".toList ++ "xsb_aircraft.txt".toList
    match ParseFullPackage { g with gPackages := done ++ package :: rest }
        (h.GetFileContent packageFile)
        { package := package, MsgCnt := MsgCnt, log := log, indexed := indexed } with
    | none => none
    | some st =>
      CSL_LoadCSL.fullRun h g (done ++ [st.package]) rest st.MsgCnt st.log st.indexed

/-- Function `CSL_LoadCSL`: read the aircraft codes and the groups, then find
the package directories, scan their headers, insert the packages with a valid
header at the end of the catalog and parse each of them in full. The result is
the flag `ok` and the new process state, or no defined result. (The output made
under the debug preference is not modelled; the directory entries are taken as
on a system other than `APL`.) -/
def CSL_LoadCSL (h : Host) (s : LoadState) (inFolderPath inRelatedFile inDoc8643 : Str) :
    Option (Bool × LoadState) :=
  let r1 : Bool × StrMap CSLAircraftCode_t × List Diag :=
    match h.fopen inDoc8643 with
    | some aircraft_fi =>
      (true, (readLines aircraft_fi).foldl loadAircraftCode s.g.gAircraftCodes, s.log)
    | none =>
      (false, s.g.gAircraftCodes,
        s.log ++ [Diag.message (DiagText.couldNotOpenDoc8643 inDoc8643)])
  let r2 : Bool × StrMap Str × List Diag :=
    match h.fopen inRelatedFile with
    | some related_fi =>
      (r1.1, (readLines related_fi).foldl loadGrouping s.g.gGroupings, r1.2.2)
    | none =>
      (false, s.g.gGroupings,
        r1.2.2 ++ [Diag.message (DiagText.couldNotOpenRelated inRelatedFile)])
  let g1 : Globals := { s.g with gAircraftCodes := r1.2.1, gGroupings := r2.2.1 }
  let pckgs := (h.XPLMGetDirectoryContents inFolderPath).map fun foo =>
    inFolderPath ++ "/".toList ++ foo
  match CSL_LoadCSL.headers h g1 pckgs ([], s.MsgCnt, r2.2.2) with
  | none => none
  | some (packages, MsgCnt, log) =>
    if !packages.isEmpty then
      match CSL_LoadCSL.fullRun h g1 g1.gPackages packages MsgCnt log [] with
      | none => none
      | some (gPackages, MsgCnt1, log1, indexed) =>
        some (r2.1, { g := { g1.indexed indexed with gPackages := gPackages },
                      MsgCnt := MsgCnt1, log := log1 })
    else some (r2.1, { g := g1, MsgCnt := MsgCnt, log := log })

/-! ## Notions used in the statements -/

/-- The package holds, in its table `n` and under `key`, a plane that passes
the special check of the matcher. -/
def holdsLoaded (total : Int) (pkg : CSLPackage_t) (n : Nat) (key : Str) : Prop :=
  ∃ idx plane, StrMap.find key (pkg.matches_ n) = some idx ∧ pkg.planeAt idx = some plane ∧
    planeLoaded total plane = true

/-- The acceptance condition of Phase B in the words of the specification: the
plane is valid, the first four characters of the key are an ICAO code with the
entry `m`, and `m` agrees with the query aircraft `model` as the level asks. -/
def acceptedBySpec (g : Globals) (model : CSLAircraftCode_t) (level : Int) (a : Bool)
    (airline : Str) (pckg : CSLPackage_t) (e : Str × Int) : Prop :=
  ∃ plane m, pckg.planeAt e.2 = some plane ∧ planeLoaded g.total plane = true ∧
    StrMap.find (e.1.take 4) g.gAircraftCodes = some m ∧
    m.category = model.category ∧
    (level < 5 → m.equip.length = 3) ∧
    (level = 1 ∨ level = 2 ∨ level = 4 → strAt m.equip 2 = strAt model.equip 2) ∧
    (level ≤ 3 → strAt m.equip 1 = strAt model.equip 1) ∧
    (level = 1 → m.equip = model.equip) ∧
    (a = true → afterFirst ' ' e.1 = airline)

/-- The ten sub-passes of Phase B in the order of the specification: airline
flag and equipment level. -/
def subPassOrder : List (Bool × Int) :=
  [(true, 1), (true, 2), (false, 1), (false, 2), (true, 3), (true, 4), (false, 3),
    (false, 4), (true, 5), (false, 5)]

/-- The table that a sub-pass of Phase B scans in a package: the ICAO+airline
table for an airline sub-pass, the ICAO-only table otherwise. -/
def phaseBTable (pckg : CSLPackage_t) (a : Bool) : StrMap Int :=
  pckg.matches_ (if a then match_icao_airline else match_icao)

/-- The sub-pass `megaPass` is skipped for the query: it asks for the airline
and the query has none. -/
def subPassSkipped (inAirline : Option Str) (megaPass : Nat) : Prop :=
  (megaPassFlags megaPass).1 = true ∧ inAirline.getD [] = []

/-- The sub-pass `megaPass` accepts no candidate of the package. -/
def packageRejected (g : Globals) (model : CSLAircraftCode_t) (inAirline : Option Str)
    (megaPass : Nat) (pckg : CSLPackage_t) : Prop :=
  ∀ x ∈ phaseBTable pckg (megaPassFlags megaPass).1,
    phaseB.entry g model (megaPassFlags megaPass).2 (megaPassFlags megaPass).1
      (inAirline.getD []) pckg x = some false

/-- The guarded insertions of a list of table and key pairs, in order. -/
def CSLPackage_t.addMatches (package : CSLPackage_t) (keys : List (Nat × Str)) : CSLPackage_t :=
  keys.foldl (fun p tk => p.addMatch tk.1 tk.2) package

/-- The table and key pairs that the ICAO command with these arguments indexes:
the ICAO key and, for a non-empty group label, the group key. -/
def icaoKeys (g : Globals) : List Str → List (Nat × Str)
  | [icao] =>
    (match_icao, icao) ::
      (if g.groupOf icao ≠ [] then [(match_group, g.groupOf icao)] else [])
  | _ => []

/-- The table and key pairs that the AIRLINE command with these arguments
indexes. -/
def airlineKeys (g : Globals) : List Str → List (Nat × Str)
  | [icao, airline] =>
    (match_icao_airline, icao ++ [' '] ++ airline) ::
      (if g.groupOf icao ≠ [] then
        [(match_group_airline, g.groupOf icao ++ [' '] ++ airline)] else [])
  | _ => []

/-- The table and key pairs that the LIVERY command with these arguments
indexes. -/
def liveryKeys (g : Globals) : List Str → List (Nat × Str)
  | [icao, airline, livery] =>
    (match_icao_airline_livery, icao ++ [' '] ++ airline ++ [' '] ++ livery) ::
      (if g.groupOf icao ≠ [] then
        [(match_group_airline_livery,
          g.groupOf icao ++ [' '] ++ airline ++ [' '] ++ livery)] else [])
  | _ => []

/-- The table and key pairs that a tokenized line produces: those of its
identity command, none for any other line. -/
def identityKeys (g : Globals) : List Str → List (Nat × Str)
  | [] => []
  | keyword :: args =>
    if keyword = "ICAO".toList then icaoKeys g args
    else if keyword = "AIRLINE".toList then airlineKeys g args
    else if keyword = "LIVERY".toList then liveryKeys g args
    else []

/-- The tokens of a line as `ParseFullPackage` sees them: none for a line that
is blank after trimming or starts with `#`. -/
def lineTokens (raw : Str) : List Str :=
  if trim raw = [] ∨ (trim raw).head? = some '#' then [] else tokenize (trim raw) tokenSeparators

/-- What a table lookup gives after a line that produces `keys`: the index
already stored, else the index of the last plane for a key that is produced. -/
def findAfter (st : ParseState) (keys : List (Nat × Str)) (t : Nat) (k : Str) : Option Int :=
  match StrMap.find k (st.package.matches_ t) with
  | some i => some i
  | none => if (t, k) ∈ keys then some ((st.package.planes.length : Int) - 1) else none

/-- The handler leaves the match tables as they are. -/
def KeepsMatches (handler : Handler) : Prop :=
  ∀ (g : Globals) (tokens : List Str) (st : ParseState) (path : Str) (lineNum : Nat)
    (line : Str) (r : Bool × ParseState),
    handler g tokens st path lineNum line = some r → r.2.package.matches_ = st.package.matches_

/-- The index `idx` is that of the first plane under which an identity command
produced `key` for table `t`: some line `raw` of `lines` produces the key, no
line before it does, and `idx` is the index of the last plane declared when
`raw` is reached (`stPre` is the state before that line). -/
def FirstProducer (g : Globals) (path : Str) (lines : List Str) (lineNum : Nat)
    (st : ParseState) (t : Nat) (key : Str) (idx : Int) : Prop :=
  ∃ pre raw post stPre, lines = pre ++ raw :: post ∧
    ParseFullPackage.lines g path pre lineNum st = some stPre ∧
    (∀ r ∈ pre, (t, key) ∉ identityKeys g (lineTokens r)) ∧
    (t, key) ∈ identityKeys g (lineTokens raw) ∧
    stPre.package.planes ≠ [] ∧
    idx = (stPre.package.planes.length : Int) - 1

/-- A token of a declaration line: not empty and free of white space. -/
def IsToken (w : Str) : Prop := w ≠ [] ∧ ∀ c ∈ w, isspace c = false

/-- The tokens of a line written with single spaces between them. -/
def spaced : List Str → Str
  | [] => []
  | [w] => w
  | w :: v :: ws => w ++ ' ' :: spaced (v :: ws)

/-- A declaration text: one line per token list, the tokens separated by single
spaces, every line ended by a newline. -/
def textOf : List (List Str) → Str
  | [] => []
  | ws :: rest => spaced ws ++ '\n' :: textOf rest

/-- The plane that `OBJ8_AIRCRAFT` declares in a package with this root path. -/
def obj8Plane (packagePath obj : Str) : CSLPlane_t :=
  { CSLPlane_t.default with
    dirNames := [afterLast '/' packagePath]
    objectName := obj
    plane_type := PlaneType.plane_Obj8
    file_path := obj
    moving_gear := true
    texID := 0
    texLitID := 0
    obj_idx := -1 }

/-- The tokens are the maximal runs of non-separator characters of the line,
from left to right: the line is a gap of separators, or a gap, a run that is
not empty and has no separator, and a rest that is empty or starts with a
separator and holds the other runs. -/
inductive MaximalRuns (seps : Str) : Str → List Str → Prop
  | done (gap : Str) : (∀ c ∈ gap, seps.contains c = true) → MaximalRuns seps gap []
  | run (gap word rest : Str) (ts : List Str) :
      (∀ c ∈ gap, seps.contains c = true) → word ≠ [] →
      (∀ c ∈ word, seps.contains c = false) →
      (∀ c, rest.head? = some c → seps.contains c = true) →
      MaximalRuns seps rest ts → MaximalRuns seps (gap ++ word ++ rest) (word :: ts)

/-- The line from the first character of its word number `n + 1` on: `n` times
a gap of separators and a word are passed over, then a gap. -/
def fromWord (seps : Str) : Nat → Str → Str
  | 0, s => s.dropWhile fun c => seps.contains c
  | n + 1, s =>
    fromWord seps n
      ((s.dropWhile fun c => seps.contains c).dropWhile fun c => !seps.contains c)

/-- The plane that `AIRCRAFT` declares for the resolved path: a legacy engine
model with moving gear and the engine index unresolved. -/
def austinPlane (absolutePath : Str) : CSLPlane_t :=
  { CSLPlane_t.default with
    plane_type := PlaneType.plane_Austin
    file_path := absolutePath
    moving_gear := true
    austin_idx := -1 }

/-- What the commands read of a parse state: the package under construction
and the message counters. The log is only written to. -/
def ParseState.core (st : ParseState) : CSLPackage_t × MsgCntTy := (st.package, st.MsgCnt)

/-- The handler reads nothing but the catalog, the tokens, the package and the
counters: file path, line number, line and log only go into the log. -/
def ReadsCoreOnly (handler : Handler) : Prop :=
  ∀ (g : Globals) (tokens : List Str) (st st2 : ParseState) (path path2 : Str)
    (lineNum lineNum2 : Nat) (line line2 : Str), st.core = st2.core →
    (handler g tokens st path lineNum line).map (fun r => (r.1, r.2.core)) =
      (handler g tokens st2 path2 lineNum2 line2).map (fun r => (r.1, r.2.core))

/-- The handler leaves the name and the root path of the package as they are. -/
def KeepsHeader (handler : Handler) : Prop :=
  ∀ (g : Globals) (tokens : List Str) (st : ParseState) (path : Str) (lineNum : Nat)
    (line : Str) (r : Bool × ParseState), handler g tokens st path lineNum line = some r →
    r.2.package.name = st.package.name ∧ r.2.package.path = st.package.path

/-- The text made of the given lines, each ended by a newline. -/
def linesText : List Str → Str
  | [] => []
  | l :: ls => l ++ '\n' :: linesText ls

/-- The declaration file of a package directory. -/
def declarationFile (packagePath : Str) : Str :=
  packagePath ++ "/".toList ++ "xsb_aircraft.txt".toList

/-- The package has a header that the header loop of a load accepts over the
catalog `gPackages`: its declaration file exists, no package of the catalog has
its path, and a line of the file is `EXPORT_NAME` with the name of the package
as its only argument, a name that is not empty and that no package of the
catalog has. -/
def HeaderAccepted (h : Host) (gPackages : List CSLPackage_t) (p : CSLPackage_t) : Prop :=
  h.DoesFileExist (declarationFile p.path) = true ∧
  isPackageAlreadyLoaded gPackages p.path = false ∧
  p.name ≠ [] ∧ (∀ q ∈ gPackages, q.name ≠ p.name) ∧
  ∃ line ∈ getlines (h.GetFileContent (declarationFile p.path)),
    tokenize line tokenSeparators = ["EXPORT_NAME".toList, p.name]

/-- One call of `CSL_LoadCSL`: the host at the time of the call and the three
arguments. -/
structure LoadCall where
  host : Host
  inFolderPath : Str
  inRelatedFile : Str
  inDoc8643 : Str

/-- A sequence of calls of `CSL_LoadCSL`, each on the state that the call
before it left. -/
def loadCalls : List LoadCall → LoadState → Option LoadState
  | [], s => some s
  | c :: rest, s =>
    match CSL_LoadCSL c.host s c.inFolderPath c.inRelatedFile c.inDoc8643 with
    | none => none
    | some r => loadCalls rest r.2

/-- A line that `ParseFullPackage` does not act on: empty after trimming, a
comment (first character `#` after trimming), or a line whose first token is no
keyword of the full command table or is `EXPORT_NAME`. -/
def InertLine (raw : Str) : Prop :=
  trim raw = [] ∨ (trim raw).head? = some '#' ∨
    ∀ keyword args, tokenize (trim raw) tokenSeparators = keyword :: args →
      fullCommands keyword = none ∨ keyword = "EXPORT_NAME".toList

/-- The answers of `showAfterInc` to a sequence of occurrences of message
kinds, in order, and the counters after them. -/
def showAll : List msgCntE → MsgCntTy → List Bool × MsgCntTy
  | [], m => ([], m)
  | e :: es, m => ((m.showAfterInc e).1 :: (showAll es (m.showAfterInc e).2).1,
      (showAll es (m.showAfterInc e).2).2)

/-- Every index that a lookup in a match table of the package gives is the
index of a plane of the package. -/
def IndicesValid (p : CSLPackage_t) : Prop :=
  ∀ (t : Nat) (k : Str) (i : Int), StrMap.find k (p.matches_ t) = some i →
    0 ≤ i ∧ i < (p.planes.length : Int)

/-- The handler does not take planes away. -/
def KeepsPlanes (handler : Handler) : Prop :=
  ∀ (g : Globals) (tokens : List Str) (st : ParseState) (path : Str) (lineNum : Nat)
    (line : Str) (r : Bool × ParseState), handler g tokens st path lineNum line = some r →
    st.package.planes.length ≤ r.2.package.planes.length

/-- The tokens of a row of the related file. -/
def groupTokens (row : Str) : List Str := BreakStringPvt row 0 tokenSeparators

/-- What a row of the related file writes under the key `k`: for a row that
does not start with `;` and has `k` among its tokens, the tokens of the row
joined by single blanks. -/
def groupWritten (k : Str) (row : Str) : Option Str :=
  if row.head? ≠ some ';' ∧ k ∈ groupTokens row then
    some (List.intercalate [' '] (groupTokens row))
  else none

/-- The value that the last row which writes gives, or else the value found
before the rows. -/
def lastWritten {α : Type} (written : Str → Option α) (rows : List Str) (before : Option α) :
    Option α :=
  (rows.reverse.findSome? written).or before

/-- Every label of the table is not empty and has its key as one of its parts
between blanks. -/
def GroupLabelsJoined (m : StrMap Str) : Prop :=
  ∀ k label, StrMap.find k m = some label →
    label ≠ [] ∧ k ∈ BreakStringPvt label 0 [' '] ∧ label.head? ≠ some ' '

/-- Every label of the table that is not empty does not start with a blank and
has its key as one of its parts between blanks. -/
def GroupLabelsJoinedOrEmpty (m : StrMap Str) : Prop :=
  ∀ k label, StrMap.find k m = some label → label ≠ [] →
    k ∈ BreakStringPvt label 0 [' '] ∧ label.head? ≠ some ' '

/-- The other character of a line end of two characters: `\n` for `\r` and
`\r` for `\n`. -/
def lineEndPartner (c : Char) : Char := if c = '\r' then '\n' else '\r'

/-- The segments of a text between its line ends, where each of `\r\n`,
`\n\r`, `\n` and `\r` is one line end, read from the left. `skip` is the
partner of a line end character just read, which is passed over when it comes
next. A last segment without a line end counts when it is not empty. -/
def lineSegments.go : Option Char → Str → List Str
  | _, [] => []
  | skip, c :: rest =>
    if skip = some c then lineSegments.go none rest
    else if c = '\n' ∨ c = '\r' then [] :: lineSegments.go (some (lineEndPartner c)) rest
    else
      match lineSegments.go none rest with
      | [] => [[c]]
      | l :: ls => (c :: l) :: ls

/-- The segments of a text between its line ends. -/
def lineSegments (text : Str) : List Str := lineSegments.go none text

/-- A line without the line end character that may end it. -/
def chomp (line : Str) : Str :=
  if line.getLast? = some '\n' ∨ line.getLast? = some '\r' then line.dropLast else line

/-- The fields of a text by position: the parts between the characters that
`isSep` holds of, empty parts included, so that a text with `n` such
characters has `n + 1` fields. -/
def fieldsBy (isSep : Char → Bool) : Str → List Str
  | [] => [[]]
  | c :: rest =>
    if isSep c then [] :: fieldsBy isSep rest
    else
      match fieldsBy isSep rest with
      | [] => [[c]]
      | f :: fs => (c :: f) :: fs

/-- The row has no line end character before its last character, as every line
that the line reader gives. -/
def RowOfReader (row : Str) : Prop := ∀ c ∈ chomp row, c ≠ '\n' ∧ c ≠ '\r'

instance RowOfReader.decidable (row : Str) : Decidable (RowOfReader row) :=
  inferInstanceAs (Decidable (∀ c ∈ chomp row, c ≠ '\n' ∧ c ≠ '\r'))

/-- The rest of a file after the partner of the line end character `c`, when
the rest starts with it. -/
def afterPartner (c : Char) (rest : Str) : Str :=
  if rest.head? = some (lineEndPartner c) then rest.tail else rest

/-- The line `line` as read is the segment `seg` of the text: the segment has
no line end character, and the line is the segment, followed by the first
character of its line end when it has one. -/
def LineOfSegment (line seg : Str) : Prop :=
  (∀ c ∈ seg, c ≠ '\n' ∧ c ≠ '\r') ∧
    (line = seg ∨ line = seg ++ ['\n'] ∨ line = seg ++ ['\r'])

/-- The package is built by the parser: it is the package that
`ParseFullPackage` gives for some declaration text, from a package with empty
match tables (as the header scan gives), under a grouping table whose labels,
when they are not empty, are joined tokens. -/
def ParsedPackage (p : CSLPackage_t) : Prop :=
  ∃ (g0 : Globals) (content : Str) (st0 st1 : ParseState),
    (∀ t, st0.package.matches_ t = []) ∧ GroupLabelsJoinedOrEmpty g0.gGroupings ∧
    ParseFullPackage g0 content st0 = some st1 ∧ p = st1.package

/-- The key of pass `n` when a pass that uses the group is skipped for an empty
group, as the spec words it. -/
def passKeySkipping (icao group airline livery : Str) (n : Nat) : Option Str :=
  if kUseICAO n = 0 ∧ group = [] then none else passKey icao group airline livery n

/-- Phase A as the spec words it: the loop over the passes with
`passKeySkipping` in the place of `passKey`. -/
def phaseASkipping.passes (g : Globals) (icao group airline livery : Str) :
    Nat → Nat → Option (Option (Nat × Nat × Nat))
  | 0, _ => some none
  | count + 1, n =>
    match passKeySkipping icao group airline livery n with
    | none => phaseASkipping.passes g icao group airline livery count (n + 1)
    | some key =>
      match phaseA.packages g.total n key g.gPackages 0 with
      | none => none
      | some (some r) => some (some (n, r.1, r.2))
      | some none => phaseASkipping.passes g icao group airline livery count (n + 1)

/-- Phase A as the spec words it: the passes 0 to `match_count - 1`, without
the passes that use an empty group. -/
def phaseASkipping (g : Globals) (inICAO : Str) (inAirline inLivery : Option Str) :
    Option (Option (Nat × Nat × Nat)) :=
  phaseASkipping.passes g inICAO ((StrMap.find inICAO g.gGroupings).getD [])
    (inAirline.getD []) (inLivery.getD []) match_count 0

/-! ## Sample data -/

/-- A modern-object plane with the given identity. -/
def samplePlane (icao airline livery : Str) : CSLPlane_t :=
  { CSLPlane_t.default with
    plane_type := PlaneType.plane_Obj8, file_path := "model.obj".toList, moving_gear := true,
    icao := icao, airline := airline, livery := livery }

/-- A package with an ICAO+airline entry and its group-level entry only. -/
def sampleGroupPackage : CSLPackage_t :=
  { name := "Beta".toList, path := "/xp/csl/Beta".toList,
    planes := [samplePlane "B737".toList "AAL".toList []],
    matches_ := fun n =>
      if n = 1 then [("B737 AAL".toList, 0)]
      else if n = 3 then [("B737 B738 AAL".toList, 0)]
      else [] }

/-- A package with an exact ICAO+airline+livery entry for its second plane. -/
def sampleExactPackage : CSLPackage_t :=
  { name := "Alpha".toList, path := "/xp/csl/Alpha".toList,
    planes := [samplePlane "B737".toList [] [],
      samplePlane "B738".toList "AAL".toList "RETRO".toList],
    matches_ := fun n =>
      if n = 0 then [("B738 AAL RETRO".toList, 1)]
      else if n = 2 then [("B737 B738 AAL RETRO".toList, 1)]
      else if n = 5 then [("B737".toList, 0)]
      else if n = 7 then [("B737 B738".toList, 0)]
      else [] }

/-- A package with one ICAO+airline entry and one ICAO-only entry for B738. -/
def sampleAirlinePackage : CSLPackage_t :=
  { name := "Gamma".toList, path := "/xp/csl/Gamma".toList,
    planes := [samplePlane "B738".toList "AAL".toList []],
    matches_ := fun n =>
      if n = 1 then [("B738 AAL".toList, 0)]
      else if n = 5 then [("B738".toList, 0)]
      else [] }

/-- A package without planes or identity entries. -/
def sampleEmptyPackage : CSLPackage_t :=
  { name := "Empty".toList, path := "/xp/csl/Empty".toList, planes := [], matches_ := fun _ => [] }

/-- A package whose only identity entry is the ICAO-only entry of B738. -/
def sampleIcaoPackage : CSLPackage_t :=
  { name := "Delta".toList, path := "/xp/csl/Delta".toList,
    planes := [samplePlane "B738".toList [] []],
    matches_ := fun n => if n = match_icao then [("B738".toList, 0)] else [] }

/-- A parse state around the given package, with reset counters and an empty log. -/
def sampleState (package : CSLPackage_t) : ParseState :=
  { package := package, MsgCnt := { cnt := fun _ => 0 }, log := [] }

/-- A declaration text in which two planes declare the same ICAO. -/
def sampleContent : Str :=
  "# two planes\nOBJ8_AIRCRAFT first.obj\nICAO B738\nOBJ8_AIRCRAFT second.obj\nICAO B738\n".toList

/-- Process state with the given catalog: B737 and B738 grouped together,
aircraft codes for A320 and B738, default ICAO A320. -/
def sampleGlobals (pkgs : List CSLPackage_t) : Globals :=
  { gPackages := pkgs
    gGroupings := [("B737".toList, "B737 B738".toList), ("B738".toList, "B737 B738".toList)]
    gAircraftCodes := [("A320".toList, ⟨"2JT".toList, 'M'⟩), ("B738".toList, ⟨"2JT".toList, 'M'⟩)]
    gDefaultPlane := "A320".toList
    total := 1
    sim := 1100
    xsystem := "/xp/".toList
    OBJ_DefaultModel := fun s => s
    OBJ_GetLitTextureByTexture := fun s => s }

/-- The sample line of the tokenizer. -/
def sampleLine : Str := "OBJ8 LIGHTS YES a/b c.obj extra".toList

/-- A host with the package directories `A`, `B` and `C` under `/csl`: the
declaration files of `A` and `B` both declare the name `X`, `C` has no
declaration file. -/
def sampleHost : Host :=
  { fopen := fun f =>
      if f = "/doc8643.txt".toList then some "A\tB\tB738\tL2J\tM\n".toList
      else if f = "/related.txt".toList then some "B737 B738\n".toList
      else none
    XPLMGetDirectoryContents := fun _ => ["A".toList, "B".toList, "C".toList]
    DoesFileExist := fun f =>
      f = "/csl/A/xsb_aircraft.txt".toList || f = "/csl/B/xsb_aircraft.txt".toList
    GetFileContent := fun f =>
      if f = "/csl/A/xsb_aircraft.txt".toList then
        "EXPORT_NAME X\nOBJ8_AIRCRAFT X/a.obj\nICAO B738\n".toList
      else if f = "/csl/B/xsb_aircraft.txt".toList then "EXPORT_NAME X\n".toList
      else [] }

/-- A process state with the given catalog, empty reference tables, reset
counters and an empty log. -/
def sampleLoadState (pkgs : List CSLPackage_t) : LoadState :=
  { g := { sampleGlobals pkgs with gGroupings := [], gAircraftCodes := [] }
    MsgCnt := { cnt := fun _ => 0 }
    log := [] }

/-- One load of the directory `/csl` of the sample host into the given
catalog. -/
def sampleLoad (pkgs : List CSLPackage_t) : Option (Bool × LoadState) :=
  CSL_LoadCSL sampleHost (sampleLoadState pkgs) "/csl".toList "/related.txt".toList
    "/doc8643.txt".toList

/-- A package that is in the catalog before the sample load, with the root
path of the directory `A` of the sample host. -/
def sampleLoadedPackage : CSLPackage_t :=
  { name := "Old".toList, path := "/csl/A".toList, planes := [], matches_ := fun _ => [] }

/-- The call of the sample load. -/
def sampleCall : LoadCall :=
  { host := sampleHost, inFolderPath := "/csl".toList, inRelatedFile := "/related.txt".toList,
    inDoc8643 := "/doc8643.txt".toList }

/-- A declaration text whose first command is an identity command: no plane is
declared before it. -/
def sampleOrphanContent : Str := "ICAO B738\n".toList

/-- A declaration text whose identity command comes after an `AIRCRAFT` line
with a version range below the host version of the sample state. -/
def sampleOrphanRangeContent : Str := "AIRCRAFT 700 800 Delta/x.acf\nICAO B738\n".toList

/-- A declaration text with three `VERT_OFFSET` commands that lack their
argument, after a plane declaration. -/
def sampleThrottleContent : Str :=
  "OBJ8_AIRCRAFT a.obj\nVERT_OFFSET\nVERT_OFFSET\nVERT_OFFSET\n".toList

/-- Rows of an aircraft code document: B738 with the equipment string `L2J`,
and ZZZZ with an equipment string of one character. -/
def sampleShortEquipRows : List Str :=
  ["X\tY\tB738\tL2J\tM\n".toList, "X\tY\tZZZZ\t-\tM\n".toList]

/-- Process state whose catalog is the package with the ICAO-only entry of
B738, without groups, and with the aircraft codes loaded from the rows above. -/
def sampleShortEquipGlobals : Globals :=
  { sampleGlobals [sampleIcaoPackage] with
    gGroupings := []
    gAircraftCodes := sampleShortEquipRows.foldl loadAircraftCode [] }

/-- Process state with the given catalog, without groups, and with aircraft
codes for two pairs of types of equal equipment and weight: B737 and B738, C47
and DC3. -/
def sampleRecoveryGlobals (pkgs : List CSLPackage_t) : Globals :=
  { sampleGlobals pkgs with
    gGroupings := []
    gAircraftCodes := [("B737".toList, ⟨"L2J".toList, 'M'⟩), ("B738".toList, ⟨"L2J".toList, 'M'⟩),
      ("C47".toList, ⟨"L2P".toList, 'M'⟩), ("DC3".toList, ⟨"L2P".toList, 'M'⟩)] }

/-- The package that `ParseFullPackage` builds from a declaration text, the
empty package when the parse has no defined result. -/
def sampleParsed (content : Str) : CSLPackage_t :=
  ((ParseFullPackage (sampleRecoveryGlobals []) content (sampleState sampleEmptyPackage)).map
    (fun st => st.package)).getD sampleEmptyPackage

/-- A declaration text with one plane declared with AIRLINE for the
three-character type DC3. -/
def sampleShortIcaoContent : Str := "OBJ8_AIRCRAFT a.obj\nAIRLINE DC3 KLM\n".toList

/-- A declaration text with one plane declared with AIRLINE for the
four-character type B738. -/
def sampleLongIcaoContent : Str := "OBJ8_AIRCRAFT a.obj\nAIRLINE B738 KLM\n".toList

/-- A declaration text with a modern-object plane and three sub-objects: two of
role `LIGHTS` and one of role `SOLID`. -/
def sampleLightsContent : Str :=
  ("OBJ8_AIRCRAFT Delta/a.obj\nOBJ8 LIGHTS YES Delta/lights.obj\n" ++
    "OBJ8 SOLID YES Delta/body.obj\nOBJ8 LIGHTS NO Delta/more.obj\n").toList

/-! # Theorems -/

/-! ## Handlers and the package under construction -/

@[simp] theorem ParseState.warn_package (st : ParseState) (path : Str) (lineNum : Nat)
    (line : Str) (text : DiagText) : (st.warn path lineNum line text).package = st.package := rfl

@[simp] theorem ParseState.warnCounted_package (st : ParseState) (e : msgCntE) (path : Str)
    (lineNum : Nat) (line : Str) (text : DiagText) :
    (st.warnCounted e path lineNum line text).package = st.package := by
  simp only [ParseState.warnCounted]
  split <;> rfl

theorem CSLPackage_t.modifyBack_eq_some {package package1 : CSLPackage_t}
    {f : CSLPlane_t → CSLPlane_t} (h : package.modifyBack f = some package1) :
    ∃ front back, package.planes = front ++ [back] ∧
      package1 = { package with planes := front ++ [f back] } := by
  unfold CSLPackage_t.modifyBack at h
  split at h
  · cases h
  · rename_i pl hpl
    refine ⟨package.planes.dropLast, pl, ?_, ?_⟩
    · exact (List.dropLast_append_getLast? pl hpl).symm
    · cases h; rfl

theorem ParseObj8Command_rejects (g : Globals) (tokens : List Str) (st : ParseState)
    (path : Str) (lineNum : Nat) (line : Str) :
    (st.package.planes = [] ∨
        ∃ back, st.package.planes.getLast? = some back ∧
          back.plane_type ≠ PlaneType.plane_Obj8) →
      ∃ st1, ParseObj8Command g tokens st path lineNum line = some (false, st1) ∧
        st1.package = st.package := by
  intro h
  unfold ParseObj8Command
  split
  · exact ⟨_, rfl, rfl⟩
  · simp only []
    split
    · rename_i hl
      refine ⟨_, rfl, ?_⟩
      split <;> simp
    · rename_i back hb
      have hp : (if tokens.length > 4 then
          st.warnCounted msgCntE.OBJ8_tooManyArgs path lineNum line DiagText.obj8TooManyArgs
          else st).package = st.package := by split <;> simp
      rw [hp] at hb
      rcases h with h | ⟨b, hb1, hb2⟩
      · rw [h] at hb; cases hb
      · rw [hb1] at hb; cases hb
        rw [if_pos hb2]
        exact ⟨_, rfl, hp⟩

theorem ParseObj8Command_effect (g : Globals) (tokens : List Str) (st : ParseState)
    (path : Str) (lineNum : Nat) (line : Str) :
    ∀ ok st1, ParseObj8Command g tokens st path lineNum line = some (ok, st1) →
      st1.package = st.package ∨
      ∃ front back att, st.package.planes = front ++ [back] ∧
        back.plane_type = PlaneType.plane_Obj8 ∧
        st1.package = { st.package with
          planes := front ++ [{ back with attachments := back.attachments ++ [att] }] } := by
  intro ok st1 h
  unfold ParseObj8Command at h
  have hp : (if tokens.length > 4 then
      st.warnCounted msgCntE.OBJ8_tooManyArgs path lineNum line DiagText.obj8TooManyArgs
      else st).package = st.package := by split <;> simp
  split at h
  · cases h; exact Or.inl rfl
  · simp only [] at h
    split at h
    · cases h; exact Or.inl hp
    · rename_i back hb
      split at h
      · cases h; exact Or.inl hp
      · rename_i hty
        split at h
        · rename_i t1 t2 t3 h1 h2 h3
          split at h
          · cases h; left
            simp only [ParseState.warn_package]
            split <;> simp [hp]
          · split at h
            · cases h
            · rename_i package hm
              cases h
              obtain ⟨front, bk, hfront, hpk⟩ := CSLPackage_t.modifyBack_eq_some hm
              have hp2 : (if t1 = "SOLID".toList then (if tokens.length > 4 then
                  st.warnCounted msgCntE.OBJ8_tooManyArgs path lineNum line DiagText.obj8TooManyArgs
                  else st) else (if tokens.length > 4 then
                  st.warnCounted msgCntE.OBJ8_tooManyArgs path lineNum line DiagText.obj8TooManyArgs
                  else st).warnCounted msgCntE.OBJ8_invalidParts path lineNum line
                    (DiagText.obj8InvalidParts t1)).package = st.package := by
                split <;> simp [hp]
              rw [hp2] at hfront hpk
              rw [hp] at hb
              right
              refine ⟨front, bk, _, hfront, ?_, hpk⟩
              rw [hfront] at hb
              simp at hb
              subst hb
              simpa using hty
        · cases h

/-- Claim C10 (sub-object sequencing). When the plane list is empty or the most
recently declared plane is not of kind modern-object, `ParseObj8Command` returns
failure for every token list and leaves the package (every plane, every
attachment list, every match table) unchanged. Whatever the state, a call either
leaves the package unchanged or appends exactly one attachment to the last
plane, which is then of kind modern-object. -/
theorem ParseObj8Command_sequencing (g : Globals) (tokens : List Str) (st : ParseState)
    (path : Str) (lineNum : Nat) (line : Str) :
    ((st.package.planes = [] ∨
        ∃ back, st.package.planes.getLast? = some back ∧
          back.plane_type ≠ PlaneType.plane_Obj8) →
      ∃ st1, ParseObj8Command g tokens st path lineNum line = some (false, st1) ∧
        st1.package = st.package) ∧
    (∀ ok st1, ParseObj8Command g tokens st path lineNum line = some (ok, st1) →
      st1.package = st.package ∨
      ∃ front back att, st.package.planes = front ++ [back] ∧
        back.plane_type = PlaneType.plane_Obj8 ∧
        st1.package = { st.package with
          planes := front ++ [{ back with attachments := back.attachments ++ [att] }] }) :=
  ⟨ParseObj8Command_rejects g tokens st path lineNum line,
    ParseObj8Command_effect g tokens st path lineNum line⟩

theorem ParseObj8Command_sequencing_witness :
    (∃ st1, ParseObj8Command (sampleGlobals [sampleEmptyPackage])
        ["OBJ8".toList, "SOLID".toList, "YES".toList, "Empty/a.obj".toList]
        (sampleState sampleEmptyPackage) [] 1 [] = some (false, st1) ∧
      st1.package = sampleEmptyPackage) ∧
    ∃ front back att, sampleIcaoPackage.planes = front ++ [back] ∧
      back.plane_type = PlaneType.plane_Obj8 ∧
      ({ sampleIcaoPackage with
          planes := [{ samplePlane "B738".toList [] [] with
            attachments := [⟨some DrawType.draw_solid, some true, "csl/Delta/a.obj".toList⟩] }] } :
        CSLPackage_t) =
        { sampleIcaoPackage with
          planes := front ++ [{ back with attachments := back.attachments ++ [att] }] } :=
  ⟨(ParseObj8Command_sequencing (sampleGlobals [sampleEmptyPackage])
      ["OBJ8".toList, "SOLID".toList, "YES".toList, "Empty/a.obj".toList]
      (sampleState sampleEmptyPackage) [] 1 []).1 (Or.inl rfl),
   ((ParseObj8Command_sequencing (sampleGlobals [sampleIcaoPackage])
      ["OBJ8".toList, "SOLID".toList, "YES".toList, "Delta/a.obj".toList]
      (sampleState sampleIcaoPackage) [] 1 []).2 true
      (sampleState { sampleIcaoPackage with
          planes := [{ samplePlane "B738".toList [] [] with
            attachments := [⟨some DrawType.draw_solid, some true, "csl/Delta/a.obj".toList⟩] }] })
      rfl).resolve_left (by
        intro h
        have := congrArg CSLPackage_t.planes h
        revert this
        decide)⟩

/-! ## Match tables under the handlers -/


theorem StrMap.find_assign {α : Type} (k : Str) (v : α) (k1 : Str) :
    ∀ m : StrMap α, StrMap.find k1 (StrMap.assign k v m) =
      if k = k1 then some v else StrMap.find k1 m
  | [] => by simp [StrMap.assign, StrMap.find]
  | (k0, v0) :: rest => by
    unfold StrMap.assign
    by_cases h0 : k0 = k
    · subst h0
      simp only [if_true, StrMap.find]
      by_cases h1 : k0 = k1 <;> simp [h1]
    · simp only [h0, if_false]
      by_cases hl : strLess k k0 = true
      · simp only [hl, if_true, StrMap.find]
      · simp only [hl, if_false, StrMap.find]
        by_cases h1 : k0 = k1
        · subst h1
          simp only [if_true]
          rw [if_neg (fun h => h0 h.symm)]
        · simp only [h1, if_false]
          exact StrMap.find_assign k v k1 rest

theorem CSLPackage_t.addMatch_of_present {package : CSLPackage_t} {t : Nat} {k : Str} {i : Int}
    (h : StrMap.find k (package.matches_ t) = some i) : package.addMatch t k = package := by
  simp [CSLPackage_t.addMatch, StrMap.count, h]

theorem CSLPackage_t.addMatch_of_absent {package : CSLPackage_t} {t : Nat} {k : Str}
    (h : StrMap.find k (package.matches_ t) = none) :
    package.addMatch t k = package.setMatch t k ((package.planes.length : Int) - 1) := by
  simp [CSLPackage_t.addMatch, StrMap.count, h]

theorem CSLPackage_t.addMatch_planes (package : CSLPackage_t) (t : Nat) (k : Str) :
    (package.addMatch t k).planes = package.planes := by
  unfold CSLPackage_t.addMatch CSLPackage_t.setMatch
  split <;> rfl

theorem CSLPackage_t.addMatch_find (package : CSLPackage_t) (t : Nat) (k : Str) (t1 : Nat)
    (k1 : Str) :
    StrMap.find k1 ((package.addMatch t k).matches_ t1) =
      match StrMap.find k1 (package.matches_ t1) with
      | some i => some i
      | none =>
        if t1 = t ∧ k1 = k then some ((package.planes.length : Int) - 1) else none := by
  cases hp : StrMap.find k (package.matches_ t) with
  | some i =>
    rw [CSLPackage_t.addMatch_of_present hp]
    cases h1 : StrMap.find k1 (package.matches_ t1) with
    | some j => rfl
    | none =>
      simp only []
      rw [if_neg]
      rintro ⟨rfl, rfl⟩
      rw [h1] at hp
      cases hp
  | none =>
    rw [CSLPackage_t.addMatch_of_absent hp]
    unfold CSLPackage_t.setMatch
    simp only []
    by_cases ht : t1 = t
    · subst ht
      rw [Function.update_same, StrMap.find_assign]
      by_cases hk : k = k1
      · subst hk
        rw [hp]
        simp
      · rw [if_neg hk]
        cases h1 : StrMap.find k1 (package.matches_ t1) with
        | some j => rfl
        | none =>
          simp only []
          rw [if_neg (fun h => hk h.2.symm)]
    · rw [Function.update_noteq ht]
      cases h1 : StrMap.find k1 (package.matches_ t1) with
      | some j => rfl
      | none =>
        simp only []
        rw [if_neg (fun h => ht h.1)]

theorem CSLPackage_t.addMatches_planes (keys : List (Nat × Str)) :
    ∀ package : CSLPackage_t, (package.addMatches keys).planes = package.planes := by
  induction keys with
  | nil => intro _; rfl
  | cons a rest ih =>
    intro package
    show ((package.addMatch a.1 a.2).addMatches rest).planes = _
    rw [ih, CSLPackage_t.addMatch_planes]

theorem CSLPackage_t.addMatches_find (keys : List (Nat × Str)) (t1 : Nat) (k1 : Str) :
    ∀ package : CSLPackage_t,
    StrMap.find k1 ((package.addMatches keys).matches_ t1) =
      match StrMap.find k1 (package.matches_ t1) with
      | some i => some i
      | none =>
        if (t1, k1) ∈ keys then some ((package.planes.length : Int) - 1) else none := by
  induction keys with
  | nil =>
    intro package
    show StrMap.find k1 (package.matches_ t1) = _
    cases StrMap.find k1 (package.matches_ t1) <;> simp
  | cons a rest ih =>
    intro package
    show StrMap.find k1 (((package.addMatch a.1 a.2).addMatches rest).matches_ t1) = _
    rw [ih, CSLPackage_t.addMatch_find, CSLPackage_t.addMatch_planes]
    cases h1 : StrMap.find k1 (package.matches_ t1) with
    | some i => rfl
    | none =>
      simp only []
      by_cases ha : t1 = a.1 ∧ k1 = a.2
      · have hmem : (t1, k1) ∈ a :: rest := by
          obtain ⟨rfl, rfl⟩ := ha
          exact List.mem_cons_self _ _
        rw [if_pos ha, if_pos hmem]
      · rw [if_neg ha]
        simp only []
        have hiff : (t1, k1) ∈ a :: rest ↔ (t1, k1) ∈ rest := by
          constructor
          · intro h
            rcases List.mem_cons.1 h with h | h
            · exfalso; apply ha; rw [← h]; exact ⟨rfl, rfl⟩
            · exact h
          · exact List.mem_cons_of_mem _
        by_cases hr : (t1, k1) ∈ rest
        · rw [if_pos hr, if_pos (hiff.2 hr)]
        · rw [if_neg hr, if_neg (mt hiff.1 hr)]


theorem CSLPackage_t.modifyBack_matches {package package1 : CSLPackage_t}
    {f : CSLPlane_t → CSLPlane_t} (h : package.modifyBack f = some package1) :
    package1.matches_ = package.matches_ := by
  obtain ⟨front, back, _, h2⟩ := CSLPackage_t.modifyBack_eq_some h
  rw [h2]

theorem ParseDummyCommand_matches {g : Globals} {tokens : List Str} {st : ParseState}
    {path : Str} {lineNum : Nat} {line : Str} {r : Bool × ParseState}
    (h : ParseDummyCommand g tokens st path lineNum line = some r) :
    r.2.package.matches_ = st.package.matches_ := by
  cases h; rfl

theorem ParseDependencyCommand_matches {g : Globals} {tokens : List Str} {st : ParseState}
    {path : Str} {lineNum : Nat} {line : Str} {r : Bool × ParseState}
    (h : ParseDependencyCommand g tokens st path lineNum line = some r) :
    r.2.package.matches_ = st.package.matches_ := by
  unfold ParseDependencyCommand at h
  split at h
  · cases h; rfl
  · split at h
    · cases h
    · split at h <;> cases h <;> rfl

theorem ParseObjectCommand_matches {g : Globals} {tokens : List Str} {st : ParseState}
    {path : Str} {lineNum : Nat} {line : Str} {r : Bool × ParseState}
    (h : ParseObjectCommand g tokens st path lineNum line = some r) :
    r.2.package.matches_ = st.package.matches_ := by
  unfold ParseObjectCommand at h
  split at h
  · cases h; rfl
  · split at h
    · cases h
    · simp only [] at h
      split at h
      · cases h; rfl
      · split at h
        · cases h
        · split at h
          · cases h
          · split at h
            · cases h
            · cases h; rfl

theorem ParseTextureCommand_matches {g : Globals} {tokens : List Str} {st : ParseState}
    {path : Str} {lineNum : Nat} {line : Str} {r : Bool × ParseState}
    (h : ParseTextureCommand g tokens st path lineNum line = some r) :
    r.2.package.matches_ = st.package.matches_ := by
  unfold ParseTextureCommand at h
  split at h
  · cases h; rfl
  · split at h
    · cases h
    · simp only [] at h
      split at h
      · cases h; rfl
      · split at h
        · cases h
        · split at h
          · cases h
          · rename_i hm
            cases h
            exact CSLPackage_t.modifyBack_matches hm

theorem ParseAircraftCommand_matches {g : Globals} {tokens : List Str} {st : ParseState}
    {path : Str} {lineNum : Nat} {line : Str} {r : Bool × ParseState}
    (h : ParseAircraftCommand g tokens st path lineNum line = some r) :
    r.2.package.matches_ = st.package.matches_ := by
  unfold ParseAircraftCommand at h
  have hp : (if tokens.length ≠ 4 then st.warn path lineNum line DiagText.aircraftArgs
      else st).package = st.package := by split <;> rfl
  simp only [] at h
  split at h
  · cases h
  · split at h
    · cases h
    · split at h
      · split at h
        · cases h
        · split at h
          · cases h
          · split at h
            · split at h
              · cases h
              · split at h
                · cases h; simp only [ParseState.warn_package, hp]
                · cases h
                  simp only [CSLPackage_t.pushPlane, hp]
            · cases h; rw [hp]
      · cases h; rw [hp]

theorem ParseObj8AircraftCommand_matches {g : Globals} {tokens : List Str} {st : ParseState}
    {path : Str} {lineNum : Nat} {line : Str} {r : Bool × ParseState}
    (h : ParseObj8AircraftCommand g tokens st path lineNum line = some r) :
    r.2.package.matches_ = st.package.matches_ := by
  unfold ParseObj8AircraftCommand at h
  have hp : (if tokens.length ≠ 2 then
      st.warnCounted msgCntE.OBJ8_AIRCRAFT_tooManyArgs path lineNum line DiagText.obj8AircraftArgs
      else st).package = st.package := by split <;> simp
  simp only [] at h
  split at h
  · cases h; rw [hp]
  · split at h
    · cases h
    · cases h
      simp only [CSLPackage_t.pushPlane, hp]

theorem ParseObj8Command_matches {g : Globals} {tokens : List Str} {st : ParseState}
    {path : Str} {lineNum : Nat} {line : Str} {r : Bool × ParseState}
    (h : ParseObj8Command g tokens st path lineNum line = some r) :
    r.2.package.matches_ = st.package.matches_ := by
  obtain ⟨ok, st1⟩ := r
  rcases ParseObj8Command_effect g tokens st path lineNum line ok st1 h with
    h1 | ⟨_, _, _, _, _, h1⟩
  · exact congrArg CSLPackage_t.matches_ h1
  · show st1.package.matches_ = _
    rw [h1]

theorem ParseVertOffsetCommand_matches {g : Globals} {tokens : List Str} {st : ParseState}
    {path : Str} {lineNum : Nat} {line : Str} {r : Bool × ParseState}
    (h : ParseVertOffsetCommand g tokens st path lineNum line = some r) :
    r.2.package.matches_ = st.package.matches_ := by
  unfold ParseVertOffsetCommand at h
  split at h
  · cases h; simp
  · split at h
    · cases h
    · split at h
      · cases h
      · rename_i hm
        cases h
        exact CSLPackage_t.modifyBack_matches hm

theorem ParseHasGearCommand_matches {g : Globals} {tokens : List Str} {st : ParseState}
    {path : Str} {lineNum : Nat} {line : Str} {r : Bool × ParseState}
    (h : ParseHasGearCommand g tokens st path lineNum line = some r) :
    r.2.package.matches_ = st.package.matches_ := by
  unfold ParseHasGearCommand at h
  split at h
  · cases h; rfl
  · split at h
    · cases h
    · split at h
      · cases h; rfl
      · split at h
        · split at h
          · cases h
          · rename_i hm
            cases h
            exact CSLPackage_t.modifyBack_matches hm
        · split at h
          · split at h
            · cases h
            · rename_i hm
              cases h
              exact CSLPackage_t.modifyBack_matches hm
          · cases h; rfl


theorem ParseIcaoCommand_effect {g : Globals} {keyword : Str} {args : List Str}
    {st : ParseState} {path : Str} {lineNum : Nat} {line : Str} {r : Bool × ParseState}
    (h : ParseIcaoCommand g (keyword :: args) st path lineNum line = some r) :
    ∃ pk : CSLPackage_t, pk.matches_ = st.package.matches_ ∧
      pk.planes.length = st.package.planes.length ∧
      r.2.package = pk.addMatches (icaoKeys g args) ∧
      (icaoKeys g args ≠ [] → st.package.planes ≠ []) := by
  unfold ParseIcaoCommand at h
  split at h
  · rename_i hl
    cases h
    have hk : ∀ keys : List (Nat × Str), keys = [] →
        st.package = st.package.addMatches keys ∧ (keys ≠ [] → st.package.planes ≠ []) :=
      fun keys hk => by subst hk; exact ⟨rfl, fun h => absurd rfl h⟩
    refine ⟨st.package, rfl, rfl, ?_⟩
    apply hk
    match args, hl with
    | [], _ => rfl
    | [_], hl => simp at hl
    | _ :: _ :: _, _ => rfl
  · rename_i hl
    match args, hl with
    | [icao], _ =>
      simp only [List.get?] at h
      split at h
      · cases h
      · rename_i pk hm
        cases h
        obtain ⟨front, back, hf, hpk⟩ := CSLPackage_t.modifyBack_eq_some hm
        refine ⟨pk, CSLPackage_t.modifyBack_matches hm, ?_, ?_, ?_⟩
        · rw [hpk, hf]; simp
        rotate_left
        · intro _; rw [hf]; simp
        · simp only [icaoKeys, CSLPackage_t.addMatches]
          split <;> rfl
    | [], hl => simp at hl
    | _ :: _ :: _, hl => simp at hl

theorem ParseAirlineCommand_effect {g : Globals} {keyword : Str} {args : List Str}
    {st : ParseState} {path : Str} {lineNum : Nat} {line : Str} {r : Bool × ParseState}
    (h : ParseAirlineCommand g (keyword :: args) st path lineNum line = some r) :
    ∃ pk : CSLPackage_t, pk.matches_ = st.package.matches_ ∧
      pk.planes.length = st.package.planes.length ∧
      r.2.package = pk.addMatches (airlineKeys g args) ∧
      (airlineKeys g args ≠ [] → st.package.planes ≠ []) := by
  unfold ParseAirlineCommand at h
  split at h
  · rename_i hl
    cases h
    have hk : ∀ keys : List (Nat × Str), keys = [] →
        st.package = st.package.addMatches keys ∧ (keys ≠ [] → st.package.planes ≠ []) :=
      fun keys hk => by subst hk; exact ⟨rfl, fun h => absurd rfl h⟩
    refine ⟨st.package, rfl, rfl, ?_⟩
    apply hk
    match args, hl with
    | [], _ => rfl
    | [_], _ => rfl
    | [_, _], hl => simp at hl
    | _ :: _ :: _ :: _, _ => rfl
  · rename_i hl
    match args, hl with
    | [icao, airline], _ =>
      simp only [List.get?] at h
      split at h
      · cases h
      · rename_i pk hm
        cases h
        obtain ⟨front, back, hf, hpk⟩ := CSLPackage_t.modifyBack_eq_some hm
        refine ⟨pk, CSLPackage_t.modifyBack_matches hm, ?_, ?_, ?_⟩
        · rw [hpk, hf]; simp
        rotate_left
        · intro _; rw [hf]; simp
        · simp only [airlineKeys, CSLPackage_t.addMatches]
          split <;> rfl
    | [], hl => simp at hl
    | [_], hl => simp at hl
    | _ :: _ :: _ :: _, hl => simp at hl

theorem ParseLiveryCommand_effect {g : Globals} {keyword : Str} {args : List Str}
    {st : ParseState} {path : Str} {lineNum : Nat} {line : Str} {r : Bool × ParseState}
    (h : ParseLiveryCommand g (keyword :: args) st path lineNum line = some r) :
    ∃ pk : CSLPackage_t, pk.matches_ = st.package.matches_ ∧
      pk.planes.length = st.package.planes.length ∧
      r.2.package = pk.addMatches (liveryKeys g args) ∧
      (liveryKeys g args ≠ [] → st.package.planes ≠ []) := by
  unfold ParseLiveryCommand at h
  split at h
  · rename_i hl
    cases h
    have hk : ∀ keys : List (Nat × Str), keys = [] →
        st.package = st.package.addMatches keys ∧ (keys ≠ [] → st.package.planes ≠ []) :=
      fun keys hk => by subst hk; exact ⟨rfl, fun h => absurd rfl h⟩
    refine ⟨st.package, rfl, rfl, ?_⟩
    apply hk
    match args, hl with
    | [], _ => rfl
    | [_], _ => rfl
    | [_, _], _ => rfl
    | [_, _, _], hl => simp at hl
    | _ :: _ :: _ :: _ :: _, _ => rfl
  · rename_i hl
    match args, hl with
    | [icao, airline, livery], _ =>
      simp only [List.get?] at h
      split at h
      · cases h
      · rename_i pk hm
        cases h
        obtain ⟨front, back, hf, hpk⟩ := CSLPackage_t.modifyBack_eq_some hm
        refine ⟨pk, CSLPackage_t.modifyBack_matches hm, ?_, ?_, ?_⟩
        · rw [hpk, hf]; simp
        rotate_left
        · intro _; rw [hf]; simp
        · simp only [liveryKeys, CSLPackage_t.addMatches]
          split <;> rfl
    | [], hl => simp at hl
    | [_], hl => simp at hl
    | [_, _], hl => simp at hl
    | _ :: _ :: _ :: _ :: _, hl => simp at hl

theorem findAfter_of_matches_eq {st st1 : ParseState}
    (h : st1.package.matches_ = st.package.matches_) (t : Nat) (k : Str) :
    StrMap.find k (st1.package.matches_ t) = findAfter st [] t k := by
  rw [h, findAfter]
  cases StrMap.find k (st.package.matches_ t) <;> simp

theorem findAfter_of_effect {st : ParseState} {r : Bool × ParseState} {keys : List (Nat × Str)}
    (h : ∃ pk : CSLPackage_t, pk.matches_ = st.package.matches_ ∧
      pk.planes.length = st.package.planes.length ∧ r.2.package = pk.addMatches keys ∧
      (keys ≠ [] → st.package.planes ≠ []))
    (t : Nat) (k : Str) :
    StrMap.find k (r.2.package.matches_ t) = findAfter st keys t k := by
  obtain ⟨pk, h1, h2, h3, _⟩ := h
  rw [h3, CSLPackage_t.addMatches_find, h1, h2]
  unfold findAfter
  cases StrMap.find k (st.package.matches_ t) <;> rfl

theorem StrMap.find_index (k k1 : Str) (m : StrMap Str) :
    StrMap.find k1 (StrMap.index k m) =
      (StrMap.find k1 m).or (if k = k1 then some [] else none) := by
  unfold StrMap.index
  cases hk : StrMap.find k m with
  | some v =>
    simp only []
    by_cases h : k = k1
    · subst h
      rw [hk]
      rfl
    · rw [if_neg h]
      cases StrMap.find k1 m <;> rfl
  | none =>
    simp only []
    rw [StrMap.find_assign]
    by_cases h : k = k1
    · subst h
      rw [if_pos rfl, if_pos rfl, hk]
      rfl
    · rw [if_neg h, if_neg h]
      cases StrMap.find k1 m <;> rfl

theorem StrMap.find_index_getD (k k1 : Str) (m : StrMap Str) :
    (StrMap.find k1 (StrMap.index k m)).getD [] = (StrMap.find k1 m).getD [] := by
  rw [StrMap.find_index]
  cases StrMap.find k1 m with
  | some v => rfl
  | none =>
    by_cases h : k = k1
    · rw [if_pos h]; rfl
    · rw [if_neg h]; rfl

theorem StrMap.foldl_index_getD (k1 : Str) : ∀ (icaos : List Str) (m : StrMap Str),
    (StrMap.find k1 (icaos.foldl (fun m icao => StrMap.index icao m) m)).getD [] =
      (StrMap.find k1 m).getD []
  | [], _ => rfl
  | k :: rest, m => by
    rw [List.foldl_cons, StrMap.foldl_index_getD k1 rest, StrMap.find_index_getD]

theorem Globals.groupOf_indexed (g : Globals) (icaos : List Str) (icao : Str) :
    (g.indexed icaos).groupOf icao = g.groupOf icao :=
  StrMap.foldl_index_getD icao icaos g.gGroupings

theorem ParseIcaoCommand_indexed (g : Globals) (icaos : List Str) (tokens : List Str)
    (st : ParseState) (path : Str) (lineNum : Nat) (line : Str) :
    ParseIcaoCommand (g.indexed icaos) tokens st path lineNum line =
      ParseIcaoCommand g tokens st path lineNum line := by
  unfold ParseIcaoCommand
  simp only [Globals.groupOf_indexed]

theorem ParseAirlineCommand_indexed (g : Globals) (icaos : List Str) (tokens : List Str)
    (st : ParseState) (path : Str) (lineNum : Nat) (line : Str) :
    ParseAirlineCommand (g.indexed icaos) tokens st path lineNum line =
      ParseAirlineCommand g tokens st path lineNum line := by
  unfold ParseAirlineCommand
  simp only [Globals.groupOf_indexed]

theorem ParseLiveryCommand_indexed (g : Globals) (icaos : List Str) (tokens : List Str)
    (st : ParseState) (path : Str) (lineNum : Nat) (line : Str) :
    ParseLiveryCommand (g.indexed icaos) tokens st path lineNum line =
      ParseLiveryCommand g tokens st path lineNum line := by
  unfold ParseLiveryCommand
  simp only [Globals.groupOf_indexed]

theorem fullCommands_indexed {keyword : Str} {handler : Handler}
    (hc : fullCommands keyword = some handler) (g : Globals) (icaos : List Str)
    (tokens : List Str) (st : ParseState) (path : Str) (lineNum : Nat) (line : Str) :
    handler (g.indexed icaos) tokens st path lineNum line =
      handler g tokens st path lineNum line := by
  unfold fullCommands at hc
  by_cases e0 : keyword = "EXPORT_NAME".toList
  · rw [if_pos e0] at hc
    obtain rfl := Option.some.inj hc
    rfl
  rw [if_neg e0] at hc
  by_cases e1 : keyword = "DEPENDENCY".toList
  · rw [if_pos e1] at hc
    obtain rfl := Option.some.inj hc
    rfl
  rw [if_neg e1] at hc
  by_cases e2 : keyword = "OBJECT".toList
  · rw [if_pos e2] at hc
    obtain rfl := Option.some.inj hc
    rfl
  rw [if_neg e2] at hc
  by_cases e3 : keyword = "TEXTURE".toList
  · rw [if_pos e3] at hc
    obtain rfl := Option.some.inj hc
    rfl
  rw [if_neg e3] at hc
  by_cases e4 : keyword = "AIRCRAFT".toList
  · rw [if_pos e4] at hc
    obtain rfl := Option.some.inj hc
    rfl
  rw [if_neg e4] at hc
  by_cases e5 : keyword = "OBJ8_AIRCRAFT".toList
  · rw [if_pos e5] at hc
    obtain rfl := Option.some.inj hc
    rfl
  rw [if_neg e5] at hc
  by_cases e6 : keyword = "OBJ8".toList
  · rw [if_pos e6] at hc
    obtain rfl := Option.some.inj hc
    rfl
  rw [if_neg e6] at hc
  by_cases e7 : keyword = "VERT_OFFSET".toList
  · rw [if_pos e7] at hc
    obtain rfl := Option.some.inj hc
    rfl
  rw [if_neg e7] at hc
  by_cases e8 : keyword = "HASGEAR".toList
  · rw [if_pos e8] at hc
    obtain rfl := Option.some.inj hc
    rfl
  rw [if_neg e8] at hc
  by_cases i0 : keyword = "ICAO".toList
  · rw [if_pos i0] at hc
    obtain rfl := Option.some.inj hc
    exact ParseIcaoCommand_indexed g icaos tokens st path lineNum line
  rw [if_neg i0] at hc
  by_cases i1 : keyword = "AIRLINE".toList
  · rw [if_pos i1] at hc
    obtain rfl := Option.some.inj hc
    exact ParseAirlineCommand_indexed g icaos tokens st path lineNum line
  rw [if_neg i1] at hc
  by_cases i2 : keyword = "LIVERY".toList
  · rw [if_pos i2] at hc
    obtain rfl := Option.some.inj hc
    exact ParseLiveryCommand_indexed g icaos tokens st path lineNum line
  rw [if_neg i2] at hc
  exact Option.noConfusion hc

theorem ParseFullPackage_step_indexed (g : Globals) (icaos : List Str) (path : Str)
    (lineNum : Nat) (raw : Str) (st : ParseState) :
    ParseFullPackage.step (g.indexed icaos) path lineNum raw st =
      ParseFullPackage.step g path lineNum raw st := by
  unfold ParseFullPackage.step
  simp only []
  split
  · rfl
  · split
    · rfl
    · rename_i keyword args _
      cases hc : fullCommands keyword with
      | none => rfl
      | some handler =>
        simp only []
        rw [fullCommands_indexed hc]

theorem ParseFullPackage_lines_nil (g : Globals) (path : Str) (lineNum : Nat)
    (st : ParseState) : ParseFullPackage.lines g path [] lineNum st = some st := rfl

theorem ParseFullPackage_lines_cons (g : Globals) (path : Str) (raw : Str) (rest : List Str)
    (lineNum : Nat) (st : ParseState) :
    ParseFullPackage.lines g path (raw :: rest) lineNum st =
      match ParseFullPackage.step g path (lineNum + 1) raw st with
      | none => none
      | some st1 => ParseFullPackage.lines g path rest (lineNum + 1) st1 := by
  rw [ParseFullPackage.lines, ParseFullPackage_step_indexed]

theorem fullCommands_cases (keyword : Str) :
    (keyword = "ICAO".toList ∧ fullCommands keyword = some ParseIcaoCommand) ∨
    (keyword = "AIRLINE".toList ∧ fullCommands keyword = some ParseAirlineCommand) ∨
    (keyword = "LIVERY".toList ∧ fullCommands keyword = some ParseLiveryCommand) ∨
    (keyword ≠ "ICAO".toList ∧ keyword ≠ "AIRLINE".toList ∧ keyword ≠ "LIVERY".toList ∧
      (fullCommands keyword = none ∨
        ∃ handler, fullCommands keyword = some handler ∧ KeepsMatches handler)) := by
  by_cases h1 : keyword = "ICAO".toList
  · left; subst h1; exact ⟨rfl, rfl⟩
  by_cases h2 : keyword = "AIRLINE".toList
  · right; left; subst h2; exact ⟨rfl, rfl⟩
  by_cases h3 : keyword = "LIVERY".toList
  · right; right; left; subst h3; exact ⟨rfl, rfl⟩
  right; right; right
  refine ⟨h1, h2, h3, ?_⟩
  unfold fullCommands
  by_cases e0 : keyword = "EXPORT_NAME".toList
  · rw [if_pos e0]
    exact Or.inr ⟨_, rfl, fun _ _ _ _ _ _ _ h => ParseDummyCommand_matches h⟩
  rw [if_neg e0]
  by_cases e1 : keyword = "DEPENDENCY".toList
  · rw [if_pos e1]
    exact Or.inr ⟨_, rfl, fun _ _ _ _ _ _ _ h => ParseDependencyCommand_matches h⟩
  rw [if_neg e1]
  by_cases e2 : keyword = "OBJECT".toList
  · rw [if_pos e2]
    exact Or.inr ⟨_, rfl, fun _ _ _ _ _ _ _ h => ParseObjectCommand_matches h⟩
  rw [if_neg e2]
  by_cases e3 : keyword = "TEXTURE".toList
  · rw [if_pos e3]
    exact Or.inr ⟨_, rfl, fun _ _ _ _ _ _ _ h => ParseTextureCommand_matches h⟩
  rw [if_neg e3]
  by_cases e4 : keyword = "AIRCRAFT".toList
  · rw [if_pos e4]
    exact Or.inr ⟨_, rfl, fun _ _ _ _ _ _ _ h => ParseAircraftCommand_matches h⟩
  rw [if_neg e4]
  by_cases e5 : keyword = "OBJ8_AIRCRAFT".toList
  · rw [if_pos e5]
    exact Or.inr ⟨_, rfl, fun _ _ _ _ _ _ _ h => ParseObj8AircraftCommand_matches h⟩
  rw [if_neg e5]
  by_cases e6 : keyword = "OBJ8".toList
  · rw [if_pos e6]
    exact Or.inr ⟨_, rfl, fun _ _ _ _ _ _ _ h => ParseObj8Command_matches h⟩
  rw [if_neg e6]
  by_cases e7 : keyword = "VERT_OFFSET".toList
  · rw [if_pos e7]
    exact Or.inr ⟨_, rfl, fun _ _ _ _ _ _ _ h => ParseVertOffsetCommand_matches h⟩
  rw [if_neg e7]
  by_cases e8 : keyword = "HASGEAR".toList
  · rw [if_pos e8]
    exact Or.inr ⟨_, rfl, fun _ _ _ _ _ _ _ h => ParseHasGearCommand_matches h⟩
  rw [if_neg e8]
  rw [if_neg h1, if_neg h2, if_neg h3]
  exact Or.inl rfl

theorem identityKeys_of_other {g : Globals} {keyword : Str} (args : List Str)
    (h1 : keyword ≠ "ICAO".toList) (h2 : keyword ≠ "AIRLINE".toList)
    (h3 : keyword ≠ "LIVERY".toList) : identityKeys g (keyword :: args) = [] := by
  rw [identityKeys, if_neg h1, if_neg h2, if_neg h3]

theorem ParseFullPackage_step_find {g : Globals} {path : Str} {lineNum : Nat} {raw : Str}
    {st st1 : ParseState} (h : ParseFullPackage.step g path lineNum raw st = some st1)
    (t : Nat) (k : Str) :
    StrMap.find k (st1.package.matches_ t) = findAfter st (identityKeys g (lineTokens raw)) t k := by
  unfold ParseFullPackage.step at h
  unfold lineTokens
  simp only [] at h
  split at h
  · rename_i hskip
    cases h
    rw [if_pos hskip]
    exact findAfter_of_matches_eq rfl t k
  · rename_i hskip
    rw [if_neg hskip]
    split at h
    · rename_i htok
      cases h
      rw [htok]
      exact findAfter_of_matches_eq rfl t k
    · rename_i keyword args htok
      rw [htok]
      rcases fullCommands_cases keyword with ⟨rfl, hc⟩ | ⟨rfl, hc⟩ | ⟨rfl, hc⟩ | ⟨h1, h2, h3, hc⟩
      · rw [hc] at h
        simp only [] at h
        split at h
        · cases h
        · rename_i r hr
          cases h
          exact findAfter_of_effect (ParseIcaoCommand_effect hr) t k
      · rw [hc] at h
        simp only [] at h
        split at h
        · cases h
        · rename_i r hr
          cases h
          exact findAfter_of_effect (ParseAirlineCommand_effect hr) t k
      · rw [hc] at h
        simp only [] at h
        split at h
        · cases h
        · rename_i r hr
          cases h
          exact findAfter_of_effect (ParseLiveryCommand_effect hr) t k
      · rw [identityKeys_of_other args h1 h2 h3]
        rcases hc with hc | ⟨handler, hc, hkeep⟩
        · rw [hc] at h
          cases h
          exact findAfter_of_matches_eq rfl t k
        · rw [hc] at h
          simp only [] at h
          split at h
          · cases h
          · rename_i r hr
            cases h
            exact findAfter_of_matches_eq (hkeep _ _ _ _ _ _ _ hr) t k

theorem ParseFullPackage_step_planes {g : Globals} {path : Str} {lineNum : Nat} {raw : Str}
    {st st1 : ParseState} (h : ParseFullPackage.step g path lineNum raw st = some st1)
    (hk : identityKeys g (lineTokens raw) ≠ []) : st.package.planes ≠ [] := by
  unfold ParseFullPackage.step at h
  unfold lineTokens at hk
  simp only [] at h
  split at h
  · rename_i hskip
    rw [if_pos hskip] at hk
    exact absurd rfl hk
  · rename_i hskip
    rw [if_neg hskip] at hk
    split at h
    · rename_i htok
      rw [htok] at hk
      exact absurd rfl hk
    · rename_i keyword args htok
      rw [htok] at hk
      rcases fullCommands_cases keyword with ⟨rfl, hc⟩ | ⟨rfl, hc⟩ | ⟨rfl, hc⟩ | ⟨h1, h2, h3, hc⟩
      · rw [hc] at h
        simp only [] at h
        split at h
        · cases h
        · rename_i r hr
          obtain ⟨_, _, _, _, hpos⟩ := ParseIcaoCommand_effect hr
          exact hpos hk
      · rw [hc] at h
        simp only [] at h
        split at h
        · cases h
        · rename_i r hr
          obtain ⟨_, _, _, _, hpos⟩ := ParseAirlineCommand_effect hr
          exact hpos hk
      · rw [hc] at h
        simp only [] at h
        split at h
        · cases h
        · rename_i r hr
          obtain ⟨_, _, _, _, hpos⟩ := ParseLiveryCommand_effect hr
          exact hpos hk
      · rw [identityKeys_of_other args h1 h2 h3] at hk
        exact absurd rfl hk

theorem ParseFullPackage_lines_find {g : Globals} {path : Str} :
    ∀ (rest : List Str) (lineNum : Nat) (st stEnd : ParseState),
      ParseFullPackage.lines g path rest lineNum st = some stEnd →
      ∀ (t : Nat) (key : Str),
        (∀ i, StrMap.find key (st.package.matches_ t) = some i →
          StrMap.find key (stEnd.package.matches_ t) = some i) ∧
        (StrMap.find key (st.package.matches_ t) = none →
          (StrMap.find key (stEnd.package.matches_ t) = none ∧
            ∀ r ∈ rest, (t, key) ∉ identityKeys g (lineTokens r)) ∨
          ∃ idx, StrMap.find key (stEnd.package.matches_ t) = some idx ∧
            FirstProducer g path rest lineNum st t key idx) := by
  intro rest
  induction rest with
  | nil =>
    intro lineNum st stEnd h t key
    cases h
    exact ⟨fun i hi => hi, fun hn => Or.inl ⟨hn, fun r hr => by cases hr⟩⟩
  | cons raw rest ih =>
    intro lineNum st stEnd h t key
    rw [ParseFullPackage_lines_cons] at h
    split at h
    · cases h
    · rename_i st1 hstep
      have hf := ParseFullPackage_step_find hstep t key
      obtain ⟨ih1, ih2⟩ := ih _ _ _ h t key
      constructor
      · intro i hi
        apply ih1
        rw [hf, findAfter, hi]
      · intro hn
        by_cases hmem : (t, key) ∈ identityKeys g (lineTokens raw)
        · right
          have h1 : StrMap.find key (st1.package.matches_ t) =
              some ((st.package.planes.length : Int) - 1) := by
            rw [hf, findAfter, hn]
            simp only []
            rw [if_pos hmem]
          refine ⟨_, ih1 _ h1, ?_⟩
          unfold FirstProducer
          refine ⟨[], raw, rest, st, rfl, rfl, ?_, hmem, ?_, rfl⟩
          · intro r hr; cases hr
          · exact ParseFullPackage_step_planes hstep (List.ne_nil_of_mem hmem)
        · have h1 : StrMap.find key (st1.package.matches_ t) = none := by
            rw [hf, findAfter, hn]
            simp only []
            rw [if_neg hmem]
          rcases ih2 h1 with ⟨hnone, hall⟩ | ⟨idx, hidx, pre, raw2, post, stPre, e1, e2, e3, e4, e5, e6⟩
          · left
            refine ⟨hnone, ?_⟩
            intro r hr
            rcases List.mem_cons.1 hr with rfl | hr
            · exact hmem
            · exact hall r hr
          · right
            refine ⟨idx, hidx, ?_⟩
            unfold FirstProducer
            refine ⟨raw :: pre, raw2, post, stPre, by rw [e1]; rfl, ?_, ?_, e4, e5, e6⟩
            · rw [ParseFullPackage_lines_cons]
              rw [hstep]
              exact e2
            · intro r hr
              rcases List.mem_cons.1 hr with rfl | hr
              · exact hmem
              · exact e3 r hr

theorem ParseIcaoCommand_fields {g : Globals} {keyword icao : Str}
    {st : ParseState} {path : Str} {lineNum : Nat} {line : Str} {r : Bool × ParseState}
    (h : ParseIcaoCommand g [keyword, icao] st path lineNum line = some r) :
    r.1 = true ∧ ∃ front back, st.package.planes = front ++ [back] ∧
      r.2.package.planes = front ++ [{ back with icao := icao }] := by
  unfold ParseIcaoCommand at h
  simp only [List.length_cons, List.length_nil, ne_eq, not_true_eq_false, if_false,
    List.get?] at h
  split at h
  · cases h
  · rename_i pk hm
    cases h
    obtain ⟨front, back, hf, hpk⟩ := CSLPackage_t.modifyBack_eq_some hm
    refine ⟨rfl, front, back, hf, ?_⟩
    simp only []
    split
    · rw [CSLPackage_t.addMatch_planes, CSLPackage_t.addMatch_planes, hpk]
    · rw [CSLPackage_t.addMatch_planes, hpk]

theorem ParseAirlineCommand_fields {g : Globals} {keyword icao airline : Str}
    {st : ParseState} {path : Str} {lineNum : Nat} {line : Str} {r : Bool × ParseState}
    (h : ParseAirlineCommand g [keyword, icao, airline] st path lineNum line = some r) :
    r.1 = true ∧ ∃ front back, st.package.planes = front ++ [back] ∧
      r.2.package.planes = front ++ [{ back with icao := icao, airline := airline }] := by
  unfold ParseAirlineCommand at h
  simp only [List.length_cons, List.length_nil, ne_eq, not_true_eq_false, if_false,
    List.get?] at h
  split at h
  · cases h
  · rename_i pk hm
    cases h
    obtain ⟨front, back, hf, hpk⟩ := CSLPackage_t.modifyBack_eq_some hm
    refine ⟨rfl, front, back, hf, ?_⟩
    simp only []
    split
    · rw [CSLPackage_t.addMatch_planes, CSLPackage_t.addMatch_planes, hpk]
    · rw [CSLPackage_t.addMatch_planes, hpk]

theorem ParseLiveryCommand_fields {g : Globals} {keyword icao airline livery : Str}
    {st : ParseState} {path : Str} {lineNum : Nat} {line : Str} {r : Bool × ParseState}
    (h : ParseLiveryCommand g [keyword, icao, airline, livery] st path lineNum line = some r) :
    r.1 = true ∧ ∃ front back, st.package.planes = front ++ [back] ∧
      r.2.package.planes =
        front ++ [{ back with icao := icao, airline := airline, livery := livery }] := by
  unfold ParseLiveryCommand at h
  simp only [List.length_cons, List.length_nil, ne_eq, not_true_eq_false, if_false,
    List.get?] at h
  split at h
  · cases h
  · rename_i pk hm
    cases h
    obtain ⟨front, back, hf, hpk⟩ := CSLPackage_t.modifyBack_eq_some hm
    refine ⟨rfl, front, back, hf, ?_⟩
    simp only []
    split
    · rw [CSLPackage_t.addMatch_planes, CSLPackage_t.addMatch_planes, hpk]
    · rw [CSLPackage_t.addMatch_planes, hpk]

theorem ParseFullPackage_package {g : Globals} {content : Str} {st0 st1 : ParseState}
    (h : ParseFullPackage g content st0 = some st1) :
    ∃ stL, ParseFullPackage.lines g
        (st0.package.path ++ "/".toList ++ "xsb_aircraft.txt".toList) (getlines content) 0 st0 =
          some stL ∧ st1.package = stL.package := by
  unfold ParseFullPackage at h
  simp only [] at h
  split at h
  · cases h
  · rename_i stL hL
    cases h
    exact ⟨stL, hL, rfl⟩

/-- Claim C5 (first declaration wins). For every declaration text parsed from
a package with empty tables, every index stored in a match table is the index
of the plane that was current at the first line whose identity command
produced that key for that table. Processing any later line leaves every
stored index unchanged, and an identity command with a full argument list
still updates the ICAO, airline and livery fields of the current plane. -/
theorem first_declaration_wins :
    (∀ (g : Globals) (content : Str) (st0 st1 : ParseState),
      (∀ t, st0.package.matches_ t = []) →
      ParseFullPackage g content st0 = some st1 →
      ∀ (t : Nat) (key : Str) (idx : Int),
        StrMap.find key (st1.package.matches_ t) = some idx →
        FirstProducer g (st0.package.path ++ "/".toList ++ "xsb_aircraft.txt".toList)
          (getlines content) 0 st0 t key idx) ∧
    (∀ (g : Globals) (path : Str) (lineNum : Nat) (raw : Str) (st st1 : ParseState),
      ParseFullPackage.step g path lineNum raw st = some st1 →
      ∀ (t : Nat) (key : Str) (idx : Int),
        StrMap.find key (st.package.matches_ t) = some idx →
        StrMap.find key (st1.package.matches_ t) = some idx) ∧
    (∀ (g : Globals) (keyword icao : Str) (st : ParseState) (path : Str) (lineNum : Nat)
        (line : Str) (r : Bool × ParseState),
      ParseIcaoCommand g [keyword, icao] st path lineNum line = some r →
      r.1 = true ∧ ∃ front back, st.package.planes = front ++ [back] ∧
        r.2.package.planes = front ++ [{ back with icao := icao }]) ∧
    (∀ (g : Globals) (keyword icao airline : Str) (st : ParseState) (path : Str)
        (lineNum : Nat) (line : Str) (r : Bool × ParseState),
      ParseAirlineCommand g [keyword, icao, airline] st path lineNum line = some r →
      r.1 = true ∧ ∃ front back, st.package.planes = front ++ [back] ∧
        r.2.package.planes = front ++ [{ back with icao := icao, airline := airline }]) ∧
    (∀ (g : Globals) (keyword icao airline livery : Str) (st : ParseState) (path : Str)
        (lineNum : Nat) (line : Str) (r : Bool × ParseState),
      ParseLiveryCommand g [keyword, icao, airline, livery] st path lineNum line = some r →
      r.1 = true ∧ ∃ front back, st.package.planes = front ++ [back] ∧
        r.2.package.planes =
          front ++ [{ back with icao := icao, airline := airline, livery := livery }]) := by
  refine ⟨?_, ?_, ?_, ?_, ?_⟩
  · intro g content st0 st1 hempty h t key idx hfind
    obtain ⟨stL, hL, hpk⟩ := ParseFullPackage_package h
    rw [hpk] at hfind
    have h0 : StrMap.find key (st0.package.matches_ t) = none := by
      rw [hempty t]; rfl
    rcases (ParseFullPackage_lines_find _ _ _ _ hL t key).2 h0 with ⟨hn, _⟩ | ⟨idx', hi, hp⟩
    · rw [hn] at hfind; cases hfind
    · rw [hi] at hfind
      cases hfind
      exact hp
  · intro g path lineNum raw st st1 h t key idx hfind
    rw [ParseFullPackage_step_find h, findAfter, hfind]
  · intro g keyword icao st path lineNum line r h
    exact ParseIcaoCommand_fields h
  · intro g keyword icao airline st path lineNum line r h
    exact ParseAirlineCommand_fields h
  · intro g keyword icao airline livery st path lineNum line r h
    exact ParseLiveryCommand_fields h

set_option maxRecDepth 100000 in
theorem first_declaration_wins_witness :
    FirstProducer (sampleGlobals [sampleEmptyPackage])
      (sampleEmptyPackage.path ++ "/".toList ++ "xsb_aircraft.txt".toList)
      (getlines sampleContent) 0 (sampleState sampleEmptyPackage) match_icao "B738".toList 0 :=
  first_declaration_wins.1 (sampleGlobals [sampleEmptyPackage]) sampleContent
    (sampleState sampleEmptyPackage)
    ((ParseFullPackage (sampleGlobals [sampleEmptyPackage]) sampleContent
      (sampleState sampleEmptyPackage)).get (by decide))
    (fun _ => rfl) (Option.some_get _).symm match_icao "B738".toList 0 (by decide)


theorem Char.eq_of_toNat_eq {a b : Char} (h : a.toNat = b.toNat) : a = b := by
  apply Char.ext
  apply UInt32.ext
  exact h

theorem strLess_trans : ∀ a b c : Str, strLess a b = true → strLess b c = true →
    strLess a c = true
  | [], [], _, h, _ => by simp [strLess] at h
  | [], _ :: _, [], _, h => by simp [strLess] at h
  | [], _ :: _, _ :: _, _, _ => rfl
  | _ :: _, [], _, h, _ => by simp [strLess] at h
  | _ :: _, _ :: _, [], _, h => by simp [strLess] at h
  | x :: xs, y :: ys, z :: zs, h1, h2 => by
    unfold strLess at h1 h2 ⊢
    by_cases hxy : x.toNat < y.toNat
    · by_cases hyz : y.toNat < z.toNat
      · rw [if_pos (by omega)]
      · by_cases hzy : z.toNat < y.toNat
        · simp [hyz, hzy] at h2
        · rw [if_pos (by omega)]
    · by_cases hyx : y.toNat < x.toNat
      · simp [hxy, hyx] at h1
      · simp only [hxy, hyx, if_false] at h1
        by_cases hyz : y.toNat < z.toNat
        · rw [if_pos (by omega)]
        · by_cases hzy : z.toNat < y.toNat
          · simp [hyz, hzy] at h2
          · simp only [hyz, hzy, if_false] at h2
            rw [if_neg (by omega), if_neg (by omega)]
            exact strLess_trans xs ys zs h1 h2

theorem strLess_total : ∀ a b : Str, strLess a b = false → a ≠ b → strLess b a = true
  | [], [], _, h => absurd rfl h
  | [], _ :: _, h, _ => by simp [strLess] at h
  | _ :: _, [], _, _ => rfl
  | x :: xs, y :: ys, h, hne => by
    unfold strLess at h ⊢
    by_cases hxy : x.toNat < y.toNat
    · simp [hxy] at h
    · by_cases hyx : y.toNat < x.toNat
      · rw [if_pos hyx]
      · simp only [hxy, hyx, if_false] at h ⊢
        have hxe : x = y := Char.eq_of_toNat_eq (by omega)
        subst hxe
        exact strLess_total xs ys h (fun he => hne (by rw [he]))

theorem StrMap.assign_keys {α : Type} (k : Str) (v : α) :
    ∀ (m : StrMap α) (e : Str × α), e ∈ StrMap.assign k v m → e.1 = k ∨ e ∈ m
  | [], e, h => by
    simp only [StrMap.assign, List.mem_singleton] at h
    left; rw [h]
  | (k0, v0) :: rest, e, h => by
    unfold StrMap.assign at h
    by_cases h0 : k0 = k
    · rw [if_pos h0] at h
      rcases List.mem_cons.1 h with h | h
      · left; rw [h]
      · right; exact List.mem_cons_of_mem _ h
    · rw [if_neg h0] at h
      by_cases hl : strLess k k0 = true
      · rw [if_pos hl] at h
        rcases List.mem_cons.1 h with h | h
        · left; rw [h]
        · right; exact h
      · rw [if_neg hl] at h
        rcases List.mem_cons.1 h with h | h
        · right; rw [h]; exact List.mem_cons_self _ _
        · rcases StrMap.assign_keys k v rest e h with h | h
          · left; exact h
          · right; exact List.mem_cons_of_mem _ h

theorem StrMap.assign_ascending {α : Type} (k : Str) (v : α) :
    ∀ m : StrMap α, StrMap.Ascending m → StrMap.Ascending (StrMap.assign k v m)
  | [], _ => by simp [StrMap.assign, StrMap.Ascending]
  | (k0, v0) :: rest, h => by
    unfold StrMap.Ascending at h ⊢
    unfold StrMap.assign
    have hhead := (List.pairwise_cons.1 h).1
    have htail := (List.pairwise_cons.1 h).2
    by_cases h0 : k0 = k
    · rw [if_pos h0]
      subst h0
      exact List.pairwise_cons.2 ⟨hhead, htail⟩
    · rw [if_neg h0]
      by_cases hl : strLess k k0 = true
      · rw [if_pos hl]
        refine List.pairwise_cons.2 ⟨?_, h⟩
        intro e he
        rcases List.mem_cons.1 he with rfl | he
        · exact hl
        · exact strLess_trans _ _ _ hl (hhead e he)
      · rw [if_neg hl]
        refine List.pairwise_cons.2 ⟨?_, StrMap.assign_ascending k v rest htail⟩
        intro e he
        rcases StrMap.assign_keys k v rest e he with he | he
        · rw [he]
          exact strLess_total k k0 (by simpa using hl) (fun hk => h0 hk.symm)
        · exact hhead e he

theorem CSLPackage_t.addMatch_ascending (package : CSLPackage_t) (t : Nat) (k : Str)
    (h : ∀ n, StrMap.Ascending (package.matches_ n)) :
    ∀ n, StrMap.Ascending ((package.addMatch t k).matches_ n) := by
  intro n
  unfold CSLPackage_t.addMatch CSLPackage_t.setMatch
  split
  · simp only []
    by_cases hn : n = t
    · subst hn
      rw [Function.update_same]
      exact StrMap.assign_ascending _ _ _ (h n)
    · rw [Function.update_noteq hn]
      exact h n
  · exact h n

theorem CSLPackage_t.addMatches_ascending (keys : List (Nat × Str)) :
    ∀ (package : CSLPackage_t), (∀ n, StrMap.Ascending (package.matches_ n)) →
    ∀ n, StrMap.Ascending ((package.addMatches keys).matches_ n) := by
  induction keys with
  | nil => intro package h; exact h
  | cons a rest ih =>
    intro package h
    exact ih (package.addMatch a.1 a.2) (CSLPackage_t.addMatch_ascending package a.1 a.2 h)

theorem ParseFullPackage_step_matches {g : Globals} {path : Str} {lineNum : Nat} {raw : Str}
    {st st1 : ParseState} (h : ParseFullPackage.step g path lineNum raw st = some st1) :
    ∃ (pk : CSLPackage_t) (keys : List (Nat × Str)), pk.matches_ = st.package.matches_ ∧
      st1.package.matches_ = (pk.addMatches keys).matches_ := by
  have keep : ∀ s : ParseState, s.package.matches_ = st.package.matches_ →
      ∃ (pk : CSLPackage_t) (keys : List (Nat × Str)), pk.matches_ = st.package.matches_ ∧
        s.package.matches_ = (pk.addMatches keys).matches_ :=
    fun s hs => ⟨st.package, [], rfl, hs⟩
  unfold ParseFullPackage.step at h
  simp only [] at h
  split at h
  · cases h; exact keep _ rfl
  · split at h
    · cases h; exact keep _ rfl
    · rename_i keyword args htok
      rcases fullCommands_cases keyword with ⟨rfl, hc⟩ | ⟨rfl, hc⟩ | ⟨rfl, hc⟩ | ⟨h1, h2, h3, hc⟩
      · rw [hc] at h
        simp only [] at h
        split at h
        · cases h
        · rename_i r hr
          cases h
          obtain ⟨pk, e1, _, e3, _⟩ := ParseIcaoCommand_effect hr
          exact ⟨pk, _, e1, by rw [e3]⟩
      · rw [hc] at h
        simp only [] at h
        split at h
        · cases h
        · rename_i r hr
          cases h
          obtain ⟨pk, e1, _, e3, _⟩ := ParseAirlineCommand_effect hr
          exact ⟨pk, _, e1, by rw [e3]⟩
      · rw [hc] at h
        simp only [] at h
        split at h
        · cases h
        · rename_i r hr
          cases h
          obtain ⟨pk, e1, _, e3, _⟩ := ParseLiveryCommand_effect hr
          exact ⟨pk, _, e1, by rw [e3]⟩
      · rcases hc with hc | ⟨handler, hc, hkeep⟩
        · rw [hc] at h
          cases h
          exact keep _ rfl
        · rw [hc] at h
          simp only [] at h
          split at h
          · cases h
          · rename_i r hr
            cases h
            exact keep _ (hkeep _ _ _ _ _ _ _ hr)

theorem ParseFullPackage_lines_ascending {g : Globals} {path : Str} :
    ∀ (rest : List Str) (lineNum : Nat) (st stEnd : ParseState),
      ParseFullPackage.lines g path rest lineNum st = some stEnd →
      (∀ n, StrMap.Ascending (st.package.matches_ n)) →
      ∀ n, StrMap.Ascending (stEnd.package.matches_ n) := by
  intro rest
  induction rest with
  | nil => intro lineNum st stEnd h hs; cases h; exact hs
  | cons raw rest ih =>
    intro lineNum st stEnd h hs
    rw [ParseFullPackage_lines_cons] at h
    split at h
    · cases h
    · rename_i st1 hstep
      apply ih _ _ _ h
      obtain ⟨pk, keys, e1, e2⟩ := ParseFullPackage_step_matches hstep
      rw [e2]
      apply CSLPackage_t.addMatches_ascending
      rw [e1]
      exact hs

theorem parsed_tables_ascending {g : Globals} {content : Str} {st0 st1 : ParseState}
    (hempty : ∀ t, st0.package.matches_ t = [])
    (h : ParseFullPackage g content st0 = some st1) :
    ∀ n, StrMap.Ascending (st1.package.matches_ n) := by
  obtain ⟨stL, hL, hpk⟩ := ParseFullPackage_package h
  rw [hpk]
  apply ParseFullPackage_lines_ascending _ _ _ _ hL
  intro n
  rw [hempty n]
  exact List.Pairwise.nil

/-! ## Phase A -/

theorem phaseA_packages_none {total : Int} {n : Nat} {key : Str} :
    ∀ (pkgs : List CSLPackage_t) (p0 : Nat),
      phaseA.packages total n key pkgs p0 = some none →
      ∀ pkg ∈ pkgs, ¬ holdsLoaded total pkg n key := by
  intro pkgs
  induction pkgs with
  | nil => intro _ _ pkg hp; cases hp
  | cons a rest ih =>
    intro p0 h pkg hp
    unfold phaseA.packages at h
    rcases List.mem_cons.1 hp with rfl | hin
    · rintro ⟨idx, plane, h1, h2, h3⟩
      rw [h1] at h
      simp only [h2, h3, if_true] at h
      cases h
    · split at h
      · exact ih _ h pkg hin
      · split at h
        · cases h
        · split at h
          · cases h
          · exact ih _ h pkg hin

theorem phaseA_packages_some {total : Int} {n : Nat} {key : Str} :
    ∀ (pkgs : List CSLPackage_t) (p0 p i : Nat),
      phaseA.packages total n key pkgs p0 = some (some (p, i)) →
      ∃ k pkg idx plane, p = p0 + k ∧ pkgs.get? k = some pkg ∧
        StrMap.find key (pkg.matches_ n) = some idx ∧ 0 ≤ idx ∧ idx.toNat = i ∧
        pkg.planes.get? i = some plane ∧ planeLoaded total plane = true ∧
        ∀ j pkg1, j < k → pkgs.get? j = some pkg1 → ¬ holdsLoaded total pkg1 n key := by
  intro pkgs
  induction pkgs with
  | nil => intro p0 p i h; simp [phaseA.packages] at h
  | cons a rest ih =>
    intro p0 p i h
    unfold phaseA.packages at h
    have step : phaseA.packages total n key rest (p0 + 1) = some (some (p, i)) →
        ¬ holdsLoaded total a n key →
        ∃ k pkg idx plane, p = p0 + k ∧ (a :: rest).get? k = some pkg ∧
        StrMap.find key (pkg.matches_ n) = some idx ∧ 0 ≤ idx ∧ idx.toNat = i ∧
        pkg.planes.get? i = some plane ∧ planeLoaded total plane = true ∧
        ∀ j pkg1, j < k → (a :: rest).get? j = some pkg1 → ¬ holdsLoaded total pkg1 n key := by
      intro h' hna
      obtain ⟨k, pkg, idx, plane, hp, hget, hf, h0, hi, hpl, hl, hprev⟩ := ih _ _ _ h'
      refine ⟨k + 1, pkg, idx, plane, by omega, by simpa using hget, hf, h0, hi, hpl, hl, ?_⟩
      intro j pkg1 hj hg
      cases j with
      | zero => simp at hg; subst hg; exact hna
      | succ j => exact hprev j pkg1 (by omega) (by simpa using hg)
    split at h
    · rename_i hfind
      exact step h (by rintro ⟨idx, plane, h1, _, _⟩; rw [hfind] at h1; cases h1)
    · rename_i idx hfind
      split at h
      · cases h
      · rename_i plane hplane
        split at h
        · rename_i hl
          simp only [Option.some.injEq, Prod.mk.injEq] at h
          obtain ⟨rfl, rfl⟩ := h
          unfold CSLPackage_t.planeAt at hplane
          split at hplane
          · rename_i h0
            exact ⟨0, a, idx, plane, rfl, rfl, hfind, h0, rfl, hplane, hl,
              fun j _ hj => absurd hj (Nat.not_lt_zero j)⟩
          · cases hplane
        · rename_i hl
          refine step h ?_
          rintro ⟨idx', plane', h1, h2, h3⟩
          rw [hfind] at h1; cases h1
          rw [hplane] at h2; cases h2
          exact hl h3

theorem phaseA_passes_some {g : Globals} {icao group airline livery : Str} :
    ∀ (count n N p i : Nat),
      phaseA.passes g icao group airline livery count n = some (some (N, p, i)) →
      n ≤ N ∧ N < n + count ∧
      (∃ key, passKey icao group airline livery N = some key ∧
        phaseA.packages g.total N key g.gPackages 0 = some (some (p, i))) ∧
      ∀ M key, n ≤ M → M < N → passKey icao group airline livery M = some key →
        phaseA.packages g.total M key g.gPackages 0 = some none := by
  intro count
  induction count with
  | zero => intro n N p i h; simp [phaseA.passes] at h
  | succ c ih =>
    intro n N p i h
    unfold phaseA.passes at h
    have step : phaseA.passes g icao group airline livery c (n + 1) = some (some (N, p, i)) →
        (∀ key, passKey icao group airline livery n = some key →
          phaseA.packages g.total n key g.gPackages 0 = some none) →
        n ≤ N ∧ N < n + (c + 1) ∧
        (∃ key, passKey icao group airline livery N = some key ∧
          phaseA.packages g.total N key g.gPackages 0 = some (some (p, i))) ∧
        ∀ M key, n ≤ M → M < N → passKey icao group airline livery M = some key →
          phaseA.packages g.total M key g.gPackages 0 = some none := by
      intro h' hn
      obtain ⟨h1, h2, h3, h4⟩ := ih _ _ _ _ h'
      refine ⟨by omega, by omega, h3, ?_⟩
      intro M key hM1 hM2 hk
      rcases Nat.eq_or_lt_of_le hM1 with rfl | hlt
      · exact hn key hk
      · exact h4 M key hlt hM2 hk
    split at h
    · rename_i hk
      exact step h (by intro key hk'; rw [hk] at hk'; cases hk')
    · rename_i key hk
      split at h
      · cases h
      · rename_i r hr
        simp only [Option.some.injEq, Prod.mk.injEq] at h
        obtain ⟨rfl, rfl, rfl⟩ := h
        exact ⟨le_refl _, by omega, ⟨key, hk, hr⟩, fun M _ h1 h2 => absurd h1 (by omega)⟩
      · rename_i hr
        exact step h (by intro key' hk'; rw [hk] at hk'; cases hk'; exact hr)

theorem phaseA_passes_none {g : Globals} {icao group airline livery : Str} :
    ∀ (count n : Nat),
      phaseA.passes g icao group airline livery count n = some none →
      ∀ M key, n ≤ M → M < n + count → passKey icao group airline livery M = some key →
        phaseA.packages g.total M key g.gPackages 0 = some none := by
  intro count
  induction count with
  | zero => intro n _ M key h1 h2; omega
  | succ c ih =>
    intro n h M key hM1 hM2 hk
    unfold phaseA.passes at h
    split at h
    · rename_i hkn
      rcases Nat.eq_or_lt_of_le hM1 with rfl | hlt
      · rw [hkn] at hk; cases hk
      · exact ih _ h M key hlt (by omega) hk
    · rename_i key' hkn
      split at h
      · cases h
      · cases h
      · rename_i hr
        rcases Nat.eq_or_lt_of_le hM1 with rfl | hlt
        · rw [hkn] at hk; cases hk; exact hr
        · exact ih _ h M key hlt (by omega) hk

theorem CSL_MatchPlane_of_phaseA_some {g : Globals} {inICAO : Str}
    {inAirline inLivery : Option Str} {r : Nat × Nat × Nat}
    (h : phaseA g inICAO inAirline inLivery = some (some r)) (mq ud : Bool) :
    CSL_MatchPlane g inICAO inAirline inLivery mq ud =
      some { plane := some (r.2.1, r.2.2), quality := if mq then some (r.1 : Int) else none } := by
  rw [CSL_MatchPlane, h]

theorem CSL_MatchPlane_of_phaseA_undefined {g : Globals} {inICAO : Str}
    {inAirline inLivery : Option Str}
    (h : phaseA g inICAO inAirline inLivery = none) (mq ud : Bool) :
    CSL_MatchPlane g inICAO inAirline inLivery mq ud = none := by
  rw [CSL_MatchPlane, h]

theorem CSL_MatchPlane_of_phaseA_none {g : Globals} {inICAO : Str}
    {inAirline inLivery : Option Str}
    (h : phaseA g inICAO inAirline inLivery = some none) (mq ud : Bool) :
    CSL_MatchPlane g inICAO inAirline inLivery mq ud =
      match phaseB g inICAO inAirline with
      | none => none
      | some (some r) =>
        some { plane := some (r.2.1, r.2.2.2.toNat), quality := if mq then some (-1) else none }
      | some none =>
        if inICAO = g.gDefaultPlane then
          some { plane := none, quality := if mq then some (-1) else none }
        else if ud = false then
          some { plane := none, quality := if mq then some (-1) else none }
        else
          match CSL_MatchPlane g g.gDefaultPlane (some []) (some []) false false with
          | none => none
          | some r => some { plane := r.plane, quality := if mq then some (-1) else none } := by
  rw [CSL_MatchPlane, h]
  simp only []
  split
  · simp_all
  · simp_all
  · by_cases h1 : inICAO = g.gDefaultPlane
    · simp only [h1, if_true]
    · simp only [h1, if_false]
      cases ud
      · simp
      · cases hrec : CSL_MatchPlane g g.gDefaultPlane (some []) (some []) false false <;>
          simp [hrec]

theorem CSL_MatchPlane_quality_nat {g : Globals} {inICAO : Str}
    {inAirline inLivery : Option Str} {ud : Bool} {r : MatchResult} {N : Nat}
    (h : CSL_MatchPlane g inICAO inAirline inLivery true ud = some r)
    (hq : r.quality = some (N : Int)) :
    ∃ p i, phaseA g inICAO inAirline inLivery = some (some (N, p, i)) ∧ r.plane = some (p, i) := by
  cases hA : phaseA g inICAO inAirline inLivery with
  | none => rw [CSL_MatchPlane_of_phaseA_undefined hA] at h; cases h
  | some o =>
    cases o with
    | some t =>
      rw [CSL_MatchPlane_of_phaseA_some hA] at h
      cases h
      simp only [if_true, Option.some.injEq, Nat.cast_inj] at hq
      obtain ⟨n, p, i⟩ := t
      simp only at hq
      subst hq
      exact ⟨p, i, rfl, rfl⟩
    | none =>
      rw [CSL_MatchPlane_of_phaseA_none hA] at h
      exfalso
      have key : ∀ x : MatchResult, x.quality = some (-1) → x = r → False := by
        intro x hx hxr
        rw [hxr, hq] at hx
        simp only [Option.some.injEq] at hx
        omega
      split at h
      · cases h
      · cases h; exact key _ rfl rfl
      · split at h
        · cases h; exact key _ rfl rfl
        · split at h
          · cases h; exact key _ rfl rfl
          · split at h
            · cases h
            · cases h; exact key _ rfl rfl


theorem phaseA_packages_first {total : Int} {n : Nat} {key : Str} {pkg : CSLPackage_t}
    {idx : Int} {plane : CSLPlane_t} (rest : List CSLPackage_t) (p0 : Nat)
    (h1 : StrMap.find key (pkg.matches_ n) = some idx) (h2 : pkg.planeAt idx = some plane)
    (h3 : planeLoaded total plane = true) :
    phaseA.packages total n key (pkg :: rest) p0 = some (some (p0, idx.toNat)) := by
  simp [phaseA.packages, h1, h2, h3]

theorem phaseA_packages_skip {total : Int} {n : Nat} {key : Str} {pkg : CSLPackage_t}
    (rest : List CSLPackage_t) (p0 : Nat)
    (h1 : StrMap.find key (pkg.matches_ n) = none) :
    phaseA.packages total n key (pkg :: rest) p0 = phaseA.packages total n key rest (p0 + 1) := by
  simp [phaseA.packages, h1]

theorem passKey_zero {icao group airline livery : Str} (ha : airline ≠ []) (hl : livery ≠ []) :
    passKey icao group airline livery 0 = some (icao ++ [' '] ++ airline ++ [' '] ++ livery) := by
  simp [passKey, kUseICAO, kUseAirline, kUseLivery, ha, hl]

theorem phaseA_pass_zero {g : Globals} {inICAO airline livery : Str} {r : Nat × Nat}
    (ha : airline ≠ []) (hl : livery ≠ [])
    (h : phaseA.packages g.total 0 (inICAO ++ [' '] ++ airline ++ [' '] ++ livery)
      g.gPackages 0 = some (some r)) :
    phaseA g inICAO (some airline) (some livery) = some (some (0, r.1, r.2)) := by
  simp only [phaseA, match_count, phaseA.passes, Option.getD_some, passKey_zero ha hl, h]

/-- Claim C1 (pass order dominates package order). If `CSL_MatchPlane` reports
match quality `N`, that is Phase A returned at pass `N`, then for every pass
`M < N` that is not skipped for the query no package of the catalog holds a
loaded plane under the pass-`M` key in its pass-`M` table. In particular, when
the first package has no exact ICAO+airline+livery entry for the query and the
second package has one with a loaded plane, that exact entry of the second
package is returned with quality 0. -/
theorem phaseA_pass_order_dominates :
    (∀ (g : Globals) (inICAO : Str) (inAirline inLivery : Option Str) (use_default : Bool)
        (r : MatchResult) (N : Nat),
      CSL_MatchPlane g inICAO inAirline inLivery true use_default = some r →
      r.quality = some (N : Int) →
      ∀ M key, M < N →
        passKey inICAO ((StrMap.find inICAO g.gGroupings).getD []) (inAirline.getD [])
          (inLivery.getD []) M = some key →
        ∀ pkg ∈ g.gPackages, ¬ holdsLoaded g.total pkg M key) ∧
    (∀ (g : Globals) (first second : CSLPackage_t) (inICAO airline livery : Str) (idx : Int)
        (plane : CSLPlane_t) (use_default : Bool),
      g.gPackages = [first, second] → airline ≠ [] → livery ≠ [] →
      StrMap.find (inICAO ++ [' '] ++ airline ++ [' '] ++ livery)
        (first.matches_ match_icao_airline_livery) = none →
      StrMap.find (inICAO ++ [' '] ++ airline ++ [' '] ++ livery)
        (second.matches_ match_icao_airline_livery) = some idx →
      second.planeAt idx = some plane → planeLoaded g.total plane = true →
      CSL_MatchPlane g inICAO (some airline) (some livery) true use_default =
        some { plane := some (1, idx.toNat), quality := some 0 }) := by
  constructor
  · intro g inICAO inAirline inLivery use_default r N h hq M key hM hk pkg hpkg
    obtain ⟨p, i, hA, _⟩ := CSL_MatchPlane_quality_nat h hq
    obtain ⟨_, _, _, hprev⟩ := phaseA_passes_some _ _ _ _ _ hA
    exact phaseA_packages_none _ _ (hprev M key (Nat.zero_le M) hM hk) pkg hpkg
  · intro g first second inICAO airline livery idx plane use_default hg ha hl h1 h2 h3 h4
    have hp : phaseA.packages g.total 0 (inICAO ++ [' '] ++ airline ++ [' '] ++ livery)
        g.gPackages 0 = some (some (1, idx.toNat)) := by
      rw [hg]
      exact (phaseA_packages_skip (n := 0) _ _ h1).trans
        (phaseA_packages_first (n := 0) _ _ h2 h3 h4)
    rw [CSL_MatchPlane_of_phaseA_some (phaseA_pass_zero ha hl hp)]
    rfl

theorem phaseA_pass_order_dominates_witness :
    (∀ M key, M < 3 →
        passKey "B738".toList "B737 B738".toList "AAL".toList [] M = some key →
        ∀ pkg ∈ [sampleExactPackage, sampleGroupPackage],
          ¬ holdsLoaded 1 pkg M key) ∧
    CSL_MatchPlane (sampleGlobals [sampleGroupPackage, sampleExactPackage]) "B738".toList
        (some "AAL".toList) (some "RETRO".toList) true true =
      some { plane := some (1, 1), quality := some 0 } :=
  ⟨phaseA_pass_order_dominates.1 (sampleGlobals [sampleExactPackage, sampleGroupPackage])
      "B738".toList (some "AAL".toList) none true { plane := some (1, 0), quality := some 3 } 3
      (CSL_MatchPlane_of_phaseA_some (r := (3, 1, 0)) (by decide) true true) rfl,
   phaseA_pass_order_dominates.2 (sampleGlobals [sampleGroupPackage, sampleExactPackage])
      sampleGroupPackage sampleExactPackage "B738".toList "AAL".toList "RETRO".toList 1
      (samplePlane "B738".toList "AAL".toList "RETRO".toList) true rfl (by decide) (by decide)
      (by decide) (by decide) (by decide) (by decide)⟩

/-- Claim C2 (load-order tie-break). If `CSL_MatchPlane` reports match quality
`N`, the returned plane is the one stored under the pass-`N` key in the table
`N` of package `p`, and no package before `p` in catalog order holds a loaded
plane under that key in its table `N`. With a catalog `[alpha, beta]` in which
both packages hold a loaded plane under the same exact-match key, the plane
returned is the one of `alpha`. -/
theorem phaseA_load_order_tie_break :
    (∀ (g : Globals) (inICAO : Str) (inAirline inLivery : Option Str) (use_default : Bool)
        (r : MatchResult) (N : Nat),
      CSL_MatchPlane g inICAO inAirline inLivery true use_default = some r →
      r.quality = some (N : Int) →
      ∃ p i key pkg idx plane, r.plane = some (p, i) ∧
        passKey inICAO ((StrMap.find inICAO g.gGroupings).getD []) (inAirline.getD [])
          (inLivery.getD []) N = some key ∧
        g.gPackages.get? p = some pkg ∧
        StrMap.find key (pkg.matches_ N) = some idx ∧ idx.toNat = i ∧
        pkg.planeAt idx = some plane ∧ planeLoaded g.total plane = true ∧
        ∀ j pkg1, j < p → g.gPackages.get? j = some pkg1 → ¬ holdsLoaded g.total pkg1 N key) ∧
    (∀ (g : Globals) (alpha beta : CSLPackage_t) (inICAO airline livery : Str)
        (idxA idxB : Int) (planeA planeB : CSLPlane_t) (use_default : Bool),
      g.gPackages = [alpha, beta] → airline ≠ [] → livery ≠ [] →
      StrMap.find (inICAO ++ [' '] ++ airline ++ [' '] ++ livery)
        (alpha.matches_ match_icao_airline_livery) = some idxA →
      alpha.planeAt idxA = some planeA → planeLoaded g.total planeA = true →
      StrMap.find (inICAO ++ [' '] ++ airline ++ [' '] ++ livery)
        (beta.matches_ match_icao_airline_livery) = some idxB →
      beta.planeAt idxB = some planeB → planeLoaded g.total planeB = true →
      CSL_MatchPlane g inICAO (some airline) (some livery) true use_default =
        some { plane := some (0, idxA.toNat), quality := some 0 }) := by
  constructor
  · intro g inICAO inAirline inLivery use_default r N h hq
    obtain ⟨p, i, hA, hplane⟩ := CSL_MatchPlane_quality_nat h hq
    obtain ⟨_, _, ⟨key, hk, hpk⟩, _⟩ := phaseA_passes_some _ _ _ _ _ hA
    obtain ⟨k, pkg, idx, plane, hp, hget, hf, h0, hi, hpl, hl, hprev⟩ :=
      phaseA_packages_some _ _ _ _ hpk
    have hpk : p = k := by omega
    subst hpk
    refine ⟨p, i, key, pkg, idx, plane, hplane, hk, hget, hf, hi, ?_, hl, hprev⟩
    unfold CSLPackage_t.planeAt
    rw [if_pos h0, hi]
    exact hpl
  · intro g alpha beta inICAO airline livery idxA idxB planeA planeB use_default hg ha hl
      h1 h2 h3 _ _ _
    have hp : phaseA.packages g.total 0 (inICAO ++ [' '] ++ airline ++ [' '] ++ livery)
        g.gPackages 0 = some (some (0, idxA.toNat)) := by
      rw [hg]
      exact phaseA_packages_first (n := 0) _ _ h1 h2 h3
    rw [CSL_MatchPlane_of_phaseA_some (phaseA_pass_zero ha hl hp)]
    rfl

theorem phaseA_load_order_tie_break_witness :
    (∃ p i key pkg idx plane,
        (some (1, 1) : Option (Nat × Nat)) = some (p, i) ∧
        passKey "B738".toList "B737 B738".toList "AAL".toList "RETRO".toList 0 = some key ∧
        [sampleGroupPackage, sampleExactPackage].get? p = some pkg ∧
        StrMap.find key (pkg.matches_ 0) = some idx ∧ idx.toNat = i ∧
        pkg.planeAt idx = some plane ∧ planeLoaded 1 plane = true ∧
        ∀ j pkg1, j < p → [sampleGroupPackage, sampleExactPackage].get? j = some pkg1 →
          ¬ holdsLoaded 1 pkg1 0 key) ∧
    CSL_MatchPlane (sampleGlobals [sampleExactPackage, sampleExactPackage]) "B738".toList
        (some "AAL".toList) (some "RETRO".toList) true true =
      some { plane := some (0, 1), quality := some 0 } :=
  ⟨phaseA_load_order_tie_break.1 (sampleGlobals [sampleGroupPackage, sampleExactPackage])
      "B738".toList (some "AAL".toList) (some "RETRO".toList) true
      { plane := some (1, 1), quality := some 0 } 0
      (CSL_MatchPlane_of_phaseA_some (r := (0, 1, 1)) (by decide) true true) rfl,
   phaseA_load_order_tie_break.2 (sampleGlobals [sampleExactPackage, sampleExactPackage])
      sampleExactPackage sampleExactPackage "B738".toList "AAL".toList "RETRO".toList 1 1
      (samplePlane "B738".toList "AAL".toList "RETRO".toList)
      (samplePlane "B738".toList "AAL".toList "RETRO".toList) true rfl (by decide) (by decide)
      (by decide) (by decide) (by decide) (by decide) (by decide) (by decide)⟩

/-- Claim C4 (match quality reporting). For a call with a quality pointer: when
Phase A finds a plane at pass `n`, the reported quality is `n`, `n` is at most 7
and the plane is `planes[matches[n][key]]` of the chosen package for the key of
pass `n`; when Phase A finds nothing (the result comes from Phase B, from the
default fallback, or is no match) the reported quality is `-1`. -/
theorem match_quality_reporting (g : Globals) (inICAO : Str) (inAirline inLivery : Option Str)
    (use_default : Bool) (r : MatchResult)
    (h : CSL_MatchPlane g inICAO inAirline inLivery true use_default = some r) :
    (∀ n p i, phaseA g inICAO inAirline inLivery = some (some (n, p, i)) →
      r.quality = some (n : Int) ∧ n ≤ 7 ∧ r.plane = some (p, i) ∧
      ∃ key pkg idx,
        passKey inICAO ((StrMap.find inICAO g.gGroupings).getD []) (inAirline.getD [])
          (inLivery.getD []) n = some key ∧
        g.gPackages.get? p = some pkg ∧
        StrMap.find key (pkg.matches_ n) = some idx ∧ 0 ≤ idx ∧ idx.toNat = i ∧
        i < pkg.planes.length) ∧
    (phaseA g inICAO inAirline inLivery = some none → r.quality = some (-1)) := by
  constructor
  · intro n p i hA
    rw [CSL_MatchPlane_of_phaseA_some hA] at h
    cases h
    obtain ⟨_, hn, ⟨key, hk, hpk⟩, _⟩ := phaseA_passes_some _ _ _ _ _ hA
    obtain ⟨k, pkg, idx, plane, hp, hget, hf, h0, hi, hpl, hl, _⟩ :=
      phaseA_packages_some _ _ _ _ hpk
    have hpk : p = k := by omega
    subst hpk
    refine ⟨rfl, ?_, rfl, key, pkg, idx, hk, hget, hf, h0, hi, ?_⟩
    · simp only [match_count] at hn; omega
    · exact (List.get?_eq_some.1 hpl).1
  · intro hA
    rw [CSL_MatchPlane_of_phaseA_none hA] at h
    split at h
    · cases h
    · cases h; rfl
    · split at h
      · cases h; rfl
      · split at h
        · cases h; rfl
        · split at h
          · cases h
          · cases h; rfl

theorem match_quality_reporting_witness :
    (∀ n p i, phaseA (sampleGlobals [sampleGroupPackage, sampleExactPackage]) "B738".toList
        (some "AAL".toList) none = some (some (n, p, i)) →
      (some 3 : Option Int) = some (n : Int) ∧ n ≤ 7 ∧
      (some (0, 0) : Option (Nat × Nat)) = some (p, i) ∧
      ∃ key pkg idx,
        passKey "B738".toList "B737 B738".toList "AAL".toList [] n = some key ∧
        [sampleGroupPackage, sampleExactPackage].get? p = some pkg ∧
        StrMap.find key (pkg.matches_ n) = some idx ∧ 0 ≤ idx ∧ idx.toNat = i ∧
        i < pkg.planes.length) ∧
    (phaseA (sampleGlobals [sampleGroupPackage, sampleExactPackage]) "B738".toList
        (some "AAL".toList) none = some none → (some 3 : Option Int) = some (-1)) :=
  match_quality_reporting (sampleGlobals [sampleGroupPackage, sampleExactPackage])
    "B738".toList (some "AAL".toList) none true { plane := some (0, 0), quality := some 3 }
    (CSL_MatchPlane_of_phaseA_some (r := (3, 0, 0)) (by decide) true true)


/-- Claim C6 (default fallback). When Phase A and Phase B find nothing, the
result is no match if the query ICAO is the default ICAO or the default
fallback is disabled; otherwise its plane is the plane of `CSL_MatchPlane` on
(default ICAO, empty airline, empty livery) with the fallback disabled. A call
with the fallback disabled is determined by Phase A and Phase B alone, so the
recursion is at most one call deep; `CSL_MatchPlane` is a total function. -/
theorem default_fallback (g : Globals) (inICAO : Str) (inAirline inLivery : Option Str)
    (match_quality : Bool) :
    (∀ use_default,
      phaseA g inICAO inAirline inLivery = some none →
      phaseB g inICAO inAirline = some none →
      ((inICAO = g.gDefaultPlane ∨ use_default = false) →
        CSL_MatchPlane g inICAO inAirline inLivery match_quality use_default =
          some { plane := none, quality := if match_quality then some (-1) else none }) ∧
      (inICAO ≠ g.gDefaultPlane → use_default = true →
        CSL_MatchPlane g inICAO inAirline inLivery match_quality use_default =
          (CSL_MatchPlane g g.gDefaultPlane (some []) (some []) false false).map fun r =>
            { plane := r.plane, quality := if match_quality then some (-1) else none })) ∧
    CSL_MatchPlane g inICAO inAirline inLivery match_quality false =
      (match phaseA g inICAO inAirline inLivery with
      | none => none
      | some (some r) =>
        some { plane := some (r.2.1, r.2.2),
               quality := if match_quality then some (r.1 : Int) else none }
      | some none =>
        match phaseB g inICAO inAirline with
        | none => none
        | some (some r) =>
          some { plane := some (r.2.1, r.2.2.2.toNat),
                 quality := if match_quality then some (-1) else none }
        | some none =>
          some { plane := none, quality := if match_quality then some (-1) else none }) := by
  constructor
  · intro use_default hA hB
    rw [CSL_MatchPlane_of_phaseA_none hA, hB]
    constructor
    · rintro (h | h)
      · simp [h]
      · simp [h]
    · intro h1 h2
      simp only [h1, h2, if_false, Bool.true_eq_false]
      cases CSL_MatchPlane g g.gDefaultPlane (some []) (some []) false false <;> rfl
  · cases hA : phaseA g inICAO inAirline inLivery with
    | none => rw [CSL_MatchPlane_of_phaseA_undefined hA]
    | some o =>
      cases o with
      | some t => rw [CSL_MatchPlane_of_phaseA_some hA]
      | none =>
        rw [CSL_MatchPlane_of_phaseA_none hA]
        cases hB : phaseB g inICAO inAirline with
        | none => rfl
        | some o2 =>
          cases o2 with
          | some t => rfl
          | none => simp

theorem default_fallback_witness :
    CSL_MatchPlane (sampleGlobals [sampleExactPackage]) "A320".toList none none true true =
      some { plane := none, quality := some (-1) } ∧
    CSL_MatchPlane ({ sampleGlobals [sampleExactPackage] with gDefaultPlane := "B737".toList })
        "ZZZZ".toList none none true true =
      (CSL_MatchPlane ({ sampleGlobals [sampleExactPackage] with gDefaultPlane := "B737".toList })
        "B737".toList (some []) (some []) false false).map fun r =>
          { plane := r.plane, quality := some (-1) } :=
  ⟨((default_fallback (sampleGlobals [sampleExactPackage]) "A320".toList none none true).1 true
      (by decide) (by decide)).1 (Or.inl rfl),
   ((default_fallback ({ sampleGlobals [sampleExactPackage] with gDefaultPlane := "B737".toList })
      "ZZZZ".toList none none true).1 true (by decide) (by decide)).2 (by decide) rfl⟩

/-! ## Phase B -/

theorem strAt_of_length_three {s : Str} (h : s.length = 3) :
    (∃ c, strAt s 1 = some c) ∧ ∃ c, strAt s 2 = some c := by
  match s, h with
  | [a, b, c], _ => exact ⟨⟨b, rfl⟩, ⟨c, rfl⟩⟩

theorem equipCharEq_eq_some {a b : Str} {i : Nat} {r : Bool} {c : Char}
    (ha : strAt a i = some c) (h : equipCharEq a b i = some r) :
    (r = true ↔ strAt a i = strAt b i) := by
  unfold equipCharEq at h
  rw [ha] at h
  rw [ha]
  cases hb : strAt b i with
  | none => rw [hb] at h; cases h
  | some d =>
    rw [hb] at h
    simp only [Option.some.injEq] at h
    subst h
    simp

theorem phaseB_criteria_stage {cond : Prop} [Decidable cond] {prev : Bool} {t : Option Bool}
    {P : Prop} (htest : cond → prev = true → ∀ r, t = some r → (r = true ↔ P)) (r : Bool)
    (h : (if prev = true ∧ cond then t else some prev) = some r) :
    (r = true ↔ prev = true ∧ (cond → P)) := by
  by_cases hc : prev = true ∧ cond
  · rw [if_pos hc] at h
    rw [htest hc.2 hc.1 r h]
    exact ⟨fun hp => ⟨hc.1, fun _ => hp⟩, fun hp => hp.2 hc.2⟩
  · rw [if_neg hc] at h
    simp only [Option.some.injEq] at h
    subst h
    constructor
    · intro hp
      exact ⟨hp, fun hcond => absurd ⟨hp, hcond⟩ hc⟩
    · exact fun hp => hp.1

theorem phaseB_criteria_iff {model m : CSLAircraftCode_t} {level : Int} {a : Bool}
    {key airline : Str} {b : Bool} (h1 : 1 ≤ level) (h5 : level ≤ 5)
    (hkey : a = true → ' ' ∈ key)
    (h : phaseB.criteria model m level a key airline = some b) :
    (b = true ↔
      m.category = model.category ∧
      (level < 5 → m.equip.length = 3) ∧
      (level = 1 ∨ level = 2 ∨ level = 4 → strAt m.equip 2 = strAt model.equip 2) ∧
      (level ≤ 3 → strAt m.equip 1 = strAt model.equip 1) ∧
      (level = 1 → m.equip = model.equip) ∧
      (a = true → afterFirst ' ' key = airline)) := by
  unfold phaseB.criteria at h
  simp only [] at h
  by_cases hc : m.category = model.category
  swap
  · have : (m.category == model.category) = false := by simpa using hc
    simp [this] at h
    subst h
    simp [hc]
  have hcb : (m.category == model.category) = true := by simpa using hc
  by_cases hlen : level < 5 ∧ m.equip.length ≠ 3
  · simp [hcb, hlen] at h
    subst h
    simp [hlen.1, hlen.2]
  have hlen' : level < 5 → m.equip.length = 3 := by
    intro hl; by_contra hne; exact hlen ⟨hl, hne⟩
  rw [if_neg hlen, hcb] at h
  obtain ⟨r4, h4, hb⟩ := Option.bind_eq_some.1 h
  obtain ⟨r3, h3, hr4⟩ := Option.bind_eq_some.1 h4
  obtain ⟨r2, h2, hr3⟩ := Option.bind_eq_some.1 h3
  have e2 := phaseB_criteria_stage (P := strAt m.equip 2 = strAt model.equip 2)
    (fun (hcond : level ≤ 2 ∨ level = 4) _ r hr => by
      obtain ⟨c, hcs⟩ := (strAt_of_length_three (hlen' (by omega))).2
      exact equipCharEq_eq_some hcs hr) r2 h2
  have e3 := phaseB_criteria_stage (P := strAt m.equip 1 = strAt model.equip 1)
    (fun (hcond : level ≤ 3) _ r hr => by
      obtain ⟨c, hcs⟩ := (strAt_of_length_three (hlen' (by omega))).1
      exact equipCharEq_eq_some hcs hr) r3 hr3
  have e4 := phaseB_criteria_stage (P := m.equip = model.equip)
    (fun (_ : level = 1) _ r hr => by
      simp only [Option.some.injEq] at hr
      subst hr
      simp) r4 hr4
  have hb' : (if r4 = true ∧ (a = true ∧ key.contains ' ' = true) then
      some (afterFirst ' ' key == airline) else some r4) = some b := hb
  have e5 := phaseB_criteria_stage (P := afterFirst ' ' key = airline)
    (fun (_ : a = true ∧ key.contains ' ' = true) _ r hr => by
      simp only [Option.some.injEq] at hr
      subst hr
      simp) b hb'
  rw [e5, e4, e3, e2]
  have hkey' : a = true → key.contains ' ' = true := by
    intro ha
    simpa using hkey ha
  constructor
  · rintro ⟨⟨⟨⟨_, q2⟩, q3⟩, q4⟩, q5⟩
    refine ⟨hc, hlen', ?_, q3, q4, fun ha => q5 ⟨ha, hkey' ha⟩⟩
    intro hl
    exact q2 (by omega)
  · rintro ⟨_, _, q2, q3, q4, q5⟩
    exact ⟨⟨⟨⟨rfl, fun hl => q2 (by omega)⟩, q3⟩, q4⟩, fun ha => q5 ha.1⟩

theorem strAt_isSome_of_le {s : Str} {i : Nat} (h : i ≤ s.length) : ∃ c, strAt s i = some c := by
  unfold strAt
  by_cases h1 : i < s.length
  · rw [if_pos h1]
    exact ⟨s.get ⟨i, h1⟩, List.get?_eq_get h1⟩
  · rw [if_neg h1, if_pos (by omega)]
    exact ⟨_, rfl⟩

theorem phaseB_stage_defined {c : Prop} [Decidable c] {t : Option Bool} (prev : Bool)
    (ht : ∃ r, t = some r) : ∃ r, (if c then t else some prev) = some r := by
  by_cases hc : c
  · rw [if_pos hc]; exact ht
  · rw [if_neg hc]; exact ⟨prev, rfl⟩

theorem phaseB_criteria_defined (model m : CSLAircraftCode_t) (level : Int) (a : Bool)
    (key airline : Str) (hmodel : 2 ≤ model.equip.length) :
    ∃ b, phaseB.criteria model m level a key airline = some b := by
  obtain ⟨x1, hx1⟩ := strAt_isSome_of_le (s := model.equip) (i := 1) (by omega)
  obtain ⟨x2, hx2⟩ := strAt_isSome_of_le (s := model.equip) (i := 2) hmodel
  unfold phaseB.criteria
  simp only []
  by_cases hlen : m.equip.length = 3
  · obtain ⟨⟨y1, hy1⟩, ⟨y2, hy2⟩⟩ := strAt_of_length_three hlen
    have t2 : ∃ r, equipCharEq m.equip model.equip 2 = some r := by
      simp [equipCharEq, hx2, hy2]
    have t1 : ∃ r, equipCharEq m.equip model.equip 1 = some r := by
      simp [equipCharEq, hx1, hy1]
    obtain ⟨r2, h2⟩ := phaseB_stage_defined
      (c := (if level < 5 ∧ m.equip.length ≠ 3 then false
        else m.category == model.category) = true ∧ (level ≤ 2 ∨ level = 4))
      (if level < 5 ∧ m.equip.length ≠ 3 then false else m.category == model.category) t2
    rw [h2]
    simp only [Option.some_bind]
    obtain ⟨r3, h3⟩ := phaseB_stage_defined (c := r2 = true ∧ level ≤ 3) r2 t1
    rw [h3]
    simp only [Option.some_bind]
    obtain ⟨r4, h4⟩ := phaseB_stage_defined (c := r3 = true ∧ level = 1)
      (t := some (m.equip == model.equip)) r3 ⟨_, rfl⟩
    rw [h4]
    simp only [Option.some_bind]
    exact phaseB_stage_defined r4 ⟨_, rfl⟩
  · by_cases hl : level < 5
    · simp [hl, hlen, Option.bind]
    · have h2 : ¬ (level ≤ 2 ∨ level = 4) := by omega
      have h3 : ¬ level ≤ 3 := by omega
      have h4 : ¬ level = 1 := by omega
      simp only [hl, false_and, if_false, h2, and_false, Option.bind, h3, h4]
      split_ifs <;> simp


theorem StrMap.find_of_mem {α : Type} {k : Str} {v : α} :
    ∀ {m : StrMap α}, (k, v) ∈ m → ∃ v1, StrMap.find k m = some v1
  | [], h => by cases h
  | (k0, v0) :: rest, h => by
    unfold StrMap.find
    by_cases hk : k0 = k
    · rw [if_pos hk]; exact ⟨v0, rfl⟩
    · rw [if_neg hk]
      rcases List.mem_cons.1 h with h | h
      · cases h; exact absurd rfl hk
      · exact StrMap.find_of_mem h

theorem identityKeys_airline_table {g : Globals} {tokens : List Str} {key : Str}
    (h : (match_icao_airline, key) ∈ identityKeys g tokens) : ' ' ∈ key := by
  cases tokens with
  | nil => cases h
  | cons keyword args =>
    unfold identityKeys at h
    simp only [] at h
    split_ifs at h
    · match args, h with
      | [icao], h =>
        simp only [icaoKeys, match_icao_airline, match_icao, match_group, List.mem_cons,
          Prod.mk.injEq] at h
        rcases h with h | h
        · omega
        · split_ifs at h <;> simp at h
      | [], h => cases h
      | _ :: _ :: _, h => cases h
    · match args, h with
      | [icao, airline], h =>
        simp only [airlineKeys, match_icao_airline, match_group_airline, List.mem_cons,
          Prod.mk.injEq] at h
        rcases h with h | h
        · rw [h.2]; simp
        · split_ifs at h <;> simp at h
      | [], h => cases h
      | [_], h => cases h
      | _ :: _ :: _ :: _, h => cases h
    · match args, h with
      | [icao, airline, livery], h =>
        simp only [liveryKeys, match_icao_airline, match_icao_airline_livery,
          match_group_airline_livery, List.mem_cons, Prod.mk.injEq] at h
        rcases h with h | h
        · omega
        · split_ifs at h <;> simp at h
      | [], h => cases h
      | [_], h => cases h
      | [_, _], h => cases h
      | _ :: _ :: _ :: _ :: _, h => cases h
    · cases h

theorem parsed_airline_keys_have_space {g : Globals} {content : Str} {st0 st1 : ParseState}
    (hempty : ∀ t, st0.package.matches_ t = [])
    (h : ParseFullPackage g content st0 = some st1) :
    ∀ e ∈ st1.package.matches_ match_icao_airline, ' ' ∈ e.1 := by
  intro e he
  obtain ⟨v1, hfind⟩ := StrMap.find_of_mem (k := e.1) (v := e.2) he
  obtain ⟨stL, hL, hpk⟩ := ParseFullPackage_package h
  rw [hpk] at hfind
  have h0 : StrMap.find e.1 (st0.package.matches_ match_icao_airline) = none := by
    rw [hempty]; rfl
  rcases (ParseFullPackage_lines_find _ _ _ _ hL match_icao_airline e.1).2 h0 with
    ⟨hn, _⟩ | ⟨idx, _, pre, raw, post, stPre, _, _, _, hmem, _, _⟩
  · rw [hn] at hfind; cases hfind
  · exact identityKeys_airline_table hmem

theorem phaseB_entry_iff (g : Globals) (model : CSLAircraftCode_t) (level : Int) (a : Bool)
    (airline : Str) (pckg : CSLPackage_t) (e : Str × Int)
    (h1 : 1 ≤ level) (h5 : level ≤ 5) (hkey : a = true → ' ' ∈ e.1) :
    (∀ b, phaseB.entry g model level a airline pckg e = some b →
      (b = true ↔ acceptedBySpec g model level a airline pckg e)) ∧
    ((∃ plane, pckg.planeAt e.2 = some plane) → 2 ≤ model.equip.length →
      ∃ b, phaseB.entry g model level a airline pckg e = some b) := by
  constructor
  · intro b h
    unfold phaseB.entry at h
    unfold acceptedBySpec
    cases hp : pckg.planeAt e.2 with
    | none => rw [hp] at h; cases h
    | some plane =>
      rw [hp] at h
      simp only [] at h
      by_cases hl : planeLoaded g.total plane = true
      · rw [if_pos hl] at h
        cases hm : StrMap.find (substr0 e.1 4) g.gAircraftCodes with
        | none =>
          rw [hm] at h
          cases h
          simp only [Bool.false_eq_true, false_iff]
          rintro ⟨_, m, _, _, hf, _⟩
          rw [substr0] at hm
          rw [hm] at hf
          cases hf
        | some m =>
          rw [hm] at h
          rw [phaseB_criteria_iff h1 h5 hkey h]
          constructor
          · intro hc
            exact ⟨plane, m, rfl, hl, hm, hc⟩
          · rintro ⟨plane', m', hp', _, hf, hc⟩
            rw [substr0] at hm
            rw [hm] at hf
            cases hf
            exact hc
      · rw [if_neg hl] at h
        cases h
        simp only [Bool.false_eq_true, false_iff]
        rintro ⟨plane', _, hp', hl', _⟩
        cases hp'
        exact hl hl'
  · rintro ⟨plane, hp⟩ hmodel
    unfold phaseB.entry
    rw [hp]
    simp only []
    split_ifs
    · split
      · exact ⟨false, rfl⟩
      · exact phaseB_criteria_defined _ _ _ _ _ _ hmodel
    · exact ⟨false, rfl⟩


/-- Claim C9 (Phase B acceptance). At equipment level 1 to 5 with airline flag
`a`, for a table entry whose key holds a space when `a` is set, the entry is
accepted if and only if the condition of the specification holds: valid plane,
the first four characters of the key are an ICAO code of the aircraft-code
table with entry `m`, same weight category, equipment of length 3 below level
5, equal engine type at levels 1, 2 and 4, equal engine count up to level 3,
equal equipment at level 1, and the airline suffix of the key (the text after
its first space) equal to the query airline when `a` is set. The test has a
defined result whenever the plane index is in range and the equipment string of
the query aircraft has at least two characters. Every key of the ICAO+airline
table of a parsed package holds a space, so the condition on the key is met by
every entry that the airline sub-passes can meet. -/
theorem phaseB_acceptance :
    (∀ (g : Globals) (model : CSLAircraftCode_t) (level : Int) (a : Bool) (airline : Str)
        (pckg : CSLPackage_t) (e : Str × Int),
      1 ≤ level → level ≤ 5 → (a = true → ' ' ∈ e.1) →
      (∀ b, phaseB.entry g model level a airline pckg e = some b →
        (b = true ↔ acceptedBySpec g model level a airline pckg e)) ∧
      ((∃ plane, pckg.planeAt e.2 = some plane) → 2 ≤ model.equip.length →
        ∃ b, phaseB.entry g model level a airline pckg e = some b)) ∧
    (∀ (g : Globals) (content : Str) (st0 st1 : ParseState),
      (∀ t, st0.package.matches_ t = []) →
      ParseFullPackage g content st0 = some st1 →
      ∀ e ∈ st1.package.matches_ match_icao_airline, ' ' ∈ e.1) :=
  ⟨fun g model level a airline pckg e h1 h5 hkey =>
      phaseB_entry_iff g model level a airline pckg e h1 h5 hkey,
    fun _ _ _ _ hempty h => parsed_airline_keys_have_space hempty h⟩

theorem phaseB_acceptance_witness :
    (true = true ↔
      acceptedBySpec (sampleGlobals [sampleAirlinePackage]) ⟨"2JT".toList, 'M'⟩ 1 true
        "AAL".toList sampleAirlinePackage ("B738 AAL".toList, 0)) ∧
    ∃ b, phaseB.entry (sampleGlobals [sampleAirlinePackage]) ⟨"2JT".toList, 'M'⟩ 1 true
      "AAL".toList sampleAirlinePackage ("B738 AAL".toList, 0) = some b :=
  ⟨(phaseB_acceptance.1 (sampleGlobals [sampleAirlinePackage]) ⟨"2JT".toList, 'M'⟩ 1 true
      "AAL".toList sampleAirlinePackage ("B738 AAL".toList, 0) (by decide) (by decide)
      (by decide)).1 true (by decide),
   (phaseB_acceptance.1 (sampleGlobals [sampleAirlinePackage]) ⟨"2JT".toList, 'M'⟩ 1 true
      "AAL".toList sampleAirlinePackage ("B738 AAL".toList, 0) (by decide) (by decide)
      (by decide)).2 ⟨_, rfl⟩ (by decide)⟩

theorem strLess_irrefl : ∀ a : Str, strLess a a = false
  | [] => rfl
  | c :: cs => by simp [strLess, strLess_irrefl cs]

theorem strLess_asymm : ∀ a b : Str, strLess a b = true → strLess b a = false
  | [], [], h => by simp [strLess] at h
  | [], _ :: _, _ => rfl
  | _ :: _, [], h => by simp [strLess] at h
  | a :: as, b :: bs, h => by
    unfold strLess at h ⊢
    by_cases h1 : a.toNat < b.toNat
    · have h2 : ¬ b.toNat < a.toNat := by omega
      simp [h1, h2]
    · by_cases h2 : b.toNat < a.toNat
      · simp [h1, h2] at h
      · simp only [h1, h2, if_false] at h ⊢
        exact strLess_asymm as bs h

theorem phaseB_entries_some {g : Globals} {model : CSLAircraftCode_t} {pass : Int} {a : Bool}
    {airline : Str} {pckg : CSLPackage_t} :
    ∀ (tbl : List (Str × Int)) (e : Str × Int),
      phaseB.entries g model pass a airline pckg tbl = some (some e) →
      ∃ pre post, tbl = pre ++ e :: post ∧
        phaseB.entry g model pass a airline pckg e = some true ∧
        ∀ x ∈ pre, phaseB.entry g model pass a airline pckg x = some false := by
  intro tbl
  induction tbl with
  | nil => intro e h; simp [phaseB.entries] at h
  | cons y rest ih =>
    intro e h
    unfold phaseB.entries at h
    split at h
    · cases h
    · rename_i hy
      simp only [Option.some.injEq] at h
      subst h
      exact ⟨[], rest, rfl, hy, fun x hx => by cases hx⟩
    · rename_i hy
      obtain ⟨pre, post, hre, he, hpre⟩ := ih e h
      refine ⟨y :: pre, post, by rw [hre]; rfl, he, ?_⟩
      intro x hx
      rcases List.mem_cons.1 hx with rfl | hx
      · exact hy
      · exact hpre x hx

theorem phaseB_entries_none {g : Globals} {model : CSLAircraftCode_t} {pass : Int} {a : Bool}
    {airline : Str} {pckg : CSLPackage_t} :
    ∀ (tbl : List (Str × Int)),
      phaseB.entries g model pass a airline pckg tbl = some none →
      ∀ x ∈ tbl, phaseB.entry g model pass a airline pckg x = some false := by
  intro tbl
  induction tbl with
  | nil => intro _ x hx; cases hx
  | cons y rest ih =>
    intro h x hx
    unfold phaseB.entries at h
    split at h
    · cases h
    · cases h
    · rename_i hy
      rcases List.mem_cons.1 hx with rfl | hx
      · exact hy
      · exact ih h x hx

theorem phaseB_packages_some {g : Globals} {model : CSLAircraftCode_t} {pass : Int} {a : Bool}
    {airline : Str} :
    ∀ (pkgs : List CSLPackage_t) (p0 p : Nat) (e : Str × Int),
      phaseB.packages g model pass a airline pkgs p0 = some (some (p, e)) →
      ∃ k pckg, p = p0 + k ∧ pkgs.get? k = some pckg ∧
        phaseB.entries g model pass a airline pckg (phaseBTable pckg a) = some (some e) ∧
        ∀ j pk, j < k → pkgs.get? j = some pk →
          phaseB.entries g model pass a airline pk (phaseBTable pk a) = some none := by
  intro pkgs
  induction pkgs with
  | nil => intro p0 p e h; simp [phaseB.packages] at h
  | cons y rest ih =>
    intro p0 p e h
    unfold phaseB.packages at h
    split at h
    · cases h
    · rename_i e' he
      simp only [Option.some.injEq, Prod.mk.injEq] at h
      obtain ⟨rfl, rfl⟩ := h
      exact ⟨0, y, rfl, rfl, he, fun j _ hj => absurd hj (Nat.not_lt_zero j)⟩
    · rename_i hy
      obtain ⟨k, pckg, hp, hget, he, hprev⟩ := ih _ _ _ h
      refine ⟨k + 1, pckg, by omega, by simpa using hget, he, ?_⟩
      intro j pk hj hg
      cases j with
      | zero => simp at hg; subst hg; exact hy
      | succ j => exact hprev j pk (by omega) (by simpa using hg)

theorem phaseB_packages_none {g : Globals} {model : CSLAircraftCode_t} {pass : Int} {a : Bool}
    {airline : Str} :
    ∀ (pkgs : List CSLPackage_t) (p0 : Nat),
      phaseB.packages g model pass a airline pkgs p0 = some none →
      ∀ pk ∈ pkgs, phaseB.entries g model pass a airline pk (phaseBTable pk a) = some none := by
  intro pkgs
  induction pkgs with
  | nil => intro _ _ pk hpk; cases hpk
  | cons y rest ih =>
    intro p0 h pk hpk
    unfold phaseB.packages at h
    split at h
    · cases h
    · cases h
    · rename_i hy
      rcases List.mem_cons.1 hpk with rfl | hpk
      · exact hy
      · exact ih _ h pk hpk

theorem phaseB_megaPasses_some {g : Globals} {model : CSLAircraftCode_t}
    {inAirline : Option Str} :
    ∀ (count mp0 mp : Nat) (r : Nat × Str × Int),
      phaseB.megaPasses g model inAirline count mp0 = some (some (mp, r)) →
      mp0 ≤ mp ∧ mp < mp0 + count ∧ ¬ subPassSkipped inAirline mp ∧
      phaseB.packages g model (megaPassFlags mp).2 (megaPassFlags mp).1 (inAirline.getD [])
        g.gPackages 0 = some (some r) ∧
      ∀ k, mp0 ≤ k → k < mp → ¬ subPassSkipped inAirline k →
        phaseB.packages g model (megaPassFlags k).2 (megaPassFlags k).1 (inAirline.getD [])
          g.gPackages 0 = some none := by
  intro count
  induction count with
  | zero => intro mp0 mp r h; simp [phaseB.megaPasses] at h
  | succ c ih =>
    intro mp0 mp r h
    unfold phaseB.megaPasses at h
    simp only [] at h
    have step : phaseB.megaPasses g model inAirline c (mp0 + 1) = some (some (mp, r)) →
        (¬ subPassSkipped inAirline mp0 →
          phaseB.packages g model (megaPassFlags mp0).2 (megaPassFlags mp0).1
            (inAirline.getD []) g.gPackages 0 = some none) →
        mp0 ≤ mp ∧ mp < mp0 + (c + 1) ∧ ¬ subPassSkipped inAirline mp ∧
        phaseB.packages g model (megaPassFlags mp).2 (megaPassFlags mp).1 (inAirline.getD [])
          g.gPackages 0 = some (some r) ∧
        ∀ k, mp0 ≤ k → k < mp → ¬ subPassSkipped inAirline k →
          phaseB.packages g model (megaPassFlags k).2 (megaPassFlags k).1 (inAirline.getD [])
            g.gPackages 0 = some none := by
      intro h' h0
      obtain ⟨q1, q2, q3, q4, q5⟩ := ih _ _ _ h'
      refine ⟨by omega, by omega, q3, q4, ?_⟩
      intro k hk1 hk2 hk3
      rcases Nat.eq_or_lt_of_le hk1 with rfl | hlt
      · exact h0 hk3
      · exact q5 k hlt hk2 hk3
    split at h
    · rename_i hs
      exact step h (fun hn => absurd hs hn)
    · rename_i hs
      split at h
      · cases h
      · rename_i r' hr
        simp only [Option.some.injEq, Prod.mk.injEq] at h
        obtain ⟨rfl, rfl⟩ := h
        exact ⟨le_refl _, by omega, hs, hr, fun k h1 h2 => absurd h1 (by omega)⟩
      · rename_i hr
        exact step h (fun _ => hr)

theorem phaseB_megaPasses_none {g : Globals} {model : CSLAircraftCode_t}
    {inAirline : Option Str} :
    ∀ (count mp0 : Nat),
      phaseB.megaPasses g model inAirline count mp0 = some none →
      ∀ k, mp0 ≤ k → k < mp0 + count → ¬ subPassSkipped inAirline k →
        phaseB.packages g model (megaPassFlags k).2 (megaPassFlags k).1 (inAirline.getD [])
          g.gPackages 0 = some none := by
  intro count
  induction count with
  | zero => intro mp0 _ k h1 h2; omega
  | succ c ih =>
    intro mp0 h k hk1 hk2 hk3
    unfold phaseB.megaPasses at h
    simp only [] at h
    split at h
    · rename_i hs
      rcases Nat.eq_or_lt_of_le hk1 with rfl | hlt
      · exact absurd hs hk3
      · exact ih _ h k hlt (by omega) hk3
    · split at h
      · cases h
      · cases h
      · rename_i hr
        rcases Nat.eq_or_lt_of_le hk1 with rfl | hlt
        · exact hr
        · exact ih _ h k hlt (by omega) hk3

theorem phaseB_rejected_of_entries_none {g : Globals} {model : CSLAircraftCode_t}
    {inAirline : Option Str} {k : Nat}
    (h : phaseB.packages g model (megaPassFlags k).2 (megaPassFlags k).1 (inAirline.getD [])
      g.gPackages 0 = some none) :
    ∀ pckg ∈ g.gPackages, packageRejected g model inAirline k pckg := by
  intro pckg hp
  exact phaseB_entries_none _ (phaseB_packages_none _ _ h pckg hp)

/-- Claim C8 (Phase B ordering). The ten sub-passes `megaPass = 1..10` are the
pairs (airline flag, level) in the order of the specification. A match of
Phase A is returned without consulting Phase B, and Phase B finds nothing for a
query ICAO outside the aircraft-code table. When Phase B returns a candidate, it
is an accepted entry of the table of package `p` for a sub-pass that is not
skipped; the entries before it in that table (all entries with a smaller key
when the table is in ascending key order), every entry of the packages before
`p`, and every entry of every package at each earlier sub-pass that is not
skipped, are rejected. When Phase B finds nothing, every entry is rejected at
every sub-pass that is not skipped. The tables of a parsed package are in
ascending key order. -/
theorem phaseB_ordering :
    (List.range 10).map (fun k => megaPassFlags (k + 1)) = subPassOrder ∧
    (∀ (g : Globals) (inICAO : Str) (inAirline inLivery : Option Str) (mq ud : Bool)
        (r : Nat × Nat × Nat),
      phaseA g inICAO inAirline inLivery = some (some r) →
      CSL_MatchPlane g inICAO inAirline inLivery mq ud =
        some { plane := some (r.2.1, r.2.2),
               quality := if mq then some (r.1 : Int) else none }) ∧
    (∀ (g : Globals) (inICAO : Str) (inAirline : Option Str),
      StrMap.find inICAO g.gAircraftCodes = none → phaseB g inICAO inAirline = some none) ∧
    (∀ (g : Globals) (inICAO : Str) (inAirline inLivery : Option Str) (mq ud : Bool)
        (model : CSLAircraftCode_t) (mp p : Nat) (key : Str) (idx : Int),
      StrMap.find inICAO g.gAircraftCodes = some model →
      phaseB g inICAO inAirline = some (some (mp, p, key, idx)) →
      (phaseA g inICAO inAirline inLivery = some none →
        CSL_MatchPlane g inICAO inAirline inLivery mq ud =
          some { plane := some (p, idx.toNat),
                 quality := if mq then some (-1) else none }) ∧
      1 ≤ mp ∧ mp ≤ 10 ∧ ¬ subPassSkipped inAirline mp ∧
      (∃ pckg pre post, g.gPackages.get? p = some pckg ∧
        phaseBTable pckg (megaPassFlags mp).1 = pre ++ (key, idx) :: post ∧
        phaseB.entry g model (megaPassFlags mp).2 (megaPassFlags mp).1 (inAirline.getD [])
          pckg (key, idx) = some true ∧
        (∀ x ∈ pre, phaseB.entry g model (megaPassFlags mp).2 (megaPassFlags mp).1
          (inAirline.getD []) pckg x = some false) ∧
        (StrMap.Ascending (phaseBTable pckg (megaPassFlags mp).1) →
          ∀ x ∈ phaseBTable pckg (megaPassFlags mp).1, strLess x.1 key = true →
            phaseB.entry g model (megaPassFlags mp).2 (megaPassFlags mp).1
              (inAirline.getD []) pckg x = some false)) ∧
      (∀ j pk, j < p → g.gPackages.get? j = some pk →
        packageRejected g model inAirline mp pk) ∧
      (∀ k, 1 ≤ k → k < mp → ¬ subPassSkipped inAirline k →
        ∀ pk ∈ g.gPackages, packageRejected g model inAirline k pk)) ∧
    (∀ (g : Globals) (inICAO : Str) (inAirline : Option Str) (model : CSLAircraftCode_t),
      StrMap.find inICAO g.gAircraftCodes = some model →
      phaseB g inICAO inAirline = some none →
      ∀ k, 1 ≤ k → k ≤ 10 → ¬ subPassSkipped inAirline k →
        ∀ pk ∈ g.gPackages, packageRejected g model inAirline k pk) ∧
    (∀ (g : Globals) (content : Str) (st0 st1 : ParseState),
      (∀ t, st0.package.matches_ t = []) →
      ParseFullPackage g content st0 = some st1 →
      ∀ a, StrMap.Ascending (phaseBTable st1.package a)) := by
  refine ⟨by decide, ?_, ?_, ?_, ?_, ?_⟩
  · intro g inICAO inAirline inLivery mq ud r h
    exact CSL_MatchPlane_of_phaseA_some h mq ud
  · intro g inICAO inAirline h
    simp [phaseB, h]
  · intro g inICAO inAirline inLivery mq ud model mp p key idx hm hB
    have hB' : phaseB.megaPasses g model inAirline 10 1 = some (some (mp, p, key, idx)) := by
      simpa [phaseB, hm] using hB
    obtain ⟨q1, q2, q3, q4, q5⟩ := phaseB_megaPasses_some _ _ _ _ hB'
    obtain ⟨k, pckg, hk, hget, he, hprev⟩ := phaseB_packages_some _ _ _ _ q4
    obtain ⟨pre, post, htbl, hacc, hpre⟩ := phaseB_entries_some _ _ he
    have hpk : p = k := by omega
    subst hpk
    refine ⟨?_, q1, by omega, q3, ⟨pckg, pre, post, hget, htbl, hacc, hpre, ?_⟩, ?_, ?_⟩
    · intro hA
      rw [CSL_MatchPlane_of_phaseA_none hA, hB]
    · intro hasc x hx hlt
      rw [htbl] at hx hasc
      rcases List.mem_append.1 hx with hx | hx
      · exact hpre x hx
      · exfalso
        rcases List.mem_cons.1 hx with rfl | hx
        · rw [strLess_irrefl] at hlt; cases hlt
        · have hp2 := (List.pairwise_append.1 hasc).2.1
          have := List.rel_of_pairwise_cons hp2 hx
          rw [strLess_asymm _ _ this] at hlt
          cases hlt
    · intro j pk hj hg
      exact phaseB_entries_none _ (hprev j pk hj hg)
    · intro k hk1 hk2 hk3
      exact phaseB_rejected_of_entries_none (q5 k hk1 hk2 hk3)
  · intro g inICAO inAirline model hm hB k hk1 hk2 hk3
    have hB' : phaseB.megaPasses g model inAirline 10 1 = some none := by
      simpa [phaseB, hm] using hB
    exact phaseB_rejected_of_entries_none
      (phaseB_megaPasses_none _ _ hB' k hk1 (by omega) hk3)
  · intro g content st0 st1 hempty h a
    exact parsed_tables_ascending hempty h _

theorem phaseB_ordering_witness :
    CSL_MatchPlane (sampleGlobals [sampleGroupPackage, sampleAirlinePackage]) "A320".toList
        (some "AAL".toList) none true true =
      some { plane := some (1, 0), quality := some (-1) } ∧
    packageRejected (sampleGlobals [sampleGroupPackage, sampleAirlinePackage])
      ⟨"2JT".toList, 'M'⟩ (some "AAL".toList) 1 sampleGroupPackage ∧
    phaseB (sampleGlobals [sampleAirlinePackage]) "ZZZZ".toList none = some none :=
  ⟨(phaseB_ordering.2.2.2.1 (sampleGlobals [sampleGroupPackage, sampleAirlinePackage])
      "A320".toList (some "AAL".toList) none true true ⟨"2JT".toList, 'M'⟩ 1 1
      "B738 AAL".toList 0 (by decide) (by decide)).1 (by decide),
   (phaseB_ordering.2.2.2.1 (sampleGlobals [sampleGroupPackage, sampleAirlinePackage])
      "A320".toList (some "AAL".toList) none true true ⟨"2JT".toList, 'M'⟩ 1 1
      "B738 AAL".toList 0 (by decide) (by decide)).2.2.2.2.2.1 0 sampleGroupPackage
      (by decide) rfl,
   phaseB_ordering.2.2.1 (sampleGlobals [sampleAirlinePackage]) "ZZZZ".toList none
      (by decide)⟩

theorem phaseA_packages_all_absent {total : Int} {n : Nat} {key : Str} :
    ∀ (pkgs : List CSLPackage_t) (p0 : Nat),
      (∀ pk ∈ pkgs, StrMap.find key (pk.matches_ n) = none) →
      phaseA.packages total n key pkgs p0 = some none := by
  intro pkgs
  induction pkgs with
  | nil => intro _ _; rfl
  | cons y rest ih =>
    intro p0 h
    unfold phaseA.packages
    rw [h y (List.mem_cons_self _ _)]
    exact ih _ (fun pk hpk => h pk (List.mem_cons_of_mem _ hpk))

theorem phaseA_no_airline_no_livery {g : Globals} {inICAO : Str}
    (h5 : phaseA.packages g.total 5 inICAO g.gPackages 0 = some none)
    (h7 : phaseA.packages g.total 7 ((StrMap.find inICAO g.gGroupings).getD [])
      g.gPackages 0 = some none) :
    phaseA g inICAO none none = some none := by
  simp [phaseA, match_count, phaseA.passes, passKey, kUseICAO, kUseAirline, kUseLivery, h5, h7]

theorem phaseB_packages_skip_empty {g : Globals} {model : CSLAircraftCode_t} {pass : Int}
    {a : Bool} {airline : Str} :
    ∀ (before rest : List CSLPackage_t) (p0 : Nat),
      (∀ pk ∈ before, ∀ n, pk.matches_ n = []) →
      phaseB.packages g model pass a airline (before ++ rest) p0 =
        phaseB.packages g model pass a airline rest (p0 + before.length) := by
  intro before
  induction before with
  | nil => intro rest p0 _; rfl
  | cons y more ih =>
    intro rest p0 h
    have e : p0 + 1 + more.length = p0 + (y :: more).length := by
      simp only [List.length_cons]; omega
    rw [List.cons_append, phaseB.packages, h y (List.mem_cons_self _ _)]
    simp only [phaseB.entries]
    rw [ih rest (p0 + 1) (fun pk hpk => h pk (List.mem_cons_of_mem _ hpk)), e]

/-- Claim C7 (equipment fallback scenario). With A320 and B738 both of
equipment "2JT" and category 'M', and a catalog whose only identity entry is an
ICAO-only entry for B738 pointing at a loaded plane, the query (A320, no
airline, no livery) is not matched by Phase A, is matched by Phase B at
sub-pass 3 (no airline, level 1), and `CSL_MatchPlane` returns the B738 plane
with the quality `-1`. -/
theorem equipment_fallback_scenario (g : Globals) (before after : List CSLPackage_t)
    (pckg : CSLPackage_t) (idx : Int) (plane : CSLPlane_t) (use_default : Bool)
    (hcat : g.gPackages = before ++ pckg :: after)
    (hA320 : StrMap.find "A320".toList g.gAircraftCodes = some ⟨"2JT".toList, 'M'⟩)
    (hB738 : StrMap.find "B738".toList g.gAircraftCodes = some ⟨"2JT".toList, 'M'⟩)
    (hempty : ∀ pk ∈ before ++ after, ∀ n, pk.matches_ n = [])
    (honly : ∀ n, pckg.matches_ n = if n = match_icao then [("B738".toList, idx)] else [])
    (hplane : pckg.planeAt idx = some plane) (hloaded : planeLoaded g.total plane = true) :
    phaseA g "A320".toList none none = some none ∧
    phaseB g "A320".toList none = some (some (3, before.length, "B738".toList, idx)) ∧
    megaPassFlags 3 = (false, 1) ∧
    CSL_MatchPlane g "A320".toList none none true use_default =
      some { plane := some (before.length, idx.toNat), quality := some (-1) } := by
  have hfind : ∀ (n : Nat) (key : Str), key ≠ "B738".toList →
      ∀ pk ∈ g.gPackages, StrMap.find key (pk.matches_ n) = none := by
    intro n key hkey pk hpk
    rw [hcat] at hpk
    rcases List.mem_append.1 hpk with hb | hb
    · rw [hempty pk (List.mem_append_left _ hb) n]; rfl
    · rcases List.mem_cons.1 hb with rfl | hb
      · rw [honly n]
        split
        · simp only [StrMap.find]
          rw [if_neg (fun h => hkey h.symm)]
        · rfl
      · rw [hempty pk (List.mem_append_right _ hb) n]; rfl
  have hA : phaseA g "A320".toList none none = some none := by
    apply phaseA_no_airline_no_livery
    · exact phaseA_packages_all_absent _ _ (hfind 5 _ (by decide))
    · apply phaseA_packages_all_absent
      intro pk hpk
      rw [hcat] at hpk
      rcases List.mem_append.1 hpk with hb | hb
      · rw [hempty pk (List.mem_append_left _ hb) 7]; rfl
      · rcases List.mem_cons.1 hb with rfl | hb
        · rw [honly 7]; rfl
        · rw [hempty pk (List.mem_append_right _ hb) 7]; rfl
  have hentry : phaseB.entry g ⟨"2JT".toList, 'M'⟩ 1 false [] pckg ("B738".toList, idx) =
      some true := by
    unfold phaseB.entry
    simp only [hplane, hloaded, if_true]
    have : StrMap.find (substr0 "B738".toList 4) g.gAircraftCodes =
        some ⟨"2JT".toList, 'M'⟩ := hB738
    rw [this]
    decide
  have hB : phaseB g "A320".toList none = some (some (3, before.length, "B738".toList, idx)) := by
    unfold phaseB
    rw [hA320]
    have h3 : phaseB.packages g ⟨"2JT".toList, 'M'⟩ 1 false [] g.gPackages 0 =
        some (some (before.length, "B738".toList, idx)) := by
      rw [hcat, phaseB_packages_skip_empty before _ 0
        (fun pk hpk => hempty pk (List.mem_append_left _ hpk))]
      unfold phaseB.packages
      have ht : pckg.matches_ (if false = true then match_icao_airline else match_icao) =
          [("B738".toList, idx)] := by
        rw [honly]; rfl
      rw [ht]
      simp only [phaseB.entries, hentry, Nat.zero_add]
    simp only [phaseB.megaPasses, megaPassFlags, Option.getD_none, and_self, if_true,
      Bool.false_eq_true, false_and, if_false]
    rw [h3]
  refine ⟨hA, hB, rfl, ?_⟩
  rw [CSL_MatchPlane_of_phaseA_none hA, hB]
  rfl

theorem equipment_fallback_scenario_witness :
    phaseA (sampleGlobals [sampleEmptyPackage, sampleIcaoPackage]) "A320".toList none none =
      some none ∧
    phaseB (sampleGlobals [sampleEmptyPackage, sampleIcaoPackage]) "A320".toList none =
      some (some (3, 1, "B738".toList, 0)) ∧
    megaPassFlags 3 = (false, 1) ∧
    CSL_MatchPlane (sampleGlobals [sampleEmptyPackage, sampleIcaoPackage]) "A320".toList none
        none true true =
      some { plane := some (1, 0), quality := some (-1) } :=
  equipment_fallback_scenario (sampleGlobals [sampleEmptyPackage, sampleIcaoPackage])
    [sampleEmptyPackage] [] sampleIcaoPackage 0 (samplePlane "B738".toList [] []) true rfl
    (by decide) (by decide)
    (fun pk hpk n => by
      have e : pk = sampleEmptyPackage := by simpa using hpk
      rw [e]; rfl)
    (fun _ => rfl) (by decide) (by decide)

/-! ## Declaration texts -/


theorem isspace_of_separator {c : Char} (h : tokenSeparators.contains c = true) :
    isspace c = true := by
  simp only [tokenSeparators, List.contains_eq_any_beq, List.any_cons, List.any_nil,
    Bool.or_false, Bool.or_eq_true, beq_iff_eq] at h
  rcases h with h | h | h | h <;> subst h <;> rfl

theorem not_separator_of_token {w : Str} (h : IsToken w) :
    ∀ c ∈ w, tokenSeparators.contains c = false := by
  intro c hc
  by_contra hn
  have := isspace_of_separator (Bool.eq_true_of_not_eq_false hn)
  rw [h.2 c hc] at this
  cases this

theorem tokenize_go_word (seps : Str) :
    ∀ (w rest acc : Str), (∀ c ∈ w, seps.contains c = false) →
      tokenize.go seps (w ++ rest) acc = tokenize.go seps rest (acc ++ w) := by
  intro w
  induction w with
  | nil => intro rest acc _; simp
  | cons c w ih =>
    intro rest acc h
    rw [List.cons_append, tokenize.go]
    rw [if_neg (by rw [h c (List.mem_cons_self _ _)]; simp)]
    rw [ih rest (acc ++ [c]) (fun d hd => h d (List.mem_cons_of_mem _ hd))]
    simp

theorem tokenize_spaced : ∀ ws : List Str, (∀ w ∈ ws, IsToken w) →
    tokenize (spaced ws) tokenSeparators = ws
  | [], _ => rfl
  | [w], h => by
    have hw := h w (List.mem_cons_self _ _)
    unfold tokenize spaced
    have := tokenize_go_word tokenSeparators w [] [] (not_separator_of_token hw)
    rw [List.append_nil] at this
    rw [this]
    simp [tokenize.go, hw.1]
  | w :: v :: ws, h => by
    have hw := h w (List.mem_cons_self _ _)
    have ih := tokenize_spaced (v :: ws) (fun x hx => h x (List.mem_cons_of_mem _ hx))
    unfold tokenize at ih ⊢
    unfold spaced
    rw [tokenize_go_word tokenSeparators w _ [] (not_separator_of_token hw)]
    rw [tokenize.go]
    have hsp : tokenSeparators.contains ' ' = true := by decide
    rw [if_pos hsp, List.nil_append, if_neg hw.1, ih]

theorem spaced_chars : ∀ ws : List Str, (∀ w ∈ ws, IsToken w) →
    ∀ c ∈ spaced ws, c ≠ '\n'
  | [], _ => by intro c hc; cases hc
  | [w], h => by
    intro c hc
    have hw := h w (List.mem_cons_self _ _)
    intro hn
    subst hn
    have := hw.2 _ hc
    simp [isspace] at this
  | w :: v :: ws, h => by
    intro c hc
    have hw := h w (List.mem_cons_self _ _)
    unfold spaced at hc
    rcases List.mem_append.1 hc with hc | hc
    · intro hn
      subst hn
      have := hw.2 _ hc
      simp [isspace] at this
    · rcases List.mem_cons.1 hc with rfl | hc
      · decide
      · exact spaced_chars (v :: ws) (fun x hx => h x (List.mem_cons_of_mem _ hx)) c hc

theorem getlines_line : ∀ (l rest : Str), (∀ c ∈ l, c ≠ '\n') →
    getlines (l ++ '\n' :: rest) = l :: getlines rest
  | [], rest, _ => by simp [getlines]
  | c :: l, rest, h => by
    rw [List.cons_append, getlines]
    rw [if_neg (h c (List.mem_cons_self _ _))]
    rw [getlines_line l rest (fun d hd => h d (List.mem_cons_of_mem _ hd))]

theorem ltrim_eq_self {s : Str} (h : ∀ c, s.head? = some c → isspace c = false) :
    ltrim s = s := by
  cases s with
  | nil => rfl
  | cons c t =>
    unfold ltrim
    rw [List.dropWhile_cons, if_neg]
    rw [h c rfl]
    simp

theorem rtrim_eq_self {s : Str} (h : ∀ c, s.getLast? = some c → isspace c = false) :
    rtrim s = s := by
  unfold rtrim
  have : s.reverse.dropWhile isspace = s.reverse := by
    apply ltrim_eq_self
    intro c hc
    apply h
    rw [List.head?_reverse] at hc
    exact hc
  rw [this, List.reverse_reverse]

theorem spaced_head : ∀ (w : Str) (ws : List Str), w ≠ [] →
    (spaced (w :: ws)).head? = w.head?
  | _, [], _ => rfl
  | _ :: _, _ :: _, _ => rfl
  | [], _ :: _, h => absurd rfl h

theorem spaced_getLast : ∀ (ws : List Str), (∀ w ∈ ws, IsToken w) →
    ∀ c, (spaced ws).getLast? = some c → isspace c = false
  | [], _ => by intro c hc; cases hc
  | [w], h => by
    intro c hc
    exact (h w (List.mem_cons_self _ _)).2 c (List.mem_of_getLast?_eq_some hc)
  | w :: v :: ws, h => by
    intro c hc
    have hv := h v (List.mem_cons_of_mem _ (List.mem_cons_self _ _))
    unfold spaced at hc
    have hne : spaced (v :: ws) ≠ [] := by
      intro he
      have := spaced_head v ws hv.1
      rw [he] at this
      cases hvv : v with
      | nil => exact hv.1 hvv
      | cons a b => rw [hvv] at this; cases this
    have e : (w ++ ' ' :: spaced (v :: ws)).getLast? = (spaced (v :: ws)).getLast? := by
      rw [show w ++ ' ' :: spaced (v :: ws) = (w ++ [' ']) ++ spaced (v :: ws) by simp]
      exact List.getLast?_append_of_ne_nil _ hne
    rw [e] at hc
    exact spaced_getLast (v :: ws) (fun x hx => h x (List.mem_cons_of_mem _ hx)) c hc

theorem trim_spaced (w : Str) (ws : List Str) (h : ∀ x ∈ w :: ws, IsToken x) :
    trim (spaced (w :: ws)) = spaced (w :: ws) := by
  have hw := h w (List.mem_cons_self _ _)
  unfold trim
  rw [ltrim_eq_self, rtrim_eq_self (spaced_getLast _ h)]
  intro c hc
  rw [spaced_head w ws hw.1] at hc
  exact hw.2 c (List.mem_of_mem_head? hc)

theorem getlines_textOf : ∀ ls : List (List Str), (∀ ws ∈ ls, ∀ w ∈ ws, IsToken w) →
    getlines (textOf ls) = ls.map spaced
  | [], _ => rfl
  | ws :: rest, h => by
    unfold textOf
    rw [getlines_line _ _ (spaced_chars ws (h ws (List.mem_cons_self _ _))),
      getlines_textOf rest (fun x hx => h x (List.mem_cons_of_mem _ hx))]
    rfl

theorem ParseFullPackage_step_spaced (g : Globals) (path : Str) (lineNum : Nat)
    (keyword : Str) (args : List Str) (st : ParseState)
    (h : ∀ x ∈ keyword :: args, IsToken x) (hhash : keyword.head? ≠ some '#') :
    ParseFullPackage.step g path lineNum (spaced (keyword :: args)) st =
      match fullCommands keyword with
      | some handler =>
        match handler g (keyword :: args) st path lineNum (spaced (keyword :: args)) with
        | none => none
        | some r => some r.2
      | none =>
        some { st with log := st.log ++
          [Diag.parseError path lineNum (spaced (keyword :: args)) none] } := by
  have hk := h keyword (List.mem_cons_self _ _)
  unfold ParseFullPackage.step
  simp only []
  rw [trim_spaced keyword args h, tokenize_spaced _ h]
  have hne : ¬ (spaced (keyword :: args) = [] ∨
      (spaced (keyword :: args)).head? = some '#') := by
    rw [spaced_head keyword args hk.1]
    rintro (h1 | h1)
    · have := spaced_head keyword args hk.1
      rw [h1] at this
      cases hkk : keyword with
      | nil => exact hk.1 hkk
      | cons a b => rw [hkk] at this; cases this
    · exact hhash h1
  rw [if_neg hne]

theorem ParseObj8AircraftCommand_one_argument (g : Globals) (keyword obj : Str)
    (st : ParseState) (path : Str) (lineNum : Nat) (line : Str) :
    ParseObj8AircraftCommand g [keyword, obj] st path lineNum line =
      some (true, { st with package := st.package.pushPlane (obj8Plane st.package.path obj) }) := by
  simp [ParseObj8AircraftCommand, obj8Plane]

theorem MsgCntTy.DumpResults_package (st : ParseState) (path : Str) :
    ({ st with MsgCnt := (st.MsgCnt.DumpResults path st.log).1,
               log := (st.MsgCnt.DumpResults path st.log).2 } : ParseState).package =
      st.package := rfl

theorem ParseFullPackage_obj8_then (g : Globals) (st0 : ParseState) (obj keyword : Str)
    (args : List Str) (handler : Handler) (r : Bool × ParseState)
    (hobj : IsToken obj) (h : ∀ x ∈ keyword :: args, IsToken x)
    (hhash : keyword.head? ≠ some '#') (hc : fullCommands keyword = some handler)
    (hr : handler g (keyword :: args)
      { st0 with package := st0.package.pushPlane (obj8Plane st0.package.path obj) }
      (st0.package.path ++ "/".toList ++ "xsb_aircraft.txt".toList) 2
      (spaced (keyword :: args)) = some r) :
    ∃ st1, ParseFullPackage g
        (textOf [["OBJ8_AIRCRAFT".toList, obj], keyword :: args]) st0 = some st1 ∧
      st1.package = r.2.package := by
  have htok : ∀ ws ∈ [["OBJ8_AIRCRAFT".toList, obj], keyword :: args], ∀ w ∈ ws, IsToken w := by
    intro ws hws w hw
    rcases List.mem_cons.1 hws with rfl | hws
    · rcases List.mem_cons.1 hw with rfl | hw
      · exact ⟨by decide, by decide⟩
      · rcases List.mem_cons.1 hw with rfl | hw
        · exact hobj
        · cases hw
    · rcases List.mem_cons.1 hws with rfl | hws
      · exact h w hw
      · cases hws
  have h1 := htok _ (List.mem_cons_self _ _)
  unfold ParseFullPackage
  simp only []
  rw [getlines_textOf _ htok]
  simp only [List.map, ParseFullPackage_lines_cons, ParseFullPackage_lines_nil]
  rw [ParseFullPackage_step_spaced g _ 1 _ _ st0 h1 (by decide)]
  have hc1 : fullCommands "OBJ8_AIRCRAFT".toList = some ParseObj8AircraftCommand := rfl
  rw [hc1]
  simp only [ParseObj8AircraftCommand_one_argument]
  rw [ParseFullPackage_step_spaced g _ 2 _ _ _ h hhash, hc]
  simp only []
  rw [hr]
  exact ⟨_, rfl, rfl⟩

theorem CSLPackage_t.modifyBack_of_append {package : CSLPackage_t} {front : List CSLPlane_t}
    {back : CSLPlane_t} (f : CSLPlane_t → CSLPlane_t) (h : package.planes = front ++ [back]) :
    package.modifyBack f = some { package with planes := front ++ [f back] } := by
  unfold CSLPackage_t.modifyBack
  rw [h]
  simp

theorem ParseIcaoCommand_defined (g : Globals) (keyword icao : Str) (st : ParseState)
    (path : Str) (lineNum : Nat) (line : Str) {front : List CSLPlane_t} {back : CSLPlane_t}
    (h : st.package.planes = front ++ [back]) :
    ∃ r, ParseIcaoCommand g [keyword, icao] st path lineNum line = some r := by
  unfold ParseIcaoCommand
  simp only [List.length_cons, List.length_nil, ne_eq, not_true_eq_false, if_false,
    List.get?, CSLPackage_t.modifyBack_of_append _ h]
  exact ⟨_, rfl⟩

theorem ParseAirlineCommand_defined (g : Globals) (keyword icao airline : Str)
    (st : ParseState) (path : Str) (lineNum : Nat) (line : Str) {front : List CSLPlane_t}
    {back : CSLPlane_t} (h : st.package.planes = front ++ [back]) :
    ∃ r, ParseAirlineCommand g [keyword, icao, airline] st path lineNum line = some r := by
  unfold ParseAirlineCommand
  simp only [List.length_cons, List.length_nil, ne_eq, not_true_eq_false, if_false,
    List.get?, CSLPackage_t.modifyBack_of_append _ h]
  exact ⟨_, rfl⟩

theorem ParseLiveryCommand_defined (g : Globals) (keyword icao airline livery : Str)
    (st : ParseState) (path : Str) (lineNum : Nat) (line : Str) {front : List CSLPlane_t}
    {back : CSLPlane_t} (h : st.package.planes = front ++ [back]) :
    ∃ r, ParseLiveryCommand g [keyword, icao, airline, livery] st path lineNum line =
      some r := by
  unfold ParseLiveryCommand
  simp only [List.length_cons, List.length_nil, ne_eq, not_true_eq_false, if_false,
    List.get?, CSLPackage_t.modifyBack_of_append _ h]
  exact ⟨_, rfl⟩

theorem planeLoaded_of_obj8 (total : Int) {plane : CSLPlane_t}
    (h : plane.plane_type = PlaneType.plane_Obj8) : planeLoaded total plane = true := by
  simp [planeLoaded, h]

theorem phaseA_pass_one {g : Globals} {inICAO airline : Str} {inLivery : Option Str}
    {r : Nat × Nat} (ha : airline ≠ []) (hl : inLivery.getD [] = [])
    (h : phaseA.packages g.total 1 (inICAO ++ [' '] ++ airline) g.gPackages 0 =
      some (some r)) :
    phaseA g inICAO (some airline) inLivery = some (some (1, r.1, r.2)) := by
  have h1 : phaseA.packages g.total 1 (inICAO ++ ' ' :: airline) g.gPackages 0 =
      some (some r) := by simpa using h
  simp [phaseA, match_count, phaseA.passes, passKey, kUseICAO, kUseAirline, kUseLivery,
    ha, hl, h1]

theorem phaseA_pass_five {g : Globals} {inICAO : Str} {inAirline inLivery : Option Str}
    {r : Nat × Nat} (ha : inAirline.getD [] = []) (hl : inLivery.getD [] = [])
    (h : phaseA.packages g.total 5 inICAO g.gPackages 0 = some (some r)) :
    phaseA g inICAO inAirline inLivery = some (some (5, r.1, r.2)) := by
  simp [phaseA, match_count, phaseA.passes, passKey, kUseICAO, kUseAirline, kUseLivery,
    ha, hl, h]

theorem parse_obj8_identity (g : Globals) (st0 : ParseState) (obj keyword : Str)
    (args : List Str) (handler : Handler) (keys : List (Nat × Str)) (t : Nat) (key : Str)
    (f : CSLPlane_t → CSLPlane_t)
    (hplanes : st0.package.planes = []) (htables : ∀ n, st0.package.matches_ n = [])
    (hobj : IsToken obj) (h : ∀ x ∈ keyword :: args, IsToken x)
    (hhash : keyword.head? ≠ some '#') (hc : fullCommands keyword = some handler)
    (hdef : ∀ st path lineNum line front back, st.package.planes = front ++ [back] →
      ∃ r, handler g (keyword :: args) st path lineNum line = some r)
    (heff : ∀ st path lineNum line r,
      handler g (keyword :: args) st path lineNum line = some r →
      ∃ pk : CSLPackage_t, pk.matches_ = st.package.matches_ ∧
        pk.planes.length = st.package.planes.length ∧
        r.2.package = pk.addMatches keys ∧ (keys ≠ [] → st.package.planes ≠ []))
    (hfld : ∀ st path lineNum line r,
      handler g (keyword :: args) st path lineNum line = some r →
      r.1 = true ∧ ∃ front back, st.package.planes = front ++ [back] ∧
        r.2.package.planes = front ++ [f back])
    (hplane : ∀ p, (f p).plane_type = p.plane_type)
    (hkey : (t, key) ∈ keys) :
    ∃ st1, ParseFullPackage g
        (textOf [["OBJ8_AIRCRAFT".toList, obj], keyword :: args]) st0 = some st1 ∧
      st1.package.planes = [f (obj8Plane st0.package.path obj)] ∧
      StrMap.find key (st1.package.matches_ t) = some 0 ∧
      phaseA.packages g.total t key [st1.package] 0 = some (some (0, 0)) := by
  have hA : ({ st0 with package := st0.package.pushPlane (obj8Plane st0.package.path obj) } :
      ParseState).package.planes = [] ++ [obj8Plane st0.package.path obj] := by
    simp [CSLPackage_t.pushPlane, hplanes]
  obtain ⟨r, hr⟩ := hdef _ (st0.package.path ++ "/".toList ++ "xsb_aircraft.txt".toList) 2
    (spaced (keyword :: args)) _ _ hA
  obtain ⟨st1, hparse, hpk⟩ := ParseFullPackage_obj8_then g st0 obj keyword args handler r
    hobj h hhash hc hr
  obtain ⟨_, front, back, hfb, hpl⟩ := hfld _ _ _ _ _ hr
  have hfind := findAfter_of_effect (heff _ _ _ _ _ hr) t key
  rw [hA] at hfb
  have hfront : front = [] ∧ back = obj8Plane st0.package.path obj := by
    cases front with
    | nil => simp at hfb; exact ⟨rfl, hfb.symm⟩
    | cons a b =>
      have := congrArg List.length hfb
      simp at this
  obtain ⟨rfl, rfl⟩ := hfront
  have hplanes1 : st1.package.planes = [f (obj8Plane st0.package.path obj)] := by
    rw [hpk, hpl]; rfl
  have hfind1 : StrMap.find key (st1.package.matches_ t) = some 0 := by
    rw [hpk, hfind]
    unfold findAfter
    have hnone : StrMap.find key (st0.package.matches_ t) = none := by
      rw [htables t]; rfl
    have hm : ∀ pl, (st0.package.pushPlane pl).matches_ = st0.package.matches_ := fun _ => rfl
    simp only [hm]
    rw [hnone]
    simp only []
    rw [if_pos hkey, hA]
    rfl
  refine ⟨st1, hparse, hplanes1, hfind1, ?_⟩
  have hat : st1.package.planeAt 0 = some (f (obj8Plane st0.package.path obj)) := by
    simp [CSLPackage_t.planeAt, hplanes1]
  exact phaseA_packages_first [] 0 hfind1 hat
    (planeLoaded_of_obj8 _ (by rw [hplane]; rfl))

/-- Claim C3 (declaration and query round trip). For a package parsed from
empty plane list and tables whose declaration text is a modern-object-aircraft
declaration followed by one identity command, the parse is defined, the package
holds exactly the declared plane with the identity of the command, and the
query with the same identity components against the catalog holding that
package returns this plane through Phase A: `LIVERY X A L` and the query
(X, A, L) give quality 0, `AIRLINE X A` and (X, A, no livery) give quality 1,
`ICAO X` and (X, no airline, no livery) give quality 5; the use flags of the
passes 0, 1 and 5 are those of the components given. -/
theorem declaration_query_round_trip (g : Globals) (st0 : ParseState) (obj X A L : Str)
    (use_default : Bool)
    (hplanes : st0.package.planes = []) (htables : ∀ n, st0.package.matches_ n = [])
    (hobj : IsToken obj) (hX : IsToken X) (hA : IsToken A) (hL : IsToken L) :
    (∃ st1, ParseFullPackage g
        (textOf [["OBJ8_AIRCRAFT".toList, obj], ["LIVERY".toList, X, A, L]]) st0 = some st1 ∧
      st1.package.planes =
        [{ obj8Plane st0.package.path obj with icao := X, airline := A, livery := L }] ∧
      CSL_MatchPlane { g with gPackages := [st1.package] } X (some A) (some L) true
        use_default = some { plane := some (0, 0), quality := some 0 }) ∧
    (∃ st1, ParseFullPackage g
        (textOf [["OBJ8_AIRCRAFT".toList, obj], ["AIRLINE".toList, X, A]]) st0 = some st1 ∧
      st1.package.planes = [{ obj8Plane st0.package.path obj with icao := X, airline := A }] ∧
      ∀ inLivery : Option Str, inLivery.getD [] = [] →
        CSL_MatchPlane { g with gPackages := [st1.package] } X (some A) inLivery true
          use_default = some { plane := some (0, 0), quality := some 1 }) ∧
    (∃ st1, ParseFullPackage g
        (textOf [["OBJ8_AIRCRAFT".toList, obj], ["ICAO".toList, X]]) st0 = some st1 ∧
      st1.package.planes = [{ obj8Plane st0.package.path obj with icao := X }] ∧
      ∀ inAirline inLivery : Option Str, inAirline.getD [] = [] → inLivery.getD [] = [] →
        CSL_MatchPlane { g with gPackages := [st1.package] } X inAirline inLivery true
          use_default = some { plane := some (0, 0), quality := some 5 }) ∧
    (kUseICAO 0, kUseAirline 0, kUseLivery 0) = (1, 1, 1) ∧
    (kUseICAO 1, kUseAirline 1, kUseLivery 1) = (1, 1, 0) ∧
    (kUseICAO 5, kUseAirline 5, kUseLivery 5) = (1, 0, 0) := by
  refine ⟨?_, ?_, ?_, by decide, by decide, by decide⟩
  · obtain ⟨st1, hparse, hpl, _, hpk⟩ := parse_obj8_identity g st0 obj "LIVERY".toList [X, A, L]
      ParseLiveryCommand (liveryKeys g [X, A, L]) match_icao_airline_livery
      (X ++ [' '] ++ A ++ [' '] ++ L)
      (fun p => { p with icao := X, airline := A, livery := L }) hplanes htables hobj
      (by
        intro x hx
        simp only [List.mem_cons, List.mem_singleton, List.not_mem_nil, or_false] at hx
        rcases hx with rfl | rfl | rfl | rfl
        · exact ⟨by decide, by decide⟩
        · exact hX
        · exact hA
        · exact hL)
      (by decide) rfl
      (fun st path lineNum line _ _ h =>
        ParseLiveryCommand_defined g _ X A L st path lineNum line h)
      (fun _ _ _ _ _ h => ParseLiveryCommand_effect h)
      (fun _ _ _ _ _ h => ParseLiveryCommand_fields h)
      (fun _ => rfl) (List.mem_cons_self _ _)
    refine ⟨st1, hparse, hpl, ?_⟩
    exact CSL_MatchPlane_of_phaseA_some
      (phaseA_pass_zero (g := { g with gPackages := [st1.package] }) hA.1 hL.1 hpk) true _
  · obtain ⟨st1, hparse, hpl, _, hpk⟩ := parse_obj8_identity g st0 obj "AIRLINE".toList [X, A]
      ParseAirlineCommand (airlineKeys g [X, A]) match_icao_airline (X ++ [' '] ++ A)
      (fun p => { p with icao := X, airline := A }) hplanes htables hobj
      (by
        intro x hx
        simp only [List.mem_cons, List.mem_singleton, List.not_mem_nil, or_false] at hx
        rcases hx with rfl | rfl | rfl
        · exact ⟨by decide, by decide⟩
        · exact hX
        · exact hA)
      (by decide) rfl
      (fun st path lineNum line _ _ h =>
        ParseAirlineCommand_defined g _ X A st path lineNum line h)
      (fun _ _ _ _ _ h => ParseAirlineCommand_effect h)
      (fun _ _ _ _ _ h => ParseAirlineCommand_fields h)
      (fun _ => rfl) (List.mem_cons_self _ _)
    refine ⟨st1, hparse, hpl, ?_⟩
    intro inLivery hl
    exact CSL_MatchPlane_of_phaseA_some
      (phaseA_pass_one (g := { g with gPackages := [st1.package] }) hA.1 hl hpk) true _
  · obtain ⟨st1, hparse, hpl, _, hpk⟩ := parse_obj8_identity g st0 obj "ICAO".toList [X]
      ParseIcaoCommand (icaoKeys g [X]) match_icao X
      (fun p => { p with icao := X }) hplanes htables hobj
      (by
        intro x hx
        simp only [List.mem_cons, List.mem_singleton, List.not_mem_nil, or_false] at hx
        rcases hx with rfl | rfl
        · exact ⟨by decide, by decide⟩
        · exact hX)
      (by decide) rfl
      (fun st path lineNum line _ _ h =>
        ParseIcaoCommand_defined g _ X st path lineNum line h)
      (fun _ _ _ _ _ h => ParseIcaoCommand_effect h)
      (fun _ _ _ _ _ h => ParseIcaoCommand_fields h)
      (fun _ => rfl) (List.mem_cons_self _ _)
    refine ⟨st1, hparse, hpl, ?_⟩
    intro inAirline inLivery ha hl
    exact CSL_MatchPlane_of_phaseA_some
      (phaseA_pass_five (g := { g with gPackages := [st1.package] }) ha hl hpk) true _

theorem declaration_query_round_trip_witness :
    (∃ st1, ParseFullPackage (sampleGlobals [sampleEmptyPackage])
        (textOf [["OBJ8_AIRCRAFT".toList, "b738.obj".toList],
          ["LIVERY".toList, "B738".toList, "AAL".toList, "RETRO".toList]])
        (sampleState sampleEmptyPackage) = some st1 ∧
      st1.package.planes =
        [{ obj8Plane sampleEmptyPackage.path "b738.obj".toList with
            icao := "B738".toList, airline := "AAL".toList, livery := "RETRO".toList }] ∧
      CSL_MatchPlane { sampleGlobals [sampleEmptyPackage] with gPackages := [st1.package] }
        "B738".toList (some "AAL".toList) (some "RETRO".toList) true true =
          some { plane := some (0, 0), quality := some 0 }) :=
  (declaration_query_round_trip (sampleGlobals [sampleEmptyPackage])
    (sampleState sampleEmptyPackage) "b738.obj".toList "B738".toList "AAL".toList
    "RETRO".toList true rfl (fun _ => rfl) ⟨by decide, by decide⟩ ⟨by decide, by decide⟩
    ⟨by decide, by decide⟩ ⟨by decide, by decide⟩).1

/-! ## Tokenizer -/

theorem BreakStringPvt_loop_zero (seps : Str) (mb : Int) (iter : Str) (out : List Str) :
    BreakStringPvt.loop seps mb 0 iter out = out := by
  rw [BreakStringPvt.loop]

theorem BreakStringPvt_loop_succ (seps : Str) (mb : Int) (fuel : Nat) (iter : Str)
    (out : List Str) :
    BreakStringPvt.loop seps mb (fuel + 1) iter out =
      if iter = [] then out
      else if (iter.dropWhile fun c => seps.contains c) = [] then out
      else if mb ≠ 0 ∧ mb = ((out.length + 1 : Nat) : Int) then
        out ++ [iter.dropWhile fun c => seps.contains c]
      else
        BreakStringPvt.loop seps mb fuel
          ((iter.dropWhile fun c => seps.contains c).dropWhile fun c => !seps.contains c)
          (out ++ [(iter.dropWhile fun c => seps.contains c).takeWhile
            fun c => !seps.contains c]) := by
  rw [BreakStringPvt.loop]

theorem dropWhile_head_false {α : Type} (p : α → Bool) :
    ∀ (l : List α) (c : α) (rest : List α), l.dropWhile p = c :: rest → p c = false := by
  intro l
  induction l with
  | nil => intro c rest h; cases h
  | cons a l ih =>
    intro c rest h
    rw [List.dropWhile_cons] at h
    by_cases ha : p a = true
    · rw [if_pos ha] at h
      exact ih c rest h
    · rw [if_neg ha] at h
      cases h
      simpa using ha

theorem dropWhile_word_length (seps : Str) (iter : Str)
    (h : (iter.dropWhile fun c => seps.contains c) ≠ []) :
    ((iter.dropWhile fun c => seps.contains c).dropWhile
      fun c => !seps.contains c).length < iter.length := by
  have h1 : (iter.dropWhile fun c => seps.contains c).length ≤ iter.length :=
    (List.dropWhile_sublist _).length_le
  cases hd : iter.dropWhile (fun c => seps.contains c) with
  | nil => exact absurd hd h
  | cons c rest =>
    have hc := dropWhile_head_false _ iter c rest hd
    rw [hd] at h1
    rw [List.dropWhile_cons]
    simp only [hc, Bool.not_false, if_true]
    have h2 : (rest.dropWhile fun c => !seps.contains c).length ≤ rest.length :=
      (List.dropWhile_sublist _).length_le
    simp only [List.length_cons] at h1
    omega

theorem BreakStringPvt_loop_fuel (seps : Str) (mb : Int) :
    ∀ (fuel fuel2 : Nat) (iter : Str) (out : List Str),
      iter.length ≤ fuel → iter.length ≤ fuel2 →
      BreakStringPvt.loop seps mb fuel iter out =
        BreakStringPvt.loop seps mb fuel2 iter out := by
  intro fuel
  induction fuel with
  | zero =>
    intro fuel2 iter out h _
    have : iter = [] := List.length_eq_zero.1 (Nat.le_zero.1 h)
    subst this
    cases fuel2 with
    | zero => rfl
    | succ n => rw [BreakStringPvt_loop_zero, BreakStringPvt_loop_succ, if_pos rfl]
  | succ fuel ih =>
    intro fuel2 iter out h h2
    cases fuel2 with
    | zero =>
      have : iter = [] := List.length_eq_zero.1 (Nat.le_zero.1 h2)
      subst this
      rw [BreakStringPvt_loop_zero, BreakStringPvt_loop_succ, if_pos rfl]
    | succ n =>
      rw [BreakStringPvt_loop_succ, BreakStringPvt_loop_succ]
      by_cases e1 : iter = []
      · rw [if_pos e1, if_pos e1]
      · rw [if_neg e1, if_neg e1]
        by_cases e2 : (iter.dropWhile fun c => seps.contains c) = []
        · rw [if_pos e2, if_pos e2]
        · rw [if_neg e2, if_neg e2]
          have hl := dropWhile_word_length seps iter e2
          rw [ih n _ _ (by omega) (by omega)]

theorem BreakStringPvt_loop_append (seps : Str) :
    ∀ (fuel : Nat) (iter : Str) (out : List Str),
      BreakStringPvt.loop seps 0 fuel iter out =
        out ++ BreakStringPvt.loop seps 0 fuel iter [] := by
  intro fuel
  induction fuel with
  | zero => intro iter out; simp [BreakStringPvt_loop_zero]
  | succ fuel ih =>
    intro iter out
    rw [BreakStringPvt_loop_succ, BreakStringPvt_loop_succ]
    by_cases e1 : iter = []
    · simp [e1]
    · rw [if_neg e1, if_neg e1]
      by_cases e2 : (iter.dropWhile fun c => seps.contains c) = []
      · rw [if_pos e2, if_pos e2, List.append_nil]
      · rw [if_neg e2, if_neg e2, if_neg (by simp), if_neg (by simp)]
        rw [ih _ (out ++ _), ih _ ([] ++ _)]
        simp

theorem BreakStringPvt_loop_uncapped_succ (seps : Str) (fuel : Nat) (iter : Str)
    (h : (iter.dropWhile fun c => seps.contains c) ≠ []) :
    BreakStringPvt.loop seps 0 (fuel + 1) iter [] =
      ((iter.dropWhile fun c => seps.contains c).takeWhile fun c => !seps.contains c) ::
        BreakStringPvt.loop seps 0 fuel
          ((iter.dropWhile fun c => seps.contains c).dropWhile fun c => !seps.contains c)
          [] := by
  have e1 : iter ≠ [] := by
    intro e
    subst e
    exact h rfl
  rw [BreakStringPvt_loop_succ, if_neg e1, if_neg h, if_neg (by simp),
    BreakStringPvt_loop_append]
  simp

theorem BreakStringPvt_loop_capped (seps : Str) (k : Nat) :
    ∀ (fuel : Nat) (iter : Str) (out : List Str), out.length + 1 ≤ k →
      BreakStringPvt.loop seps (k : Int) fuel iter out =
        out ++
          (if (BreakStringPvt.loop seps 0 fuel iter []).length < k - out.length then
            BreakStringPvt.loop seps 0 fuel iter []
          else
            (BreakStringPvt.loop seps 0 fuel iter []).take (k - out.length - 1) ++
              [fromWord seps (k - out.length - 1) iter]) := by
  intro fuel
  induction fuel with
  | zero =>
    intro iter out h
    rw [BreakStringPvt_loop_zero, BreakStringPvt_loop_zero]
    rw [if_pos (by simp only [List.length_nil]; omega)]
    simp
  | succ fuel ih =>
    intro iter out h
    by_cases e2 : (iter.dropWhile fun c => seps.contains c) = []
    · have e0 : BreakStringPvt.loop seps 0 (fuel + 1) iter [] = [] := by
        rw [BreakStringPvt_loop_succ]
        by_cases e1 : iter = []
        · rw [if_pos e1]
        · rw [if_neg e1, if_pos e2]
      rw [e0, if_pos (by simp only [List.length_nil]; omega), List.append_nil,
        BreakStringPvt_loop_succ]
      by_cases e1 : iter = []
      · rw [if_pos e1]
      · rw [if_neg e1, if_pos e2]
    · have e1 : iter ≠ [] := by
        intro e
        subst e
        exact e2 rfl
      rw [BreakStringPvt_loop_uncapped_succ seps fuel iter e2]
      rw [BreakStringPvt_loop_succ, if_neg e1, if_neg e2]
      by_cases e3 : k = out.length + 1
      · have hk : (k : Int) ≠ 0 ∧ (k : Int) = ((out.length + 1 : Nat) : Int) := by
          subst e3
          exact ⟨by omega, rfl⟩
        rw [if_pos hk, if_neg (by simp only [List.length_cons]; omega)]
        have e4 : k - out.length - 1 = 0 := by omega
        rw [e4]
        simp [fromWord]
      · have hk : ¬ ((k : Int) ≠ 0 ∧ (k : Int) = ((out.length + 1 : Nat) : Int)) := by
          rintro ⟨_, hk⟩
          exact e3 (by exact_mod_cast hk)
        rw [if_neg hk, ih _ _ (by simp only [List.length_append, List.length_singleton]; omega)]
        have e4 : k - (out ++ [List.takeWhile (fun c => !seps.contains c)
            (List.dropWhile (fun c => seps.contains c) iter)]).length = k - out.length - 1 := by
          simp only [List.length_append, List.length_singleton]; omega
        rw [e4]
        obtain ⟨j, hj⟩ : ∃ j, k - out.length - 1 = j + 1 := ⟨k - out.length - 2, by omega⟩
        have e5 : k - out.length = j + 2 := by omega
        rw [hj, e5]
        simp only [List.length_cons, Nat.add_lt_add_iff_right, Nat.add_sub_cancel,
          List.take_succ_cons, fromWord]
        split <;> simp

theorem tokenize_go_gap (seps : Str) :
    ∀ (gap rest : Str), (∀ c ∈ gap, seps.contains c = true) →
      tokenize.go seps (gap ++ rest) [] = tokenize.go seps rest [] := by
  intro gap
  induction gap with
  | nil => intro rest _; rfl
  | cons c gap ih =>
    intro rest h
    rw [List.cons_append, tokenize.go, if_pos (h c (List.mem_cons_self _ _)), if_pos rfl]
    exact ih rest fun d hd => h d (List.mem_cons_of_mem _ hd)

theorem tokenize_go_end (seps : Str) (word rest : Str) (hw : word ≠ [])
    (hr : ∀ c, rest.head? = some c → seps.contains c = true) :
    tokenize.go seps rest word = word :: tokenize.go seps rest [] := by
  cases rest with
  | nil => simp [tokenize.go, hw]
  | cons c rest =>
    have hc := hr c rfl
    rw [tokenize.go, if_pos hc, if_neg hw, tokenize.go, if_pos hc, if_pos rfl]

theorem tokenize_go_run (seps : Str) (gap word rest : Str)
    (hg : ∀ c ∈ gap, seps.contains c = true) (hw : word ≠ [])
    (hs : ∀ c ∈ word, seps.contains c = false)
    (hr : ∀ c, rest.head? = some c → seps.contains c = true) :
    tokenize.go seps (gap ++ word ++ rest) [] = word :: tokenize.go seps rest [] := by
  rw [List.append_assoc, tokenize_go_gap seps gap _ hg, tokenize_go_word seps word rest [] hs,
    List.nil_append, tokenize_go_end seps word rest hw hr]

theorem MaximalRuns_eq_tokenize (seps : Str) (line : Str) (ts : List Str)
    (h : MaximalRuns seps line ts) : ts = tokenize line seps := by
  unfold tokenize
  induction h with
  | done gap hg =>
    have := tokenize_go_gap seps gap [] hg
    rw [List.append_nil] at this
    rw [this]
    rfl
  | run gap word rest ts hg hw hs hr _ ih =>
    rw [tokenize_go_run seps gap word rest hg hw hs hr, ih]

theorem takeWhile_separators (seps : Str) (iter : Str) :
    ∀ c ∈ iter.takeWhile (fun c => seps.contains c), seps.contains c = true := by
  intro c hc
  exact List.mem_takeWhile_imp hc

theorem takeWhile_word (seps : Str) (iter : Str) :
    ∀ c ∈ iter.takeWhile (fun c => !seps.contains c), seps.contains c = false := by
  intro c hc
  have := List.mem_takeWhile_imp hc
  simpa using this

theorem dropWhile_word_head (seps : Str) (iter : Str) :
    ∀ c, (iter.dropWhile fun c => !seps.contains c).head? = some c →
      seps.contains c = true := by
  intro c hc
  cases hd : iter.dropWhile (fun c => !seps.contains c) with
  | nil => rw [hd] at hc; cases hc
  | cons d rest =>
    rw [hd] at hc
    cases hc
    have := dropWhile_head_false _ iter _ rest hd
    simpa using this

theorem takeWhile_word_ne_nil (seps : Str) (iter : Str)
    (h : (iter.dropWhile fun c => seps.contains c) ≠ []) :
    ((iter.dropWhile fun c => seps.contains c).takeWhile fun c => !seps.contains c) ≠ [] := by
  cases hd : iter.dropWhile (fun c => seps.contains c) with
  | nil => exact absurd hd h
  | cons c rest =>
    have hc := dropWhile_head_false _ iter c rest hd
    rw [List.takeWhile_cons]
    simp only [hc, Bool.not_false, if_true]
    exact List.cons_ne_nil _ _

theorem BreakStringPvt_loop_runs (seps : Str) :
    ∀ (fuel : Nat) (iter : Str), iter.length ≤ fuel →
      MaximalRuns seps iter (BreakStringPvt.loop seps 0 fuel iter []) := by
  intro fuel
  induction fuel with
  | zero =>
    intro iter h
    have : iter = [] := List.length_eq_zero.1 (Nat.le_zero.1 h)
    subst this
    exact MaximalRuns.done [] (by intro c hc; cases hc)
  | succ fuel ih =>
    intro iter h
    by_cases e2 : (iter.dropWhile fun c => seps.contains c) = []
    · have e0 : BreakStringPvt.loop seps 0 (fuel + 1) iter [] = [] := by
        rw [BreakStringPvt_loop_succ]
        by_cases e1 : iter = []
        · rw [if_pos e1]
        · rw [if_neg e1, if_pos e2]
      rw [e0]
      refine MaximalRuns.done iter ?_
      have := List.takeWhile_append_dropWhile (fun c => seps.contains c) iter
      rw [e2, List.append_nil] at this
      rw [← this]
      exact takeWhile_separators seps iter
    · rw [BreakStringPvt_loop_uncapped_succ seps fuel iter e2]
      have hl := dropWhile_word_length seps iter e2
      have hrec := ih _ (show ((iter.dropWhile fun c => seps.contains c).dropWhile
        fun c => !seps.contains c).length ≤ fuel by omega)
      have hcat : iter = iter.takeWhile (fun c => seps.contains c) ++
          ((iter.dropWhile fun c => seps.contains c).takeWhile fun c => !seps.contains c) ++
          ((iter.dropWhile fun c => seps.contains c).dropWhile fun c => !seps.contains c) := by
        rw [List.append_assoc, List.takeWhile_append_dropWhile, List.takeWhile_append_dropWhile]
      have := MaximalRuns.run _ _ _ _ (takeWhile_separators seps iter)
        (takeWhile_word_ne_nil seps iter e2) (takeWhile_word seps _)
        (dropWhile_word_head seps _) hrec
      rw [← hcat] at this
      exact this

theorem MaximalRuns_tokens (seps : Str) (line : Str) (ts : List Str)
    (h : MaximalRuns seps line ts) :
    ∀ t ∈ ts, t ≠ [] ∧ ∀ c ∈ t, seps.contains c = false := by
  induction h with
  | done gap _ => intro t ht; cases ht
  | run gap word rest ts _ hw hs _ _ ih =>
    intro t ht
    rcases List.mem_cons.1 ht with rfl | ht
    · exact ⟨hw, hs⟩
    · exact ih t ht

theorem MaximalRuns_of_separators (seps : Str) (line : Str) (ts : List Str)
    (h : MaximalRuns seps line ts) (hl : ∀ c ∈ line, seps.contains c = true) : ts = [] := by
  cases h with
  | done gap _ => rfl
  | run gap word rest ts _ hw hs _ _ =>
    exfalso
    cases word with
    | nil => exact hw rfl
    | cons c w =>
      have h1 := hs c (List.mem_cons_self _ _)
      have h2 := hl c (by simp)
      rw [h1] at h2
      cases h2

theorem fromWord_suffix (seps : Str) : ∀ (n : Nat) (s : Str), fromWord seps n s <:+ s := by
  intro n
  induction n with
  | zero => intro s; exact List.dropWhile_suffix _
  | succ n ih =>
    intro s
    exact (ih _).trans ((List.dropWhile_suffix _).trans (List.dropWhile_suffix _))

theorem BreakStringPvt_loop_word (seps : Str) :
    ∀ (n fuel : Nat) (iter : Str) (w : Str), iter.length ≤ fuel →
      (BreakStringPvt.loop seps 0 fuel iter []).get? n = some w →
      w = (fromWord seps n iter).takeWhile fun c => !seps.contains c := by
  intro n
  induction n with
  | zero =>
    intro fuel iter w h hw
    cases fuel with
    | zero => rw [BreakStringPvt_loop_zero] at hw; cases hw
    | succ fuel =>
      by_cases e2 : (iter.dropWhile fun c => seps.contains c) = []
      · rw [BreakStringPvt_loop_succ] at hw
        by_cases e1 : iter = []
        · rw [if_pos e1] at hw; cases hw
        · rw [if_neg e1, if_pos e2] at hw; cases hw
      · rw [BreakStringPvt_loop_uncapped_succ seps fuel iter e2] at hw
        simp only [List.get?_cons_zero, Option.some.injEq] at hw
        rw [← hw]
        rfl
  | succ n ih =>
    intro fuel iter w h hw
    cases fuel with
    | zero => rw [BreakStringPvt_loop_zero] at hw; cases hw
    | succ fuel =>
      by_cases e2 : (iter.dropWhile fun c => seps.contains c) = []
      · rw [BreakStringPvt_loop_succ] at hw
        by_cases e1 : iter = []
        · rw [if_pos e1] at hw; cases hw
        · rw [if_neg e1, if_pos e2] at hw; cases hw
      · rw [BreakStringPvt_loop_uncapped_succ seps fuel iter e2] at hw
        simp only [List.get?_cons_succ] at hw
        have hl := dropWhile_word_length seps iter e2
        exact ih fuel _ w (by omega) hw

/-- Claim C11, contrary case: the split of the sample line without a cap does
not have 5 tokens. -/
theorem sample_line_not_five_tokens :
    ¬ (BreakStringPvt sampleLine 0 [' ', '\t']).length = 5 := by
  decide

/-- Claim C11, amended: breaking the line `OBJ8 LIGHTS YES a/b c.obj extra` on
blank and tab with `maxBreak = 0` gives exactly 6 tokens, `OBJ8`, `LIGHTS`,
`YES`, `a/b`, `c.obj` and `extra`: the blank inside `a/b c.obj` separates two
tokens as every other blank does. -/
theorem sample_line_six_tokens :
    BreakStringPvt sampleLine 0 [' ', '\t'] =
        ["OBJ8".toList, "LIGHTS".toList, "YES".toList, "a/b".toList, "c.obj".toList,
          "extra".toList] ∧
      (BreakStringPvt sampleLine 0 [' ', '\t']).length = 6 := by
  decide

/-- Claim C12: with a cap `k ≥ 1` the result of `BreakStringPvt` has at most
`k` tokens; when the split without a cap has fewer than `k` tokens the result
is that split; otherwise its first `k - 1` tokens are those of the split
without a cap and the last token is the line from the first character of word
number `k` to its end, as it stands. The sample line with cap 4 gives `OBJ8`,
`LIGHTS`, `YES` and `a/b c.obj extra`. -/
theorem BreakStringPvt_cap (line seps : Str) (k : Nat) (hk : 1 ≤ k) :
    (BreakStringPvt line (k : Int) seps).length ≤ k ∧
    ((BreakStringPvt line 0 seps).length < k →
      BreakStringPvt line (k : Int) seps = BreakStringPvt line 0 seps) ∧
    (k ≤ (BreakStringPvt line 0 seps).length →
      BreakStringPvt line (k : Int) seps =
          (BreakStringPvt line 0 seps).take (k - 1) ++ [fromWord seps (k - 1) line] ∧
        fromWord seps (k - 1) line <:+ line ∧
        ∃ w, (BreakStringPvt line 0 seps).get? (k - 1) = some w ∧
          w = (fromWord seps (k - 1) line).takeWhile fun c => !seps.contains c) ∧
    BreakStringPvt sampleLine 4 [' ', '\t'] =
      ["OBJ8".toList, "LIGHTS".toList, "YES".toList, "a/b c.obj extra".toList] := by
  have key := BreakStringPvt_loop_capped seps k (line.length + 1) line [] (by simpa using hk)
  simp only [List.length_nil, Nat.sub_zero, List.nil_append] at key
  have key2 : BreakStringPvt line (k : Int) seps =
      if (BreakStringPvt line 0 seps).length < k then BreakStringPvt line 0 seps
      else (BreakStringPvt line 0 seps).take (k - 1) ++ [fromWord seps (k - 1) line] := key
  refine ⟨?_, ?_, ?_, by decide⟩
  · rw [key2]
    split
    · omega
    · simp only [List.length_append, List.length_take, List.length_singleton]
      omega
  · intro h
    rw [key2, if_pos h]
  · intro h
    refine ⟨by rw [key2, if_neg (by omega)], fromWord_suffix seps _ line, ?_⟩
    have hlt : k - 1 < (BreakStringPvt line 0 seps).length := by omega
    refine ⟨(BreakStringPvt line 0 seps).get ⟨k - 1, hlt⟩, List.get?_eq_get hlt, ?_⟩
    exact BreakStringPvt_loop_word seps (k - 1) (line.length + 1) line _ (by omega)
      (List.get?_eq_get hlt)

theorem BreakStringPvt_cap_witness :
    (BreakStringPvt sampleLine ((4 : Nat) : Int) [' ', '\t']).length ≤ 4 ∧
      BreakStringPvt sampleLine ((7 : Nat) : Int) [' ', '\t'] =
        BreakStringPvt sampleLine 0 [' ', '\t'] ∧
      BreakStringPvt sampleLine ((4 : Nat) : Int) [' ', '\t'] =
        (BreakStringPvt sampleLine 0 [' ', '\t']).take (4 - 1) ++
          [fromWord [' ', '\t'] (4 - 1) sampleLine] :=
  ⟨(BreakStringPvt_cap sampleLine [' ', '\t'] 4 (by decide)).1,
    (BreakStringPvt_cap sampleLine [' ', '\t'] 7 (by decide)).2.1 (by decide),
    ((BreakStringPvt_cap sampleLine [' ', '\t'] 4 (by decide)).2.2.1 (by decide)).1⟩

/-- Claim C13: with `maxBreak = 0` the loop of `BreakStringPvt` ends within the
turns that the length of the line allows (more fuel gives the same result), and
the result is exactly the maximal runs of non-separator characters of the line
from left to right, the same list that `tokenize` gives: no token is empty, no
token holds a separator, and a line of separators only (or an empty line) gives
no token. -/
theorem BreakStringPvt_maximal_runs (line seps : Str) :
    (∀ fuel, line.length + 1 ≤ fuel →
      BreakStringPvt.loop seps 0 fuel line [] = BreakStringPvt line 0 seps) ∧
    MaximalRuns seps line (BreakStringPvt line 0 seps) ∧
    (∀ ts, MaximalRuns seps line ts → ts = BreakStringPvt line 0 seps) ∧
    BreakStringPvt line 0 seps = tokenize line seps ∧
    (∀ t ∈ BreakStringPvt line 0 seps, t ≠ [] ∧ ∀ c ∈ t, seps.contains c = false) ∧
    ((∀ c ∈ line, seps.contains c = true) → BreakStringPvt line 0 seps = []) := by
  have hr : MaximalRuns seps line (BreakStringPvt line 0 seps) :=
    BreakStringPvt_loop_runs seps (line.length + 1) line (by omega)
  have ht := MaximalRuns_eq_tokenize seps line _ hr
  refine ⟨?_, hr, ?_, ht, MaximalRuns_tokens seps line _ hr, ?_⟩
  · intro fuel hf
    exact BreakStringPvt_loop_fuel seps 0 fuel (line.length + 1) line [] (by omega) (by omega)
  · intro ts hts
    rw [ht]
    exact MaximalRuns_eq_tokenize seps line ts hts
  · intro hl
    exact MaximalRuns_of_separators seps line _ hr hl

theorem BreakStringPvt_maximal_runs_witness :
    BreakStringPvt.loop [' ', '\t'] 0 100 sampleLine [] =
        BreakStringPvt sampleLine 0 [' ', '\t'] ∧
      BreakStringPvt " \t ".toList 0 [' ', '\t'] = [] ∧
      [] = BreakStringPvt [] 0 [' ', '\t'] :=
  ⟨(BreakStringPvt_maximal_runs sampleLine [' ', '\t']).1 100 (by decide),
    (BreakStringPvt_maximal_runs " \t ".toList [' ', '\t']).2.2.2.2.2 (by decide),
    (BreakStringPvt_maximal_runs [] [' ', '\t']).2.2.1 []
      (MaximalRuns.done [] (by intro c hc; cases hc))⟩

/-! ## Argument checks of the handlers -/

theorem ParseExportCommand_rejects (g : Globals) (tokens : List Str) (st : ParseState)
    (path : Str) (lineNum : Nat) (line : Str) (h : tokens.length ≠ 2) :
    ∃ st1, ParseExportCommand g tokens st path lineNum line = some (false, st1) ∧
      st1.package = st.package := by
  unfold ParseExportCommand
  rw [if_pos h]
  exact ⟨_, rfl, rfl⟩

theorem ParseObjectCommand_rejects (g : Globals) (tokens : List Str) (st : ParseState)
    (path : Str) (lineNum : Nat) (line : Str) (h : tokens.length ≠ 2) :
    ∃ st1, ParseObjectCommand g tokens st path lineNum line = some (false, st1) ∧
      st1.package = st.package := by
  unfold ParseObjectCommand
  rw [if_pos h]
  exact ⟨_, rfl, rfl⟩

theorem ParseTextureCommand_rejects (g : Globals) (tokens : List Str) (st : ParseState)
    (path : Str) (lineNum : Nat) (line : Str) (h : tokens.length ≠ 2) :
    ∃ st1, ParseTextureCommand g tokens st path lineNum line = some (false, st1) ∧
      st1.package = st.package := by
  unfold ParseTextureCommand
  rw [if_pos h]
  exact ⟨_, rfl, rfl⟩

theorem ParseVertOffsetCommand_rejects (g : Globals) (tokens : List Str) (st : ParseState)
    (path : Str) (lineNum : Nat) (line : Str) (h : tokens.length ≠ 2) :
    ∃ st1, ParseVertOffsetCommand g tokens st path lineNum line = some (false, st1) ∧
      st1.package = st.package := by
  unfold ParseVertOffsetCommand
  rw [if_pos h]
  exact ⟨_, rfl, ParseState.warnCounted_package _ _ _ _ _ _⟩

theorem ParseHasGearCommand_rejects (g : Globals) (tokens : List Str) (st : ParseState)
    (path : Str) (lineNum : Nat) (line : Str) (h : tokens.length ≠ 2) :
    ∃ st1, ParseHasGearCommand g tokens st path lineNum line = some (false, st1) ∧
      st1.package = st.package := by
  unfold ParseHasGearCommand
  rw [if_pos h]
  exact ⟨_, rfl, rfl⟩

theorem ParseHasGearCommand_rejects_value (g : Globals) (keyword arg : Str) (st : ParseState)
    (path : Str) (lineNum : Nat) (line : Str) (h1 : arg ≠ "YES".toList)
    (h2 : arg ≠ "NO".toList) :
    ∃ st1, ParseHasGearCommand g [keyword, arg] st path lineNum line = some (false, st1) ∧
      st1.package = st.package := by
  unfold ParseHasGearCommand
  rw [if_neg (by simp)]
  simp only [List.get?_cons_succ, List.get?_cons_zero]
  rw [if_pos ⟨h1, h2⟩]
  exact ⟨_, rfl, rfl⟩

theorem ParseIcaoCommand_rejects (g : Globals) (tokens : List Str) (st : ParseState)
    (path : Str) (lineNum : Nat) (line : Str) (h : tokens.length ≠ 2) :
    ∃ st1, ParseIcaoCommand g tokens st path lineNum line = some (false, st1) ∧
      st1.package = st.package := by
  unfold ParseIcaoCommand
  rw [if_pos h]
  exact ⟨_, rfl, rfl⟩

theorem ParseAirlineCommand_rejects (g : Globals) (tokens : List Str) (st : ParseState)
    (path : Str) (lineNum : Nat) (line : Str) (h : tokens.length ≠ 3) :
    ∃ st1, ParseAirlineCommand g tokens st path lineNum line = some (false, st1) ∧
      st1.package = st.package := by
  unfold ParseAirlineCommand
  rw [if_pos h]
  exact ⟨_, rfl, rfl⟩

theorem ParseLiveryCommand_rejects (g : Globals) (tokens : List Str) (st : ParseState)
    (path : Str) (lineNum : Nat) (line : Str) (h : tokens.length ≠ 4) :
    ∃ st1, ParseLiveryCommand g tokens st path lineNum line = some (false, st1) ∧
      st1.package = st.package := by
  unfold ParseLiveryCommand
  rw [if_pos h]
  exact ⟨_, rfl, rfl⟩

/-- Claim C18: a malformed command has no effect. When the number of arguments
after the keyword differs from the required number (1 for `EXPORT_NAME` in the
header scan, `OBJECT`, `TEXTURE`, `VERT_OFFSET`, `HASGEAR` and `ICAO`, 2 for
`AIRLINE`, 3 for `LIVERY`), or the argument of `HASGEAR` is neither `YES` nor
`NO`, the handler returns failure and the package (name, path, planes and
tables) is the one it was given. -/
theorem malformed_commands_have_no_effect (g : Globals) (keyword : Str) (args : List Str)
    (st : ParseState) (path : Str) (lineNum : Nat) (line : Str) :
    (args.length ≠ 1 →
      (∃ st1, ParseExportCommand g (keyword :: args) st path lineNum line = some (false, st1) ∧
        st1.package = st.package) ∧
      (∃ st1, ParseObjectCommand g (keyword :: args) st path lineNum line = some (false, st1) ∧
        st1.package = st.package) ∧
      (∃ st1, ParseTextureCommand g (keyword :: args) st path lineNum line =
          some (false, st1) ∧ st1.package = st.package) ∧
      (∃ st1, ParseVertOffsetCommand g (keyword :: args) st path lineNum line =
          some (false, st1) ∧ st1.package = st.package) ∧
      (∃ st1, ParseHasGearCommand g (keyword :: args) st path lineNum line =
          some (false, st1) ∧ st1.package = st.package) ∧
      (∃ st1, ParseIcaoCommand g (keyword :: args) st path lineNum line = some (false, st1) ∧
        st1.package = st.package)) ∧
    (args.length ≠ 2 →
      ∃ st1, ParseAirlineCommand g (keyword :: args) st path lineNum line = some (false, st1) ∧
        st1.package = st.package) ∧
    (args.length ≠ 3 →
      ∃ st1, ParseLiveryCommand g (keyword :: args) st path lineNum line = some (false, st1) ∧
        st1.package = st.package) ∧
    (∀ arg, args = [arg] → arg ≠ "YES".toList → arg ≠ "NO".toList →
      ∃ st1, ParseHasGearCommand g (keyword :: args) st path lineNum line = some (false, st1) ∧
        st1.package = st.package) := by
  refine ⟨fun h => ?_, fun h => ?_, fun h => ?_, ?_⟩
  · have h2 : (keyword :: args).length ≠ 2 := by simpa using h
    exact ⟨ParseExportCommand_rejects g _ st path lineNum line h2,
      ParseObjectCommand_rejects g _ st path lineNum line h2,
      ParseTextureCommand_rejects g _ st path lineNum line h2,
      ParseVertOffsetCommand_rejects g _ st path lineNum line h2,
      ParseHasGearCommand_rejects g _ st path lineNum line h2,
      ParseIcaoCommand_rejects g _ st path lineNum line h2⟩
  · exact ParseAirlineCommand_rejects g _ st path lineNum line (by simpa using h)
  · exact ParseLiveryCommand_rejects g _ st path lineNum line (by simpa using h)
  · rintro arg rfl h1 h2
    exact ParseHasGearCommand_rejects_value g keyword arg st path lineNum line h1 h2

theorem malformed_commands_have_no_effect_witness :
    (∃ st1, ParseObjectCommand (sampleGlobals [sampleIcaoPackage])
        ["OBJECT".toList, "Delta/a.obj".toList, "more".toList]
        (sampleState sampleIcaoPackage) [] 1 [] = some (false, st1) ∧
      st1.package = sampleIcaoPackage) ∧
    (∃ st1, ParseAirlineCommand (sampleGlobals [sampleIcaoPackage])
        ["AIRLINE".toList, "B738".toList] (sampleState sampleIcaoPackage) [] 1 [] =
          some (false, st1) ∧
      st1.package = sampleIcaoPackage) ∧
    (∃ st1, ParseLiveryCommand (sampleGlobals [sampleIcaoPackage])
        ["LIVERY".toList, "B738".toList, "AAL".toList] (sampleState sampleIcaoPackage) [] 1 [] =
          some (false, st1) ∧
      st1.package = sampleIcaoPackage) ∧
    ∃ st1, ParseHasGearCommand (sampleGlobals [sampleIcaoPackage])
        ["HASGEAR".toList, "MAYBE".toList] (sampleState sampleIcaoPackage) [] 1 [] =
          some (false, st1) ∧
      st1.package = sampleIcaoPackage :=
  ⟨((malformed_commands_have_no_effect (sampleGlobals [sampleIcaoPackage]) "OBJECT".toList
      ["Delta/a.obj".toList, "more".toList] (sampleState sampleIcaoPackage) [] 1 []).1
      (by decide)).2.1,
    (malformed_commands_have_no_effect (sampleGlobals [sampleIcaoPackage]) "AIRLINE".toList
      ["B738".toList] (sampleState sampleIcaoPackage) [] 1 []).2.1 (by decide),
    (malformed_commands_have_no_effect (sampleGlobals [sampleIcaoPackage]) "LIVERY".toList
      ["B738".toList, "AAL".toList] (sampleState sampleIcaoPackage) [] 1 []).2.2.1 (by decide),
    (malformed_commands_have_no_effect (sampleGlobals [sampleIcaoPackage]) "HASGEAR".toList
      ["MAYBE".toList] (sampleState sampleIcaoPackage) [] 1 []).2.2.2 "MAYBE".toList rfl
      (by decide) (by decide)⟩

theorem ParseObj8AircraftCommand_no_argument (g : Globals) (tokens : List Str)
    (st : ParseState) (path : Str) (lineNum : Nat) (line : Str) (h : tokens.length < 2) :
    ∃ st1, ParseObj8AircraftCommand g tokens st path lineNum line = some (false, st1) ∧
      st1.package = st.package := by
  unfold ParseObj8AircraftCommand
  have h2 : tokens.length ≠ 2 := by omega
  simp only [if_pos h2]
  rw [if_pos ⟨h2, h⟩]
  exact ⟨_, rfl, ParseState.warnCounted_package _ _ _ _ _ _⟩

theorem ParseObj8AircraftCommand_with_argument (g : Globals) (keyword arg : Str)
    (more : List Str) (st : ParseState) (path : Str) (lineNum : Nat) (line : Str) :
    ∃ st1, ParseObj8AircraftCommand g (keyword :: arg :: more) st path lineNum line =
        some (true, st1) ∧
      st1.package =
        { st.package with planes := st.package.planes ++ [obj8Plane st.package.path arg] } := by
  unfold ParseObj8AircraftCommand
  have h2 : ¬ ((keyword :: arg :: more).length ≠ 2 ∧ (keyword :: arg :: more).length < 2) := by
    rintro ⟨_, h⟩
    simp only [List.length_cons] at h
    omega
  simp only [if_neg h2, List.get?_cons_succ, List.get?_cons_zero]
  refine ⟨_, rfl, ?_⟩
  by_cases h3 : (keyword :: arg :: more).length ≠ 2
  · simp only [if_pos h3, ParseState.warnCounted_package]
    rfl
  · simp only [if_neg h3]
    rfl

/-- Claim C19: the handler of `OBJ8_AIRCRAFT` fails, with the package as it
was given, exactly when no argument follows the keyword. With one or more
arguments it returns success and the package has exactly one more plane at the
end, of the modern-object kind, with the first argument as its asset path,
moving gear set, the handle unresolved (`-1`), no attachments and empty identity
fields; the earlier planes, the name, the path and the tables are unchanged. -/
theorem ParseObj8AircraftCommand_appends (g : Globals) (keyword : Str) (args : List Str)
    (st : ParseState) (path : Str) (lineNum : Nat) (line : Str) :
    (args = [] →
      ∃ st1, ParseObj8AircraftCommand g (keyword :: args) st path lineNum line =
          some (false, st1) ∧ st1.package = st.package) ∧
    (∀ arg more, args = arg :: more →
      ∃ st1 plane, ParseObj8AircraftCommand g (keyword :: args) st path lineNum line =
          some (true, st1) ∧
        st1.package = { st.package with planes := st.package.planes ++ [plane] } ∧
        plane.plane_type = PlaneType.plane_Obj8 ∧ plane.file_path = arg ∧
        plane.moving_gear = true ∧ plane.obj_idx = -1 ∧ plane.attachments = [] ∧
        plane.icao = [] ∧ plane.airline = [] ∧ plane.livery = []) ∧
    (∀ ok st1, ParseObj8AircraftCommand g (keyword :: args) st path lineNum line =
        some (ok, st1) → (ok = false ↔ args = [])) := by
  refine ⟨?_, ?_, ?_⟩
  · rintro rfl
    exact ParseObj8AircraftCommand_no_argument g [keyword] st path lineNum line (by simp)
  · rintro arg more rfl
    obtain ⟨st1, h1, h2⟩ :=
      ParseObj8AircraftCommand_with_argument g keyword arg more st path lineNum line
    exact ⟨st1, obj8Plane st.package.path arg, h1, h2, rfl, rfl, rfl, rfl, rfl, rfl, rfl, rfl⟩
  · intro ok st1 h
    cases args with
    | nil =>
      obtain ⟨st2, h1, _⟩ :=
        ParseObj8AircraftCommand_no_argument g [keyword] st path lineNum line (by simp)
      rw [h1] at h
      cases h
      simp
    | cons arg more =>
      obtain ⟨st2, h1, _⟩ :=
        ParseObj8AircraftCommand_with_argument g keyword arg more st path lineNum line
      rw [h1] at h
      cases h
      simp

theorem ParseObj8AircraftCommand_appends_witness :
    (∃ st1, ParseObj8AircraftCommand (sampleGlobals [sampleIcaoPackage]) ["OBJ8_AIRCRAFT".toList]
        (sampleState sampleIcaoPackage) [] 1 [] = some (false, st1) ∧
      st1.package = sampleIcaoPackage) ∧
    ∃ st1 plane, ParseObj8AircraftCommand (sampleGlobals [sampleIcaoPackage])
        ["OBJ8_AIRCRAFT".toList, "b.obj".toList, "more".toList]
        (sampleState sampleIcaoPackage) [] 1 [] = some (true, st1) ∧
      st1.package = { sampleIcaoPackage with planes := sampleIcaoPackage.planes ++ [plane] } ∧
      plane.plane_type = PlaneType.plane_Obj8 ∧ plane.file_path = "b.obj".toList ∧
      plane.moving_gear = true ∧ plane.obj_idx = -1 ∧ plane.attachments = [] ∧
      plane.icao = [] ∧ plane.airline = [] ∧ plane.livery = [] :=
  ⟨(ParseObj8AircraftCommand_appends (sampleGlobals [sampleIcaoPackage]) "OBJ8_AIRCRAFT".toList
      [] (sampleState sampleIcaoPackage) [] 1 []).1 rfl,
    (ParseObj8AircraftCommand_appends (sampleGlobals [sampleIcaoPackage]) "OBJ8_AIRCRAFT".toList
      ["b.obj".toList, "more".toList] (sampleState sampleIcaoPackage) [] 1 []).2.1
      "b.obj".toList ["more".toList] rfl⟩

theorem ParseAircraftCommand_in_range (g : Globals) (keyword t1 t2 t3 : Str)
    (st : ParseState) (path : Str) (lineNum : Nat) (line : Str) (lo hi : Int)
    (hlo : atoi t1 = some lo) (hhi : atoi t2 = some hi)
    (hsub : (DoPackageSub g.gPackages (MakePartialPathNativeObj t3)).1 = true)
    (h1 : lo ≤ g.sim) (h2 : g.sim ≤ hi) :
    ParseAircraftCommand g [keyword, t1, t2, t3] st path lineNum line =
      some (true,
        ⟨st.package.pushPlane
          (austinPlane (DoPackageSub g.gPackages (MakePartialPathNativeObj t3)).2),
          st.MsgCnt, st.log, st.indexed⟩) := by
  unfold ParseAircraftCommand
  simp only [List.get?_cons_succ, List.get?_cons_zero, hlo, hhi, ge_iff_le, if_pos h1,
    if_pos h2, hsub, Bool.not_true, Bool.false_eq_true, if_false]
  rfl

theorem ParseAircraftCommand_out_of_range (g : Globals) (keyword t1 t2 t3 : Str)
    (st : ParseState) (path : Str) (lineNum : Nat) (line : Str) (lo hi : Int)
    (hlo : atoi t1 = some lo) (hhi : atoi t2 = some hi) (h : ¬ (lo ≤ g.sim ∧ g.sim ≤ hi)) :
    ParseAircraftCommand g [keyword, t1, t2, t3] st path lineNum line = some (true, st) := by
  unfold ParseAircraftCommand
  simp only [List.get?_cons_succ, List.get?_cons_zero, hlo, hhi, ge_iff_le]
  by_cases h1 : lo ≤ g.sim
  · have h2 : ¬ g.sim ≤ hi := fun h2 => h ⟨h1, h2⟩
    rw [if_pos h1, if_neg h2]
    rfl
  · rw [if_neg h1]
    rfl

/-- Claim C20: for an `AIRCRAFT` command with exactly three arguments, minimum,
maximum and a path that resolves against the catalog, the handler returns
success, and it appends exactly one plane, of the legacy engine kind with the
resolved path, moving gear set and the engine index unresolved (`-1`), exactly
when minimum ≤ host version ≤ maximum (both bounds included); outside the range
the package is unchanged. -/
theorem ParseAircraftCommand_version_range (g : Globals) (keyword t1 t2 t3 : Str)
    (st : ParseState) (path : Str) (lineNum : Nat) (line : Str) (lo hi : Int)
    (hlo : atoi t1 = some lo) (hhi : atoi t2 = some hi)
    (hsub : (DoPackageSub g.gPackages (MakePartialPathNativeObj t3)).1 = true) :
    ∃ st1, ParseAircraftCommand g [keyword, t1, t2, t3] st path lineNum line =
        some (true, st1) ∧
      (lo ≤ g.sim ∧ g.sim ≤ hi →
        ∃ plane, st1.package = { st.package with planes := st.package.planes ++ [plane] } ∧
          plane.plane_type = PlaneType.plane_Austin ∧
          plane.file_path = (DoPackageSub g.gPackages (MakePartialPathNativeObj t3)).2 ∧
          plane.moving_gear = true ∧ plane.austin_idx = -1) ∧
      (¬ (lo ≤ g.sim ∧ g.sim ≤ hi) → st1.package = st.package) ∧
      (st1.package.planes.length = st.package.planes.length + 1 ↔
        lo ≤ g.sim ∧ g.sim ≤ hi) := by
  by_cases h : lo ≤ g.sim ∧ g.sim ≤ hi
  · refine ⟨_, ParseAircraftCommand_in_range g keyword t1 t2 t3 st path lineNum line lo hi
      hlo hhi hsub h.1 h.2,
      fun _ => ⟨austinPlane _, rfl, rfl, rfl, rfl, rfl⟩, fun hn => absurd h hn, ?_⟩
    simp [CSLPackage_t.pushPlane, h]
  · refine ⟨_, ParseAircraftCommand_out_of_range g keyword t1 t2 t3 st path lineNum line lo hi
      hlo hhi h, fun hy => absurd hy h, fun _ => rfl, ?_⟩
    simp [h]

theorem ParseAircraftCommand_version_range_witness :
    ∃ st1, ParseAircraftCommand (sampleGlobals [sampleIcaoPackage])
        ["AIRCRAFT".toList, "1000".toList, "1100".toList, "Delta/a.acf".toList]
        (sampleState sampleIcaoPackage) [] 1 [] = some (true, st1) ∧
      ((1000 : Int) ≤ (sampleGlobals [sampleIcaoPackage]).sim ∧
          (sampleGlobals [sampleIcaoPackage]).sim ≤ 1100 →
        ∃ plane, st1.package =
            { sampleIcaoPackage with planes := sampleIcaoPackage.planes ++ [plane] } ∧
          plane.plane_type = PlaneType.plane_Austin ∧
          plane.file_path = (DoPackageSub (sampleGlobals [sampleIcaoPackage]).gPackages
            (MakePartialPathNativeObj "Delta/a.acf".toList)).2 ∧
          plane.moving_gear = true ∧ plane.austin_idx = -1) ∧
      (¬ ((1000 : Int) ≤ (sampleGlobals [sampleIcaoPackage]).sim ∧
          (sampleGlobals [sampleIcaoPackage]).sim ≤ 1100) →
        st1.package = sampleIcaoPackage) ∧
      (st1.package.planes.length = sampleIcaoPackage.planes.length + 1 ↔
        (1000 : Int) ≤ (sampleGlobals [sampleIcaoPackage]).sim ∧
          (sampleGlobals [sampleIcaoPackage]).sim ≤ 1100) :=
  ParseAircraftCommand_version_range (sampleGlobals [sampleIcaoPackage]) "AIRCRAFT".toList
    "1000".toList "1100".toList "Delta/a.acf".toList (sampleState sampleIcaoPackage) [] 1 []
    1000 1100 (by decide) (by decide) (by decide)

/-! ## What the handlers read and keep -/

theorem fullCommands_forall (P : Handler → Prop) (h0 : P ParseDummyCommand)
    (h1 : P ParseDependencyCommand) (h2 : P ParseObjectCommand) (h3 : P ParseTextureCommand)
    (h4 : P ParseAircraftCommand) (h5 : P ParseObj8AircraftCommand) (h6 : P ParseObj8Command)
    (h7 : P ParseVertOffsetCommand) (h8 : P ParseHasGearCommand) (h9 : P ParseIcaoCommand)
    (h10 : P ParseAirlineCommand) (h11 : P ParseLiveryCommand) (keyword : Str)
    (handler : Handler) (h : fullCommands keyword = some handler) : P handler := by
  unfold fullCommands at h
  by_cases e0 : keyword = "EXPORT_NAME".toList
  · rw [if_pos e0] at h
    cases h
    exact h0
  rw [if_neg e0] at h
  by_cases e1 : keyword = "DEPENDENCY".toList
  · rw [if_pos e1] at h
    cases h
    exact h1
  rw [if_neg e1] at h
  by_cases e2 : keyword = "OBJECT".toList
  · rw [if_pos e2] at h
    cases h
    exact h2
  rw [if_neg e2] at h
  by_cases e3 : keyword = "TEXTURE".toList
  · rw [if_pos e3] at h
    cases h
    exact h3
  rw [if_neg e3] at h
  by_cases e4 : keyword = "AIRCRAFT".toList
  · rw [if_pos e4] at h
    cases h
    exact h4
  rw [if_neg e4] at h
  by_cases e5 : keyword = "OBJ8_AIRCRAFT".toList
  · rw [if_pos e5] at h
    cases h
    exact h5
  rw [if_neg e5] at h
  by_cases e6 : keyword = "OBJ8".toList
  · rw [if_pos e6] at h
    cases h
    exact h6
  rw [if_neg e6] at h
  by_cases e7 : keyword = "VERT_OFFSET".toList
  · rw [if_pos e7] at h
    cases h
    exact h7
  rw [if_neg e7] at h
  by_cases e8 : keyword = "HASGEAR".toList
  · rw [if_pos e8] at h
    cases h
    exact h8
  rw [if_neg e8] at h
  by_cases e9 : keyword = "ICAO".toList
  · rw [if_pos e9] at h
    cases h
    exact h9
  rw [if_neg e9] at h
  by_cases e10 : keyword = "AIRLINE".toList
  · rw [if_pos e10] at h
    cases h
    exact h10
  rw [if_neg e10] at h
  by_cases e11 : keyword = "LIVERY".toList
  · rw [if_pos e11] at h
    cases h
    exact h11
  rw [if_neg e11] at h
  cases h

theorem CSLPackage_t.modifyBack_header {package package1 : CSLPackage_t}
    {f : CSLPlane_t → CSLPlane_t} (h : package.modifyBack f = some package1) :
    package1.name = package.name ∧ package1.path = package.path := by
  obtain ⟨front, back, _, h2⟩ := CSLPackage_t.modifyBack_eq_some h
  rw [h2]
  exact ⟨rfl, rfl⟩

theorem CSLPackage_t.addMatch_name (package : CSLPackage_t) (t : Nat) (k : Str) :
    (package.addMatch t k).name = package.name := by
  unfold CSLPackage_t.addMatch
  split <;> rfl

theorem CSLPackage_t.addMatch_path (package : CSLPackage_t) (t : Nat) (k : Str) :
    (package.addMatch t k).path = package.path := by
  unfold CSLPackage_t.addMatch
  split <;> rfl

theorem ParseState.warn_core (st : ParseState) (path : Str) (lineNum : Nat) (line : Str)
    (text : DiagText) : (st.warn path lineNum line text).core = st.core := rfl

theorem ParseState.warnCounted_core (st : ParseState) (e : msgCntE) (path : Str)
    (lineNum : Nat) (line : Str) (text : DiagText) :
    (st.warnCounted e path lineNum line text).core =
      (st.package, (st.MsgCnt.showAfterInc e).2) := by
  unfold ParseState.warnCounted
  simp only []
  split <;> rfl

theorem ParseState.warnCounted_MsgCnt (st : ParseState) (e : msgCntE) (path : Str)
    (lineNum : Nat) (line : Str) (text : DiagText) :
    (st.warnCounted e path lineNum line text).MsgCnt = (st.MsgCnt.showAfterInc e).2 :=
  congrArg Prod.snd (ParseState.warnCounted_core st e path lineNum line text)

theorem ParseDependencyCommand_core : ReadsCoreOnly ParseDependencyCommand := by
  intro g tokens st st2 path path2 lineNum lineNum2 line line2 h
  have hp : st.package = st2.package := congrArg Prod.fst h
  unfold ParseDependencyCommand
  split
  · simp only [Option.map_some', ParseState.warn_core, h]
  · split
    · rfl
    · split
      · simp only [Option.map_some', ParseState.warn_core, h]
      · simp only [Option.map_some', h]

theorem ParseObjectCommand_core : ReadsCoreOnly ParseObjectCommand := by
  intro g tokens st st2 path path2 lineNum lineNum2 line line2 h
  have hp : st.package = st2.package := congrArg Prod.fst h
  have hm : st.MsgCnt = st2.MsgCnt := congrArg Prod.snd h
  unfold ParseObjectCommand
  simp only [hp]
  repeat' split
  all_goals first
    | rfl
    | simp only [Option.map_some', ParseState.core, ParseState.warn,
        ParseState.warnCounted_package, ParseState.warnCounted_MsgCnt, hp, hm]

theorem ParseDummyCommand_core : ReadsCoreOnly ParseDummyCommand := by
  intro g tokens st st2 path path2 lineNum lineNum2 line line2 h
  have hp : st.package = st2.package := congrArg Prod.fst h
  have hm : st.MsgCnt = st2.MsgCnt := congrArg Prod.snd h
  unfold ParseDummyCommand
  all_goals first
    | rfl
    | simp only [Option.map_some', ParseState.core, ParseState.warn,
        ParseState.warnCounted_package, ParseState.warnCounted_MsgCnt, hp, hm]

theorem ParseTextureCommand_core : ReadsCoreOnly ParseTextureCommand := by
  intro g tokens st st2 path path2 lineNum lineNum2 line line2 h
  have hp : st.package = st2.package := congrArg Prod.fst h
  have hm : st.MsgCnt = st2.MsgCnt := congrArg Prod.snd h
  unfold ParseTextureCommand
  simp only [hp]
  repeat' split
  all_goals first
    | rfl
    | simp only [Option.map_some', ParseState.core, ParseState.warn,
        ParseState.warnCounted_package, ParseState.warnCounted_MsgCnt, hp, hm]

theorem ParseAircraftCommand_core : ReadsCoreOnly ParseAircraftCommand := by
  intro g tokens st st2 path path2 lineNum lineNum2 line line2 h
  have hp : st.package = st2.package := congrArg Prod.fst h
  have hm : st.MsgCnt = st2.MsgCnt := congrArg Prod.snd h
  unfold ParseAircraftCommand
  simp only [hp]
  repeat' split
  all_goals first
    | rfl
    | simp only [Option.map_some', ParseState.core, ParseState.warn,
        ParseState.warnCounted_package, ParseState.warnCounted_MsgCnt, hp, hm]

theorem ParseObj8AircraftCommand_core : ReadsCoreOnly ParseObj8AircraftCommand := by
  intro g tokens st st2 path path2 lineNum lineNum2 line line2 h
  have hp : st.package = st2.package := congrArg Prod.fst h
  have hm : st.MsgCnt = st2.MsgCnt := congrArg Prod.snd h
  unfold ParseObj8AircraftCommand
  by_cases h2 : tokens.length ≠ 2
  · simp only [if_pos h2, ParseState.warnCounted_package, hp]
    repeat' split
    all_goals first
      | rfl
      | simp only [Option.map_some', ParseState.core, ParseState.warnCounted_package,
          ParseState.warnCounted_MsgCnt, hp, hm]
  · simp only [if_neg h2, hp]
    repeat' split
    all_goals first
      | rfl
      | simp only [Option.map_some', ParseState.core, hp, hm]

theorem ParseObj8Command_core : ReadsCoreOnly ParseObj8Command := by
  intro g tokens st st2 path path2 lineNum lineNum2 line line2 h
  have hp : st.package = st2.package := congrArg Prod.fst h
  have hm : st.MsgCnt = st2.MsgCnt := congrArg Prod.snd h
  unfold ParseObj8Command
  by_cases h1 : tokens.length < 4
  · simp only [if_pos h1, Option.map_some', ParseState.warn_core, h]
  · simp only [if_neg h1]
    by_cases h2 : tokens.length > 4
    · simp only [if_pos h2, apply_ite ParseState.package, ParseState.warnCounted_package,
        ParseState.warn_package, ite_self, hp]
      repeat' split
      all_goals first
        | rfl
        | simp only [Option.map_some', ParseState.core, ParseState.warnCounted_package,
            ParseState.warnCounted_MsgCnt, ParseState.warn_package, ParseState.warn, hp, hm,
            if_pos, if_neg, not_true_eq_false, not_false_eq_true, *]
    · simp only [if_neg h2, apply_ite ParseState.package, ParseState.warnCounted_package,
        ParseState.warn_package, ite_self, hp]
      repeat' split
      all_goals first
        | rfl
        | simp only [Option.map_some', ParseState.core, ParseState.warnCounted_package,
            ParseState.warnCounted_MsgCnt, ParseState.warn_package, ParseState.warn, hp, hm,
            if_pos, if_neg, not_true_eq_false, not_false_eq_true, *]

theorem ParseVertOffsetCommand_core : ReadsCoreOnly ParseVertOffsetCommand := by
  intro g tokens st st2 path path2 lineNum lineNum2 line line2 h
  have hp : st.package = st2.package := congrArg Prod.fst h
  have hm : st.MsgCnt = st2.MsgCnt := congrArg Prod.snd h
  unfold ParseVertOffsetCommand
  simp only [hp]
  repeat' split
  all_goals first
    | rfl
    | simp only [Option.map_some', ParseState.core, ParseState.warn,
        ParseState.warnCounted_package, ParseState.warnCounted_MsgCnt, hp, hm]

theorem ParseHasGearCommand_core : ReadsCoreOnly ParseHasGearCommand := by
  intro g tokens st st2 path path2 lineNum lineNum2 line line2 h
  have hp : st.package = st2.package := congrArg Prod.fst h
  have hm : st.MsgCnt = st2.MsgCnt := congrArg Prod.snd h
  unfold ParseHasGearCommand
  simp only [hp]
  repeat' split
  all_goals first
    | rfl
    | simp only [Option.map_some', ParseState.core, ParseState.warn,
        ParseState.warnCounted_package, ParseState.warnCounted_MsgCnt, hp, hm]

theorem ParseIcaoCommand_core : ReadsCoreOnly ParseIcaoCommand := by
  intro g tokens st st2 path path2 lineNum lineNum2 line line2 h
  have hp : st.package = st2.package := congrArg Prod.fst h
  have hm : st.MsgCnt = st2.MsgCnt := congrArg Prod.snd h
  unfold ParseIcaoCommand
  simp only [hp]
  repeat' split
  all_goals first
    | rfl
    | simp only [Option.map_some', ParseState.core, ParseState.warn,
        ParseState.warnCounted_package, ParseState.warnCounted_MsgCnt, hp, hm]

theorem ParseAirlineCommand_core : ReadsCoreOnly ParseAirlineCommand := by
  intro g tokens st st2 path path2 lineNum lineNum2 line line2 h
  have hp : st.package = st2.package := congrArg Prod.fst h
  have hm : st.MsgCnt = st2.MsgCnt := congrArg Prod.snd h
  unfold ParseAirlineCommand
  simp only [hp]
  repeat' split
  all_goals first
    | rfl
    | simp only [Option.map_some', ParseState.core, ParseState.warn,
        ParseState.warnCounted_package, ParseState.warnCounted_MsgCnt, hp, hm]

theorem ParseLiveryCommand_core : ReadsCoreOnly ParseLiveryCommand := by
  intro g tokens st st2 path path2 lineNum lineNum2 line line2 h
  have hp : st.package = st2.package := congrArg Prod.fst h
  have hm : st.MsgCnt = st2.MsgCnt := congrArg Prod.snd h
  unfold ParseLiveryCommand
  simp only [hp]
  repeat' split
  all_goals first
    | rfl
    | simp only [Option.map_some', ParseState.core, ParseState.warn,
        ParseState.warnCounted_package, ParseState.warnCounted_MsgCnt, hp, hm]

theorem ParseDummyCommand_header : KeepsHeader ParseDummyCommand := by
  intro g tokens st path lineNum line r h
  cases h
  exact ⟨rfl, rfl⟩

theorem ParseDependencyCommand_header : KeepsHeader ParseDependencyCommand := by
  intro g tokens st path lineNum line r h
  unfold ParseDependencyCommand at h
  repeat' first | split at h | dsimp only at h
  all_goals first
    | exact Option.noConfusion h
    | (obtain rfl := Option.some.inj h; exact ⟨rfl, rfl⟩)

theorem ParseObjectCommand_header : KeepsHeader ParseObjectCommand := by
  intro g tokens st path lineNum line r h
  unfold ParseObjectCommand at h
  repeat' first | split at h | dsimp only at h
  all_goals first
    | exact Option.noConfusion h
    | (obtain rfl := Option.some.inj h; exact ⟨rfl, rfl⟩)

theorem ParseTextureCommand_header : KeepsHeader ParseTextureCommand := by
  intro g tokens st path lineNum line r h
  unfold ParseTextureCommand at h
  repeat' first | split at h | dsimp only at h
  all_goals first
    | exact Option.noConfusion h
    | (obtain rfl := Option.some.inj h; exact ⟨rfl, rfl⟩)
    | (obtain rfl := Option.some.inj h; apply CSLPackage_t.modifyBack_header; assumption)

theorem ParseAircraftCommand_header : KeepsHeader ParseAircraftCommand := by
  intro g tokens st path lineNum line r h
  unfold ParseAircraftCommand at h
  repeat' first | split at h | dsimp only at h
  all_goals first
    | exact Option.noConfusion h
    | (obtain rfl := Option.some.inj h; exact ⟨rfl, rfl⟩)

theorem ParseObj8AircraftCommand_header : KeepsHeader ParseObj8AircraftCommand := by
  intro g tokens st path lineNum line r h
  by_cases h2 : tokens.length < 2
  · obtain ⟨st1, h1, hp⟩ := ParseObj8AircraftCommand_no_argument g tokens st path lineNum line h2
    rw [h1] at h
    cases h
    exact ⟨congrArg CSLPackage_t.name hp, congrArg CSLPackage_t.path hp⟩
  · obtain ⟨keyword, arg, more, rfl⟩ : ∃ keyword arg more, tokens = keyword :: arg :: more := by
      match tokens, h2 with
      | [], h2 => exact absurd (by simp) h2
      | [_], h2 => exact absurd (by simp) h2
      | keyword :: arg :: more, _ => exact ⟨keyword, arg, more, rfl⟩
    obtain ⟨st1, h1, hp⟩ :=
      ParseObj8AircraftCommand_with_argument g keyword arg more st path lineNum line
    rw [h1] at h
    cases h
    show st1.package.name = _ ∧ st1.package.path = _
    rw [hp]
    exact ⟨rfl, rfl⟩

theorem ParseObj8Command_header : KeepsHeader ParseObj8Command := by
  intro g tokens st path lineNum line r h
  obtain ⟨ok, st1⟩ := r
  rcases ParseObj8Command_effect g tokens st path lineNum line ok st1 h with hp | hp
  · exact ⟨congrArg CSLPackage_t.name hp, congrArg CSLPackage_t.path hp⟩
  · obtain ⟨front, back, att, _, _, hp⟩ := hp
    show st1.package.name = _ ∧ st1.package.path = _
    rw [hp]
    exact ⟨rfl, rfl⟩

theorem ParseVertOffsetCommand_header : KeepsHeader ParseVertOffsetCommand := by
  intro g tokens st path lineNum line r h
  by_cases h2 : tokens.length ≠ 2
  · obtain ⟨st1, h1, hp⟩ := ParseVertOffsetCommand_rejects g tokens st path lineNum line h2
    rw [h1] at h
    cases h
    exact ⟨congrArg CSLPackage_t.name hp, congrArg CSLPackage_t.path hp⟩
  · unfold ParseVertOffsetCommand at h
    rw [if_neg h2] at h
    repeat' split at h
    all_goals first
      | exact Option.noConfusion h
      | (obtain rfl := Option.some.inj h; apply CSLPackage_t.modifyBack_header; assumption)

theorem ParseHasGearCommand_header : KeepsHeader ParseHasGearCommand := by
  intro g tokens st path lineNum line r h
  unfold ParseHasGearCommand at h
  repeat' first | split at h | dsimp only at h
  all_goals first
    | exact Option.noConfusion h
    | (obtain rfl := Option.some.inj h; exact ⟨rfl, rfl⟩)
    | (obtain rfl := Option.some.inj h; apply CSLPackage_t.modifyBack_header; assumption)

theorem ParseIcaoCommand_header : KeepsHeader ParseIcaoCommand := by
  intro g tokens st path lineNum line r h
  unfold ParseIcaoCommand at h
  repeat' first | split at h | dsimp only at h
  all_goals first
    | exact Option.noConfusion h
    | (obtain rfl := Option.some.inj h; exact ⟨rfl, rfl⟩)
    | (obtain rfl := Option.some.inj h
       simp only [CSLPackage_t.addMatch_name, CSLPackage_t.addMatch_path]
       apply CSLPackage_t.modifyBack_header
       assumption)

theorem ParseAirlineCommand_header : KeepsHeader ParseAirlineCommand := by
  intro g tokens st path lineNum line r h
  unfold ParseAirlineCommand at h
  repeat' first | split at h | dsimp only at h
  all_goals first
    | exact Option.noConfusion h
    | (obtain rfl := Option.some.inj h; exact ⟨rfl, rfl⟩)
    | (obtain rfl := Option.some.inj h
       simp only [CSLPackage_t.addMatch_name, CSLPackage_t.addMatch_path]
       apply CSLPackage_t.modifyBack_header
       assumption)

theorem ParseLiveryCommand_header : KeepsHeader ParseLiveryCommand := by
  intro g tokens st path lineNum line r h
  unfold ParseLiveryCommand at h
  repeat' first | split at h | dsimp only at h
  all_goals first
    | exact Option.noConfusion h
    | (obtain rfl := Option.some.inj h; exact ⟨rfl, rfl⟩)
    | (obtain rfl := Option.some.inj h
       simp only [CSLPackage_t.addMatch_name, CSLPackage_t.addMatch_path]
       apply CSLPackage_t.modifyBack_header
       assumption)

theorem ParseFullPackage_step_core (g : Globals) (path path2 : Str) (lineNum lineNum2 : Nat)
    (raw : Str) (st st2 : ParseState) (h : st.core = st2.core) :
    (ParseFullPackage.step g path lineNum raw st).map ParseState.core =
      (ParseFullPackage.step g path2 lineNum2 raw st2).map ParseState.core := by
  unfold ParseFullPackage.step
  simp only []
  split
  · simp only [Option.map_some', h]
  · cases tokenize (trim raw) tokenSeparators with
    | nil => simp only [Option.map_some', h]
    | cons keyword args =>
      simp only []
      cases hc : fullCommands keyword with
      | none =>
        simp only [Option.map_some', Option.some.injEq]
        exact h
      | some handler =>
        have hr := fullCommands_forall ReadsCoreOnly ParseDummyCommand_core
          ParseDependencyCommand_core ParseObjectCommand_core ParseTextureCommand_core
          ParseAircraftCommand_core ParseObj8AircraftCommand_core ParseObj8Command_core
          ParseVertOffsetCommand_core ParseHasGearCommand_core ParseIcaoCommand_core
          ParseAirlineCommand_core ParseLiveryCommand_core keyword handler hc
        have := hr g (keyword :: args) st st2 path path2 lineNum lineNum2 (trim raw) (trim raw) h
        simp only []
        cases hA : handler g (keyword :: args) st path lineNum (trim raw) with
        | none =>
          cases hB : handler g (keyword :: args) st2 path2 lineNum2 (trim raw) with
          | none => rfl
          | some b => rw [hA, hB] at this; cases this
        | some a =>
          cases hB : handler g (keyword :: args) st2 path2 lineNum2 (trim raw) with
          | none => rw [hA, hB] at this; cases this
          | some b =>
            rw [hA, hB] at this
            simp only [Option.map_some', Option.some.injEq, Prod.mk.injEq] at this ⊢
            exact this.2

theorem ParseFullPackage_lines_core (g : Globals) (path path2 : Str) :
    ∀ (lines : List Str) (lineNum lineNum2 : Nat) (st st2 : ParseState), st.core = st2.core →
      (ParseFullPackage.lines g path lines lineNum st).map ParseState.core =
        (ParseFullPackage.lines g path2 lines lineNum2 st2).map ParseState.core := by
  intro lines
  induction lines with
  | nil =>
    intro lineNum lineNum2 st st2 h
    simp only [ParseFullPackage.lines, Option.map_some', h]
  | cons raw rest ih =>
    intro lineNum lineNum2 st st2 h
    have hs := ParseFullPackage_step_core g path path2 (lineNum + 1) (lineNum2 + 1) raw st st2 h
    rw [ParseFullPackage_lines_cons, ParseFullPackage_lines_cons]
    cases hA : ParseFullPackage.step g path (lineNum + 1) raw st with
    | none =>
      cases hB : ParseFullPackage.step g path2 (lineNum2 + 1) raw st2 with
      | none => rfl
      | some b => rw [hA, hB] at hs; cases hs
    | some a =>
      cases hB : ParseFullPackage.step g path2 (lineNum2 + 1) raw st2 with
      | none => rw [hA, hB] at hs; cases hs
      | some b =>
        rw [hA, hB] at hs
        simp only [Option.map_some', Option.some.injEq] at hs
        exact ih (lineNum + 1) (lineNum2 + 1) a b hs

theorem ParseFullPackage_lines_append (g : Globals) (path : Str) :
    ∀ (pre post : List Str) (lineNum : Nat) (st : ParseState),
      ParseFullPackage.lines g path (pre ++ post) lineNum st =
        (ParseFullPackage.lines g path pre lineNum st).bind
          (ParseFullPackage.lines g path post (lineNum + pre.length)) := by
  intro pre
  induction pre with
  | nil => intro post lineNum st; rfl
  | cons raw rest ih =>
    intro post lineNum st
    rw [List.cons_append, ParseFullPackage_lines_cons, ParseFullPackage_lines_cons]
    cases ParseFullPackage.step g path (lineNum + 1) raw st with
    | none => rfl
    | some st1 =>
      simp only []
      rw [ih post (lineNum + 1) st1]
      have e : lineNum + 1 + rest.length = lineNum + (raw :: rest).length := by
        simp only [List.length_cons]; omega
      rw [e]

theorem ParseDependencyCommand_result (g : Globals) (tokens : List Str) (st : ParseState)
    (path : Str) (lineNum : Nat) (line : Str) :
    ∃ ok st1, ParseDependencyCommand g tokens st path lineNum line = some (ok, st1) ∧
      st1.package = st.package ∧ st1.MsgCnt = st.MsgCnt ∧
      (ok = true ↔ ∃ keyword name, tokens = [keyword, name] ∧
        ∃ p ∈ g.gPackages, p.name = name) := by
  unfold ParseDependencyCommand
  by_cases h2 : tokens.length ≠ 2
  · rw [if_pos h2]
    refine ⟨false, _, rfl, rfl, rfl, ?_⟩
    constructor
    · intro h; cases h
    · rintro ⟨keyword, name, rfl, _⟩
      exact absurd rfl h2
  · rw [if_neg h2]
    obtain ⟨keyword, name, rfl⟩ : ∃ keyword name, tokens = [keyword, name] := by
      match tokens, h2 with
      | [], h2 => exact absurd (by simp) h2
      | [_], h2 => exact absurd (by simp) h2
      | [keyword, name], _ => exact ⟨keyword, name, rfl⟩
      | _ :: _ :: _ :: _, h2 => exact absurd (by simp) h2
    simp only [List.get?_cons_succ, List.get?_cons_zero]
    by_cases hf : (g.gPackages.filter fun p => p.name = name).length = 0
    · rw [if_pos hf]
      refine ⟨false, _, rfl, rfl, rfl, ?_⟩
      constructor
      · intro h; cases h
      · rintro ⟨keyword2, name2, he, p, hp, hn⟩
        exfalso
        cases he
        have hmem : p ∈ g.gPackages.filter fun p => p.name = name :=
          List.mem_filter.2 ⟨hp, by simpa using hn⟩
        rw [List.length_eq_zero.1 hf] at hmem
        cases hmem
    · rw [if_neg hf]
      refine ⟨true, _, rfl, rfl, rfl, ?_⟩
      constructor
      · intro _
        refine ⟨keyword, name, rfl, ?_⟩
        cases hl : g.gPackages.filter fun p => p.name = name with
        | nil => rw [hl] at hf; exact absurd rfl hf
        | cons p ps =>
          have hmem : p ∈ g.gPackages.filter fun p => p.name = name := by
            rw [hl]; exact List.mem_cons_self _ _
          obtain ⟨h1, h2⟩ := List.mem_filter.1 hmem
          exact ⟨p, h1, by simpa using h2⟩
      · intro _; rfl

theorem ParseFullPackage_step_dependency (g : Globals) (path : Str) (lineNum : Nat)
    (dep : Str) (args : List Str) (st : ParseState)
    (h : tokenize (trim dep) tokenSeparators = "DEPENDENCY".toList :: args) :
    ∃ st1, ParseFullPackage.step g path lineNum dep st = some st1 ∧ st1.core = st.core := by
  unfold ParseFullPackage.step
  simp only []
  split
  · exact ⟨st, rfl, rfl⟩
  · rw [h]
    have hc : fullCommands "DEPENDENCY".toList = some ParseDependencyCommand := by
      unfold fullCommands
      rw [if_neg (by decide), if_pos rfl]
    simp only [hc]
    obtain ⟨ok, st1, h1, hp, hm, _⟩ := ParseDependencyCommand_result g
      ("DEPENDENCY".toList :: args) st path lineNum (trim dep)
    rw [h1]
    refine ⟨st1, rfl, ?_⟩
    unfold ParseState.core
    rw [hp, hm]

theorem ParseFullPackage_lines_dependency (g : Globals) (path : Str) (pre post : List Str)
    (dep : Str) (args : List Str) (lineNum : Nat) (st : ParseState)
    (h : tokenize (trim dep) tokenSeparators = "DEPENDENCY".toList :: args) :
    (ParseFullPackage.lines g path (pre ++ dep :: post) lineNum st).map ParseState.core =
      (ParseFullPackage.lines g path (pre ++ post) lineNum st).map ParseState.core := by
  rw [ParseFullPackage_lines_append, ParseFullPackage_lines_append]
  cases ParseFullPackage.lines g path pre lineNum st with
  | none => rfl
  | some stP =>
    simp only [Option.some_bind]
    rw [ParseFullPackage_lines_cons]
    obtain ⟨st1, h1, hc⟩ :=
      ParseFullPackage_step_dependency g path (lineNum + pre.length + 1) dep args stP h
    rw [h1]
    exact ParseFullPackage_lines_core g path path post _ _ st1 stP hc

theorem getlines_linesText : ∀ lines : List Str, (∀ l ∈ lines, ∀ c ∈ l, c ≠ '\n') →
    getlines (linesText lines) = lines
  | [], _ => rfl
  | l :: ls, h => by
    rw [linesText, getlines_line l _ (h l (List.mem_cons_self _ _)),
      getlines_linesText ls fun x hx => h x (List.mem_cons_of_mem _ hx)]

theorem MsgCntTy.dumpOne_cnt (fileName : Str) (acc : Bool × MsgCntTy × List Diag)
    (e : msgCntE) :
    (MsgCntTy.dumpOne fileName acc e).2.1 = { cnt := Function.update acc.2.1.cnt e 0 } := by
  unfold MsgCntTy.dumpOne
  simp only []
  split <;> rfl

theorem MsgCntTy.DumpResults_cnt (m : MsgCntTy) (fileName fileName2 : Str)
    (log log2 : List Diag) :
    (m.DumpResults fileName log).1 = (m.DumpResults fileName2 log2).1 := by
  unfold MsgCntTy.DumpResults
  simp only [List.foldl, MsgCntTy.dumpOne_cnt]

theorem ParseFullPackage_core (g : Globals) (content content2 : Str) (st : ParseState)
    (h : (ParseFullPackage.lines g
        (st.package.path ++ "/".toList ++ "xsb_aircraft.txt".toList) (getlines content) 0
          st).map ParseState.core =
      (ParseFullPackage.lines g
        (st.package.path ++ "/".toList ++ "xsb_aircraft.txt".toList) (getlines content2) 0
          st).map ParseState.core) :
    (ParseFullPackage g content st).map ParseState.core =
      (ParseFullPackage g content2 st).map ParseState.core := by
  unfold ParseFullPackage
  simp only []
  cases hA : ParseFullPackage.lines g
      (st.package.path ++ "/".toList ++ "xsb_aircraft.txt".toList) (getlines content) 0 st with
  | none =>
    cases hB : ParseFullPackage.lines g
        (st.package.path ++ "/".toList ++ "xsb_aircraft.txt".toList) (getlines content2) 0
          st with
    | none => rfl
    | some b => rw [hA, hB] at h; cases h
  | some a =>
    cases hB : ParseFullPackage.lines g
        (st.package.path ++ "/".toList ++ "xsb_aircraft.txt".toList) (getlines content2) 0
          st with
    | none => rw [hA, hB] at h; cases h
    | some b =>
      rw [hA, hB] at h
      simp only [Option.map_some', Option.some.injEq, ParseState.core, Prod.mk.injEq] at h ⊢
      refine ⟨h.1, ?_⟩
      rw [h.2]
      exact MsgCntTy.DumpResults_cnt _ _ _ _ _

/-- Claim C17: the handler of `DEPENDENCY` always returns; it returns success
exactly when the tokens are the keyword and one argument that is the name of a
package of the catalog, and the package it returns is the one it was given. In
`ParseFullPackage` the lines after a `DEPENDENCY` line (failing or not) are
processed as if that line were absent: with and without the line the parse is
defined in the same cases and gives the same package and the same message
counters (only the log and the line numbers written to it differ), for every
list of lines and for every text of lines ended by a newline. -/
theorem dependency_has_no_effect (g : Globals) (st : ParseState) :
    (∀ (tokens : List Str) (path : Str) (lineNum : Nat) (line : Str),
      ∃ ok st1, ParseDependencyCommand g tokens st path lineNum line = some (ok, st1) ∧
        st1.package = st.package ∧
        (ok = true ↔ ∃ keyword name, tokens = [keyword, name] ∧
          ∃ p ∈ g.gPackages, p.name = name)) ∧
    (∀ (path : Str) (pre post : List Str) (dep : Str) (args : List Str) (lineNum : Nat),
      tokenize (trim dep) tokenSeparators = "DEPENDENCY".toList :: args →
      (ParseFullPackage.lines g path (pre ++ dep :: post) lineNum st).map ParseState.core =
        (ParseFullPackage.lines g path (pre ++ post) lineNum st).map ParseState.core) ∧
    (∀ (pre post : List Str) (dep : Str) (args : List Str),
      tokenize (trim dep) tokenSeparators = "DEPENDENCY".toList :: args →
      (∀ l ∈ pre ++ dep :: post, ∀ c ∈ l, c ≠ '\n') →
      (ParseFullPackage g (linesText (pre ++ dep :: post)) st).map ParseState.core =
        (ParseFullPackage g (linesText (pre ++ post)) st).map ParseState.core) := by
  refine ⟨?_, ?_, ?_⟩
  · intro tokens path lineNum line
    obtain ⟨ok, st1, h1, hp, _, hi⟩ :=
      ParseDependencyCommand_result g tokens st path lineNum line
    exact ⟨ok, st1, h1, hp, hi⟩
  · intro path pre post dep args lineNum h
    exact ParseFullPackage_lines_dependency g path pre post dep args lineNum st h
  · intro pre post dep args h hn
    apply ParseFullPackage_core
    rw [getlines_linesText _ hn, getlines_linesText _ (fun l hl => hn l (by
      rcases List.mem_append.1 hl with hl | hl
      · exact List.mem_append_left _ hl
      · exact List.mem_append_right _ (List.mem_cons_of_mem _ hl)))]
    exact ParseFullPackage_lines_dependency g _ pre post dep args 0 st h

theorem dependency_has_no_effect_witness :
    (ParseFullPackage (sampleGlobals [sampleEmptyPackage])
        (linesText (["OBJ8_AIRCRAFT a.obj".toList] ++
          "DEPENDENCY Missing".toList :: ["ICAO B738".toList]))
        (sampleState sampleEmptyPackage)).map ParseState.core =
      (ParseFullPackage (sampleGlobals [sampleEmptyPackage])
        (linesText (["OBJ8_AIRCRAFT a.obj".toList] ++ ["ICAO B738".toList]))
        (sampleState sampleEmptyPackage)).map ParseState.core :=
  (dependency_has_no_effect (sampleGlobals [sampleEmptyPackage])
    (sampleState sampleEmptyPackage)).2.2 ["OBJ8_AIRCRAFT a.obj".toList] ["ICAO B738".toList]
    "DEPENDENCY Missing".toList ["Missing".toList] (by decide) (by decide)

/-! ## Loading packages -/

theorem tokenize_token_ne_nil (line seps : Str) : ∀ t ∈ tokenize line seps, t ≠ [] := by
  have hr : MaximalRuns seps line (BreakStringPvt line 0 seps) :=
    BreakStringPvt_loop_runs seps (line.length + 1) line (by omega)
  rw [← MaximalRuns_eq_tokenize seps line _ hr]
  intro t ht
  exact (MaximalRuns_tokens seps line _ hr t ht).1

theorem ParseExportCommand_result (g : Globals) (tokens : List Str) (st : ParseState)
    (path : Str) (lineNum : Nat) (line : Str) :
    ∃ ok st1, ParseExportCommand g tokens st path lineNum line = some (ok, st1) ∧
      st1.MsgCnt = st.MsgCnt ∧
      ((ok = false ∧ st1.package = st.package) ∨
        (ok = true ∧ ∃ keyword name, tokens = [keyword, name] ∧
          (∀ p ∈ g.gPackages, p.name ≠ name) ∧
          st1.package = { st.package with path := path, name := name })) := by
  unfold ParseExportCommand
  by_cases h2 : tokens.length ≠ 2
  · rw [if_pos h2]
    exact ⟨false, _, rfl, rfl, Or.inl ⟨rfl, rfl⟩⟩
  · rw [if_neg h2]
    obtain ⟨keyword, name, rfl⟩ : ∃ keyword name, tokens = [keyword, name] := by
      match tokens, h2 with
      | [], h2 => exact absurd (by simp) h2
      | [_], h2 => exact absurd (by simp) h2
      | [keyword, name], _ => exact ⟨keyword, name, rfl⟩
      | _ :: _ :: _ :: _, h2 => exact absurd (by simp) h2
    simp only [List.get?_cons_succ, List.get?_cons_zero]
    cases hf : g.gPackages.find? fun p => decide (p.name = name) with
    | none =>
      refine ⟨true, _, rfl, rfl, Or.inr ⟨rfl, keyword, name, rfl, ?_, rfl⟩⟩
      intro p hp
      have := List.find?_eq_none.1 hf p hp
      simpa using this
    | some p => exact ⟨false, _, rfl, rfl, Or.inl ⟨rfl, rfl⟩⟩

theorem ParsePackageHeader_lines_result (g : Globals) (path : Str) :
    ∀ (lines : List Str) (lineNum : Nat) (st : ParseState),
      ∃ st1, ParsePackageHeader.lines g path lines lineNum st = some st1 ∧
        st1.MsgCnt = st.MsgCnt ∧
        (st1.package = st.package ∨
          ∃ line ∈ lines, ∃ name,
            tokenize line tokenSeparators = ["EXPORT_NAME".toList, name] ∧
            (∀ p ∈ g.gPackages, p.name ≠ name) ∧
            st1.package = { st.package with path := path, name := name }) := by
  intro lines
  induction lines with
  | nil => intro lineNum st; exact ⟨st, rfl, rfl, Or.inl rfl⟩
  | cons line rest ih =>
    intro lineNum st
    have hrest : ∀ st0 : ParseState, st0.MsgCnt = st.MsgCnt → st0.package = st.package →
        ∃ st1, ParsePackageHeader.lines g path rest (lineNum + 1) st0 = some st1 ∧
          st1.MsgCnt = st.MsgCnt ∧
          (st1.package = st.package ∨
            ∃ l ∈ line :: rest, ∃ name,
              tokenize l tokenSeparators = ["EXPORT_NAME".toList, name] ∧
              (∀ p ∈ g.gPackages, p.name ≠ name) ∧
              st1.package = { st.package with path := path, name := name }) := by
      intro st0 hm hp
      obtain ⟨st1, h1, hm1, hc⟩ := ih (lineNum + 1) st0
      refine ⟨st1, h1, hm1.trans hm, ?_⟩
      rcases hc with hc | ⟨l, hl, name, ht, hn, hc⟩
      · exact Or.inl (hc.trans hp)
      · exact Or.inr ⟨l, List.mem_cons_of_mem _ hl, name, ht, hn, by rw [hc, hp]⟩
    rw [ParsePackageHeader.lines]
    cases htok : tokenize line tokenSeparators with
    | nil => exact hrest st rfl rfl
    | cons keyword args =>
      simp only []
      unfold headerCommands
      by_cases hk : keyword = "EXPORT_NAME".toList
      · rw [if_pos hk]
        simp only []
        obtain ⟨ok, st1, h1, hm, hc⟩ :=
          ParseExportCommand_result g (keyword :: args) st path (lineNum + 1) line
        rw [h1]
        simp only []
        rcases hc with ⟨rfl, hp⟩ | ⟨rfl, kw, name, he, hn, hp⟩
        · rw [if_neg (by simp)]
          exact hrest st1 hm hp
        · rw [if_pos rfl]
          refine ⟨st1, rfl, hm, Or.inr ⟨line, List.mem_cons_self _ _, name, ?_, hn, hp⟩⟩
          rw [htok, he]
          cases he
          rw [hk]
      · rw [if_neg hk]
        exact hrest st rfl rfl

theorem ParsePackageHeader_result (g : Globals) (path content : Str) (MsgCnt : MsgCntTy)
    (log : List Diag) :
    ∃ st1, ParsePackageHeader g path content MsgCnt log = some st1 ∧ st1.MsgCnt = MsgCnt ∧
      ((st1.package = CSLPackage_t.default ∧ st1.package.hasValidHeader = false) ∨
        (st1.package.hasValidHeader = true ∧ st1.package.path = path ∧
          st1.package.planes = [] ∧ st1.package.name ≠ [] ∧
          (∀ p ∈ g.gPackages, p.name ≠ st1.package.name) ∧
          ∃ line ∈ getlines content,
            tokenize line tokenSeparators = ["EXPORT_NAME".toList, st1.package.name])) := by
  unfold ParsePackageHeader
  obtain ⟨st1, h1, hm, hc⟩ := ParsePackageHeader_lines_result g path (getlines content) 0
    { package := CSLPackage_t.default, MsgCnt := MsgCnt, log := log }
  refine ⟨st1, h1, hm, ?_⟩
  rcases hc with hc | ⟨line, hl, name, ht, hn, hc⟩
  · left
    refine ⟨hc, ?_⟩
    rw [hc]
    rfl
  · right
    have hne : name ≠ [] := tokenize_token_ne_nil line tokenSeparators name (by
      rw [ht]; simp)
    rw [hc]
    refine ⟨?_, rfl, rfl, hne, hn, line, hl, ht⟩
    show (!name.isEmpty) = true
    cases name with
    | nil => exact absurd rfl hne
    | cons c cs => rfl

theorem CSL_LoadCSL_headers_result (h : Host) (g : Globals) :
    ∀ (pckgs : List Str) (packages : List CSLPackage_t) (MsgCnt : MsgCntTy) (log : List Diag),
      ∃ new MsgCnt1 log1,
        CSL_LoadCSL.headers h g pckgs (packages, MsgCnt, log) =
          some (packages ++ new, MsgCnt1, log1) ∧
        (new.map fun p => p.path).Sublist pckgs ∧
        ∀ p ∈ new, HeaderAccepted h g.gPackages p ∧ p.planes = [] := by
  intro pckgs
  induction pckgs with
  | nil =>
    intro packages MsgCnt log
    exact ⟨[], MsgCnt, log, by rw [List.append_nil]; rfl, List.Sublist.slnil,
      fun p hp => by cases hp⟩
  | cons packagePath rest ih =>
    intro packages MsgCnt log
    rw [CSL_LoadCSL.headers]
    simp only []
    by_cases hskip : (!h.DoesFileExist (packagePath ++ "/".toList ++ "xsb_aircraft.txt".toList) ||
        isPackageAlreadyLoaded g.gPackages packagePath) = true
    · rw [if_pos hskip]
      obtain ⟨new, m1, l1, h1, hs, hp⟩ := ih packages MsgCnt log
      exact ⟨new, m1, l1, h1, hs.cons _, hp⟩
    · rw [if_neg hskip]
      obtain ⟨st, hst, _, hc⟩ := ParsePackageHeader_result g packagePath
        (h.GetFileContent (packagePath ++ "/".toList ++ "xsb_aircraft.txt".toList)) MsgCnt
        (log ++ [Diag.message (DiagText.loadingPackage
          (packagePath ++ "/".toList ++ "xsb_aircraft.txt".toList))])
      rw [hst]
      simp only []
      rcases hc with ⟨_, hv⟩ | ⟨hv, hpath, hplanes, hne, hn, hline⟩
      · rw [hv]
        simp only [Bool.false_eq_true, if_false]
        obtain ⟨new, m1, l1, h1, hs, hp⟩ := ih packages st.MsgCnt st.log
        exact ⟨new, m1, l1, h1, hs.cons _, hp⟩
      · rw [hv]
        simp only [if_true]
        obtain ⟨new, m1, l1, h1, hs, hp⟩ := ih (packages ++ [st.package]) st.MsgCnt st.log
        refine ⟨st.package :: new, m1, l1, ?_, ?_, ?_⟩
        · rw [h1]
          simp
        · rw [List.map_cons, hpath]
          exact hs.cons₂ _
        · intro p hmem
          rcases List.mem_cons.1 hmem with rfl | hmem
          · refine ⟨⟨?_, ?_, hne, hn, ?_⟩, hplanes⟩
            · rw [hpath]
              cases hd : h.DoesFileExist (declarationFile packagePath) with
              | true => rfl
              | false =>
                exfalso
                apply hskip
                unfold declarationFile at hd
                rw [hd]
                rfl
            · rw [hpath]
              cases hd : isPackageAlreadyLoaded g.gPackages packagePath with
              | false => rfl
              | true =>
                exfalso
                apply hskip
                rw [hd]
                simp
            · rw [hpath]
              exact hline
          · exact hp p hmem

theorem ParseFullPackage_step_header {g : Globals} {path : Str} {lineNum : Nat} {raw : Str}
    {st st1 : ParseState} (h : ParseFullPackage.step g path lineNum raw st = some st1) :
    st1.package.name = st.package.name ∧ st1.package.path = st.package.path := by
  unfold ParseFullPackage.step at h
  simp only [] at h
  split at h
  · cases h
    exact ⟨rfl, rfl⟩
  · split at h
    · cases h
      exact ⟨rfl, rfl⟩
    · rename_i keyword args _
      cases hc : fullCommands keyword with
      | none =>
        rw [hc] at h
        cases h
        exact ⟨rfl, rfl⟩
      | some handler =>
        rw [hc] at h
        simp only [] at h
        have hk := fullCommands_forall KeepsHeader ParseDummyCommand_header
          ParseDependencyCommand_header ParseObjectCommand_header ParseTextureCommand_header
          ParseAircraftCommand_header ParseObj8AircraftCommand_header ParseObj8Command_header
          ParseVertOffsetCommand_header ParseHasGearCommand_header ParseIcaoCommand_header
          ParseAirlineCommand_header ParseLiveryCommand_header keyword handler hc
        split at h
        · cases h
        · rename_i r hr
          cases h
          exact hk g _ st path lineNum _ r hr

theorem ParseFullPackage_lines_header {g : Globals} {path : Str} :
    ∀ (lines : List Str) (lineNum : Nat) (st st1 : ParseState),
      ParseFullPackage.lines g path lines lineNum st = some st1 →
      st1.package.name = st.package.name ∧ st1.package.path = st.package.path := by
  intro lines
  induction lines with
  | nil =>
    intro lineNum st st1 h
    cases h
    exact ⟨rfl, rfl⟩
  | cons raw rest ih =>
    intro lineNum st st1 h
    rw [ParseFullPackage_lines_cons] at h
    split at h
    · cases h
    · rename_i st0 h0
      have h1 := ParseFullPackage_step_header h0
      have h2 := ih _ _ _ h
      exact ⟨h2.1.trans h1.1, h2.2.trans h1.2⟩

theorem ParseFullPackage_header {g : Globals} {content : Str} {st st1 : ParseState}
    (h : ParseFullPackage g content st = some st1) :
    st1.package.name = st.package.name ∧ st1.package.path = st.package.path := by
  obtain ⟨stL, hL, hp⟩ := ParseFullPackage_package h
  rw [hp]
  exact ParseFullPackage_lines_header _ _ _ _ hL

theorem CSL_LoadCSL_fullRun_result (h : Host) (g : Globals) :
    ∀ (todo done : List CSLPackage_t) (MsgCnt : MsgCntTy) (log : List Diag)
      (indexed : List Str) (r : List CSLPackage_t × MsgCntTy × List Diag × List Str),
      CSL_LoadCSL.fullRun h g done todo MsgCnt log indexed = some r →
      ∃ parsed, r.1 = done ++ parsed ∧
        List.Forall₂ (fun p q => q.name = p.name ∧ q.path = p.path) todo parsed := by
  intro todo
  induction todo with
  | nil =>
    intro done MsgCnt log indexed r hr
    rw [CSL_LoadCSL.fullRun] at hr
    cases hr
    exact ⟨[], by simp, List.Forall₂.nil⟩
  | cons package rest ih =>
    intro done MsgCnt log indexed r hr
    rw [CSL_LoadCSL.fullRun] at hr
    split at hr
    · cases hr
    · rename_i st hst
      obtain ⟨parsed, h1, h2⟩ := ih _ _ _ _ _ hr
      refine ⟨st.package :: parsed, ?_, List.Forall₂.cons (ParseFullPackage_header hst) h2⟩
      rw [h1]
      simp

theorem CSL_LoadCSL_headers_some {h : Host} {g : Globals} {pckgs : List Str}
    {packages : List CSLPackage_t} {MsgCnt : MsgCntTy} {log : List Diag}
    {r : List CSLPackage_t × MsgCntTy × List Diag}
    (hr : CSL_LoadCSL.headers h g pckgs (packages, MsgCnt, log) = some r) :
    ∃ new, r.1 = packages ++ new ∧ (new.map fun p => p.path).Sublist pckgs ∧
      ∀ p ∈ new, HeaderAccepted h g.gPackages p ∧ p.planes = [] := by
  obtain ⟨new, m1, l1, h1, hs, hp⟩ := CSL_LoadCSL_headers_result h g pckgs packages MsgCnt log
  rw [h1] at hr
  cases hr
  exact ⟨new, rfl, hs, hp⟩

theorem CSL_LoadCSL_headers_defined (h : Host) (g : Globals) (pckgs : List Str)
    (acc : List CSLPackage_t × MsgCntTy × List Diag) :
    (CSL_LoadCSL.headers h g pckgs acc).isSome = true := by
  obtain ⟨new, m1, l1, h1, _⟩ := CSL_LoadCSL_headers_result h g pckgs acc.1 acc.2.1 acc.2.2
  rw [h1]
  rfl

theorem HeaderAccepted_of_header {h : Host} {gPackages : List CSLPackage_t}
    {p q : CSLPackage_t} (hn : q.name = p.name) (hp : q.path = p.path)
    (ha : HeaderAccepted h gPackages p) : HeaderAccepted h gPackages q := by
  unfold HeaderAccepted at ha ⊢
  rw [hn, hp]
  exact ha

theorem fullRun_paths {todo parsed : List CSLPackage_t}
    (h : List.Forall₂ (fun p q : CSLPackage_t => q.name = p.name ∧ q.path = p.path)
      todo parsed) :
    (parsed.map fun p => p.path) = todo.map fun p => p.path := by
  induction h with
  | nil => rfl
  | cons hab _ ih => simp only [List.map_cons, ih, hab.2]

theorem fullRun_mem {todo parsed : List CSLPackage_t}
    (h : List.Forall₂ (fun p q : CSLPackage_t => q.name = p.name ∧ q.path = p.path)
      todo parsed) (q : CSLPackage_t) (hq : q ∈ parsed) :
    ∃ p ∈ todo, q.name = p.name ∧ q.path = p.path := by
  induction h with
  | nil => cases hq
  | cons hab _ ih =>
    rcases List.mem_cons.1 hq with rfl | hq
    · exact ⟨_, List.mem_cons_self _ _, hab⟩
    · obtain ⟨p, hpm, hh⟩ := ih hq
      exact ⟨p, List.mem_cons_of_mem _ hpm, hh⟩

theorem CSL_LoadCSL_packages {h : Host} {s : LoadState} {inFolderPath inRelatedFile
    inDoc8643 : Str} {r : Bool × LoadState}
    (hl : CSL_LoadCSL h s inFolderPath inRelatedFile inDoc8643 = some r) :
    ∃ new, r.2.g.gPackages = s.g.gPackages ++ new ∧
      (new.map fun p => p.path).Sublist
        ((h.XPLMGetDirectoryContents inFolderPath).map fun foo =>
          inFolderPath ++ "/".toList ++ foo) ∧
      ∀ p ∈ new, HeaderAccepted h s.g.gPackages p := by
  unfold CSL_LoadCSL at hl
  simp only [] at hl
  split at hl
  · cases hl
  · rename_i packages MsgCnt log hh
    obtain ⟨new, h1, hs, hp⟩ := CSL_LoadCSL_headers_some hh
    simp only [List.nil_append] at h1
    subst h1
    split at hl
    · split at hl
      · cases hl
      · rename_i gPackages m1 l1 ix hf
        cases hl
        obtain ⟨parsed, h2, h3⟩ := CSL_LoadCSL_fullRun_result _ _ _ _ _ _ _ _ hf
        refine ⟨parsed, h2, ?_, ?_⟩
        · rw [fullRun_paths h3]
          exact hs
        · intro q hq
          obtain ⟨p, hpm, hn, hpth⟩ := fullRun_mem h3 q hq
          exact HeaderAccepted_of_header hn hpth (hp p hpm).1
    · rename_i hempty
      cases hl
      refine ⟨[], by simp, ?_, fun p hp => by cases hp⟩
      exact List.nil_sublist _

theorem isPackageAlreadyLoaded_eq_false {gPackages : List CSLPackage_t} {packagePath : Str}
    (h : isPackageAlreadyLoaded gPackages packagePath = false) :
    ∀ q ∈ gPackages, q.path ≠ packagePath := by
  intro q hq he
  unfold isPackageAlreadyLoaded at h
  have : (gPackages.any fun package => decide (package.path = packagePath)) = true :=
    List.any_eq_true.2 ⟨q, hq, by simpa using he⟩
  rw [h] at this
  cases this

theorem loadCalls_names : ∀ (calls : List LoadCall) (s s2 : LoadState),
    loadCalls calls s = some s2 → (∀ p ∈ s.g.gPackages, p.name ≠ []) →
    ∀ p ∈ s2.g.gPackages, p.name ≠ [] := by
  intro calls
  induction calls with
  | nil =>
    intro s s2 h h0
    cases h
    exact h0
  | cons c rest ih =>
    intro s s2 h h0
    rw [loadCalls] at h
    split at h
    · cases h
    · rename_i r hr
      refine ih r.2 s2 h ?_
      obtain ⟨new, h1, _, hp⟩ := CSL_LoadCSL_packages hr
      intro p hmem
      rw [h1] at hmem
      rcases List.mem_append.1 hmem with hmem | hmem
      · exact h0 p hmem
      · exact (hp p hmem).2.2.1

/-- Claim C14: after a load every package of the catalog was there before or
has a name that is not empty and that a line `EXPORT_NAME name` of its
declaration file declares, so a candidate whose text has no successful name
declaration is never added; and after any sequence of loads on a catalog
without empty names (the empty catalog is one) no package of the catalog has an
empty name. -/
theorem catalog_names_declared :
    (∀ (h : Host) (s : LoadState) (inFolderPath inRelatedFile inDoc8643 : Str)
        (r : Bool × LoadState),
      CSL_LoadCSL h s inFolderPath inRelatedFile inDoc8643 = some r →
      ∀ p ∈ r.2.g.gPackages, p ∈ s.g.gPackages ∨
        (p.name ≠ [] ∧ (∀ q ∈ s.g.gPackages, q.name ≠ p.name) ∧
          ∃ line ∈ getlines (h.GetFileContent (declarationFile p.path)),
            tokenize line tokenSeparators = ["EXPORT_NAME".toList, p.name])) ∧
    (∀ (calls : List LoadCall) (s s2 : LoadState), loadCalls calls s = some s2 →
      (∀ p ∈ s.g.gPackages, p.name ≠ []) → ∀ p ∈ s2.g.gPackages, p.name ≠ []) := by
  refine ⟨?_, loadCalls_names⟩
  intro h s inFolderPath inRelatedFile inDoc8643 r hl p hmem
  obtain ⟨new, h1, _, hp⟩ := CSL_LoadCSL_packages hl
  rw [h1] at hmem
  rcases List.mem_append.1 hmem with hmem | hmem
  · exact Or.inl hmem
  · obtain ⟨_, _, hne, hn, hline⟩ := hp p hmem
    exact Or.inr ⟨hne, hn, hline⟩

set_option maxRecDepth 100000 in
theorem catalog_names_declared_witness :
    ∀ p ∈ ((loadCalls [sampleCall, sampleCall] (sampleLoadState [])).get
        (by decide)).g.gPackages,
      p.name ≠ [] :=
  catalog_names_declared.2 [sampleCall, sampleCall] (sampleLoadState []) _
    (Option.some_get _).symm (by intro p hp; cases hp)

set_option maxRecDepth 100000 in
/-- Claim C15, failing input: one load that finds the directories `A` and `B`,
whose declaration files both declare the name `X`, puts both packages into the
catalog, so two packages of the catalog have the same name. -/
theorem same_call_duplicate_names :
    (sampleLoad []).map (fun r => r.2.g.gPackages.map fun p => (p.name, p.path)) =
      some [("X".toList, "/csl/A".toList), ("X".toList, "/csl/B".toList)] := by
  decide

set_option maxRecDepth 100000 in
theorem sampleLoad_skips_loaded_path :
    (sampleLoad [sampleLoadedPackage]).map
        (fun r => r.2.g.gPackages.map fun p => (p.name, p.path)) =
      some [("Old".toList, "/csl/A".toList), ("X".toList, "/csl/B".toList)] := by
  decide

/-- Claim C16: a load appends to the catalog. The packages that were in the
catalog are still there, at the same positions and unchanged (name, path,
planes and tables); a candidate directory whose path is the path of a package
of the catalog adds nothing, so no new package has the path of an earlier one;
and the new packages stand after the earlier ones in the order in which their
directories were found. -/
theorem catalog_append_only (h : Host) (s : LoadState)
    (inFolderPath inRelatedFile inDoc8643 : Str) (r : Bool × LoadState)
    (hl : CSL_LoadCSL h s inFolderPath inRelatedFile inDoc8643 = some r) :
    ∃ new, r.2.g.gPackages = s.g.gPackages ++ new ∧
      (∀ i, i < s.g.gPackages.length → r.2.g.gPackages.get? i = s.g.gPackages.get? i) ∧
      (∀ p ∈ new, ∀ q ∈ s.g.gPackages, q.path ≠ p.path) ∧
      (new.map fun p => p.path).Sublist
        ((h.XPLMGetDirectoryContents inFolderPath).map fun foo =>
          inFolderPath ++ "/".toList ++ foo) := by
  obtain ⟨new, h1, hs, hp⟩ := CSL_LoadCSL_packages hl
  refine ⟨new, h1, ?_, ?_, hs⟩
  · intro i hi
    simp only [List.get?_eq_getElem?]
    rw [h1, List.getElem?_append_left hi]
  · intro p hmem
    exact isPackageAlreadyLoaded_eq_false (hp p hmem).2.1

set_option maxRecDepth 100000 in
theorem catalog_append_only_witness :
    ∃ new, ((sampleLoad [sampleLoadedPackage]).get (by decide)).2.g.gPackages =
        (sampleLoadState [sampleLoadedPackage]).g.gPackages ++ new ∧
      (∀ i, i < (sampleLoadState [sampleLoadedPackage]).g.gPackages.length →
        ((sampleLoad [sampleLoadedPackage]).get (by decide)).2.g.gPackages.get? i =
          (sampleLoadState [sampleLoadedPackage]).g.gPackages.get? i) ∧
      (∀ p ∈ new, ∀ q ∈ (sampleLoadState [sampleLoadedPackage]).g.gPackages,
        q.path ≠ p.path) ∧
      (new.map fun p => p.path).Sublist
        ((sampleHost.XPLMGetDirectoryContents "/csl".toList).map fun foo =>
          "/csl".toList ++ "/".toList ++ foo) :=
  catalog_append_only sampleHost (sampleLoadState [sampleLoadedPackage]) "/csl".toList
    "/related.txt".toList "/doc8643.txt".toList _ (Option.some_get _).symm

/-! ## Lines without effect -/

theorem ParseFullPackage_step_inert (g : Globals) (path : Str) (lineNum : Nat) (raw : Str)
    (st : ParseState) (h : InertLine raw) :
    ∃ st1, ParseFullPackage.step g path lineNum raw st = some st1 ∧ st1.core = st.core := by
  unfold ParseFullPackage.step
  simp only []
  split
  · exact ⟨st, rfl, rfl⟩
  · rename_i hskip
    rcases h with h | h | h
    · exact absurd (Or.inl h) hskip
    · exact absurd (Or.inr h) hskip
    · cases htok : tokenize (trim raw) tokenSeparators with
      | nil => exact ⟨st, rfl, rfl⟩
      | cons keyword args =>
        simp only []
        rcases h keyword args htok with hk | hk
        · rw [hk]
          exact ⟨_, rfl, rfl⟩
        · have hc : fullCommands keyword = some ParseDummyCommand := by
            rw [hk]
            unfold fullCommands
            rw [if_pos rfl]
          rw [hc]
          exact ⟨st, rfl, rfl⟩

theorem ParseFullPackage_lines_skip (g : Globals) (path : Str) (pre post : List Str)
    (raw : Str) (lineNum : Nat) (st : ParseState)
    (h : ∀ (n : Nat) (st0 : ParseState),
      ∃ st1, ParseFullPackage.step g path n raw st0 = some st1 ∧ st1.core = st0.core) :
    (ParseFullPackage.lines g path (pre ++ raw :: post) lineNum st).map ParseState.core =
      (ParseFullPackage.lines g path (pre ++ post) lineNum st).map ParseState.core := by
  rw [ParseFullPackage_lines_append, ParseFullPackage_lines_append]
  cases ParseFullPackage.lines g path pre lineNum st with
  | none => rfl
  | some stP =>
    simp only [Option.some_bind]
    rw [ParseFullPackage_lines_cons]
    obtain ⟨st1, h1, hc⟩ := h (lineNum + pre.length + 1) stP
    rw [h1]
    exact ParseFullPackage_lines_core g path path post _ _ st1 stP hc

/-- Claim C21: blank lines, comment lines and lines with an unknown first token
are inert, and so is `EXPORT_NAME` in the full table. For every list of lines,
and for every text of lines ended by a newline, the parse with such a line
inserted is defined in the same cases as the parse without it and gives the
same package (name, path, planes and all match tables) and the same message
counters; `ParseDummyCommand` returns success with the state it was given. -/
theorem inert_lines (g : Globals) (st : ParseState) :
    (∀ (path : Str) (pre post : List Str) (raw : Str) (lineNum : Nat), InertLine raw →
      (ParseFullPackage.lines g path (pre ++ raw :: post) lineNum st).map ParseState.core =
        (ParseFullPackage.lines g path (pre ++ post) lineNum st).map ParseState.core) ∧
    (∀ (pre post : List Str) (raw : Str), InertLine raw →
      (∀ l ∈ pre ++ raw :: post, ∀ c ∈ l, c ≠ '\n') →
      (ParseFullPackage g (linesText (pre ++ raw :: post)) st).map ParseState.core =
        (ParseFullPackage g (linesText (pre ++ post)) st).map ParseState.core) ∧
    (∀ (tokens : List Str) (path : Str) (lineNum : Nat) (line : Str),
      ParseDummyCommand g tokens st path lineNum line = some (true, st)) := by
  refine ⟨?_, ?_, fun _ _ _ _ => rfl⟩
  · intro path pre post raw lineNum h
    exact ParseFullPackage_lines_skip g path pre post raw lineNum st
      fun n st0 => ParseFullPackage_step_inert g path n raw st0 h
  · intro pre post raw h hn
    apply ParseFullPackage_core
    rw [getlines_linesText _ hn, getlines_linesText _ (fun l hl => hn l (by
      rcases List.mem_append.1 hl with hl | hl
      · exact List.mem_append_left _ hl
      · exact List.mem_append_right _ (List.mem_cons_of_mem _ hl)))]
    exact ParseFullPackage_lines_skip g _ pre post raw 0 st
      fun n st0 => ParseFullPackage_step_inert g _ n raw st0 h

theorem inert_lines_witness :
    ((ParseFullPackage (sampleGlobals [sampleEmptyPackage])
        (linesText (["OBJ8_AIRCRAFT a.obj".toList] ++
          "  # a comment".toList :: ["ICAO B738".toList]))
        (sampleState sampleEmptyPackage)).map ParseState.core =
      (ParseFullPackage (sampleGlobals [sampleEmptyPackage])
        (linesText (["OBJ8_AIRCRAFT a.obj".toList] ++ ["ICAO B738".toList]))
        (sampleState sampleEmptyPackage)).map ParseState.core) ∧
    ((ParseFullPackage (sampleGlobals [sampleEmptyPackage])
        (linesText (["OBJ8_AIRCRAFT a.obj".toList] ++
          "NOSUCH command".toList :: ["ICAO B738".toList]))
        (sampleState sampleEmptyPackage)).map ParseState.core =
      (ParseFullPackage (sampleGlobals [sampleEmptyPackage])
        (linesText (["OBJ8_AIRCRAFT a.obj".toList] ++ ["ICAO B738".toList]))
        (sampleState sampleEmptyPackage)).map ParseState.core) ∧
    ((ParseFullPackage (sampleGlobals [sampleEmptyPackage])
        (linesText (["OBJ8_AIRCRAFT a.obj".toList] ++
          "EXPORT_NAME Other".toList :: ["ICAO B738".toList]))
        (sampleState sampleEmptyPackage)).map ParseState.core =
      (ParseFullPackage (sampleGlobals [sampleEmptyPackage])
        (linesText (["OBJ8_AIRCRAFT a.obj".toList] ++ ["ICAO B738".toList]))
        (sampleState sampleEmptyPackage)).map ParseState.core) :=
  ⟨(inert_lines (sampleGlobals [sampleEmptyPackage]) (sampleState sampleEmptyPackage)).2.1
      ["OBJ8_AIRCRAFT a.obj".toList] ["ICAO B738".toList] "  # a comment".toList
      (Or.inr (Or.inl (by decide))) (by decide),
    (inert_lines (sampleGlobals [sampleEmptyPackage]) (sampleState sampleEmptyPackage)).2.1
      ["OBJ8_AIRCRAFT a.obj".toList] ["ICAO B738".toList] "NOSUCH command".toList
      (Or.inr (Or.inr (by
        intro keyword args h
        have e : tokenize (trim "NOSUCH command".toList) tokenSeparators =
            ["NOSUCH".toList, "command".toList] := by decide
        rw [e] at h
        cases h
        exact Or.inl rfl))) (by decide),
    (inert_lines (sampleGlobals [sampleEmptyPackage]) (sampleState sampleEmptyPackage)).2.1
      ["OBJ8_AIRCRAFT a.obj".toList] ["ICAO B738".toList] "EXPORT_NAME Other".toList
      (Or.inr (Or.inr (by
        intro keyword args h
        have e : tokenize (trim "EXPORT_NAME Other".toList) tokenSeparators =
            ["EXPORT_NAME".toList, "Other".toList] := by decide
        rw [e] at h
        cases h
        exact Or.inr rfl))) (by decide)⟩

/-! ## Handlers that miss a case -/

/-- Claim C23, failing inputs: with no argument `ParseAircraftCommand` reads
`tokens[1]` outside the token list (no defined result), with two arguments in
the version range it reads `tokens[3]` outside the token list, and with four
arguments it goes on after the warning and appends a plane to the package. -/
theorem ParseAircraftCommand_wrong_count :
    ParseAircraftCommand (sampleGlobals [sampleIcaoPackage]) ["AIRCRAFT".toList]
        (sampleState sampleIcaoPackage) [] 1 [] = none ∧
    ParseAircraftCommand (sampleGlobals [sampleIcaoPackage])
        ["AIRCRAFT".toList, "1000".toList, "1100".toList]
        (sampleState sampleIcaoPackage) [] 1 [] = none ∧
    (ParseAircraftCommand (sampleGlobals [sampleIcaoPackage])
        ["AIRCRAFT".toList, "1000".toList, "1100".toList, "Delta/a.acf".toList,
          "more".toList]
        (sampleState sampleIcaoPackage) [] 1 []).map (fun r => (r.1, r.2.package.planes)) =
      some (true, sampleIcaoPackage.planes ++ [austinPlane "/xp/csl/Delta/a.acf".toList]) := by
  refine ⟨rfl, rfl, ?_⟩
  decide

theorem DoPackageSub_fails (gPackages : List CSLPackage_t) (ioPath : Str)
    (h : ∀ p ∈ gPackages, p.name.isPrefixOf ioPath = false) :
    DoPackageSub gPackages ioPath = (false, ioPath) := by
  induction gPackages with
  | nil => rfl
  | cons i rest ih =>
    rw [DoPackageSub, if_neg (by rw [h i (List.mem_cons_self _ _)]; simp)]
    exact ih fun p hp => h p (List.mem_cons_of_mem _ hp)

theorem DoPackageSub_succeeds (gPackages : List CSLPackage_t) (ioPath : Str)
    (h : ∃ p ∈ gPackages, p.name.isPrefixOf ioPath = true) :
    ∃ pre i post, gPackages = pre ++ i :: post ∧
      (∀ p ∈ pre, p.name.isPrefixOf ioPath = false) ∧ i.name.isPrefixOf ioPath = true ∧
      DoPackageSub gPackages ioPath = (true, i.path ++ ioPath.drop i.name.length) := by
  induction gPackages with
  | nil =>
    obtain ⟨p, hp, _⟩ := h
    cases hp
  | cons i rest ih =>
    by_cases hi : i.name.isPrefixOf ioPath = true
    · refine ⟨[], i, rest, rfl, (fun p hp => by cases hp), hi, ?_⟩
      rw [DoPackageSub, if_pos hi]
    · have hrest : ∃ p ∈ rest, p.name.isPrefixOf ioPath = true := by
        obtain ⟨p, hp, hpre⟩ := h
        rcases List.mem_cons.1 hp with rfl | hp
        · exact absurd hpre hi
        · exact ⟨p, hp, hpre⟩
      obtain ⟨pre, j, post, h1, h2, h3, h4⟩ := ih hrest
      refine ⟨i :: pre, j, post, by rw [h1]; rfl, ?_, h3, ?_⟩
      · intro p hp
        rcases List.mem_cons.1 hp with rfl | hp
        · exact Bool.eq_false_of_not_eq_true hi
        · exact h2 p hp
      · rw [DoPackageSub, if_neg hi, h4]

/-- Claim C24, failing input: with a catalog whose only package is named
`Delta`, `DoPackageSub` succeeds on the path `Delta2/a.obj`, whose leading
component `Delta2` is not the name of a package, and replaces only the five
characters `Delta`. -/
theorem DoPackageSub_replaces_prefix :
    DoPackageSub [sampleIcaoPackage] "Delta2/a.obj".toList =
        (true, "/xp/csl/Delta2/a.obj".toList) ∧
      "Delta2/a.obj".toList.takeWhile (fun c => c != '/') = "Delta2".toList ∧
      ∀ p ∈ [sampleIcaoPackage], p.name ≠ "Delta2".toList := by
  decide

/-! ## Message counters -/

theorem MsgCntTy.showAfterInc_fst (m : MsgCntTy) (e : msgCntE) :
    (m.showAfterInc e).1 = decide (m.cnt e = 0) := by
  unfold MsgCntTy.showAfterInc MSG_MAX_NUM
  simp

theorem MsgCntTy.showAfterInc_cnt (m : MsgCntTy) (e e1 : msgCntE) :
    (m.showAfterInc e).2.cnt e1 = if e1 = e then m.cnt e + 1 else m.cnt e1 := by
  unfold MsgCntTy.showAfterInc
  simp only [Function.update_apply]

theorem showAll_cnt : ∀ (es : List msgCntE) (m : MsgCntTy) (e : msgCntE),
    (showAll es m).2.cnt e = m.cnt e + es.count e
  | [], m, e => by simp [showAll]
  | e0 :: es, m, e => by
    rw [showAll]
    simp only []
    rw [showAll_cnt es _ e, MsgCntTy.showAfterInc_cnt, List.count_cons]
    by_cases h : e = e0
    · subst h
      simp
      omega
    · have h2 : ¬ (e0 == e) = true := by simpa using fun h3 => h h3.symm
      simp [h, h2]

theorem showAll_get : ∀ (es : List msgCntE) (m : MsgCntTy) (i : Nat) (e : msgCntE),
    es.get? i = some e →
    (showAll es m).1.get? i = some (decide (m.cnt e + (es.take i).count e = 0))
  | [], _, _, _, h => by cases h
  | e0 :: es, m, 0, e, h => by
    simp only [List.get?_cons_zero, Option.some.injEq] at h
    subst h
    rw [showAll]
    simp [MsgCntTy.showAfterInc_fst]
  | e0 :: es, m, i + 1, e, h => by
    simp only [List.get?_cons_succ] at h
    rw [showAll]
    simp only [List.get?_cons_succ]
    rw [showAll_get es _ i e h, MsgCntTy.showAfterInc_cnt, List.take_succ_cons, List.count_cons]
    by_cases h1 : e = e0
    · subst h1
      simp
    · have h2 : ¬ (e0 == e) = true := by simpa using fun h3 => h1 h3.symm
      simp [h1, h2]

theorem showAll_length : ∀ (es : List msgCntE) (m : MsgCntTy),
    (showAll es m).1.length = es.length
  | [], _ => rfl
  | e0 :: es, m => by
    rw [showAll]
    simp [showAll_length es]

theorem ParseState.warnCounted_log (st : ParseState) (e : msgCntE) (path : Str)
    (lineNum : Nat) (line : Str) (text : DiagText) :
    (st.warnCounted e path lineNum line text).log =
      if st.MsgCnt.cnt e = 0 then st.log ++ [Diag.parseError path lineNum line (some text)]
      else st.log := by
  unfold ParseState.warnCounted
  simp only [MsgCntTy.showAfterInc_fst, decide_eq_true_eq]
  split <;> rfl

/-- Claim C28: from reset counters, in any sequence of occurrences of message
kinds the answer of `showAfterInc` to an occurrence is "show" exactly when it is
the first occurrence of its kind (its number `k` among the occurrences of that
kind is 1); the answer depends on the earlier occurrences of the same kind
only. A counted warning is written to the log exactly when the counter of its
kind is zero, and it adds one to that counter and leaves the others. (The
counters are natural numbers here; the `int` counters of the source agree with
them up to 2147483647 occurrences of a kind.) -/
theorem throttle_first_occurrence (es : List msgCntE) (m : MsgCntTy)
    (hreset : ∀ e, m.cnt e = 0) :
    (showAll es m).1.length = es.length ∧
    (∀ i e, es.get? i = some e →
      (showAll es m).1.get? i = some (decide ((es.take i).count e + 1 = 1))) ∧
    (∀ e, (showAll es m).2.cnt e = es.count e) ∧
    (∀ (st : ParseState) (e : msgCntE) (path : Str) (lineNum : Nat) (line : Str)
        (text : DiagText),
      (st.warnCounted e path lineNum line text).log =
          (if st.MsgCnt.cnt e = 0 then
            st.log ++ [Diag.parseError path lineNum line (some text)]
          else st.log) ∧
        (st.warnCounted e path lineNum line text).package = st.package ∧
        ∀ e1, (st.warnCounted e path lineNum line text).MsgCnt.cnt e1 =
          if e1 = e then st.MsgCnt.cnt e + 1 else st.MsgCnt.cnt e1) := by
  refine ⟨showAll_length es m, ?_, ?_, ?_⟩
  · intro i e h
    rw [showAll_get es m i e h, hreset e]
    simp
  · intro e
    rw [showAll_cnt, hreset e, Nat.zero_add]
  · intro st e path lineNum line text
    refine ⟨ParseState.warnCounted_log st e path lineNum line text,
      ParseState.warnCounted_package st e path lineNum line text, fun e1 => ?_⟩
    rw [ParseState.warnCounted_MsgCnt, MsgCntTy.showAfterInc_cnt]

theorem throttle_first_occurrence_witness :
    (showAll [msgCntE.OBJ8_tooManyArgs, msgCntE.VERT_OFFSET_tooManyArgs,
        msgCntE.OBJ8_tooManyArgs, msgCntE.VERT_OFFSET_tooManyArgs,
        msgCntE.OBJ8_tooManyArgs] { cnt := fun _ => 0 }).1.get? 3 =
      some (decide (([msgCntE.OBJ8_tooManyArgs, msgCntE.VERT_OFFSET_tooManyArgs,
        msgCntE.OBJ8_tooManyArgs, msgCntE.VERT_OFFSET_tooManyArgs,
        msgCntE.OBJ8_tooManyArgs].take 3).count msgCntE.VERT_OFFSET_tooManyArgs + 1 = 1)) :=
  (throttle_first_occurrence [msgCntE.OBJ8_tooManyArgs, msgCntE.VERT_OFFSET_tooManyArgs,
    msgCntE.OBJ8_tooManyArgs, msgCntE.VERT_OFFSET_tooManyArgs,
    msgCntE.OBJ8_tooManyArgs] { cnt := fun _ => 0 } (fun _ => rfl)).2.1 3
    msgCntE.VERT_OFFSET_tooManyArgs rfl

theorem MsgCntTy.DumpResults_reset (m : MsgCntTy) (fileName : Str) (log : List Diag)
    (e : msgCntE) : (m.DumpResults fileName log).1.cnt e = 0 := by
  unfold MsgCntTy.DumpResults
  simp only [List.foldl, MsgCntTy.dumpOne_cnt]
  cases e <;> simp [Function.update_apply]

theorem MsgCntTy.dumpOne_log (fileName : Str) (acc : Bool × MsgCntTy × List Diag)
    (e : msgCntE) :
    (MsgCntTy.dumpOne fileName acc e).1 = (acc.1 || decide (acc.2.1.cnt e > MSG_MAX_NUM)) ∧
    (MsgCntTy.dumpOne fileName acc e).2.2 =
      acc.2.2 ++
        (if acc.2.1.cnt e > MSG_MAX_NUM then
          (if acc.1 then [] else [Diag.suppressedFile fileName]) ++
            [Diag.suppressed e (acc.2.1.cnt e)]
        else []) := by
  unfold MsgCntTy.dumpOne
  simp only []
  by_cases h : acc.2.1.cnt e > MSG_MAX_NUM
  · rw [if_pos h, if_pos h]
    cases acc.1 <;> simp [h]
  · rw [if_neg h, if_neg h]
    simp [h]

theorem MsgCntTy.DumpResults_log (m : MsgCntTy) (fileName : Str) (log : List Diag) :
    (m.DumpResults fileName log).2 =
      log ++
        (if [msgCntE.OBJ8_AIRCRAFT_tooManyArgs, msgCntE.OBJ8_tooManyArgs,
            msgCntE.OBJ8_invalidParts, msgCntE.VERT_OFFSET_tooManyArgs].filter
              (fun e => decide (m.cnt e > MSG_MAX_NUM)) = [] then []
        else
          [Diag.suppressedFile fileName] ++
            ([msgCntE.OBJ8_AIRCRAFT_tooManyArgs, msgCntE.OBJ8_tooManyArgs,
              msgCntE.OBJ8_invalidParts, msgCntE.VERT_OFFSET_tooManyArgs].filter
                (fun e => decide (m.cnt e > MSG_MAX_NUM))).map
                  (fun e => Diag.suppressed e (m.cnt e)) ++
            [Diag.suppressedEnd]) := by
  unfold MsgCntTy.DumpResults
  simp only [List.foldl]
  by_cases h1 : m.cnt msgCntE.OBJ8_AIRCRAFT_tooManyArgs > MSG_MAX_NUM <;>
  by_cases h2 : m.cnt msgCntE.OBJ8_tooManyArgs > MSG_MAX_NUM <;>
  by_cases h3 : m.cnt msgCntE.OBJ8_invalidParts > MSG_MAX_NUM <;>
  by_cases h4 : m.cnt msgCntE.VERT_OFFSET_tooManyArgs > MSG_MAX_NUM <;>
  simp [MsgCntTy.dumpOne, h1, h2, h3, h4, Function.update_apply, List.filter]

set_option maxRecDepth 100000 in
/-- Claim C29, failing input: a declaration text with three `VERT_OFFSET`
commands that lack their argument. The first warning is written when it
occurs and two are suppressed, and the summary line of `DumpResults` reports
the count 3, the number of all occurrences, not of the suppressed ones. -/
theorem summary_reports_all_occurrences :
    (ParseFullPackage (sampleGlobals [sampleEmptyPackage]) sampleThrottleContent
        (sampleState sampleEmptyPackage)).map (fun st => st.log) =
      some [Diag.parseError "/xp/csl/Empty/xsb_aircraft.txt".toList 2 "VERT_OFFSET".toList
          (some DiagText.vertOffsetArgs),
        Diag.suppressedFile "/xp/csl/Empty/xsb_aircraft.txt".toList,
        Diag.suppressed msgCntE.VERT_OFFSET_tooManyArgs 3,
        Diag.suppressedEnd] := by
  decide

/-! ## Indices of the match tables -/

theorem CSLPackage_t.modifyBack_length {package package1 : CSLPackage_t}
    {f : CSLPlane_t → CSLPlane_t} (h : package.modifyBack f = some package1) :
    package.planes.length ≤ package1.planes.length := by
  obtain ⟨front, back, h1, h2⟩ := CSLPackage_t.modifyBack_eq_some h
  rw [h2, h1]
  simp

theorem ParseDummyCommand_planes : KeepsPlanes ParseDummyCommand := by
  intro g tokens st path lineNum line r h
  cases h
  exact Nat.le_refl _

theorem ParseDependencyCommand_planes : KeepsPlanes ParseDependencyCommand := by
  intro g tokens st path lineNum line r h
  unfold ParseDependencyCommand at h
  repeat' first | split at h | dsimp only at h
  all_goals first
    | exact Option.noConfusion h
    | (obtain rfl := Option.some.inj h; exact Nat.le_refl _)

theorem ParseObjectCommand_planes : KeepsPlanes ParseObjectCommand := by
  intro g tokens st path lineNum line r h
  unfold ParseObjectCommand at h
  repeat' first | split at h | dsimp only at h
  all_goals first
    | exact Option.noConfusion h
    | (obtain rfl := Option.some.inj h; exact Nat.le_refl _)
    | (obtain rfl := Option.some.inj h
       simp only [CSLPackage_t.pushPlane, ParseState.warn_package, List.length_append,
         List.length_singleton]
       omega)

theorem ParseTextureCommand_planes : KeepsPlanes ParseTextureCommand := by
  intro g tokens st path lineNum line r h
  unfold ParseTextureCommand at h
  repeat' first | split at h | dsimp only at h
  all_goals first
    | exact Option.noConfusion h
    | (obtain rfl := Option.some.inj h; exact Nat.le_refl _)
    | (obtain rfl := Option.some.inj h; apply CSLPackage_t.modifyBack_length; assumption)

theorem ParseAircraftCommand_planes : KeepsPlanes ParseAircraftCommand := by
  intro g tokens st path lineNum line r h
  unfold ParseAircraftCommand at h
  repeat' first | split at h | dsimp only at h
  all_goals first
    | exact Option.noConfusion h
    | (obtain rfl := Option.some.inj h; exact Nat.le_refl _)
    | (obtain rfl := Option.some.inj h
       simp only [CSLPackage_t.pushPlane, ParseState.warn_package, List.length_append,
         List.length_singleton]
       omega)

theorem ParseObj8AircraftCommand_planes : KeepsPlanes ParseObj8AircraftCommand := by
  intro g tokens st path lineNum line r h
  by_cases h2 : tokens.length < 2
  · obtain ⟨st1, h1, hp⟩ := ParseObj8AircraftCommand_no_argument g tokens st path lineNum line h2
    rw [h1] at h
    cases h
    show _ ≤ st1.package.planes.length
    rw [hp]
  · obtain ⟨keyword, arg, more, rfl⟩ : ∃ keyword arg more, tokens = keyword :: arg :: more := by
      match tokens, h2 with
      | [], h2 => exact absurd (by simp) h2
      | [_], h2 => exact absurd (by simp) h2
      | keyword :: arg :: more, _ => exact ⟨keyword, arg, more, rfl⟩
    obtain ⟨st1, h1, hp⟩ :=
      ParseObj8AircraftCommand_with_argument g keyword arg more st path lineNum line
    rw [h1] at h
    cases h
    show _ ≤ st1.package.planes.length
    rw [hp]
    simp

theorem ParseObj8Command_planes : KeepsPlanes ParseObj8Command := by
  intro g tokens st path lineNum line r h
  obtain ⟨ok, st1⟩ := r
  rcases ParseObj8Command_effect g tokens st path lineNum line ok st1 h with hp | hp
  · show _ ≤ st1.package.planes.length
    rw [hp]
  · obtain ⟨front, back, att, h1, _, hp⟩ := hp
    show _ ≤ st1.package.planes.length
    rw [hp, h1]
    simp

theorem ParseVertOffsetCommand_planes : KeepsPlanes ParseVertOffsetCommand := by
  intro g tokens st path lineNum line r h
  by_cases h2 : tokens.length ≠ 2
  · obtain ⟨st1, h1, hp⟩ := ParseVertOffsetCommand_rejects g tokens st path lineNum line h2
    rw [h1] at h
    cases h
    show _ ≤ st1.package.planes.length
    rw [hp]
  · unfold ParseVertOffsetCommand at h
    rw [if_neg h2] at h
    repeat' split at h
    all_goals first
      | exact Option.noConfusion h
      | (obtain rfl := Option.some.inj h; apply CSLPackage_t.modifyBack_length; assumption)

theorem ParseHasGearCommand_planes : KeepsPlanes ParseHasGearCommand := by
  intro g tokens st path lineNum line r h
  unfold ParseHasGearCommand at h
  repeat' first | split at h | dsimp only at h
  all_goals first
    | exact Option.noConfusion h
    | (obtain rfl := Option.some.inj h; exact Nat.le_refl _)
    | (obtain rfl := Option.some.inj h; apply CSLPackage_t.modifyBack_length; assumption)

theorem ParseIcaoCommand_planes : KeepsPlanes ParseIcaoCommand := by
  intro g tokens st path lineNum line r h
  unfold ParseIcaoCommand at h
  repeat' first | split at h | dsimp only at h
  all_goals first
    | exact Option.noConfusion h
    | (obtain rfl := Option.some.inj h; exact Nat.le_refl _)
    | (obtain rfl := Option.some.inj h
       simp only [CSLPackage_t.addMatch_planes]
       apply CSLPackage_t.modifyBack_length
       assumption)

theorem ParseAirlineCommand_planes : KeepsPlanes ParseAirlineCommand := by
  intro g tokens st path lineNum line r h
  unfold ParseAirlineCommand at h
  repeat' first | split at h | dsimp only at h
  all_goals first
    | exact Option.noConfusion h
    | (obtain rfl := Option.some.inj h; exact Nat.le_refl _)
    | (obtain rfl := Option.some.inj h
       simp only [CSLPackage_t.addMatch_planes]
       apply CSLPackage_t.modifyBack_length
       assumption)

theorem ParseLiveryCommand_planes : KeepsPlanes ParseLiveryCommand := by
  intro g tokens st path lineNum line r h
  unfold ParseLiveryCommand at h
  repeat' first | split at h | dsimp only at h
  all_goals first
    | exact Option.noConfusion h
    | (obtain rfl := Option.some.inj h; exact Nat.le_refl _)
    | (obtain rfl := Option.some.inj h
       simp only [CSLPackage_t.addMatch_planes]
       apply CSLPackage_t.modifyBack_length
       assumption)

theorem ParseFullPackage_step_keeps_planes {g : Globals} {path : Str} {lineNum : Nat}
    {raw : Str} {st st1 : ParseState}
    (h : ParseFullPackage.step g path lineNum raw st = some st1) :
    st.package.planes.length ≤ st1.package.planes.length := by
  unfold ParseFullPackage.step at h
  simp only [] at h
  split at h
  · cases h
    exact Nat.le_refl _
  · split at h
    · cases h
      exact Nat.le_refl _
    · rename_i keyword args _
      cases hc : fullCommands keyword with
      | none =>
        rw [hc] at h
        cases h
        exact Nat.le_refl _
      | some handler =>
        rw [hc] at h
        simp only [] at h
        have hk := fullCommands_forall KeepsPlanes ParseDummyCommand_planes
          ParseDependencyCommand_planes ParseObjectCommand_planes ParseTextureCommand_planes
          ParseAircraftCommand_planes ParseObj8AircraftCommand_planes ParseObj8Command_planes
          ParseVertOffsetCommand_planes ParseHasGearCommand_planes ParseIcaoCommand_planes
          ParseAirlineCommand_planes ParseLiveryCommand_planes keyword handler hc
        split at h
        · cases h
        · rename_i r hr
          cases h
          exact hk g _ st path lineNum _ r hr

theorem ParseFullPackage_step_indices {g : Globals} {path : Str} {lineNum : Nat} {raw : Str}
    {st st1 : ParseState} (h : ParseFullPackage.step g path lineNum raw st = some st1)
    (hv : IndicesValid st.package) : IndicesValid st1.package := by
  intro t k i hi
  have hlen := ParseFullPackage_step_keeps_planes h
  rw [ParseFullPackage_step_find h t k] at hi
  unfold findAfter at hi
  cases hf : StrMap.find k (st.package.matches_ t) with
  | some i0 =>
    rw [hf] at hi
    cases hi
    obtain ⟨h1, h2⟩ := hv t k _ hf
    exact ⟨h1, by omega⟩
  | none =>
    rw [hf] at hi
    simp only [] at hi
    split at hi
    · rename_i hmem
      cases hi
      have hne : identityKeys g (lineTokens raw) ≠ [] := by
        intro he
        rw [he] at hmem
        cases hmem
      have hpl := ParseFullPackage_step_planes h hne
      have hpos : 0 < st.package.planes.length := List.length_pos.2 hpl
      constructor <;> omega
    · cases hi

theorem ParseFullPackage_lines_indices {g : Globals} {path : Str} :
    ∀ (lines : List Str) (lineNum : Nat) (st st1 : ParseState),
      ParseFullPackage.lines g path lines lineNum st = some st1 →
      IndicesValid st.package → IndicesValid st1.package := by
  intro lines
  induction lines with
  | nil =>
    intro lineNum st st1 h hv
    cases h
    exact hv
  | cons raw rest ih =>
    intro lineNum st st1 h hv
    rw [ParseFullPackage_lines_cons] at h
    split at h
    · cases h
    · rename_i st0 h0
      exact ih _ _ _ h (ParseFullPackage_step_indices h0 hv)

theorem StrMap.find_of_mem_ascending {α : Type} {k : Str} {v : α} :
    ∀ {m : StrMap α}, StrMap.Ascending m → (k, v) ∈ m → StrMap.find k m = some v
  | [], _, h => by cases h
  | (k0, v0) :: rest, ha, h => by
    unfold StrMap.Ascending at ha
    have ha2 := List.pairwise_cons.1 ha
    unfold StrMap.find
    rcases List.mem_cons.1 h with h | h
    · cases h
      rw [if_pos rfl]
    · by_cases hk : k0 = k
      · exfalso
        subst hk
        have := ha2.1 (k0, v) h
        rw [strLess_irrefl] at this
        cases this
      · rw [if_neg hk]
        exact StrMap.find_of_mem_ascending ha2.2 h

/-- The indices of the match tables for a declaration text on which the parse
has a defined result. When every index that a lookup in the tables of the
package gives is the index of one of its planes (as for the package that the
header scan gives, whose tables are empty), the same holds after
`ParseFullPackage`; then every index stored in a table is at least 0 and less
than the number of planes, and the plane lookup of the matching engine on a
table hit gives a plane. -/
theorem match_indices_valid (g : Globals) (content : Str) (st st1 : ParseState)
    (h : ParseFullPackage g content st = some st1) :
    (IndicesValid st.package → IndicesValid st1.package) ∧
    ((∀ t, st.package.matches_ t = []) →
      ∀ t, ∀ e ∈ st1.package.matches_ t,
        0 ≤ e.2 ∧ e.2 < (st1.package.planes.length : Int) ∧
          (st1.package.planeAt e.2).isSome = true) := by
  obtain ⟨stL, hL, hp⟩ := ParseFullPackage_package h
  have hinv : IndicesValid st.package → IndicesValid st1.package := by
    intro hv
    rw [hp]
    exact ParseFullPackage_lines_indices _ _ _ _ hL hv
  refine ⟨hinv, ?_⟩
  intro hempty t e he
  have hv : IndicesValid st.package := by
    intro t k i hi
    rw [hempty t] at hi
    cases hi
  have hasc := parsed_tables_ascending hempty h t
  have hf : StrMap.find e.1 (st1.package.matches_ t) = some e.2 :=
    StrMap.find_of_mem_ascending hasc he
  obtain ⟨h1, h2⟩ := hinv hv t e.1 e.2 hf
  refine ⟨h1, h2, ?_⟩
  unfold CSLPackage_t.planeAt
  rw [if_pos h1]
  have h3 : e.2.toNat < st1.package.planes.length := by omega
  rw [List.get?_eq_get h3]
  rfl

set_option maxRecDepth 100000 in
theorem match_indices_valid_witness :
    (0 : Int) ≤ ("B738".toList, (0 : Int)).2 ∧
      ("B738".toList, (0 : Int)).2 <
        (((ParseFullPackage (sampleGlobals [sampleEmptyPackage]) sampleContent
          (sampleState sampleEmptyPackage)).get (by decide)).package.planes.length : Int) ∧
      (((ParseFullPackage (sampleGlobals [sampleEmptyPackage]) sampleContent
        (sampleState sampleEmptyPackage)).get (by decide)).package.planeAt
          ("B738".toList, (0 : Int)).2).isSome = true :=
  (match_indices_valid (sampleGlobals [sampleEmptyPackage]) sampleContent
    (sampleState sampleEmptyPackage) _ (Option.some_get _).symm).2 (fun _ => rfl) match_icao
    ("B738".toList, 0) (by decide)

set_option maxRecDepth 100000 in
/-- Claim C30, failing input: a declaration text in which an identity command
comes before any plane is declared, as `ICAO B738` on the first line, or after
an `AIRCRAFT` line whose version range leaves out the host version. The
handler uses `planes.back()` on the empty plane list, so it and the parse have
no defined result; the store that follows writes `planes.size() - 1`, which is
-1 for the empty list and not the index of a plane. -/
theorem identity_command_without_plane :
    (ParseFullPackage (sampleGlobals [sampleEmptyPackage]) sampleOrphanContent
        (sampleState sampleEmptyPackage)).isNone = true ∧
      (ParseFullPackage (sampleGlobals [sampleIcaoPackage]) sampleOrphanRangeContent
        (sampleState sampleEmptyPackage)).isNone = true ∧
      (ParseIcaoCommand (sampleGlobals [sampleEmptyPackage]) ["ICAO".toList, "B738".toList]
        (sampleState sampleEmptyPackage) "/xp/csl/Empty/xsb_aircraft.txt".toList 1
        "ICAO B738".toList).isNone = true ∧
      (ParseAirlineCommand (sampleGlobals [sampleEmptyPackage])
        ["AIRLINE".toList, "B738".toList, "AAL".toList]
        (sampleState sampleEmptyPackage) "/xp/csl/Empty/xsb_aircraft.txt".toList 1
        "AIRLINE B738 AAL".toList).isNone = true ∧
      (ParseLiveryCommand (sampleGlobals [sampleEmptyPackage])
        ["LIVERY".toList, "B738".toList, "AAL".toList, "RETRO".toList]
        (sampleState sampleEmptyPackage) "/xp/csl/Empty/xsb_aircraft.txt".toList 1
        "LIVERY B738 AAL RETRO".toList).isNone = true ∧
      sampleEmptyPackage.planes = [] ∧
      (sampleEmptyPackage.addMatch match_icao "B738".toList).matches_ match_icao =
        [("B738".toList, -1)] ∧
      ((sampleEmptyPackage.addMatch match_icao "B738".toList).planeAt (-1)).isNone = true ∧
      ¬ IndicesValid (sampleEmptyPackage.addMatch match_icao "B738".toList) :=
  ⟨by decide, by decide, by decide, by decide, by decide, rfl, by decide, by decide,
    fun h => absurd (h match_icao "B738".toList (-1) (by decide)).1 (by decide)⟩

/-! ## Reference tables -/

theorem foldl_find_last {α : Type} (f : StrMap α → Str → StrMap α)
    (written : Str → Str → Option α)
    (hf : ∀ (m : StrMap α) (row k : Str),
      StrMap.find k (f m row) = (written k row).or (StrMap.find k m)) :
    ∀ (rows : List Str) (m0 : StrMap α) (k : Str),
      StrMap.find k (rows.foldl f m0) = lastWritten (written k) rows (StrMap.find k m0) := by
  intro rows
  induction rows with
  | nil => intro m0 k; simp [lastWritten]
  | cons row rest ih =>
    intro m0 k
    rw [List.foldl_cons, ih (f m0 row) k, hf m0 row k]
    unfold lastWritten
    rw [List.reverse_cons, List.findSome?_append]
    cases rest.reverse.findSome? (written k) with
    | some v => rfl
    | none =>
      simp only [Option.none_or, List.findSome?_cons, List.findSome?_nil]
      cases written k row <;> rfl

theorem CSL_LoadCSL_tables {h : Host} {s : LoadState} {inFolderPath inRelatedFile
    inDoc8643 : Str} {r : Bool × LoadState}
    (hl : CSL_LoadCSL h s inFolderPath inRelatedFile inDoc8643 = some r) :
    r.2.g.gAircraftCodes =
        (match h.fopen inDoc8643 with
        | some aircraft_fi => (readLines aircraft_fi).foldl loadAircraftCode s.g.gAircraftCodes
        | none => s.g.gAircraftCodes) ∧
      ∃ indexed : List Str, r.2.g.gGroupings =
        indexed.foldl (fun m icao => StrMap.index icao m)
          (match h.fopen inRelatedFile with
          | some related_fi => (readLines related_fi).foldl loadGrouping s.g.gGroupings
          | none => s.g.gGroupings) := by
  unfold CSL_LoadCSL at hl
  simp only [] at hl
  split at hl
  · cases hl
  · split at hl
    · split at hl
      · cases hl
      · rename_i gPackages m1 l1 indexed hf
        cases hl
        constructor
        · cases h.fopen inDoc8643 <;> rfl
        · refine ⟨indexed, ?_⟩
          cases h.fopen inRelatedFile <;> rfl
    · cases hl
      constructor
      · cases h.fopen inDoc8643 <;> rfl
      · refine ⟨[], ?_⟩
        cases h.fopen inRelatedFile <;> rfl

theorem fieldsBy_ne_nil (isSep : Char → Bool) : ∀ s : Str, fieldsBy isSep s ≠ []
  | [] => by simp [fieldsBy]
  | c :: rest => by
    unfold fieldsBy
    split
    · simp
    · split <;> simp

theorem foldl_assign_find (group : Str) (k : Str) :
    ∀ (tokens : List Str) (m : StrMap Str),
      StrMap.find k (tokens.foldl (fun m token => StrMap.assign token group m) m) =
        if k ∈ tokens then some group else StrMap.find k m := by
  intro tokens
  induction tokens with
  | nil => intro m; simp
  | cons t ts ih =>
    intro m
    rw [List.foldl_cons, ih, StrMap.find_assign]
    by_cases h1 : k ∈ ts
    · rw [if_pos h1, if_pos (List.mem_cons_of_mem _ h1)]
    · rw [if_neg h1]
      by_cases h2 : t = k
      · rw [if_pos h2, if_pos (by rw [h2]; exact List.mem_cons_self _ _)]
      · rw [if_neg h2, if_neg]
        intro hmem
        rcases List.mem_cons.1 hmem with h | h
        · exact h2 h.symm
        · exact h1 h

theorem loadGrouping_find (m : StrMap Str) (row k : Str) :
    StrMap.find k (loadGrouping m row) = (groupWritten k row).or (StrMap.find k m) := by
  unfold loadGrouping groupWritten groupTokens
  by_cases h : row.head? ≠ some ';'
  · rw [if_pos h]
    simp only []
    rw [foldl_assign_find]
    by_cases hk : k ∈ BreakStringPvt row 0 tokenSeparators
    · rw [if_pos hk, if_pos ⟨h, hk⟩]
      rfl
    · rw [if_neg hk, if_neg (fun hh => hk hh.2)]
      rfl
  · rw [if_neg h, if_neg (fun hh => h hh.1)]
    rfl

theorem intercalate_blank_cons (t u : Str) (ts : List Str) :
    List.intercalate [' '] (t :: u :: ts) = t ++ ' ' :: List.intercalate [' '] (u :: ts) := by
  simp [List.intercalate, List.intersperse]

theorem intercalate_blank_single (t : Str) : List.intercalate [' '] [t] = t := by
  simp [List.intercalate, List.intersperse]

theorem MaximalRuns_cons_separator {seps : Str} {c : Char} {line : Str} {ts : List Str}
    (hc : seps.contains c = true) (h : MaximalRuns seps line ts) :
    MaximalRuns seps (c :: line) ts := by
  cases h with
  | done _ hg =>
    refine MaximalRuns.done (c :: line) ?_
    intro d hd
    rcases List.mem_cons.1 hd with rfl | hd
    · exact hc
    · exact hg d hd
  | run gap word rest ts hg hw hs hr hrest =>
    have := MaximalRuns.run (c :: gap) word rest ts (by
      intro d hd
      rcases List.mem_cons.1 hd with rfl | hd
      · exact hc
      · exact hg d hd) hw hs hr hrest
    simpa using this

theorem MaximalRuns_intercalate :
    ∀ ts : List Str, (∀ t ∈ ts, t ≠ [] ∧ ∀ c ∈ t, [' '].contains c = false) →
      MaximalRuns [' '] (List.intercalate [' '] ts) ts
  | [], _ => MaximalRuns.done [] (by intro c hc; simp [List.intercalate] at hc)
  | [t], h => by
    have ht := h t (List.mem_cons_self _ _)
    have := MaximalRuns.run [] t [] [] (by intro c hc; cases hc) ht.1 ht.2
      (by intro c hc; cases hc) (MaximalRuns.done [] (by intro c hc; cases hc))
    rw [intercalate_blank_single]
    simpa using this
  | t :: u :: ts, h => by
    have ht := h t (List.mem_cons_self _ _)
    have ih := MaximalRuns_intercalate (u :: ts) fun x hx => h x (List.mem_cons_of_mem _ hx)
    have hrest := MaximalRuns_cons_separator (c := ' ') (by decide) ih
    have := MaximalRuns.run [] t _ _ (by intro c hc; cases hc) ht.1 ht.2
      (by intro c hc; simp only [List.head?_cons, Option.some.injEq] at hc; subst hc; decide)
      hrest
    rw [intercalate_blank_cons]
    simpa using this

theorem groupTokens_free (row : Str) :
    ∀ t ∈ groupTokens row, t ≠ [] ∧ ∀ c ∈ t, [' '].contains c = false := by
  intro t ht
  have h := MaximalRuns_tokens _ row _
    (BreakStringPvt_loop_runs tokenSeparators (row.length + 1) row (by omega)) t ht
  refine ⟨h.1, fun c hc => ?_⟩
  have h2 := h.2 c hc
  by_contra hn
  have hsp : c = ' ' := by simpa using hn
  subst hsp
  revert h2
  decide

theorem groupWritten_label {k row label : Str} (h : groupWritten k row = some label) :
    label = List.intercalate [' '] (groupTokens row) ∧ row.head? ≠ some ';' ∧
      k ∈ groupTokens row ∧ label ≠ [] ∧ BreakStringPvt label 0 [' '] = groupTokens row ∧
      label.head? ≠ some ' ' := by
  unfold groupWritten at h
  split at h
  · rename_i hc
    cases h
    have hruns := MaximalRuns_intercalate (groupTokens row) (groupTokens_free row)
    have htok : BreakStringPvt (List.intercalate [' '] (groupTokens row)) 0 [' '] =
        groupTokens row := by
      have h1 := MaximalRuns_eq_tokenize _ _ _ hruns
      have h2 := MaximalRuns_eq_tokenize _ _ _
        (BreakStringPvt_loop_runs [' '] ((List.intercalate [' '] (groupTokens row)).length + 1)
          (List.intercalate [' '] (groupTokens row)) (by omega))
      exact h2.trans h1.symm
    refine ⟨rfl, hc.1, hc.2, ?_, htok, ?_⟩
    · intro he
      rw [he] at htok
      have : groupTokens row = [] := by rw [← htok]; rfl
      rw [this] at hc
      exact absurd hc.2 (by simp)
    · intro hh
      cases hg : groupTokens row with
      | nil => rw [hg] at hc; exact absurd hc.2 (by simp)
      | cons t ts =>
        have ht := groupTokens_free row t (by rw [hg]; exact List.mem_cons_self _ _)
        rw [hg] at hh
        cases t with
        | nil => exact ht.1 rfl
        | cons c cs =>
          have hc2 := ht.2 c (List.mem_cons_self _ _)
          cases ts with
          | nil =>
            rw [intercalate_blank_single] at hh
            simp only [List.head?_cons, Option.some.injEq] at hh
            subst hh
            revert hc2
            decide
          | cons u us =>
            rw [intercalate_blank_cons] at hh
            simp only [List.cons_append, List.head?_cons, Option.some.injEq] at hh
            subst hh
            revert hc2
            decide
  · cases h

theorem lastWritten_cases {α : Type} (written : Str → Option α) (rows : List Str)
    (before : Option α) (v : α) (h : lastWritten written rows before = some v) :
    (∃ row ∈ rows, written row = some v) ∨ before = some v := by
  unfold lastWritten at h
  cases hf : rows.reverse.findSome? written with
  | none =>
    rw [hf] at h
    exact Or.inr h
  | some w =>
    rw [hf] at h
    cases h
    obtain ⟨row, hmem, hw⟩ := List.exists_of_findSome?_eq_some hf
    exact Or.inl ⟨row, List.mem_reverse.1 hmem, hw⟩

theorem GroupLabelsJoined_orEmpty {m : StrMap Str} (h : GroupLabelsJoined m) :
    GroupLabelsJoinedOrEmpty m :=
  fun k label hf _ => ⟨(h k label hf).2.1, (h k label hf).2.2⟩

theorem loadGrouping_labels_orEmpty (rows : List Str) (m0 : StrMap Str)
    (h0 : GroupLabelsJoinedOrEmpty m0) :
    GroupLabelsJoinedOrEmpty (rows.foldl loadGrouping m0) := by
  intro k label hf hne
  rw [foldl_find_last loadGrouping (fun k row => groupWritten k row) loadGrouping_find] at hf
  rcases lastWritten_cases _ _ _ _ hf with ⟨row, _, hw⟩ | hb
  · obtain ⟨_, _, hk, _, htok, hh⟩ := groupWritten_label hw
    exact ⟨by rw [htok]; exact hk, hh⟩
  · exact h0 k label hb hne

theorem StrMap.find_foldl_index (k : Str) : ∀ (icaos : List Str) (m : StrMap Str),
    StrMap.find k (icaos.foldl (fun m icao => StrMap.index icao m) m) =
      (StrMap.find k m).or (if k ∈ icaos then some [] else none)
  | [], m => by
    rw [List.foldl_nil, if_neg (List.not_mem_nil k)]
    cases StrMap.find k m <;> rfl
  | i :: rest, m => by
    rw [List.foldl_cons, StrMap.find_foldl_index k rest, StrMap.find_index]
    cases StrMap.find k m with
    | some v => rfl
    | none =>
      by_cases h1 : i = k
      · subst h1
        rw [if_pos rfl, if_pos (List.mem_cons_self _ _)]
        rfl
      · have h2 : k ∈ i :: rest ↔ k ∈ rest := by
          rw [List.mem_cons]
          exact ⟨fun h => h.resolve_left (fun e => h1 e.symm), Or.inr⟩
        rw [if_neg h1]
        by_cases h3 : k ∈ rest
        · rw [if_pos h3, if_pos (h2.2 h3)]; rfl
        · rw [if_neg h3, if_neg (fun h => h3 (h2.1 h))]; rfl

theorem index_labels_orEmpty (icaos : List Str) (m : StrMap Str)
    (h : GroupLabelsJoinedOrEmpty m) :
    GroupLabelsJoinedOrEmpty (icaos.foldl (fun m icao => StrMap.index icao m) m) := by
  intro k label hf hne
  rw [StrMap.find_foldl_index] at hf
  cases hm : StrMap.find k m with
  | some v =>
    rw [hm] at hf
    cases hf
    exact h k _ hm hne
  | none =>
    rw [hm] at hf
    by_cases hk : k ∈ icaos
    · rw [if_pos hk] at hf
      cases hf
      exact absurd rfl hne
    · rw [if_neg hk] at hf
      cases hf

theorem CSL_LoadCSL_labels {h : Host} {s : LoadState} {inFolderPath inRelatedFile
    inDoc8643 : Str} {r : Bool × LoadState}
    (hl : CSL_LoadCSL h s inFolderPath inRelatedFile inDoc8643 = some r)
    (hg : GroupLabelsJoinedOrEmpty s.g.gGroupings) :
    GroupLabelsJoinedOrEmpty r.2.g.gGroupings := by
  obtain ⟨indexed, hi⟩ := (CSL_LoadCSL_tables hl).2
  rw [hi]
  apply index_labels_orEmpty
  cases h.fopen inRelatedFile with
  | none => exact hg
  | some related_fi => exact loadGrouping_labels_orEmpty _ _ hg

theorem loadCalls_labels : ∀ (calls : List LoadCall) (s s2 : LoadState),
    loadCalls calls s = some s2 → GroupLabelsJoinedOrEmpty s.g.gGroupings →
    GroupLabelsJoinedOrEmpty s2.g.gGroupings := by
  intro calls
  induction calls with
  | nil =>
    intro s s2 h hg
    cases h
    exact hg
  | cons c rest ih =>
    intro s s2 h hg
    rw [loadCalls] at h
    split at h
    · cases h
    · rename_i r hr
      exact ih r.2 s2 h (CSL_LoadCSL_labels hr hg)

theorem fgets_read_segment :
    ∀ (seg : Str) (room : Nat) (rest s : Str), (∀ c ∈ seg, c ≠ '\n' ∧ c ≠ '\r') →
      seg.length < room →
      fgets_multiplatform.read room (seg ++ rest) s =
        match rest with
        | [] => if s ++ seg ≠ [] then some (s ++ seg, [], none) else none
        | t :: rest1 =>
          if t = '\n' ∨ t = '\r' then some (s ++ seg ++ [t], rest1, some t)
          else fgets_multiplatform.read (room - seg.length) (t :: rest1) (s ++ seg) := by
  intro seg
  induction seg with
  | nil =>
    intro room rest s _ _
    cases rest with
    | nil => simp [fgets_multiplatform.read]
    | cons t rest1 =>
      simp only [List.nil_append, List.append_nil, List.length_nil, Nat.sub_zero]
      by_cases ht : t = '\n' ∨ t = '\r'
      · rw [fgets_multiplatform.read, if_pos ht, if_pos ht]
      · rw [if_neg ht]
  | cons c seg ih =>
    intro room rest s hseg hroom
    have hc := hseg c (List.mem_cons_self _ _)
    simp only [List.length_cons] at hroom
    rw [List.cons_append, fgets_multiplatform.read, if_neg (by
      rintro (h | h)
      · exact hc.1 h
      · exact hc.2 h), if_neg (by omega)]
    rw [ih (room - 1) rest (s ++ [c]) (fun d hd => hseg d (List.mem_cons_of_mem _ hd))
      (by omega)]
    have e1 : s ++ [c] ++ seg = s ++ c :: seg := by simp
    have e2 : room - 1 - seg.length = room - (c :: seg).length := by
      simp only [List.length_cons]; omega
    rw [e1, e2]

theorem fgets_multiplatform_segment (seg rest : Str) (hseg : ∀ c ∈ seg, c ≠ '\n' ∧ c ≠ '\r')
    (hlen : seg.length ≤ 1022) :
    (rest = [] → fgets_multiplatform 1024 (seg ++ rest) =
      if seg ≠ [] then some (seg, []) else none) ∧
    (∀ t rest1, rest = t :: rest1 → t = '\n' ∨ t = '\r' →
      fgets_multiplatform 1024 (seg ++ rest) = some (seg ++ [t], afterPartner t rest1)) := by
  have hread := fgets_read_segment seg 1023 rest [] hseg (by omega)
  have hn : (1024 : Int) - 1 = 1023 := by norm_num
  constructor
  · intro hr
    subst hr
    unfold fgets_multiplatform
    rw [if_neg (by norm_num), if_neg (by norm_num)]
    have e : ((1024 : Int) - 1).toNat = 1023 := by rw [hn]; rfl
    rw [e, hread]
    simp only [List.nil_append]
    by_cases hs : seg ≠ []
    · rw [if_pos hs, if_pos hs]
      rfl
    · rw [if_neg hs, if_neg hs]
  · intro t rest1 hr ht
    subst hr
    unfold fgets_multiplatform
    rw [if_neg (by norm_num), if_neg (by norm_num)]
    have e : ((1024 : Int) - 1).toNat = 1023 := by rw [hn]; rfl
    rw [e, hread]
    simp only [List.nil_append, if_pos ht]
    unfold afterPartner lineEndPartner
    rcases ht with ht | ht
    · subst ht
      simp
    · subst ht
      simp

theorem lineSegments_go_skip (p : Char) (rest : Str) :
    lineSegments.go (some p) rest =
      lineSegments.go none (if rest.head? = some p then rest.tail else rest) := by
  cases rest with
  | nil => rfl
  | cons c r =>
    by_cases h : p = c
    · subst h
      rw [lineSegments.go, if_pos rfl]
      simp
    · have h1 : ¬ (some p = some c) := fun hh => h (Option.some.inj hh)
      have h2 : ¬ ((c :: r).head? = some p) := by
        simp only [List.head?_cons, Option.some.injEq]
        exact fun hh => h hh.symm
      rw [if_neg h2, lineSegments.go, if_neg h1, lineSegments.go,
        if_neg (show ¬ (none = some c) by simp)]

theorem lineSegments_go_segment :
    ∀ (seg rest : Str), (∀ c ∈ seg, c ≠ '\n' ∧ c ≠ '\r') →
      (rest = [] → lineSegments.go none (seg ++ rest) = if seg = [] then [] else [seg]) ∧
      (∀ t rest1, rest = t :: rest1 → t = '\n' ∨ t = '\r' →
        lineSegments.go none (seg ++ rest) =
          seg :: lineSegments.go (some (lineEndPartner t)) rest1) := by
  intro seg
  induction seg with
  | nil =>
    intro rest _
    constructor
    · intro hr
      subst hr
      rfl
    · intro t rest1 hr ht
      subst hr
      rw [List.nil_append, lineSegments.go, if_neg (by simp), if_pos ht]
  | cons c seg ih =>
    intro rest hseg
    have hc := hseg c (List.mem_cons_self _ _)
    have hnt : ¬ (c = '\n' ∨ c = '\r') := by
      rintro (h | h)
      · exact hc.1 h
      · exact hc.2 h
    have ih2 := ih rest fun d hd => hseg d (List.mem_cons_of_mem _ hd)
    constructor
    · intro hr
      rw [List.cons_append, lineSegments.go, if_neg (by simp), if_neg hnt, ih2.1 hr]
      by_cases hs : seg = []
      · rw [if_pos hs, hs]
        simp
      · rw [if_neg hs]
        simp
    · intro t rest1 hr ht
      rw [List.cons_append, lineSegments.go, if_neg (by simp), if_neg hnt, ih2.2 t rest1 hr ht]

theorem text_segment (text : Str) :
    ∃ seg rest, text = seg ++ rest ∧ (∀ c ∈ seg, c ≠ '\n' ∧ c ≠ '\r') ∧
      (rest = [] ∨ ∃ t rest1, rest = t :: rest1 ∧ (t = '\n' ∨ t = '\r')) := by
  refine ⟨text.takeWhile (fun c => !(c == '\n' || c == '\r')),
    text.dropWhile (fun c => !(c == '\n' || c == '\r')),
    (List.takeWhile_append_dropWhile _ _).symm, ?_, ?_⟩
  · intro c hc
    have := List.mem_takeWhile_imp hc
    simpa using this
  · cases hd : text.dropWhile (fun c => !(c == '\n' || c == '\r')) with
    | nil => exact Or.inl rfl
    | cons t rest1 =>
      right
      refine ⟨t, rest1, rfl, ?_⟩
      have := dropWhile_head_false _ text t rest1 hd
      by_contra hn
      push_neg at hn
      simp [hn.1, hn.2] at this

theorem afterPartner_length (t : Char) (rest : Str) :
    (afterPartner t rest).length ≤ rest.length := by
  unfold afterPartner
  split
  · simp
  · exact Nat.le_refl _

theorem readLines_loop_nil (fuel : Nat) : readLines.loop fuel [] = [] := by
  cases fuel with
  | zero => rfl
  | succ f =>
    rw [readLines.loop]
    have := (fgets_multiplatform_segment [] [] (by intro c hc; cases hc) (by simp)).1 rfl
    simp only [List.append_nil] at this
    rw [this]
    rfl

theorem readLines_loop_segments :
    ∀ (fuel : Nat) (text : Str), text.length ≤ fuel →
      (∀ seg ∈ lineSegments text, seg.length ≤ 1022) →
      List.Forall₂ LineOfSegment (readLines.loop fuel text) (lineSegments text) := by
  intro fuel
  induction fuel with
  | zero =>
    intro text hlen _
    have : text = [] := List.length_eq_zero.1 (Nat.le_zero.1 hlen)
    subst this
    exact List.Forall₂.nil
  | succ f ih =>
    intro text hlen hb
    obtain ⟨seg, rest, htext, hseg, hrest⟩ := text_segment text
    subst htext
    rcases hrest with hr | ⟨t, rest1, hr, ht⟩
    · have hs := (lineSegments_go_segment seg rest hseg).1 hr
      have hs2 : lineSegments (seg ++ rest) = if seg = [] then [] else [seg] := hs
      by_cases he : seg = []
      · subst he
        subst hr
        rw [List.append_nil, readLines_loop_nil]
        exact List.Forall₂.nil
      · rw [hs2, if_neg he]
        have hin : seg ∈ lineSegments (seg ++ rest) := by
          rw [hs2, if_neg he]
          exact List.mem_singleton_self _
        have hf := (fgets_multiplatform_segment seg rest hseg (hb seg hin)).1 hr
        rw [readLines.loop, hf, if_pos he]
        simp only []
        rw [readLines_loop_nil]
        exact List.Forall₂.cons ⟨hseg, Or.inl rfl⟩ List.Forall₂.nil
    · have hs := (lineSegments_go_segment seg rest hseg).2 t rest1 hr ht
      rw [lineSegments_go_skip] at hs
      have hs2 : lineSegments (seg ++ rest) = seg :: lineSegments (afterPartner t rest1) := hs
      have hin : seg ∈ lineSegments (seg ++ rest) := by
        rw [hs2]
        exact List.mem_cons_self _ _
      have hf := (fgets_multiplatform_segment seg rest hseg (hb seg hin)).2 t rest1 hr ht
      rw [readLines.loop, hf, hs2]
      simp only []
      refine List.Forall₂.cons ⟨hseg, ?_⟩ (ih _ ?_ ?_)
      · rcases ht with ht | ht
        · subst ht; exact Or.inr (Or.inl rfl)
        · subst ht; exact Or.inr (Or.inr rfl)
      · have h1 := afterPartner_length t rest1
        subst hr
        simp only [List.length_append, List.length_cons] at hlen
        omega
      · intro s2 hs3
        exact hb s2 (by rw [hs2]; exact List.mem_cons_of_mem _ hs3)

theorem chomp_of_segment {line seg : Str} (h : LineOfSegment line seg) : chomp line = seg := by
  obtain ⟨hseg, h | h | h⟩ := h
  · subst h
    unfold chomp
    rw [if_neg]
    rintro (hl | hl)
    · exact (hseg _ (List.mem_of_getLast?_eq_some hl)).1 rfl
    · exact (hseg _ (List.mem_of_getLast?_eq_some hl)).2 rfl
  · subst h
    unfold chomp
    simp
  · subst h
    unfold chomp
    simp

theorem chomp_of_segments {lines segs : List Str} (h : List.Forall₂ LineOfSegment lines segs) :
    lines.map chomp = segs := by
  induction h with
  | nil => rfl
  | cons hab _ ih => rw [List.map_cons, ih, chomp_of_segment hab]

theorem fgets_read_rest : ∀ (file : Str) (room : Nat) (s : Str) (r : Str × Str × Option Char),
    fgets_multiplatform.read room file s = some r →
    r.2.1.length ≤ file.length ∧ (file ≠ [] → r.2.1.length < file.length) := by
  intro file
  induction file with
  | nil =>
    intro room s r h
    rw [fgets_multiplatform.read] at h
    split at h
    · cases h
      exact ⟨Nat.le_refl _, fun hn => absurd rfl hn⟩
    · cases h
  | cons c file ih =>
    intro room s r h
    rw [fgets_multiplatform.read] at h
    split at h
    · cases h
      simp
    · split at h
      · cases h
        simp
      · have := (ih _ _ _ h).1
        simp only [List.length_cons]
        exact ⟨by omega, fun _ => by omega⟩

theorem fgets_multiplatform_rest {file buf rest : Str}
    (h : fgets_multiplatform 1024 file = some (buf, rest)) : rest.length < file.length := by
  unfold fgets_multiplatform at h
  rw [if_neg (by norm_num), if_neg (by norm_num)] at h
  cases file with
  | nil =>
    rw [fgets_multiplatform.read] at h
    simp at h
  | cons c file =>
    cases hr : fgets_multiplatform.read ((1024 : Int) - 1).toNat (c :: file) [] with
    | none => rw [hr] at h; cases h
    | some r =>
      obtain ⟨s1, rest1, c1⟩ := r
      have hlt : rest1.length < (c :: file).length :=
        (fgets_read_rest _ _ _ _ hr).2 (List.cons_ne_nil _ _)
      rw [hr] at h
      simp only [] at h
      have htail : rest1.tail.length ≤ rest1.length := by simp
      split at h
      · cases h
        split <;> omega
      · split at h
        · cases h
          split <;> omega
        · cases h
          exact hlt

theorem readLines_loop_fuel :
    ∀ (fuel fuel2 : Nat) (text : Str), text.length ≤ fuel → text.length ≤ fuel2 →
      readLines.loop fuel text = readLines.loop fuel2 text := by
  intro fuel
  induction fuel with
  | zero =>
    intro fuel2 text h _
    have : text = [] := List.length_eq_zero.1 (Nat.le_zero.1 h)
    subst this
    rw [readLines_loop_nil, readLines_loop_nil]
  | succ f ih =>
    intro fuel2 text h h2
    cases fuel2 with
    | zero =>
      have : text = [] := List.length_eq_zero.1 (Nat.le_zero.1 h2)
      subst this
      rw [readLines_loop_nil, readLines_loop_nil]
    | succ f2 =>
      rw [readLines.loop, readLines.loop]
      cases hf : fgets_multiplatform 1024 text with
      | none => rfl
      | some r =>
        obtain ⟨buf, rest⟩ := r
        have hlt := fgets_multiplatform_rest hf
        simp only []
        rw [ih f2 rest (by omega) (by omega)]

/-- Claim C25: the line source. The read loop ends within the turns that the
length of the text allows (more fuel gives the same lines). For a text whose
segments between line ends have at most 1022 characters, so that each line with
its line end fits the buffer of 1024, the lines read are as many as the
segments, where each of `\r\n`, `\n\r`, `\n` and `\r` ends one segment and
a last segment without a line end counts when it is not empty; each line is its
segment, followed by the first character of its line end when it has one, so
the line without that character is the segment. -/
theorem line_reader (text : Str) :
    (∀ fuel, text.length + 1 ≤ fuel → readLines.loop fuel text = readLines text) ∧
    ((∀ seg ∈ lineSegments text, seg.length ≤ 1022) →
      (readLines text).length = (lineSegments text).length ∧
      (readLines text).map chomp = lineSegments text ∧
      List.Forall₂ LineOfSegment (readLines text) (lineSegments text)) ∧
    (readLines "a\r\nb\n\rc\rd\n\ne".toList =
        ["a\r".toList, "b\n".toList, "c\r".toList, "d\n".toList, "\n".toList, "e".toList] ∧
      lineSegments "a\r\nb\n\rc\rd\n\ne".toList =
        ["a".toList, "b".toList, "c".toList, "d".toList, [], "e".toList]) := by
  refine ⟨?_, ?_, by decide⟩
  · intro fuel hf
    exact readLines_loop_fuel fuel (text.length + 1) text (by omega) (by omega)
  · intro hb
    have h := readLines_loop_segments (text.length + 1) text (by omega) hb
    exact ⟨h.length_eq, chomp_of_segments h, h⟩

theorem line_reader_witness :
    readLines.loop 100 "a\r\nb\n\rc".toList = readLines "a\r\nb\n\rc".toList ∧
      (readLines "a\r\nb\n\rc".toList).length = (lineSegments "a\r\nb\n\rc".toList).length ∧
      (readLines "a\r\nb\n\rc".toList).map chomp = lineSegments "a\r\nb\n\rc".toList ∧
      List.Forall₂ LineOfSegment (readLines "a\r\nb\n\rc".toList)
        (lineSegments "a\r\nb\n\rc".toList) :=
  ⟨(line_reader "a\r\nb\n\rc".toList).1 100 (by decide),
    (line_reader "a\r\nb\n\rc".toList).2.1 (by decide)⟩

/-! ## Passes that use the group -/

theorem groupOf_head {g : Globals} (h : GroupLabelsJoinedOrEmpty g.gGroupings) (icao : Str) :
    (g.groupOf icao).head? ≠ some ' ' := by
  unfold Globals.groupOf
  cases hf : StrMap.find icao g.gGroupings with
  | none => simp
  | some label =>
    by_cases hne : label = []
    · subst hne
      simp
    · exact (h icao label hf hne).2

theorem head_append_of_ne_nil {a b : Str} (h : a ≠ []) : (a ++ b).head? = a.head? := by
  cases a with
  | nil => exact absurd rfl h
  | cons c cs => rfl

theorem identityKeys_group_table {g : Globals} (hg : GroupLabelsJoinedOrEmpty g.gGroupings)
    {tokens : List Str} {t : Nat} {key : Str} (ht : kUseICAO t = 0)
    (h : (t, key) ∈ identityKeys g tokens) : key ≠ [] ∧ key.head? ≠ some ' ' := by
  have hshape : ∀ (icao rest : Str), g.groupOf icao ≠ [] → key = g.groupOf icao ++ rest →
      key ≠ [] ∧ key.head? ≠ some ' ' := by
    intro icao rest hne hk
    rw [hk]
    refine ⟨by simp [hne], ?_⟩
    rw [head_append_of_ne_nil hne]
    exact groupOf_head hg icao
  cases tokens with
  | nil => cases h
  | cons keyword args =>
    unfold identityKeys at h
    simp only [] at h
    split_ifs at h
    · match args, h with
      | [icao], h =>
        simp only [icaoKeys, List.mem_cons, Prod.mk.injEq] at h
        rcases h with h | h
        · exfalso
          rw [h.1] at ht
          exact absurd ht (by decide)
        · split_ifs at h with hne
          · simp only [List.mem_singleton, Prod.mk.injEq] at h
            exact hshape icao [] hne (by rw [h.2]; simp)
          · simp at h
      | [], h => cases h
      | _ :: _ :: _, h => cases h
    · match args, h with
      | [icao, airline], h =>
        simp only [airlineKeys, List.mem_cons, Prod.mk.injEq] at h
        rcases h with h | h
        · exfalso
          rw [h.1] at ht
          exact absurd ht (by decide)
        · split_ifs at h with hne
          · simp only [List.mem_singleton, Prod.mk.injEq] at h
            exact hshape icao ([' '] ++ airline) hne (by rw [h.2]; simp)
          · simp at h
      | [], h => cases h
      | [_], h => cases h
      | _ :: _ :: _ :: _, h => cases h
    · match args, h with
      | [icao, airline, livery], h =>
        simp only [liveryKeys, List.mem_cons, Prod.mk.injEq] at h
        rcases h with h | h
        · exfalso
          rw [h.1] at ht
          exact absurd ht (by decide)
        · split_ifs at h with hne
          · simp only [List.mem_singleton, Prod.mk.injEq] at h
            exact hshape icao ([' '] ++ airline ++ [' '] ++ livery) hne (by rw [h.2]; simp)
          · simp at h
      | [], h => cases h
      | [_], h => cases h
      | [_, _], h => cases h
      | _ :: _ :: _ :: _ :: _, h => cases h
    · cases h

theorem parsed_group_keys {p : CSLPackage_t} (hp : ParsedPackage p) {t : Nat} {key : Str}
    (ht : kUseICAO t = 0) (hkey : key = [] ∨ key.head? = some ' ') :
    StrMap.find key (p.matches_ t) = none := by
  obtain ⟨g0, content, st0, st1, hempty, hg, hparse, rfl⟩ := hp
  obtain ⟨stL, hL, hpk⟩ := ParseFullPackage_package hparse
  rw [hpk]
  have h0 : StrMap.find key (st0.package.matches_ t) = none := by
    rw [hempty]; rfl
  rcases (ParseFullPackage_lines_find _ _ _ _ hL t key).2 h0 with
    ⟨hn, _⟩ | ⟨idx, _, pre, raw, post, stPre, _, _, _, hmem, _, _⟩
  · exact hn
  · exfalso
    obtain ⟨h1, h2⟩ := identityKeys_group_table hg ht hmem
    rcases hkey with hk | hk
    · exact h1 hk
    · exact h2 hk

theorem passKey_empty_group {icao airline livery : Str} {n : Nat} {key : Str}
    (hn : kUseICAO n = 0) (h : passKey icao [] airline livery n = some key) :
    key = [] ∨ key.head? = some ' ' := by
  unfold passKey at h
  simp only [hn, ne_eq, not_true_eq_false, if_false] at h
  split at h
  · cases h
  · split at h
    · cases h
    · cases h
      by_cases ha : kUseAirline n = 0
      · by_cases hl : kUseLivery n = 0
        · left; simp [ha, hl]
        · right; simp [ha, hl]
      · right
        by_cases hl : kUseLivery n = 0
        · simp [ha, hl]
        · simp [ha, hl]

theorem phaseA_group_pass_empty {g : Globals} (hparsed : ∀ p ∈ g.gPackages, ParsedPackage p)
    {icao airline livery : Str} {n : Nat} {key : Str} (hn : kUseICAO n = 0)
    (h : passKey icao [] airline livery n = some key) :
    phaseA.packages g.total n key g.gPackages 0 = some none :=
  phaseA_packages_all_absent g.gPackages 0 fun pk hpk =>
    parsed_group_keys (hparsed pk hpk) hn (passKey_empty_group hn h)

theorem phaseA_passes_skipping {g : Globals} (hparsed : ∀ p ∈ g.gPackages, ParsedPackage p)
    (icao airline livery : Str) :
    ∀ (count n : Nat),
      phaseA.passes g icao [] airline livery count n =
        phaseASkipping.passes g icao [] airline livery count n := by
  intro count
  induction count with
  | zero => intro n; rfl
  | succ count ih =>
    intro n
    rw [phaseA.passes, phaseASkipping.passes, ih (n + 1)]
    unfold passKeySkipping
    by_cases hn : kUseICAO n = 0
    · rw [if_pos ⟨hn, rfl⟩]
      cases hk : passKey icao [] airline livery n with
      | none => rfl
      | some key =>
        simp only []
        rw [phaseA_group_pass_empty hparsed hn hk]
    · rw [if_neg (fun hh => hn hh.1)]

theorem ParsePackageHeader_tables {g : Globals} {path content : Str} {MsgCnt : MsgCntTy}
    {log : List Diag} {st : ParseState}
    (h : ParsePackageHeader g path content MsgCnt log = some st) :
    ∀ t, st.package.matches_ t = [] := by
  unfold ParsePackageHeader at h
  obtain ⟨st1, h1, _, hc⟩ := ParsePackageHeader_lines_result g path (getlines content) 0
    { package := CSLPackage_t.default, MsgCnt := MsgCnt, log := log }
  rw [h1] at h
  cases h
  intro t
  rcases hc with hc | ⟨_, _, _, _, _, hc⟩
  · rw [hc]; rfl
  · rw [hc]; rfl

theorem CSL_LoadCSL_headers_tables (h : Host) (g : Globals) :
    ∀ (pckgs : List Str) (packages : List CSLPackage_t) (MsgCnt : MsgCntTy) (log : List Diag)
      (r : List CSLPackage_t × MsgCntTy × List Diag),
      CSL_LoadCSL.headers h g pckgs (packages, MsgCnt, log) = some r →
      (∀ p ∈ packages, ∀ t, p.matches_ t = []) → ∀ p ∈ r.1, ∀ t, p.matches_ t = [] := by
  intro pckgs
  induction pckgs with
  | nil =>
    intro packages MsgCnt log r hr hp
    rw [CSL_LoadCSL.headers] at hr
    cases hr
    exact hp
  | cons packagePath rest ih =>
    intro packages MsgCnt log r hr hp
    rw [CSL_LoadCSL.headers] at hr
    simp only [] at hr
    split at hr
    · exact ih _ _ _ _ hr hp
    · split at hr
      · cases hr
      · rename_i st hst
        refine ih _ _ _ _ hr ?_
        intro p hmem
        split at hmem
        · rcases List.mem_append.1 hmem with hmem | hmem
          · exact hp p hmem
          · rw [List.mem_singleton.1 hmem]
            exact ParsePackageHeader_tables hst
        · exact hp p hmem

theorem CSL_LoadCSL_fullRun_parsed (h : Host) (g : Globals)
    (hg : GroupLabelsJoinedOrEmpty g.gGroupings) :
    ∀ (todo done : List CSLPackage_t) (MsgCnt : MsgCntTy) (log : List Diag)
      (indexed : List Str) (r : List CSLPackage_t × MsgCntTy × List Diag × List Str),
      CSL_LoadCSL.fullRun h g done todo MsgCnt log indexed = some r →
      (∀ p ∈ todo, ∀ t, p.matches_ t = []) →
      ∃ parsed, r.1 = done ++ parsed ∧ ∀ q ∈ parsed, ParsedPackage q := by
  intro todo
  induction todo with
  | nil =>
    intro done MsgCnt log indexed r hr _
    rw [CSL_LoadCSL.fullRun] at hr
    cases hr
    exact ⟨[], by simp, fun q hq => by cases hq⟩
  | cons package rest ih =>
    intro done MsgCnt log indexed r hr hp
    rw [CSL_LoadCSL.fullRun] at hr
    split at hr
    · cases hr
    · rename_i st hst
      obtain ⟨parsed, h1, h2⟩ :=
        ih _ _ _ _ _ hr fun p hmem => hp p (List.mem_cons_of_mem _ hmem)
      refine ⟨st.package :: parsed, by rw [h1]; simp, ?_⟩
      intro q hq
      rcases List.mem_cons.1 hq with rfl | hq
      · exact ⟨{ g with gPackages := done ++ package :: rest }, _,
          { package := package, MsgCnt := MsgCnt, log := log, indexed := indexed }, st,
          hp package (List.mem_cons_self _ _), hg, hst, rfl⟩
      · exact h2 q hq

theorem CSL_LoadCSL_parsed {h : Host} {s : LoadState} {inFolderPath inRelatedFile
    inDoc8643 : Str} {r : Bool × LoadState}
    (hl : CSL_LoadCSL h s inFolderPath inRelatedFile inDoc8643 = some r)
    (hg : GroupLabelsJoinedOrEmpty s.g.gGroupings)
    (hp : ∀ p ∈ s.g.gPackages, ParsedPackage p) :
    GroupLabelsJoinedOrEmpty r.2.g.gGroupings ∧ ∀ p ∈ r.2.g.gPackages, ParsedPackage p := by
  refine ⟨CSL_LoadCSL_labels hl hg, ?_⟩
  unfold CSL_LoadCSL at hl
  simp only [] at hl
  split at hl
  · cases hl
  · rename_i packages MsgCnt log hh
    have ht := CSL_LoadCSL_headers_tables h _ _ _ _ _ _ hh (fun p hmem => by cases hmem)
    split at hl
    · split at hl
      · cases hl
      · rename_i gPackages m1 l1 ix hf
        cases hl
        obtain ⟨parsed, h2, h3⟩ := CSL_LoadCSL_fullRun_parsed h _ (by
          cases hfo : h.fopen inRelatedFile with
          | none => exact hg
          | some related_fi => exact loadGrouping_labels_orEmpty _ _ hg) _ _ _ _ _ _ hf ht
        intro p hmem
        simp only [] at h2
        rw [h2] at hmem
        rcases List.mem_append.1 hmem with hmem | hmem
        · exact hp p hmem
        · exact h3 p hmem
    · cases hl
      exact hp

theorem loadCalls_parsed : ∀ (calls : List LoadCall) (s s2 : LoadState),
    loadCalls calls s = some s2 → GroupLabelsJoinedOrEmpty s.g.gGroupings →
    (∀ p ∈ s.g.gPackages, ParsedPackage p) →
    GroupLabelsJoinedOrEmpty s2.g.gGroupings ∧ ∀ p ∈ s2.g.gPackages, ParsedPackage p := by
  intro calls
  induction calls with
  | nil =>
    intro s s2 h hg hp
    cases h
    exact ⟨hg, hp⟩
  | cons c rest ih =>
    intro s s2 h hg hp
    rw [loadCalls] at h
    split at h
    · cases h
    · rename_i r hr
      obtain ⟨hg1, hp1⟩ := CSL_LoadCSL_parsed hr hg hp
      exact ih r.2 s2 h hg1 hp1

/-- Claim C22: group passes without a group never match. For a catalog whose
packages are built by the parser and a query whose ICAO has no group label (or
an empty one), the package loop of every pass that uses the group in the place
of the ICAO finds nothing, Phase A gives the same result as the loop that
skips those passes, and a plane that Phase A returns is never from such a pass.
For any catalog, a pass that uses the airline is left without a key, and so
without a lookup, when the airline of the query is empty. -/
theorem group_passes_without_group (g : Globals)
    (hparsed : ∀ p ∈ g.gPackages, ParsedPackage p) (inICAO : Str)
    (inAirline inLivery : Option Str)
    (hgroup : (StrMap.find inICAO g.gGroupings).getD [] = []) :
    (∀ n key, kUseICAO n = 0 →
      passKey inICAO [] (inAirline.getD []) (inLivery.getD []) n = some key →
      phaseA.packages g.total n key g.gPackages 0 = some none) ∧
    phaseA g inICAO inAirline inLivery = phaseASkipping g inICAO inAirline inLivery ∧
    (∀ N p i, phaseA g inICAO inAirline inLivery = some (some (N, p, i)) → kUseICAO N ≠ 0) ∧
    (∀ group livery n, kUseAirline n ≠ 0 → passKey inICAO group [] livery n = none) := by
  refine ⟨fun n key hn hk => phaseA_group_pass_empty hparsed hn hk, ?_, ?_, ?_⟩
  · unfold phaseA phaseASkipping
    rw [hgroup]
    exact phaseA_passes_skipping hparsed _ _ _ _ _
  · intro N p i h hn
    unfold phaseA at h
    rw [hgroup] at h
    obtain ⟨_, _, ⟨key, hk, hfound⟩, _⟩ := phaseA_passes_some _ _ _ _ _ h
    rw [phaseA_group_pass_empty hparsed hn hk] at hfound
    cases hfound
  · intro group livery n hn
    unfold passKey
    simp [hn]

set_option maxRecDepth 100000 in
theorem group_passes_without_group_witness :
    phaseA ((loadCalls [sampleCall] (sampleLoadState [])).get (by decide)).g "A320".toList
        (some "AAL".toList) (some "RETRO".toList) =
      phaseASkipping ((loadCalls [sampleCall] (sampleLoadState [])).get (by decide)).g
        "A320".toList (some "AAL".toList) (some "RETRO".toList) :=
  (group_passes_without_group
    ((loadCalls [sampleCall] (sampleLoadState [])).get (by decide)).g
    (loadCalls_parsed [sampleCall] (sampleLoadState []) _ (Option.some_get _).symm
      (by intro k label h; cases h) (by intro p hp; cases hp)).2
    "A320".toList (some "AAL".toList) (some "RETRO".toList) (by decide)).2.1

/-! ## Indices into the equipment strings -/

theorem phaseB_criteria_candidate_checked (model m : CSLAircraftCode_t) (pass : Int) (a : Bool)
    (key airline : Str) (hpass : pass < 5) (hlen : m.equip.length ≠ 3) :
    phaseB.criteria model m pass a key airline = some false := by
  unfold phaseB.criteria
  simp [hpass, hlen]

theorem equipCharEq_query_short (a b : Str) (i : Nat) (h : b.length < i) :
    equipCharEq a b i = none := by
  unfold equipCharEq
  have hb : strAt b i = none := by
    unfold strAt
    rw [if_neg (by omega), if_neg (by omega)]
  rw [hb]
  cases strAt a i <;> rfl

theorem phaseB_criteria_query_short (model m : CSLAircraftCode_t) (pass : Int) (a : Bool)
    (key airline : Str) (hcat : m.category = model.category) (hlen : m.equip.length = 3)
    (hpass : pass ≤ 2 ∨ pass = 4) (hmodel : model.equip.length < 2) :
    phaseB.criteria model m pass a key airline = none := by
  unfold phaseB.criteria
  simp only []
  have hcb : (m.category == model.category) = true := by simpa using hcat
  have h1 : ¬ (pass < 5 ∧ m.equip.length ≠ 3) := fun h => h.2 hlen
  have h2 : true = true ∧ (pass ≤ 2 ∨ pass = 4) := ⟨rfl, hpass⟩
  rw [if_neg h1, hcb, if_pos h2, equipCharEq_query_short _ _ 2 hmodel]
  rfl

set_option maxRecDepth 100000 in
/-- Claim C31, failing input: an aircraft code document with the rows of B738
(equipment `L2J`) and ZZZZ (equipment `-`, one character), both of weight `M`,
a catalog with an ICAO-only entry for B738, and the query ZZZZ without airline.
Phase A finds nothing; in the first sub-pass without airline Phase B takes the
B738 entry as candidate, whose equipment string has the checked length 3, and
compares the characters at position 2, which is outside the equipment string
of the query aircraft: the comparison, Phase B and the call have no defined
result. -/
theorem phaseB_query_equip_unchecked :
    sampleShortEquipGlobals.gAircraftCodes =
        [("B738".toList, ⟨"L2J".toList, 'M'⟩), ("ZZZZ".toList, ⟨"-".toList, 'M'⟩)] ∧
      phaseA sampleShortEquipGlobals "ZZZZ".toList none none = some none ∧
      strAt "L2J".toList 2 = some 'J' ∧
      strAt "-".toList 2 = none ∧
      equipCharEq "L2J".toList "-".toList 2 = none ∧
      phaseB.entry sampleShortEquipGlobals ⟨"-".toList, 'M'⟩ 1 false [] sampleIcaoPackage
        ("B738".toList, 0) = none ∧
      phaseB sampleShortEquipGlobals "ZZZZ".toList none = none ∧
      CSL_MatchPlane sampleShortEquipGlobals "ZZZZ".toList none none false false = none := by
  have hA : phaseA sampleShortEquipGlobals "ZZZZ".toList none none = some none := by decide
  have hB : phaseB sampleShortEquipGlobals "ZZZZ".toList none = none := by decide
  refine ⟨by decide, hA, by decide, by decide, by decide, by decide, hB, ?_⟩
  rw [CSL_MatchPlane_of_phaseA_none hA, hB]

/-! ## ICAO code recovered from a key -/

theorem StrMap.mem_of_find {α : Type} {k : Str} {v : α} :
    ∀ {m : StrMap α}, StrMap.find k m = some v → (k, v) ∈ m
  | [], h => by cases h
  | (k0, v0) :: rest, h => by
    unfold StrMap.find at h
    by_cases hk : k0 = k
    · rw [if_pos hk] at h
      cases h
      rw [hk]
      exact List.mem_cons_self _ _
    · rw [if_neg hk] at h
      exact List.mem_cons_of_mem _ (StrMap.mem_of_find h)

theorem substr0_icao_key (icao : Str) (h : icao.length ≤ 4) : substr0 icao 4 = icao :=
  List.take_of_length_le h

theorem substr0_airline_key_four (icao airline : Str) (h : icao.length = 4) :
    substr0 (icao ++ [' '] ++ airline) 4 = icao := by
  unfold substr0
  rw [List.append_assoc, ← h, List.take_left]

theorem substr0_airline_key_short (icao airline : Str) (h : icao.length < 4) :
    substr0 (icao ++ [' '] ++ airline) 4 = icao ++ ' ' :: airline.take (3 - icao.length) := by
  unfold substr0
  rw [List.append_assoc, List.take_append_eq_append_take, List.take_of_length_le (by omega)]
  have h1 : 4 - icao.length = (3 - icao.length) + 1 := by omega
  rw [h1]
  rfl

theorem substr0_airline_key_ne (icao airline : Str) (h : icao.length < 4) :
    substr0 (icao ++ [' '] ++ airline) 4 ≠ icao := by
  rw [substr0_airline_key_short icao airline h]
  intro heq
  have := congrArg List.length heq
  simp at this

theorem phaseB_entry_short_icao (g : Globals) (model : CSLAircraftCode_t) (pass : Int)
    (a : Bool) (query : Str) (pckg : CSLPackage_t) (icao airline : Str) (i : Int)
    (hcodes : ∀ e ∈ g.gAircraftCodes, ' ' ∉ e.1) (hshort : icao.length < 4)
    (hplane : (pckg.planeAt i).isSome = true) :
    phaseB.entry g model pass a query pckg (icao ++ [' '] ++ airline, i) = some false := by
  unfold phaseB.entry
  obtain ⟨plane, hp⟩ := Option.isSome_iff_exists.1 hplane
  simp only [hp]
  split
  · cases hf : StrMap.find (substr0 (icao ++ [' '] ++ airline) 4) g.gAircraftCodes with
    | none => rfl
    | some m =>
      exfalso
      refine hcodes _ (StrMap.mem_of_find hf) ?_
      rw [substr0_airline_key_short icao airline hshort]
      simp
  · rfl

set_option maxRecDepth 100000 in
/-- Claim C32, failing input: a package whose only plane is declared by
`AIRLINE DC3 KLM`, and the query C47 with airline KLM, where the aircraft-code
table gives C47 and DC3 the same equipment and weight. The ICAO+airline table
holds the key `DC3 KLM`; its first four characters are `DC3` followed by the
blank, which is not the declared code and no key of the aircraft-code table, so
Phase B finds no candidate in any sub-pass and the call returns no plane. With
the four-character types B738 (declared) and B737 (queried) in the same roles
the first airline sub-pass accepts the plane. -/
theorem phaseB_short_icao_key :
    (sampleParsed sampleShortIcaoContent).matches_ match_icao_airline =
        [("DC3 KLM".toList, 0)] ∧
      substr0 "DC3 KLM".toList 4 = "DC3 ".toList ∧
      phaseA (sampleRecoveryGlobals [sampleParsed sampleShortIcaoContent]) "C47".toList
        (some "KLM".toList) none = some none ∧
      phaseB (sampleRecoveryGlobals [sampleParsed sampleShortIcaoContent]) "C47".toList
        (some "KLM".toList) = some none ∧
      CSL_MatchPlane (sampleRecoveryGlobals [sampleParsed sampleShortIcaoContent]) "C47".toList
        (some "KLM".toList) none true false = some { plane := none, quality := some (-1) } ∧
      (sampleParsed sampleLongIcaoContent).matches_ match_icao_airline =
        [("B738 KLM".toList, 0)] ∧
      phaseA (sampleRecoveryGlobals [sampleParsed sampleLongIcaoContent]) "B737".toList
        (some "KLM".toList) none = some none ∧
      phaseB (sampleRecoveryGlobals [sampleParsed sampleLongIcaoContent]) "B737".toList
        (some "KLM".toList) = some (some (1, 0, "B738 KLM".toList, 0)) ∧
      CSL_MatchPlane (sampleRecoveryGlobals [sampleParsed sampleLongIcaoContent]) "B737".toList
        (some "KLM".toList) none true false =
          some { plane := some (0, 0), quality := some (-1) } := by
  have hA1 : phaseA (sampleRecoveryGlobals [sampleParsed sampleShortIcaoContent]) "C47".toList
      (some "KLM".toList) none = some none := by decide
  have hB1 : phaseB (sampleRecoveryGlobals [sampleParsed sampleShortIcaoContent]) "C47".toList
      (some "KLM".toList) = some none := by decide
  have hA2 : phaseA (sampleRecoveryGlobals [sampleParsed sampleLongIcaoContent]) "B737".toList
      (some "KLM".toList) none = some none := by decide
  have hB2 : phaseB (sampleRecoveryGlobals [sampleParsed sampleLongIcaoContent]) "B737".toList
      (some "KLM".toList) = some (some (1, 0, "B738 KLM".toList, 0)) := by decide
  refine ⟨by decide, by decide, hA1, hB1, ?_, by decide, hA2, hB2, ?_⟩
  · rw [CSL_MatchPlane_of_phaseA_none hA1, hB1]
    decide
  · rw [CSL_MatchPlane_of_phaseA_none hA2, hB2]
    decide

/-! ## Draw role of the OBJ8 command -/

theorem obj8DrawType_cases (t1 : Str) :
    obj8DrawType t1 =
      if t1 = "LIGHTS".toList then some DrawType.draw_lights
      else if t1 = "SOLID".toList then some DrawType.draw_solid
      else none := by
  unfold obj8DrawType
  simp only []
  by_cases h1 : t1 = "LIGHTS".toList
  · subst h1
    rw [if_pos rfl, if_neg (by decide), if_pos rfl]
  · rw [if_neg h1, if_neg h1]

theorem ParseObj8Command_invalidParts (g : Globals) (tokens : List Str) (st : ParseState)
    (path : Str) (lineNum : Nat) (line : Str) (back : CSLPlane_t) (t1 : Str)
    (hlen : 4 ≤ tokens.length) (hback : st.package.planes.getLast? = some back)
    (hty : back.plane_type = PlaneType.plane_Obj8) (ht1 : tokens.get? 1 = some t1) :
    ∃ ok st1, ParseObj8Command g tokens st path lineNum line = some (ok, st1) ∧
      st1.MsgCnt.cnt msgCntE.OBJ8_invalidParts =
        st.MsgCnt.cnt msgCntE.OBJ8_invalidParts + (if t1 = "SOLID".toList then 0 else 1) ∧
      st1.log.count (Diag.parseError path lineNum line (some (DiagText.obj8InvalidParts t1))) =
        st.log.count (Diag.parseError path lineNum line (some (DiagText.obj8InvalidParts t1))) +
          (if t1 ≠ "SOLID".toList ∧ st.MsgCnt.cnt msgCntE.OBJ8_invalidParts = 0 then 1 else 0) ∧
      (ok = true → ∃ front att,
        st1.package.planes =
          front ++ [{ back with attachments := back.attachments ++ [att] }] ∧
        att.draw_type = obj8DrawType t1) := by
  obtain ⟨t2, ht2⟩ : ∃ t2, tokens.get? 2 = some t2 :=
    ⟨tokens.get ⟨2, by omega⟩, List.get?_eq_get _⟩
  obtain ⟨t3, ht3⟩ : ∃ t3, tokens.get? 3 = some t3 :=
    ⟨tokens.get ⟨3, by omega⟩, List.get?_eq_get _⟩
  -- the state after the check of the argument count
  obtain ⟨stA, hA, hApk, hAcnt, hAlog⟩ : ∃ stA : ParseState,
      stA = (if tokens.length > 4 then
        st.warnCounted msgCntE.OBJ8_tooManyArgs path lineNum line DiagText.obj8TooManyArgs
        else st) ∧ stA.package = st.package ∧
      stA.MsgCnt.cnt msgCntE.OBJ8_invalidParts = st.MsgCnt.cnt msgCntE.OBJ8_invalidParts ∧
      stA.log.count (Diag.parseError path lineNum line (some (DiagText.obj8InvalidParts t1))) =
        st.log.count (Diag.parseError path lineNum line (some (DiagText.obj8InvalidParts t1))) := by
    refine ⟨_, rfl, ?_, ?_, ?_⟩
    · split <;> simp
    · split
      · rw [ParseState.warnCounted_MsgCnt, MsgCntTy.showAfterInc_cnt, if_neg (by decide)]
      · rfl
    · split
      · rw [ParseState.warnCounted_log]
        split
        · rw [List.count_append, List.count_singleton]
          simp
        · rfl
      · rfl
  -- the state after the check of the role
  obtain ⟨stB, hB, hBpk, hBcnt, hBlog⟩ : ∃ stB : ParseState,
      stB = (if t1 = "SOLID".toList then stA
        else stA.warnCounted msgCntE.OBJ8_invalidParts path lineNum line
          (DiagText.obj8InvalidParts t1)) ∧ stB.package = st.package ∧
      stB.MsgCnt.cnt msgCntE.OBJ8_invalidParts =
        st.MsgCnt.cnt msgCntE.OBJ8_invalidParts + (if t1 = "SOLID".toList then 0 else 1) ∧
      stB.log.count (Diag.parseError path lineNum line (some (DiagText.obj8InvalidParts t1))) =
        st.log.count (Diag.parseError path lineNum line (some (DiagText.obj8InvalidParts t1))) +
          (if t1 ≠ "SOLID".toList ∧ st.MsgCnt.cnt msgCntE.OBJ8_invalidParts = 0
            then 1 else 0) := by
    refine ⟨_, rfl, ?_, ?_, ?_⟩
    · split <;> simp [hApk]
    · by_cases hs : t1 = "SOLID".toList
      · rw [if_pos hs, if_pos hs, hAcnt, Nat.add_zero]
      · rw [if_neg hs, if_neg hs, ParseState.warnCounted_MsgCnt, MsgCntTy.showAfterInc_cnt,
          if_pos rfl, hAcnt]
    · by_cases hs : t1 = "SOLID".toList
      · rw [if_pos hs, if_neg (fun h => h.1 hs), hAlog, Nat.add_zero]
      · rw [if_neg hs, ParseState.warnCounted_log, hAcnt]
        by_cases hc : st.MsgCnt.cnt msgCntE.OBJ8_invalidParts = 0
        · rw [if_pos hc, if_pos ⟨hs, hc⟩, List.count_append, List.count_singleton, hAlog]
          simp
        · rw [if_neg hc, if_neg (fun h => hc h.2), hAlog, Nat.add_zero]
  have hbackA : stA.package.planes.getLast? = some back := by rw [hApk]; exact hback
  unfold ParseObj8Command
  rw [if_neg (by omega)]
  simp only []
  rw [← hA, hbackA]
  simp only []
  rw [if_neg (by simp [hty]), ht1, ht2, ht3]
  simp only []
  rw [← hB]
  by_cases hsub : (!(DoPackageSub g.gPackages (MakePartialPathNativeObj t3)).1) = true
  · rw [if_pos hsub]
    refine ⟨false, _, rfl, hBcnt, ?_, fun h => by cases h⟩
    show (stB.log ++ _).count _ = _
    rw [List.count_append, List.count_singleton, hBlog]
    simp
  · rw [if_neg hsub]
    have hbackB : stB.package.planes.getLast? = some back := by rw [hBpk]; exact hback
    unfold CSLPackage_t.modifyBack
    rw [hbackB]
    simp only []
    refine ⟨true, _, rfl, hBcnt, hBlog, fun _ => ⟨stB.package.planes.dropLast, _, rfl, rfl⟩⟩

set_option maxRecDepth 100000 in
/-- Claim C33, failing input: a declaration text with a modern-object plane and
the sub-object lines `OBJ8 LIGHTS YES ...`, `OBJ8 SOLID YES ...` and
`OBJ8 LIGHTS NO ...`. The three attachments get the draw roles lights, solid
and lights, but the warning "valid OBJ8 part types are LIGHTS or SOLID" is
written for the first `LIGHTS` line and counted for both: the summary of the
throttle reports two occurrences of it. -/
theorem ParseObj8Command_lights_warned :
    (ParseFullPackage (sampleGlobals [sampleIcaoPackage]) sampleLightsContent
        (sampleState sampleEmptyPackage)).map
          (fun st => (st.package.planes.map
            (fun pl => pl.attachments.map (fun att => att.draw_type)), st.log)) =
      some ([[some DrawType.draw_lights, some DrawType.draw_solid, some DrawType.draw_lights]],
        [Diag.parseError "/xp/csl/Empty/xsb_aircraft.txt".toList 2
            "OBJ8 LIGHTS YES Delta/lights.obj".toList
            (some (DiagText.obj8InvalidParts "LIGHTS".toList)),
          Diag.suppressedFile "/xp/csl/Empty/xsb_aircraft.txt".toList,
          Diag.suppressed msgCntE.OBJ8_invalidParts 2,
          Diag.suppressedEnd]) := by
  decide

end CSL
